import Mathlib

/-!
# AliPHOSCorrelations: binning, selection, pairing and event-mixing pools

A shallow embedding of the binning, classification, candidate-selection,
pair-correlation and mixing-pool code of
`PWGGA/PHOSTasks/PHOS_Correlation/AliPHOSCorrelations.cxx`.

Modelling conventions.

* `Double_t` and `Float_t` values are exact rationals (`ℚ`); arithmetic on them
  is exact. Every finite double is a rational, so every value the program can
  hold is covered.
* `Int_t` values are `Int`, `UInt_t` values are `Nat`; the conversions between
  them are written out with their `2^32` wrap-around.
* A `TClonesArray` is the `List` of its entries, a `TList` of arrays is a
  `List` of such lists with the first entry at the head, and a `TObjArray` of
  lists is a `List` of optional slots (`none` is the null pointer).
* A pointer member that may be null is an `Option`; a function that would
  dereference a null pointer returns `none`.
* `AliFatal` aborts: a function that may call it returns `Except`.
* Decimal literals of the source (`0.5`, `0.135`, ...) denote their decimal value.
* In the track selection the narrowing `Float_t pt = t->Pt()` is the IEEE
  single-precision rounding `toFloat` (to nearest, ties to even), and the literal
  `0.8` that the double `Eta()` is compared with is the double nearest to 0.8
  (`etaCut`).
* Functions of ROOT and of the C library that the code calls and that have no
  rational value or are not part of the repository (`TLorentzVector::M`, `Pt`,
  `Phi`, `Eta`, `AliVCluster::GetMomentum`, the `"%3.1f"` conversion of `Form`)
  are parameters, collected in `Externals`.
* A histogram is the sequence of the entries it has received. The calls of
  `FillHistogram` made by a function do not influence its control flow, so a
  function that fills histograms is given as the list of the calls it makes, in
  order, followed by their execution on the output container.
-/

namespace AliPHOSCorrelations

/-! ## Data model -/

/-- One raw calorimeter cluster (`AliVCluster`), as the values of the getters
that `SelectPhotonClusters` calls; `GetCellAbsId0` is `GetCellAbsId(0)`. -/
structure AliVCluster where
  IsPHOS : Bool := true
  E : ℚ := 0
  GetDistanceToBadChannel : ℚ := 0
  GetNCells : Int := 0
  GetM02 : ℚ := 0
  GetTOF : ℚ := 0
  GetMCEnergyFraction : ℚ := 0
  GetCellAbsId0 : Int := 0
  GetDispersion : ℚ := 0
  GetEmcCpvDistance : ℚ := 0
  GetPosition : ℚ × ℚ × ℚ := (0, 0, 0)
deriving DecidableEq

/-- One calorimeter candidate (`AliCaloPhoton`): four-momentum, module number,
the two quality flags set by `SelectPhotonClusters` (`fDisp` is read by
`IsDispOK`, `fCPV` by `IsCPVOK`) and the cluster it was made from
(`SetCluster`). -/
structure AliCaloPhoton where
  px : ℚ
  py : ℚ
  pz : ℚ
  e : ℚ
  fModule : Int
  fDisp : Bool
  fCPV : Bool
  fCluster : Option AliVCluster := none
deriving DecidableEq

/-- One selected track (`TLorentzVector`). -/
structure TLorentzVector where
  px : ℚ
  py : ℚ
  pz : ℚ
  e : ℚ
deriving DecidableEq

/-- One raw track (`AliVParticle`, read as `AliESDtrack` or `AliAODTrack`), as
the values of the getters that the track selection calls. -/
structure AliVTrack where
  Pt : ℚ := 0
  Eta : ℚ := 0
  Px : ℚ := 0
  Py : ℚ := 0
  Pz : ℚ := 0
  E : ℚ := 0
  IsHybridGlobalConstrainedGlobal : Bool := false
deriving DecidableEq

/-- One event (`AliVEvent`): its clusters and tracks, the primary vertex (absent
when `GetPrimaryVertex()` is null), the centrality percentile of the task's
estimator (absent when `GetCentrality()` is null), the angle
`GetEventplane()->GetEventplane("Q")` (absent when `GetEventplane()` is null), the
trigger mask, the run number, and whether the event object is an `AliESDEvent`
or an `AliAODEvent` (the results of the two `dynamic_cast`s of `UserExec`). -/
structure AliVEvent where
  clusters : List AliVCluster := []
  tracks : List AliVTrack := []
  primaryVertex : Option (ℚ × ℚ × ℚ) := none
  centrality : Option ℚ := none
  eventplane : Option ℚ := none
  GetTriggerMask : Nat := 0
  GetRunNumber : Int := 0
  isESD : Bool := false
  isAOD : Bool := false

/-- The value of `fCheckHibridGlobal`. The enumeration is declared in the class
header, which is not among the sources; the code names two of its values, and
`kAllTracks` stands for every other value. -/
inductive HibridCheck where
  | kOnlyHibridTracks
  | kWithOutHibridTracks
  | kAllTracks
deriving DecidableEq

/-- The value of `fPeriod`. The enumeration is declared in the class header, which
is not among the sources; these are the values the code names. -/
inductive Period where
  | kUndefinedPeriod
  | kLHC10h
  | kLHC11h
  | kLHC13
deriving DecidableEq

/-- The value of `fInternalTriggerSelection`. The enumeration is declared in the
class header, which is not among the sources; these are the values the code
names. -/
inductive TriggerSelection where
  | kNoSelection
  | kCentralInclusive
  | kCentralExclusive
  | kSemiCentralInclusive
  | kSemiCentralExclusive
  | kMBInclusive
  | kMBExclusive
deriving DecidableEq

/-- A histogram of the output container: its name, its dimension (1, 2 or 3 for
`TH1F`, `TH2F`, `TH3F`) and the entries it has received, oldest first. -/
structure Histogram where
  name : String
  dim : Nat
  entries : List (List ℚ) := []
deriving DecidableEq

/-- One call `FillHistogram(key, x)`, `FillHistogram(key, x, y)` or
`FillHistogram(key, x, y, z)`. -/
structure FillCall where
  key : String
  args : List ℚ
deriving DecidableEq

/-- The geometry object `fPHOSGeo`, as the map that `GlobalPos2RelId` computes
from a global position to `relId[0..3]`. -/
structure AliPHOSGeometry where
  GlobalPos2RelId : ℚ × ℚ × ℚ → Int × Int × Int × Int

/-- Library functions and header constants taken as parameters: the kinematic
getters of `TLorentzVector`, the momentum of a cluster seen from a vertex, the
conversion `"%3.1f"` of `Form`, the track cuts that
`AliESDtrackCuts::GetStandardTPCOnlyTrackCuts()` returns (with TPC refit
required), and the values of the selection-step enumerators that `LogSelection`
receives (declared in the class header, which is not among the sources). -/
structure Externals where
  M : TLorentzVector → ℚ
  Pt : TLorentzVector → ℚ
  Phi : TLorentzVector → ℚ
  Eta : TLorentzVector → ℚ
  GetMomentum : AliVCluster → ℚ × ℚ × ℚ → TLorentzVector
  Form31f : ℚ → String
  GetStandardTPCOnlyTrackCuts : AliVTrack → Bool
  kInternalTriggerMaskSelection : Int
  kHasVertex : Int
  kHasAbsVertex : Int
  kHasPHOSClusters : Int
  kHasTPCTracks : Int
  kTotalSelected : Int

/-- A `TObjArray` whose slots hold `TList*` of arrays with entries of type `α`. -/
abbrev TObjArray (α : Type) := List (Option (List (List α)))

/-- The data members of the task that the embedded functions read or write.
The default values are those of the default constructor. -/
structure Task where
  fDebug : Int := 0
  fNVtxZBins : Int := 1
  fCentEdges : List ℚ := List.replicate 10 0
  fCentNMixed : List Int := []
  fNEMRPBins : Nat := 9
  fAssocBins : List ℚ := []
  fVtxBin : Int := 0
  fCentBin : Int := 0
  fRP : ℚ := 0
  fEMRPBin : Int := 0
  fCaloPhotonsPHOS : Option (List AliCaloPhoton) := none
  fTracksTPC : Option (List TLorentzVector) := none
  fCaloPhotonsPHOSLists : Option (TObjArray AliCaloPhoton) := none
  fTracksTPCLists : Option (TObjArray TLorentzVector) := none
  fPHOSGeo : Option AliPHOSGeometry := none
  fOutputContainer : Option (List Histogram) := none
  fMinClusterEnergy : ℚ := 3 / 10
  fMinBCDistance : ℚ := 0
  fMinNCells : Int := 3
  fMinM02 : ℚ := 1 / 5
  fTOFCutEnabled : Bool := true
  fTOFCut : ℚ := 1 / 10000000
  fCheckHibridGlobal : HibridCheck := .kOnlyHibridTracks
  fMassInvMean : ℚ := 27 / 200
  fMassInvSigma : ℚ := 1 / 100
  fSigmaWidth : ℚ := 0
  fEvent : Option AliVEvent := none
  fEventESD : Bool := false
  fESDtrackCuts : Option (AliVTrack → Bool) := none
  fVertex : ℚ × ℚ × ℚ := (0, 0, 0)
  fCentrality : ℚ := 0
  fPeriod : Period := .kUndefinedPeriod
  fInternalTriggerSelection : TriggerSelection := .kNoSelection
  fMaxAbsVertexZ : ℚ := 10
  fCentCutoffDown : ℚ := 0
  fCentCutoffUp : ℚ := 90
  fEventAOD : Bool := false
  fRunNumber : Int := -999
  fInternalRunNumber : Int := 0
  fVertexVector : ℚ × ℚ × ℚ := (0, 0, 0)
  fHaveTPCRP : Bool := false

/-! ## Machine conversions and ROOT containers -/

/-- Conversion of an `Int_t` to `UInt_t`. -/
def toUInt (i : Int) : Nat := (i % 4294967296).toNat

/-- Conversion of an unsigned 32-bit result to `int`. -/
def toInt (n : Nat) : Int :=
  if n % 4294967296 < 2147483648 then ((n % 4294967296 : Nat) : Int)
  else ((n % 4294967296 : Nat) : Int) - 4294967296

/-- The conversion `Int_t(x)` of a double: truncation toward zero (the result is
not bounded here; C++ leaves a value outside the `Int_t` range undefined). -/
def truncToInt (x : ℚ) : Int := if 0 ≤ x then ⌊x⌋ else ⌈x⌉

/-- The constant `TMath::Pi()`: the exact value of the double nearest to π. -/
def TMath.Pi : ℚ := 884279719003555 / 281474976710656

/-- Rounding of a rational to the nearest integer, a tie to the even neighbour. -/
def roundHalfEven (y : ℚ) : Int :=
  if y - ⌊y⌋ < 1 / 2 then ⌊y⌋
  else if y - ⌊y⌋ > 1 / 2 then ⌊y⌋ + 1
  else if ⌊y⌋ % 2 = 0 then ⌊y⌋ else ⌊y⌋ + 1

/-- The conversion of a double to `Float_t` (IEEE binary32, round to nearest, ties
to even): in the binade `[2^e, 2^(e+1))` of `|x|` the value is rounded to a multiple
of `2^(e-23)`, with the exponent of the subnormal range, -126, as the least one.
Above the largest finite float the conversion gives infinity; here the result is
then a value of at least `2^127`, which compares with the cut values alike. -/
def toFloat (x : ℚ) : ℚ :=
  if x = 0 then 0
  else
    (roundHalfEven (x / 2 ^ (max (Int.log 2 |x|) (-126) - 23)) : ℚ) *
      2 ^ (max (Int.log 2 |x|) (-126) - 23)

/-- The literal `0.8` of the pseudorapidity cut: the double nearest to 4/5. -/
def etaCut : ℚ := 3602879701896397 / 4503599627370496

/-- `TObjArray::At(i)`: the slot content, null when `i` is out of bounds. -/
def TObjArray.At {α : Type} (a : TObjArray α) (i : Int) : Option (List (List α)) :=
  if 0 ≤ i then a.getD i.toNat none else none

/-- `TObjArray::AddAt(list, i)`: stores at slot `i`; out of bounds it reports an
error and stores nothing. -/
def TObjArray.AddAt {α : Type} (a : TObjArray α) (list : List (List α)) (i : Int) :
    TObjArray α :=
  if 0 ≤ i then a.set i.toNat (some list) else a

/-- `TArrayI::operator[]`: the element at `i`; ROOT redirects an out-of-bounds
index to element 0. -/
def TArrayI.index (a : List Int) (i : Int) : Int :=
  if 0 ≤ i ∧ i < a.length then a.getD i.toNat 0 else a.getD 0 0

/-- `TArrayD::operator[]`: the element at `i`; ROOT redirects an out-of-bounds
index to element 0. -/
def TArrayD.index (a : List ℚ) (i : Int) : ℚ :=
  if 0 ≤ i ∧ i < a.length then a.getD i.toNat 0 else a.getD 0 0

/-- `TArrayD::At(i)`: the element at `i`; out of bounds ROOT reports an error and
returns 0. -/
def TArrayD.At (a : List ℚ) (i : Int) : ℚ :=
  if 0 ≤ i ∧ i < a.length then a.getD i.toNat 0 else 0

/-- `std::lower_bound` on `array[first, first+len)`: the bisection loop, run for
at most `fuel` iterations (`len` iterations always suffice). -/
def lowerBound (array : List ℚ) (value : ℚ) : Nat → Nat → Nat → Nat
  | 0, first, _ => first
  | fuel + 1, first, len =>
    if len = 0 then first
    else
      let half := len / 2
      let middle := first + half
      if array.getD middle 0 < value then
        lowerBound array value fuel (middle + 1) (len - half - 1)
      else
        lowerBound array value fuel first half

/-- `TMath::BinarySearch(n, array, value)` of ROOT, which is
`pind = std::lower_bound(array, array + n, value)` followed by
`(pind != array + n && *pind == value) ? pind - array : pind - array - 1`:
the first position of `value` among the first `n` entries when present, else the
position of the nearest smaller entry (`-1` when there is none). -/
def TMath.BinarySearch (n : Int) (array : List ℚ) (value : ℚ) : Int :=
  let pind := lowerBound array value n.toNat 0 n.toNat
  if pind ≠ n.toNat ∧ array.getD pind 0 = value then (pind : Int) else (pind : Int) - 1

/-! ## Centrality and reaction-plane binning -/

/-- Modelled from the spec: `GetNumberOfCentralityBins` is declared in the class
header, which is not among the sources; the spec fixes the edge sequence to have
length `nBins + 1`, so the number of bins is the edge count minus one. -/
def GetNumberOfCentralityBins (s : Task) : Int := (s.fCentEdges.length : Int) - 1

/-- `SetCentralityBinning(edges, nMixed)`. -/
def SetCentralityBinning (s : Task) (edges : List ℚ) (nMixed : List Int) :
    Except String Task :=
  if (List.range (edges.length - 1)).any
      (fun i : Nat => decide (TArrayD.At edges i > TArrayD.At edges ((i : Int) + 1))) then
    .error "edges are not sorted"
  else if edges.length ≠ nMixed.length + 1 then
    .error "edges and nMixed don't have appropriate relative sizes"
  else
    .ok { s with fCentEdges := edges, fCentNMixed := nMixed }

/-- `GetCentralityBin(centralityV0M)`: the returned bin and the task afterwards
(the search branch also stores the bin in `fCentBin`). -/
def GetCentralityBin (s : Task) (centralityV0M : ℚ) : Int × Task :=
  let lastBinUpperIndex : Int := (s.fCentEdges.length : Int) - 1
  if centralityV0M > TArrayD.index s.fCentEdges lastBinUpperIndex then
    (lastBinUpperIndex - 1, s)
  else if centralityV0M < TArrayD.index s.fCentEdges 0 then
    (0, s)
  else
    let bin := TMath.BinarySearch (GetNumberOfCentralityBins s) s.fCentEdges centralityV0M
    (bin, { s with fCentBin := bin })

/-- `GetRPBin()`: the returned bin and the task with `fEMRPBin` set. The member
`fNEMRPBins` is declared in the class header, which is not among the sources; it
is a bin count, and its casts to `Int_t` are taken as exact. -/
def GetRPBin (s : Task) : Int × Task :=
  let averageRP := s.fRP
  let bin0 := truncToInt ((s.fNEMRPBins : ℚ) * averageRP / TMath.Pi)
  let bin :=
    if bin0 > (s.fNEMRPBins : Int) - 1 then (s.fNEMRPBins : Int) - 1
    else if bin0 < 0 then 0
    else bin0
  (bin, { s with fEMRPBin := bin })

/-- `GetAssocBin(pt)`: the first index `i = 1, 2, ...` below the size with
`At(i-1) < pt < At(i)` decides the result; without one the last edge is returned. -/
def GetAssocBin (s : Task) (pt : ℚ) : ℚ :=
  match (List.range' 1 (s.fAssocBins.length - 1)).find?
      (fun i : Nat => decide (pt > TArrayD.At s.fAssocBins ((i : Int) - 1) ∧
        pt < TArrayD.At s.fAssocBins i)) with
  | some i => TArrayD.At s.fAssocBins i
  | none => TArrayD.At s.fAssocBins ((s.fAssocBins.length : Int) - 1)

/-! ## Azimuthal difference -/

/-- The loop `while (dPhi > 1.5*TMath::Pi()) dPhi -= 2*TMath::Pi();` of
`ConsiderPi0s` and `ConsiderTracksMix`. It terminates because every pass lowers
the number of periods by which `dPhi` lies above `1.5 π`. -/
def wrapAbove (dPhi : ℚ) : ℚ :=
  if dPhi > 3 / 2 * TMath.Pi then wrapAbove (dPhi - 2 * TMath.Pi) else dPhi
termination_by ⌈(dPhi - 3 / 2 * TMath.Pi) / (2 * TMath.Pi)⌉.toNat
decreasing_by
  rename_i h
  have hpi : (0 : ℚ) < 2 * TMath.Pi := by
    have : (0 : ℚ) < TMath.Pi := by unfold TMath.Pi; norm_num
    linarith
  have hpos : 0 < (dPhi - 3 / 2 * TMath.Pi) / (2 * TMath.Pi) := div_pos (by linarith) hpi
  have heq : (dPhi - 2 * TMath.Pi - 3 / 2 * TMath.Pi) / (2 * TMath.Pi) =
      (dPhi - 3 / 2 * TMath.Pi) / (2 * TMath.Pi) - 1 := by
    field_simp
    ring
  have hceil := Int.ceil_pos.2 hpos
  rw [heq, Int.ceil_sub_one]
  omega

/-- The loop `while (dPhi < -.5*TMath::Pi()) dPhi += 2*TMath::Pi();` that follows
it. -/
def wrapBelow (dPhi : ℚ) : ℚ :=
  if dPhi < -(1 / 2) * TMath.Pi then wrapBelow (dPhi + 2 * TMath.Pi) else dPhi
termination_by ⌈(-(1 / 2) * TMath.Pi - dPhi) / (2 * TMath.Pi)⌉.toNat
decreasing_by
  rename_i h
  have hpi : (0 : ℚ) < 2 * TMath.Pi := by
    have : (0 : ℚ) < TMath.Pi := by unfold TMath.Pi; norm_num
    linarith
  have hpos : 0 < (-(1 / 2) * TMath.Pi - dPhi) / (2 * TMath.Pi) := div_pos (by linarith) hpi
  have heq : (-(1 / 2) * TMath.Pi - (dPhi + 2 * TMath.Pi)) / (2 * TMath.Pi) =
      (-(1 / 2) * TMath.Pi - dPhi) / (2 * TMath.Pi) - 1 := by
    field_simp
    ring
  have hceil := Int.ceil_pos.2 hpos
  rw [heq, Int.ceil_sub_one]
  omega

/-- The value `dPhi` that `ConsiderPi0s` and `ConsiderTracksMix` file for a track
at `phiAssoc` and a trigger pair at `phiTrigger`:
`dPhi = phiAssoc - phiTrigger`, then the two loops. -/
def wrapDPhi (phiAssoc phiTrigger : ℚ) : ℚ :=
  wrapBelow (wrapAbove (phiAssoc - phiTrigger))

/-! ## Mixing pools -/

/-- The flattened slot index computed by `GetCaloPhotonsPHOSList` and
`GetTracksTPCList` from their `UInt_t` arguments, as the `int offset`. -/
def slotOffset (s : Task) (vtxBin centBin rpBin : Nat) : Int :=
  toInt (vtxBin * toUInt (GetNumberOfCentralityBins s) * s.fNEMRPBins
    + centBin * s.fNEMRPBins + rpBin)

/-- The pool allocation of `UserCreateOutputObjects` (histogram booking is not
modelled): both pools get `kapacity` null slots; ROOT replaces a capacity that
is not positive by its default of 16. -/
def UserCreateOutputObjects (s : Task) : Task :=
  let kapacity : Int :=
    toInt (toUInt (s.fNVtxZBins * GetNumberOfCentralityBins s) * s.fNEMRPBins)
  let size : Nat := if kapacity ≤ 0 then 16 else kapacity.toNat
  { s with fCaloPhotonsPHOSLists := some (List.replicate size none),
           fTracksTPCLists := some (List.replicate size none) }

/-- `GetCaloPhotonsPHOSList(vtxBin, centBin, rpBin)`: the list of the slot and
the task afterwards (a null slot is filled with a new empty list). -/
def GetCaloPhotonsPHOSList (s : Task) (vtxBin centBin rpBin : Nat) :
    Option (List (List AliCaloPhoton) × Task) :=
  match s.fCaloPhotonsPHOSLists with
  | none => none
  | some lists =>
    let offset := slotOffset s vtxBin centBin rpBin
    match TObjArray.At lists offset with
    | some list => some (list, s)
    | none =>
      some ([], { s with fCaloPhotonsPHOSLists := some (TObjArray.AddAt lists [] offset) })

/-- `GetTracksTPCList(vtxBin, centBin, rpBin)`. -/
def GetTracksTPCList (s : Task) (vtxBin centBin rpBin : Nat) :
    Option (List (List TLorentzVector) × Task) :=
  match s.fTracksTPCLists with
  | none => none
  | some lists =>
    let offset := slotOffset s vtxBin centBin rpBin
    match TObjArray.At lists offset with
    | some list => some (list, s)
    | none =>
      some ([], { s with fTracksTPCLists := some (TObjArray.AddAt lists [] offset) })

/-- `UpdatePhotonLists()`. The list returned by `GetCaloPhotonsPHOSList` is the
one stored in the slot, so its new content is written back to that slot. -/
def UpdatePhotonLists (s : Task) : Option Task :=
  match GetCaloPhotonsPHOSList s (toUInt s.fVtxBin) (toUInt s.fCentBin) (toUInt s.fEMRPBin) with
  | none => none
  | some (arrayList, s1) =>
    match s1.fCaloPhotonsPHOS, s1.fCaloPhotonsPHOSLists with
    | some photons, some lists =>
      if photons.length > 0 then
        let offset := slotOffset s1 (toUInt s1.fVtxBin) (toUInt s1.fCentBin) (toUInt s1.fEMRPBin)
        let added := photons :: arrayList
        let kept :=
          if (added.length : Int) > TArrayI.index s1.fCentNMixed s1.fCentBin then added.dropLast
          else added
        some { s1 with fCaloPhotonsPHOS := none,
                       fCaloPhotonsPHOSLists := some (TObjArray.AddAt lists kept offset) }
      else some s1
    | _, _ => none

/-- `UpdateTrackLists()`. -/
def UpdateTrackLists (s : Task) : Option Task :=
  match GetTracksTPCList s (toUInt s.fVtxBin) (toUInt s.fCentBin) (toUInt s.fEMRPBin) with
  | none => none
  | some (arrayList, s1) =>
    match s1.fTracksTPC, s1.fTracksTPCLists with
    | some tracks, some lists =>
      if tracks.length > 0 then
        let offset := slotOffset s1 (toUInt s1.fVtxBin) (toUInt s1.fCentBin) (toUInt s1.fEMRPBin)
        let added := tracks :: arrayList
        let kept :=
          if (added.length : Int) > TArrayI.index s1.fCentNMixed s1.fCentBin then added.dropLast
          else added
        some { s1 with fTracksTPC := none,
                       fTracksTPCLists := some (TObjArray.AddAt lists kept offset) }
      else some s1
    | _, _ => none

/-! ## Histogram filling -/

/-- What `FillHistogram` does to the output container: the first histogram named
`key` (`FindObject`) receives the entry when its class fits the number of
arguments; otherwise an error is reported and nothing is filled. -/
def fillFirst (key : String) (args : List ℚ) : List Histogram → List Histogram
  | [] => []
  | h :: rest =>
    if h.name = key then
      (if h.dim = args.length then { h with entries := h.entries ++ [args] } else h) :: rest
    else h :: fillFirst key args rest

/-- The three overloads of `FillHistogram(key, ...)`, told apart by the number of
arguments. -/
def FillHistogram (s : Task) (key : String) (args : List ℚ) : Option Task :=
  match s.fOutputContainer with
  | none => none
  | some hists => some { s with fOutputContainer := some (fillFirst key args hists) }

/-- Executes a sequence of `FillHistogram` calls, first call first. -/
def FillAll (s : Task) : List FillCall → Option Task
  | [] => some s
  | call :: rest =>
    match FillHistogram s call.key call.args with
    | none => none
    | some s1 => FillAll s1 rest

/-- A loop `for (...) body` whose passes make `FillHistogram` calls: the calls of
all passes in order, or `none` when a pass dereferences a null pointer. -/
def collectCalls {α : Type} (body : α → Option (List FillCall)) :
    List α → Option (List FillCall)
  | [] => some []
  | a :: rest =>
    match body a with
    | none => none
    | some calls =>
      match collectCalls body rest with
      | none => none
      | some more => some (calls ++ more)

/-! ## Pair correlation -/

/-- The four-momentum part of a candidate (`AliCaloPhoton` derives from
`TLorentzVector`). -/
def AliCaloPhoton.toLorentzVector (ph : AliCaloPhoton) : TLorentzVector :=
  { px := ph.px, py := ph.py, pz := ph.pz, e := ph.e }

/-- `TLorentzVector::operator+`. -/
def TLorentzVector.add (a b : TLorentzVector) : TLorentzVector :=
  { px := a.px + b.px, py := a.py + b.py, pz := a.pz + b.pz, e := a.e + b.e }

/-- `TestMass(m, pt)`. -/
def TestMass (s : Task) (m : ℚ) (_pt : ℚ) : Bool :=
  if s.fSigmaWidth = 0 then
    decide (s.fMassInvMean - s.fMassInvSigma < m ∧ m < s.fMassInvMean + s.fMassInvSigma)
  else
    decide (s.fMassInvMean - s.fMassInvSigma * s.fSigmaWidth < m ∧
      m < s.fMassInvMean + s.fMassInvSigma * s.fSigmaWidth)

/-- The mass/pt fills of `ConsiderPi0s` for one pair (the statements from
`FillHistogram("all_mpt", m, pt)` to the end of the `IsDispOK` block). -/
def pi0MassPtCalls (x : Externals) (ph1 ph2 : AliCaloPhoton) : List FillCall :=
  let p12 := TLorentzVector.add ph1.toLorentzVector ph2.toLorentzVector
  let m := x.M p12
  let pt := x.Pt p12
  let mod1 := ph1.fModule
  let mod2 := ph2.fModule
  [{ key := "all_mpt", args := [m, pt] }]
  ++ (if ph1.fCPV && ph2.fCPV then [{ key := "cpv_mpt", args := [m, pt] }] else [])
  ++ (if ph1.fDisp && ph2.fDisp then
        { key := "disp_mpt", args := [m, pt] } ::
          (if ph1.fCPV && ph2.fCPV then
            { key := "both_mpt", args := [m, pt] } ::
              (if mod1 = mod2 then
                [{ key := "both" ++ toString mod1 ++ "_mpt", args := [m, pt] }]
              else [])
          else [])
      else [])

/-- The fills of `ConsiderPi0s` for one promoted pair and one track of the same
event (the body of the loop over `i3`). -/
def pi0TrackCalls (x : Externals) (s : Task) (ph1 ph2 : AliCaloPhoton)
    (track : TLorentzVector) : List FillCall :=
  let p12 := TLorentzVector.add ph1.toLorentzVector ph2.toLorentzVector
  let phiTrigger := x.Phi p12
  let etaTrigger := x.Eta p12
  let pt := x.Pt p12
  let phiAssoc := x.Phi track
  let etaAssoc := x.Eta track
  let ptAssoc := x.Pt track
  let dPhi := wrapDPhi phiAssoc phiTrigger
  let dEta := etaAssoc - etaTrigger
  let ptAssocBin := GetAssocBin s ptAssoc
  [{ key := "all_ptphieta_ptAssoc_" ++ x.Form31f ptAssocBin, args := [pt, dPhi, dEta] }]
  ++ (if ph1.fCPV && ph2.fCPV then
        [{ key := "cpv_ptphieta_ptAssoc_" ++ x.Form31f ptAssocBin, args := [pt, dPhi, dEta] }]
      else [])
  ++ (if ph1.fDisp && ph2.fDisp then
        { key := "disp_ptphieta_ptAssoc_" ++ x.Form31f ptAssocBin, args := [pt, dPhi, dEta] } ::
          (if ph1.fCPV && ph2.fCPV then
            [{ key := "both_ptphieta_ptAssoc_" ++ x.Form31f ptAssocBin,
               args := [pt, dPhi, dEta] }]
          else [])
      else [])

/-- The angle fills of `ConsiderPi0s` for one pair (`clu_phieta` and twice
`clusingle_phieta`). -/
def pi0AngleCalls (x : Externals) (ph1 ph2 : AliCaloPhoton) : List FillCall :=
  let p12 := TLorentzVector.add ph1.toLorentzVector ph2.toLorentzVector
  let phiTrigger := x.Phi p12
  let etaTrigger := x.Eta p12
  [{ key := "clu_phieta", args := [phiTrigger, etaTrigger] },
   { key := "clusingle_phieta",
     args := [x.Phi ph1.toLorentzVector, x.Eta ph1.toLorentzVector] },
   { key := "clusingle_phieta",
     args := [x.Phi ph2.toLorentzVector, x.Eta ph2.toLorentzVector] }]

/-- The body of the inner loop of `ConsiderPi0s` for the pair `(ph1, ph2)`: the
angle fills, the mass/pt fills and, when `TestMass` promotes the pair, the fills
for every track of `fTracksTPC`. -/
def pi0PairCalls (x : Externals) (s : Task) (ph1 ph2 : AliCaloPhoton) :
    Option (List FillCall) :=
  let p12 := TLorentzVector.add ph1.toLorentzVector ph2.toLorentzVector
  let m := x.M p12
  let pt := x.Pt p12
  let first : List FillCall := pi0AngleCalls x ph1 ph2 ++ pi0MassPtCalls x ph1 ph2
  if !TestMass s m pt then some first
  else
    match s.fTracksTPC with
    | none => none
    | some tracks =>
      match collectCalls
          (fun i3 : Nat =>
            match tracks[i3]? with
            | none => none
            | some track => some (pi0TrackCalls x s ph1 ph2 track))
          (List.range tracks.length) with
      | none => none
      | some calls => some (first ++ calls)

/-- The calls of `FillHistogram` that `ConsiderPi0s()` makes: the loops
`for (i1 = 0; i1 < nPHOS-1; i1++) for (i2 = i1+1; i2 < nPHOS; i2++)`. -/
def ConsiderPi0sCalls (x : Externals) (s : Task) : Option (List FillCall) :=
  match s.fCaloPhotonsPHOS with
  | none => none
  | some photons =>
    let nPHOS := photons.length
    collectCalls
      (fun i1 : Nat =>
        match photons[i1]? with
        | none => none
        | some ph1 =>
          collectCalls
            (fun i2 : Nat =>
              match photons[i2]? with
              | none => none
              | some ph2 => pi0PairCalls x s ph1 ph2)
            (List.range' (i1 + 1) (nPHOS - (i1 + 1))))
      (List.range (nPHOS - 1))

/-- `ConsiderPi0s()`. -/
def ConsiderPi0s (x : Externals) (s : Task) : Option Task :=
  match ConsiderPi0sCalls x s with
  | none => none
  | some calls => FillAll s calls

/-- The fills of `ConsiderPi0sMix` for one pair of a current candidate `ph1` and
a pooled candidate `ph2` (the body of its innermost loop). -/
def mixMassPtCalls (x : Externals) (ph1 ph2 : AliCaloPhoton) : List FillCall :=
  let p12 := TLorentzVector.add ph1.toLorentzVector ph2.toLorentzVector
  let m := x.M p12
  let pt := x.Pt p12
  let mod1 := ph1.fModule
  let mod2 := ph2.fModule
  [{ key := "mix_all_mpt", args := [m, pt] }]
  ++ (if ph1.fCPV && ph2.fCPV then [{ key := "mix_cpv_mpt", args := [m, pt] }] else [])
  ++ (if ph1.fDisp && ph2.fDisp then
        { key := "mix_disp_mpt", args := [m, pt] } ::
          (if ph1.fCPV && ph2.fCPV then
            { key := "mix_both_mpt", args := [m, pt] } ::
              (if mod1 = mod2 then
                [{ key := "mix_both" ++ toString mod1 ++ "_mpt", args := [m, pt] }]
              else [])
          else [])
      else [])

/-- The loops of `ConsiderPi0sMix` over the list `arrayList` of pooled arrays:
`for (evi) for (i1) for (i2)`. -/
def pi0MixLoopCalls (x : Externals) (s : Task) (arrayList : List (List AliCaloPhoton)) :
    Option (List FillCall) :=
  collectCalls
    (fun evi : Nat =>
      match arrayList[evi]? with
      | none => none
      | some mixPHOS =>
        match s.fCaloPhotonsPHOS with
        | none => none
        | some photons =>
          collectCalls
            (fun i1 : Nat =>
              match photons[i1]? with
              | none => none
              | some ph1 =>
                collectCalls
                  (fun i2 : Nat =>
                    match mixPHOS[i2]? with
                    | none => none
                    | some ph2 => some (mixMassPtCalls x ph1 ph2))
                  (List.range mixPHOS.length))
            (List.range photons.length))
    (List.range arrayList.length)

/-- The calls of `FillHistogram` that `ConsiderPi0sMix()` makes, and the task
after `GetCaloPhotonsPHOSList`. -/
def ConsiderPi0sMixCalls (x : Externals) (s : Task) : Option (List FillCall × Task) :=
  match GetCaloPhotonsPHOSList s (toUInt s.fVtxBin) (toUInt s.fCentBin) (toUInt s.fEMRPBin) with
  | none => none
  | some (arrayList, s1) =>
    match pi0MixLoopCalls x s1 arrayList with
    | none => none
    | some calls => some (calls, s1)

/-- `ConsiderPi0sMix()`. -/
def ConsiderPi0sMix (x : Externals) (s : Task) : Option Task :=
  match ConsiderPi0sMixCalls x s with
  | none => none
  | some (calls, s1) => FillAll s1 calls

/-- The fills of `ConsiderTracksMix` for one promoted pair and one pooled track
(the body of its innermost loop). -/
def mixTrackCalls (x : Externals) (s : Task) (ph1 ph2 : AliCaloPhoton)
    (track : TLorentzVector) : List FillCall :=
  let p12 := TLorentzVector.add ph1.toLorentzVector ph2.toLorentzVector
  let phiTrigger := x.Phi p12
  let etaTrigger := x.Eta p12
  let pt := x.Pt p12
  let phiAssoc := x.Phi track
  let etaAssoc := x.Eta track
  let ptAssoc := x.Pt track
  let ptAssocBin := GetAssocBin s ptAssoc
  let dPhi := wrapDPhi phiAssoc phiTrigger
  let dEta := etaAssoc - etaTrigger
  [{ key := "mix_all_ptphieta_ptAssoc_" ++ x.Form31f ptAssocBin, args := [pt, dPhi, dEta] }]
  ++ (if ph1.fCPV && ph2.fCPV then
        [{ key := "mix_cpv_ptphieta_ptAssoc_" ++ x.Form31f ptAssocBin,
           args := [pt, dPhi, dEta] }]
      else [])
  ++ (if ph1.fDisp && ph2.fDisp then
        { key := "mix_disp_ptphieta_ptAssoc_" ++ x.Form31f ptAssocBin,
          args := [pt, dPhi, dEta] } ::
          (if ph1.fCPV && ph2.fCPV then
            [{ key := "mix_both_ptphieta_ptAssoc_" ++ x.Form31f ptAssocBin,
               args := [pt, dPhi, dEta] }]
          else [])
      else [])

/-- The loops of `ConsiderTracksMix` over the list `arrayList` of pooled track
arrays: `for (i1 = 0; i1 < n; i1++) for (i2 = 0; i2 < n; i2++)`, then, for a pair
that passes `TestMass`, `for (evi) for (i3)`. -/
def trackMixLoopCalls (x : Externals) (s : Task) (arrayList : List (List TLorentzVector)) :
    Option (List FillCall) :=
  match s.fCaloPhotonsPHOS with
  | none => none
  | some photons =>
    collectCalls
      (fun i1 : Nat =>
        match photons[i1]? with
        | none => none
        | some ph1 =>
          collectCalls
            (fun i2 : Nat =>
              match photons[i2]? with
              | none => none
              | some ph2 =>
                let p12 := TLorentzVector.add ph1.toLorentzVector ph2.toLorentzVector
                if !TestMass s (x.M p12) (x.Pt p12) then some []
                else
                  collectCalls
                    (fun evi : Nat =>
                      match arrayList[evi]? with
                      | none => none
                      | some mixTracks =>
                        collectCalls
                          (fun i3 : Nat =>
                            match mixTracks[i3]? with
                            | none => none
                            | some track => some (mixTrackCalls x s ph1 ph2 track))
                          (List.range mixTracks.length))
                    (List.range arrayList.length))
            (List.range photons.length))
      (List.range photons.length)

/-- The calls of `FillHistogram` that `ConsiderTracksMix()` makes, and the task
after `GetTracksTPCList`. -/
def ConsiderTracksMixCalls (x : Externals) (s : Task) : Option (List FillCall × Task) :=
  match GetTracksTPCList s (toUInt s.fVtxBin) (toUInt s.fCentBin) (toUInt s.fEMRPBin) with
  | none => none
  | some (arrayList, s1) =>
    match trackMixLoopCalls x s1 arrayList with
    | none => none
    | some calls => some (calls, s1)

/-- `ConsiderTracksMix()`. -/
def ConsiderTracksMix (x : Externals) (s : Task) : Option Task :=
  match ConsiderTracksMixCalls x s with
  | none => none
  | some (calls, s1) => FillAll s1 calls

/-! ## Event classification -/

/-- `SetVertex()`. -/
def SetVertex (s : Task) : Option Task :=
  match s.fEvent with
  | none => none
  | some event =>
    match event.primaryVertex with
    | some vertex => some { s with fVertex := vertex, fVertexVector := vertex, fVtxBin := 0 }
    | none => some { s with fVertex := (0, 0, 0), fVertexVector := (0, 0, 0), fVtxBin := 0 }

/-- `SetCentrality()`. -/
def SetCentrality (s : Task) : Option Task :=
  match s.fEvent with
  | none => none
  | some event =>
    let s1 : Task :=
      match event.centrality with
      | some percentile => { s with fCentrality := percentile }
      | none => { s with fCentrality := -1 }
    let result := GetCentralityBin s1 s1.fCentrality
    some { result.2 with fCentBin := result.1 }

/-! ## Candidate selection -/

/-- `SelectESDTrack(t)`; `none` when `fESDtrackCuts` is dereferenced while null. -/
def SelectESDTrack (s : Task) (t : AliVTrack) : Option Bool :=
  let pt := toFloat t.Pt
  if pt < 1 / 2 ∨ pt > 10 then some false
  else if |t.Eta| > etaCut then some false
  else
    match s.fESDtrackCuts with
    | none => none
    | some cuts => if !cuts t then some false else some true

/-- `SelectAODTrack(t)`. -/
def SelectAODTrack (s : Task) (t : AliVTrack) : Bool :=
  let pt := toFloat t.Pt
  if pt < 1 / 2 ∨ pt > 10 then false
  else if |t.Eta| > etaCut then false
  else if s.fCheckHibridGlobal = .kOnlyHibridTracks ∧
      t.IsHybridGlobalConstrainedGlobal = false then false
  else if s.fCheckHibridGlobal = .kWithOutHibridTracks ∧
      t.IsHybridGlobalConstrainedGlobal = true then false
  else true

/-- The loop of `SelectAccosiatedTracks` over the tracks still to be read, with
the entries already placed in `fTracksTPC`. -/
def selectTracksLoop (s : Task) : List AliVTrack → List TLorentzVector →
    Option (List TLorentzVector)
  | [], array => some array
  | track :: rest, array =>
    let accepted : Option Bool :=
      if s.fEventESD then SelectESDTrack s track else some (SelectAODTrack s track)
    match accepted with
    | none => none
    | some false => selectTracksLoop s rest array
    | some true =>
      selectTracksLoop s rest
        (array ++ [{ px := track.Px, py := track.Py, pz := track.Pz, e := track.E }])

/-- `SelectAccosiatedTracks()`: the array is cleared (or created) and refilled. -/
def SelectAccosiatedTracks (s : Task) : Option Task :=
  match s.fEvent with
  | none => none
  | some event =>
    match selectTracksLoop s event.tracks [] with
    | none => none
    | some array => some { s with fTracksTPC := some array }

/-- The candidate that `SelectPhotonClusters` makes from a cluster that passed
the cuts: the momentum seen from `fVertex`, scaled by `ecore / E`, the module
number, the two flags and the link to the cluster. A zero `E` makes the scale
factor 0 here (the program would divide by zero). -/
def makePhoton (x : Externals) (s : Task) (clu : AliVCluster) : AliCaloPhoton :=
  let lorentzMomentum := x.GetMomentum clu s.fVertex
  let ecore := clu.GetMCEnergyFraction
  let scale := ecore / lorentzMomentum.e
  let cellId : ℚ := (clu.GetCellAbsId0 : ℚ)
  { px := lorentzMomentum.px * scale,
    py := lorentzMomentum.py * scale,
    pz := lorentzMomentum.pz * scale,
    e := lorentzMomentum.e * scale,
    fModule := truncToInt (⌈cellId / (56 * 64)⌉ : ℚ),
    fDisp := decide (clu.GetDispersion < 5 / 2),
    fCPV := decide (clu.GetEmcCpvDistance > 2),
    fCluster := some clu }

/-- The loop of `SelectPhotonClusters` over the clusters still to be read, with
the entries already placed in `fCaloPhotonsPHOS`: the final array and the
`FillHistogram` calls made. -/
def selectClustersLoop (x : Externals) (s : Task) :
    List AliVCluster → List AliCaloPhoton → Option (List AliCaloPhoton × List FillCall)
  | [], array => some (array, [])
  | clu :: rest, array =>
    if !clu.IsPHOS then selectClustersLoop x s rest array
    else if clu.E < s.fMinClusterEnergy then selectClustersLoop x s rest array
    else if clu.GetDistanceToBadChannel < s.fMinBCDistance then
      selectClustersLoop x s rest array
    else if clu.GetNCells < s.fMinNCells then selectClustersLoop x s rest array
    else if clu.GetM02 < s.fMinM02 then selectClustersLoop x s rest array
    else if s.fTOFCutEnabled && decide (|clu.GetTOF| > s.fTOFCut) then
      selectClustersLoop x s rest array
    else
      let ph := makePhoton x s clu
      match s.fPHOSGeo with
      | none => none
      | some geo =>
        let relId := geo.GlobalPos2RelId clu.GetPosition
        let modPHOS := relId.1
        let cellXPHOS := relId.2.2.1
        let cellZPHOS := relId.2.2.2
        let call : FillCall :=
          { key := "QA_cluXZE_mod" ++ toString modPHOS,
            args := [(cellXPHOS : ℚ), (cellZPHOS : ℚ), ph.e] }
        match selectClustersLoop x s rest (array ++ [ph]) with
        | none => none
        | some (final, calls) => some (final, call :: calls)

/-- `SelectPhotonClusters()`: the array is cleared (or created) and refilled. -/
def SelectPhotonClusters (x : Externals) (s : Task) : Option Task :=
  match s.fEvent with
  | none => none
  | some event =>
    match selectClustersLoop x s event.clusters [] with
    | none => none
    | some (array, calls) => FillAll { s with fCaloPhotonsPHOS := some array } calls

/-! ## Event selection and the event loop -/

/-- The `case` labels of the `switch` for the period `kLHC11h` in
`ConvertToInternalRunNumber`, each with the value it returns. -/
def runsLHC11h : List (Int × Int) :=
  [(170593, 179), (170572, 178), (170556, 177), (170552, 176), (170546, 175), (170390, 174),
   (170389, 173), (170388, 172), (170387, 171), (170315, 170), (170313, 169), (170312, 168),
   (170311, 167), (170309, 166), (170308, 165), (170306, 164), (170270, 163), (170269, 162),
   (170268, 161), (170267, 160), (170264, 159), (170230, 158), (170228, 157), (170208, 156),
   (170207, 155), (170205, 154), (170204, 153), (170203, 152), (170195, 151), (170193, 150),
   (170163, 149), (170162, 148), (170159, 147), (170155, 146), (170152, 145), (170091, 144),
   (170089, 143), (170088, 142), (170085, 141), (170084, 140), (170083, 139), (170081, 138),
   (170040, 137), (170038, 136), (170036, 135), (170027, 134), (169981, 133), (169975, 132),
   (169969, 131), (169965, 130), (169961, 129), (169956, 128), (169926, 127), (169924, 126),
   (169923, 125), (169922, 124), (169919, 123), (169918, 122), (169914, 121), (169859, 120),
   (169858, 119), (169855, 118), (169846, 117), (169838, 116), (169837, 115), (169835, 114),
   (169683, 113), (169628, 112), (169591, 111), (169590, 110), (169588, 109), (169587, 108),
   (169586, 107), (169584, 106), (169557, 105), (169555, 104), (169554, 103), (169553, 102),
   (169550, 101), (169515, 100), (169512, 99), (169506, 98), (169504, 97), (169498, 96),
   (169475, 95), (169420, 94), (169419, 93), (169418, 92), (169417, 91), (169415, 90),
   (169411, 89), (169238, 88), (169236, 87), (169167, 86), (169160, 85), (169156, 84),
   (169148, 83), (169145, 82), (169144, 81), (169143, 80), (169138, 79), (169099, 78),
   (169094, 77), (169091, 76), (169045, 75), (169044, 74), (169040, 73), (169035, 72),
   (168992, 71), (168988, 70), (168984, 69), (168826, 68), (168777, 67), (168514, 66),
   (168512, 65), (168511, 64), (168467, 63), (168464, 62), (168461, 61), (168460, 60),
   (168458, 59), (168362, 58), (168361, 57), (168356, 56), (168342, 55), (168341, 54),
   (168325, 53), (168322, 52), (168318, 51), (168311, 50), (168310, 49), (168213, 48),
   (168212, 47), (168208, 46), (168207, 45), (168206, 44), (168205, 43), (168204, 42),
   (168203, 41), (168181, 40), (168177, 39), (168175, 38), (168173, 37), (168172, 36),
   (168171, 35), (168115, 34), (168108, 33), (168107, 32), (168105, 31), (168104, 30),
   (168103, 29), (168076, 28), (168069, 27), (168068, 26), (168066, 25), (167988, 24),
   (167987, 23), (167986, 22), (167985, 21), (167921, 20), (167920, 19), (167915, 18),
   (167909, 17), (167903, 16), (167902, 15), (167818, 14), (167814, 13), (167813, 12),
   (167808, 11), (167807, 10), (167806, 9), (167713, 8), (167712, 7), (167711, 6), (167706, 5),
   (167693, 4), (166532, 3), (166530, 2), (166529, 1)]

/-- The `case` labels of the `switch` for the period `kLHC10h`. -/
def runsLHC10h : List (Int × Int) :=
  [(139517, 137), (139514, 136), (139513, 135), (139511, 134), (139510, 133), (139507, 132),
   (139505, 131), (139504, 130), (139503, 129), (139470, 128), (139467, 127), (139466, 126),
   (139465, 125), (139440, 124), (139439, 123), (139438, 122), (139437, 121), (139360, 120),
   (139329, 119), (139328, 118), (139314, 117), (139311, 116), (139310, 115), (139309, 114),
   (139308, 113), (139173, 112), (139172, 111), (139110, 110), (139107, 109), (139105, 108),
   (139104, 107), (139042, 106), (139038, 105), (139037, 104), (139036, 103), (139029, 102),
   (139028, 101), (138983, 100), (138982, 99), (138980, 98), (138979, 97), (138978, 96),
   (138977, 95), (138976, 94), (138973, 93), (138972, 92), (138965, 91), (138924, 90),
   (138872, 89), (138871, 88), (138870, 87), (138837, 86), (138830, 85), (138828, 84),
   (138826, 83), (138796, 82), (138795, 81), (138742, 80), (138732, 79), (138730, 78),
   (138666, 77), (138662, 76), (138653, 75), (138652, 74), (138638, 73), (138624, 72),
   (138621, 71), (138583, 70), (138582, 69), (138579, 68), (138578, 67), (138534, 66),
   (138469, 65), (138442, 64), (138439, 63), (138438, 62), (138396, 61), (138364, 60),
   (138359, 59), (138275, 58), (138225, 57), (138201, 56), (138200, 55), (138197, 54),
   (138192, 53), (138190, 52), (138154, 51), (138153, 50), (138151, 49), (138150, 48),
   (138126, 47), (138125, 46), (137848, 45), (137847, 44), (137844, 43), (137843, 42),
   (137752, 41), (137751, 40), (137748, 39), (137724, 38), (137722, 37), (137718, 36),
   (137704, 35), (137693, 34), (137692, 33), (137691, 32), (137689, 31), (137686, 30),
   (137685, 29), (137639, 28), (137638, 27), (137608, 26), (137595, 25), (137549, 24),
   (137546, 23), (137544, 22), (137541, 21), (137539, 20), (137531, 19), (137530, 18),
   (137443, 17), (137441, 16), (137440, 15), (137439, 14), (137434, 13), (137432, 12),
   (137431, 11), (137430, 10), (137366, 9), (137243, 8), (137236, 7), (137235, 6), (137232, 5),
   (137231, 4), (137165, 3), (137162, 2), (137161, 1)]

/-- The `case` labels of the `switch` for the period `kLHC13`. -/
def runsLHC13 : List (Int × Int) :=
  [(195344, 1), (195346, 2), (195351, 3), (195389, 4), (195390, 5), (195391, 6), (195478, 7),
   (195479, 8), (195480, 9), (195481, 10), (195482, 11), (195483, 12), (195529, 13),
   (195531, 14), (195532, 15), (195566, 16), (195567, 17), (195568, 18), (195592, 19),
   (195593, 20), (195596, 21), (195633, 22), (195635, 23), (195644, 24), (195673, 25),
   (195675, 26), (195676, 27), (195677, 28), (195681, 29), (195682, 30), (195720, 31),
   (195721, 32), (195722, 33), (195724, 34), (195725, 34), (195726, 35), (195727, 36),
   (195760, 37), (195761, 38), (195765, 39), (195767, 40), (195783, 41), (195787, 42),
   (195826, 43), (195827, 44), (195829, 45), (195830, 46), (195831, 47), (195867, 48),
   (195869, 49), (195871, 50), (195872, 51), (195873, 52), (195935, 53), (195949, 54),
   (195950, 55), (195954, 56), (195955, 57), (195958, 58), (195989, 59), (195994, 60),
   (195998, 61), (196000, 62), (196006, 63), (196085, 64), (196089, 65), (196090, 66),
   (196091, 67), (196099, 68), (196105, 69), (196107, 70), (196185, 71), (196187, 72),
   (196194, 73), (196197, 74), (196199, 75), (196200, 76), (196201, 77), (196203, 78),
   (196208, 79), (196214, 80), (196308, 81), (196309, 82), (196310, 83), (196311, 84),
   (196433, 85), (196474, 86), (196475, 87), (196477, 88), (196528, 89), (196533, 90),
   (196535, 91), (196563, 92), (196564, 93), (196566, 94), (196568, 95), (196601, 96),
   (196605, 97), (196608, 98), (196646, 99), (196648, 100), (196701, 101), (196702, 102),
   (196703, 103), (196706, 104), (196714, 105), (196720, 106), (196721, 107), (196722, 108),
   (196772, 109), (196773, 110), (196774, 111), (196869, 112), (196870, 113), (196874, 114),
   (196876, 115), (196965, 116), (196967, 117), (196972, 118), (196973, 119), (196974, 120),
   (197003, 121), (197011, 122), (197012, 123), (197015, 124), (197027, 125), (197031, 126),
   (197089, 127), (197090, 128), (197091, 129), (197092, 130), (197094, 131), (197098, 132),
   (197099, 133), (197138, 134), (197139, 135), (197142, 136), (197143, 137), (197144, 138),
   (197145, 139), (197146, 140), (197147, 140), (197148, 141), (197149, 142), (197150, 143),
   (197152, 144), (197153, 145), (197184, 146), (197189, 147), (197247, 148), (197248, 149),
   (197254, 150), (197255, 151), (197256, 152), (197258, 153), (197260, 154), (197296, 155),
   (197297, 156), (197298, 157), (197299, 158), (197300, 159), (197302, 160), (197341, 161),
   (197342, 162), (197348, 163), (197349, 164), (197351, 165), (197386, 166), (197387, 167),
   (197388, 168)]

/-- One `switch (run)` of `ConvertToInternalRunNumber`: the value of the matching
`case`, and 199 from `default`. -/
def switchRun (table : List (Int × Int)) (run : Int) : Int :=
  match table.lookup run with
  | some internal => internal
  | none => 199

/-- `ConvertToInternalRunNumber(run)`. -/
def ConvertToInternalRunNumber (s : Task) (run : Int) : Int :=
  if s.fPeriod = .kLHC11h then switchRun runsLHC11h run
  else if s.fPeriod = .kLHC10h then switchRun runsLHC10h run
  else if s.fPeriod = .kLHC13 then switchRun runsLHC13 run
  else 1

/-- `LogProgress(step)`. -/
def LogProgress (s : Task) (step : Int) : Option Task :=
  FillHistogram s "hTotSelEvents" [(step : ℚ) + 1 / 2]

/-- `LogSelection(step, internalRunNumber)`. -/
def LogSelection (s : Task) (step internalRunNumber : Int) : Option Task :=
  FillHistogram s "hSelEvents" [(step : ℚ) + 1 / 2, (internalRunNumber : ℚ) - 1 / 2]

/-- `SetESDTrackCuts()`. -/
def SetESDTrackCuts (x : Externals) (s : Task) : Task :=
  if s.fEventESD then { s with fESDtrackCuts := some x.GetStandardTPCOnlyTrackCuts } else s

/-- `RejectTriggerMaskSelection()`: whether the event is rejected, and the task
afterwards. -/
def RejectTriggerMaskSelection (x : Externals) (s : Task) : Option (Bool × Task) :=
  if s.fInternalTriggerSelection = .kNoSelection then some (false, s)
  else
    match s.fEvent with
    | none => none
    | some event =>
      let isMB := event.GetTriggerMask.testBit 1
      let isCentral := event.GetTriggerMask.testBit 4
      let isSemiCentral := event.GetTriggerMask.testBit 7
      let reject : Bool :=
        if s.fInternalTriggerSelection = .kCentralInclusive ∧ isCentral = true then false
        else if s.fInternalTriggerSelection = .kCentralExclusive ∧ isCentral = true ∧
            isSemiCentral = false ∧ isMB = false then false
        else if s.fInternalTriggerSelection = .kSemiCentralInclusive ∧
            isSemiCentral = true then false
        else if s.fInternalTriggerSelection = .kSemiCentralExclusive ∧ isSemiCentral = true ∧
            isCentral = false ∧ isMB = false then false
        else if s.fInternalTriggerSelection = .kMBInclusive ∧ isMB = true then false
        else if s.fInternalTriggerSelection = .kMBExclusive ∧ isMB = true ∧
            isCentral = false ∧ isSemiCentral = false then false
        else true
      if reject then some (true, s)
      else
        (LogSelection s x.kInternalTriggerMaskSelection s.fInternalRunNumber).bind
          (fun s1 => some (false, s1))

/-- `RejectEventVertex()`: whether the event is rejected, and the task afterwards. -/
def RejectEventVertex (x : Externals) (s : Task) : Option (Bool × Task) :=
  match s.fEvent with
  | none => none
  | some event =>
    match event.primaryVertex with
    | none => some (true, s)
    | some _ =>
      (LogSelection s x.kHasVertex s.fInternalRunNumber).bind (fun s1 =>
        if |s1.fVertexVector.2.2| > s1.fMaxAbsVertexZ then some (true, s1)
        else
          (LogSelection s1 x.kHasAbsVertex s1.fInternalRunNumber).bind
            (fun s2 => some (false, s2)))

/-- `RejectEventCentrality()`. -/
def RejectEventCentrality (s : Task) : Bool :=
  if s.fCentrality < s.fCentCutoffDown then true
  else if s.fCentrality > s.fCentCutoffUp then true
  else false

/-- `SetCentralityBorders(down, up)`. `AliError` reports and returns (only
`AliFatal` aborts), so both branches end normally. -/
def SetCentralityBorders (s : Task) (down up : ℚ) : Except String Task :=
  if down < 0 ∨ up > 100 ∨ up ≤ down then .ok s
  else .ok { s with fCentCutoffDown := down, fCentCutoffUp := up }

/-- `EvalReactionPlane()`. -/
def EvalReactionPlane (s : Task) : Option Task :=
  match s.fEvent with
  | none => none
  | some event =>
    match event.eventplane with
    | none => some s
    | some reactionPlaneQ =>
      let s1 : Task :=
        if reactionPlaneQ ≥ 999 ∨ reactionPlaneQ < 0 then { s with fHaveTPCRP := false }
        else { s with fHaveTPCRP := true }
      let s2 : Task :=
        if s1.fHaveTPCRP then { s1 with fRP := reactionPlaneQ } else { s1 with fRP := 0 }
      FillHistogram s2 "phiRPflat" [s2.fRP, s2.fCentrality]

/-- `FillTrackEtaPhi()`. -/
def FillTrackEtaPhi (x : Externals) (s : Task) : Option Task :=
  match s.fTracksTPC with
  | none => none
  | some tracks =>
    (collectCalls
      (fun i1 : Nat =>
        match tracks[i1]? with
        | none => none
        | some track =>
          some [{ key := "track_phieta", args := [x.Phi track, x.Eta track] }])
      (List.range tracks.length)).bind (fun calls => FillAll s calls)

/-- The block of `UserExec` that counts the trigger classes of the event in
`hTriggerPassedEvents`. -/
def triggerFills (s : Task) (event : AliVEvent) : Option Task :=
  (FillHistogram s "hTriggerPassedEvents" [0]).bind (fun s1 =>
    (if event.GetTriggerMask.testBit 1 then FillHistogram s1 "hTriggerPassedEvents" [2]
      else some s1).bind (fun s2 =>
    (if event.GetTriggerMask.testBit 4 then FillHistogram s2 "hTriggerPassedEvents" [3]
      else some s2).bind (fun s3 =>
    if event.GetTriggerMask.testBit 7 then FillHistogram s3 "hTriggerPassedEvents" [4]
    else some s3)))

/-- The block `if (fRunNumber < 0)` of `UserExec`. -/
def firstEventFill (s : Task) : Option Task :=
  if s.fRunNumber < 0 then
    if s.fSigmaWidth = 0 then FillHistogram s "massWindow" [s.fMassInvMean, s.fMassInvSigma]
    else FillHistogram s "massWindow" [s.fMassInvMean, s.fMassInvSigma * s.fSigmaWidth]
  else some s

/-- The block `if (fRunNumber != fEvent->GetRunNumber())` of `UserExec` (step 1). -/
def runNumberStep (x : Externals) (s : Task) (event : AliVEvent) : Task :=
  if s.fRunNumber ≠ event.GetRunNumber then
    SetESDTrackCuts x
      { s with fRunNumber := event.GetRunNumber,
               fInternalRunNumber := ConvertToInternalRunNumber s event.GetRunNumber }
  else s

/-- Steps 0 to 3 of `UserExec` for the event that `InputEvent()` returns (null is
`none`): whether `UserExec` returns early (missing event, trigger mask, vertex or
centrality), and the task at that point. -/
def UserExecSelect (x : Externals) (s : Task) (input : Option AliVEvent) :
    Option (Bool × Task) :=
  (LogProgress s 0).bind (fun s0 =>
    match input with
    | none => some (true, { s0 with fEvent := none })
    | some event =>
      (triggerFills
        { s0 with fEvent := some event, fEventESD := event.isESD, fEventAOD := event.isAOD }
        event).bind (fun s1 =>
      (firstEventFill s1).bind (fun s2 =>
      (LogProgress (runNumberStep x s2 event) 1).bind (fun s3 =>
      (RejectTriggerMaskSelection x s3).bind (fun r4 =>
      if r4.1 then some (true, r4.2)
      else
        (LogProgress r4.2 2).bind (fun s5 =>
        (SetVertex s5).bind (fun s6 =>
        (RejectEventVertex x s6).bind (fun r7 =>
        if r7.1 then some (true, r7.2)
        else
          (LogProgress r7.2 3).bind (fun s8 =>
          (SetCentrality s8).bind (fun s9 =>
          some (RejectEventCentrality s9, s9)))))))))))

/-- Steps 4 to 6 of `UserExec`: the centrality histogram, the reaction plane and
its bin, and the selection of the photon and track candidates. -/
def UserExecCandidates (x : Externals) (s : Task) : Option Task :=
  (FillHistogram s "hCentrality"
    [s.fCentrality, (s.fInternalRunNumber : ℚ) - 1 / 2]).bind (fun s1 =>
  (LogProgress s1 4).bind (fun s2 =>
  (EvalReactionPlane s2).bind (fun s3 =>
  (LogProgress { (GetRPBin s3).2 with fEMRPBin := (GetRPBin s3).1 } 5).bind (fun s4 =>
  (SelectPhotonClusters x s4).bind (fun s5 =>
  (match s5.fCaloPhotonsPHOS with
    | none => none
    | some photons =>
      if photons.length = 0 then LogSelection s5 x.kHasPHOSClusters s5.fInternalRunNumber
      else some s5).bind (fun s6 =>
  (LogProgress s6 6).bind (fun s7 =>
  (SelectAccosiatedTracks s7).bind (fun s8 =>
  (match s8.fTracksTPC with
    | none => none
    | some tracks =>
      if tracks.length = 0 then LogSelection s8 x.kHasTPCTracks s8.fInternalRunNumber
      else some s8).bind (fun s9 =>
  (LogSelection s9 x.kTotalSelected s9.fInternalRunNumber).bind (fun s10 =>
  LogProgress s10 7))))))))))

/-- Steps 7 to 9 of `UserExec`: the same-event pairs, the two mixing steps and the
track map. -/
def UserExecCorrelate (x : Externals) (s : Task) : Option Task :=
  (ConsiderPi0s x s).bind (fun s1 =>
  (ConsiderPi0sMix x s1).bind (fun s2 =>
  (ConsiderTracksMix x s2).bind (fun s3 =>
  (LogProgress s3 8).bind (fun s4 =>
  (FillTrackEtaPhi x s4).bind (fun s5 =>
  LogProgress s5 9)))))

/-- Step 10 of `UserExec`: the two pool updates. -/
def UserExecUpdate (s : Task) : Option Task :=
  (UpdatePhotonLists s).bind (fun s1 =>
  (UpdateTrackLists s1).bind (fun s2 =>
  LogProgress s2 10))

/-- `UserExec()` for the event that `InputEvent()` returns. `PostData` hands the
output container to the framework and changes nothing in the task. -/
def UserExec (x : Externals) (s : Task) (input : Option AliVEvent) : Option Task :=
  (UserExecSelect x s input).bind (fun r =>
    if r.1 then some r.2
    else
      (UserExecCandidates x r.2).bind (fun s1 =>
      (UserExecCorrelate x s1).bind (fun s2 => UserExecUpdate s2)))

/-! ## Vocabulary of the statements -/

/-- The arrays stored in a pool at a slot index, most recent first; a null slot
and a slot outside the pool store nothing. -/
def storedList {α : Type} (pool : Option (TObjArray α)) (offset : Int) : List (List α) :=
  match pool with
  | none => []
  | some lists => (TObjArray.At lists offset).getD []

/-- The photon arrays pooled for the event class `(vtxBin, centBin, rpBin)`. -/
def photonList (s : Task) (vtxBin centBin rpBin : Int) : List (List AliCaloPhoton) :=
  storedList s.fCaloPhotonsPHOSLists
    (slotOffset s (toUInt vtxBin) (toUInt centBin) (toUInt rpBin))

/-- The track arrays pooled for the event class `(vtxBin, centBin, rpBin)`. -/
def trackList (s : Task) (vtxBin centBin rpBin : Int) : List (List TLorentzVector) :=
  storedList s.fTracksTPCLists
    (slotOffset s (toUInt vtxBin) (toUInt centBin) (toUInt rpBin))

/-- An event class within the configured bin counts. -/
def ValidClass (s : Task) (vtxBin centBin rpBin : Int) : Prop :=
  (0 ≤ vtxBin ∧ vtxBin < s.fNVtxZBins) ∧
  (0 ≤ centBin ∧ centBin < GetNumberOfCentralityBins s) ∧
  (0 ≤ rpBin ∧ rpBin < (s.fNEMRPBins : Int))

/-- The number of event classes, `fNVtxZBins * nCentBins * fNEMRPBins`. -/
def poolCapacity (s : Task) : Int :=
  s.fNVtxZBins * GetNumberOfCentralityBins s * (s.fNEMRPBins : Int)

/-- Both pools are allocated and no slot stores an array. -/
def PoolsEmpty (s : Task) : Prop :=
  (∃ lists, s.fCaloPhotonsPHOSLists = some lists ∧ ∀ slot ∈ lists, slot.getD [] = []) ∧
  (∃ lists, s.fTracksTPCLists = some lists ∧ ∀ slot ∈ lists, slot.getD [] = [])

/-- One end-of-event pool update: the event's class, its candidate array, and
which of the two update functions runs. -/
inductive PoolCall where
  | photons (vtxBin centBin rpBin : Int) (array : List AliCaloPhoton)
  | tracks (vtxBin centBin rpBin : Int) (array : List TLorentzVector)

/-- The class of a call is valid. -/
def PoolCall.Valid (s : Task) : PoolCall → Prop
  | .photons v c r _ => ValidClass s v c r
  | .tracks v c r _ => ValidClass s v c r

/-- Runs one update with the event's class and array in place. -/
def PoolCall.run (s : Task) : PoolCall → Option Task
  | .photons v c r array =>
    UpdatePhotonLists
      { s with fVtxBin := v, fCentBin := c, fEMRPBin := r, fCaloPhotonsPHOS := some array }
  | .tracks v c r array =>
    UpdateTrackLists
      { s with fVtxBin := v, fCentBin := c, fEMRPBin := r, fTracksTPC := some array }

/-- Runs a sequence of updates, first call first. -/
def runCalls (s : Task) : List PoolCall → Option Task
  | [] => some s
  | call :: rest =>
    match call.run s with
    | none => none
    | some s1 => runCalls s1 rest

/-- What one update does to the list of the addressed slot: a non-empty array
goes to the front and, when the list then exceeds the limit, the last entry is
removed; an empty array changes nothing. -/
def slotStep {α : Type} (limit : Int) (array : List α) (old : List (List α)) :
    List (List α) :=
  if array.length > 0 then
    if ((array :: old).length : Int) > limit then (array :: old).dropLast else array :: old
  else old

/-- The content of a slot read as a list (null reads as empty). -/
def slotList {α : Type} (lists : TObjArray α) (i : Int) : List (List α) :=
  (TObjArray.At lists i).getD []

/-- The configuration members, which no pool update changes. -/
def SameConfig (s t : Task) : Prop :=
  t.fCentEdges = s.fCentEdges ∧ t.fNEMRPBins = s.fNEMRPBins ∧
  t.fCentNMixed = s.fCentNMixed ∧ t.fNVtxZBins = s.fNVtxZBins

instance (s : Task) (v c r : Int) : Decidable (ValidClass s v c r) := by
  unfold ValidClass
  infer_instance

instance (s : Task) (call : PoolCall) : Decidable (call.Valid s) := by
  cases call <;> (unfold PoolCall.Valid; infer_instance)

/-- The entries a histogram of a container has received (none when it is not
booked). -/
def entriesOf (hists : List Histogram) (name : String) : List (List ℚ) :=
  match hists.find? (fun h => decide (h.name = name)) with
  | none => []
  | some h => h.entries

/-- The dimension under which a name is booked in a container. -/
def dimOf (hists : List Histogram) (name : String) : Option Nat :=
  (hists.find? (fun h => decide (h.name = name))).map (fun h => h.dim)

/-- The entries that the histogram `name` of the output container has received. -/
def histEntries (s : Task) (name : String) : List (List ℚ) :=
  match s.fOutputContainer with
  | none => []
  | some hists => entriesOf hists name

/-- The histogram `name` is booked in the output container with dimension `dim`. -/
def Booked (s : Task) (name : String) (dim : Nat) : Prop :=
  ∃ hists, s.fOutputContainer = some hists ∧ dimOf hists name = some dim

/-- The pair `(ph1, ph2)` passes `TestMass` with the mass and pt of its summed
four-momentum. -/
def promoted (x : Externals) (s : Task) (ph1 ph2 : AliCaloPhoton) : Bool :=
  TestMass s (x.M (TLorentzVector.add ph1.toLorentzVector ph2.toLorentzVector))
    (x.Pt (TLorentzVector.add ph1.toLorentzVector ph2.toLorentzVector))

/-- The pass of the loops of `ConsiderPi0s` at the index pair `p = (i1, i2)`: the
two candidates are read from the array and the pair body runs. -/
def pairBody (x : Externals) (s : Task) (photons : List AliCaloPhoton) (p : Nat × Nat) :
    Option (List FillCall) :=
  match photons[p.1]? with
  | none => none
  | some ph1 =>
    match photons[p.2]? with
    | none => none
    | some ph2 => pi0PairCalls x s ph1 ph2

/-- A histogram key that starts with the four characters `mix_`. -/
def isMixKey (key : String) : Bool := key.data.take 4 == ['m', 'i', 'x', '_']

/-- A histogram key that starts with `mix_all_ptphieta`. -/
def isMixAllPtPhiEta (key : String) : Bool :=
  key.data.take 16 ==
    ['m', 'i', 'x', '_', 'a', 'l', 'l', '_', 'p', 't', 'p', 'h', 'i', 'e', 't', 'a']

/-- The cluster cuts as the specification words them: a PHOS cluster whose
energy, distance to a bad channel, cell count and M02 are not below their
thresholds and whose time of flight, when that cut is enabled, lies within the
window. -/
def specClusterSelected (s : Task) (clu : AliVCluster) : Prop :=
  clu.IsPHOS = true ∧ s.fMinClusterEnergy ≤ clu.E ∧
  s.fMinBCDistance ≤ clu.GetDistanceToBadChannel ∧ s.fMinNCells ≤ clu.GetNCells ∧
  s.fMinM02 ≤ clu.GetM02 ∧ (s.fTOFCutEnabled = true → |clu.GetTOF| ≤ s.fTOFCut)

instance (s : Task) (clu : AliVCluster) : Decidable (specClusterSelected s clu) := by
  unfold specClusterSelected
  infer_instance

/-- A track is accepted by the selection function of the event's data format. -/
def trackAccepted (s : Task) (track : AliVTrack) : Bool :=
  if s.fEventESD then SelectESDTrack s track == some true else SelectAODTrack s track

/-- A sequence of calls `SetCentralityBorders(down, up)`, first call first. -/
def applyBorders (s : Task) : List (ℚ × ℚ) → Except String Task
  | [] => .ok s
  | (down, up) :: rest =>
    match SetCentralityBorders s down up with
    | .error msg => .error msg
    | .ok s1 => applyBorders s1 rest

/-- Both mixing pools of `t` are those of `s`. -/
def SamePools (s t : Task) : Prop :=
  t.fCaloPhotonsPHOSLists = s.fCaloPhotonsPHOSLists ∧ t.fTracksTPCLists = s.fTracksTPCLists

/-- The task `t` stores, for every event class, the photon and track arrays that
`s` stores (a null slot and an empty list store the same, no array). -/
def SameStored (s t : Task) : Prop :=
  ∀ vtxBin centBin rpBin : Int,
    photonList t vtxBin centBin rpBin = photonList s vtxBin centBin rpBin ∧
    trackList t vtxBin centBin rpBin = trackList s vtxBin centBin rpBin

/-- The index pairs `(i1, i2)` in the order in which the loops
`for (i1 = 0; i1 < n-1; i1++) for (i2 = i1+1; i2 < n; i2++)` reach them. -/
def pairIndices (n : Nat) : List (Nat × Nat) :=
  (List.range (n - 1)).flatMap
    (fun i1 => (List.range' (i1 + 1) (n - (i1 + 1))).map (fun i2 => (i1, i2)))

/-- The configuration used by the examples: the centrality edges and depth limits
of the specification's scenario, nine reaction-plane bins, and the pools as
`UserCreateOutputObjects` allocates them (36 slots each). -/
def exampleTask : Task :=
  UserCreateOutputObjects
    { fCentEdges := [0, 10, 30, 50, 100], fCentNMixed := [4, 4, 6, 10], fNEMRPBins := 9 }

/-- A photon array with one candidate, told apart by its module number. -/
def examplePhotons (n : Int) : List AliCaloPhoton :=
  [{ px := 1, py := 0, pz := 0, e := 1, fModule := n, fDisp := true, fCPV := true }]

/-- A track array with one track. -/
def exampleTracks : List TLorentzVector := [{ px := 0, py := 1, pz := 0, e := 1 }]

/-- Six photon updates and two track updates in two event classes. -/
def exampleCalls : List PoolCall :=
  [.photons 0 0 3 (examplePhotons 1), .tracks 0 0 3 exampleTracks,
   .photons 0 0 3 (examplePhotons 2), .photons 0 2 8 (examplePhotons 3),
   .photons 0 0 3 (examplePhotons 4), .photons 0 0 3 (examplePhotons 5),
   .tracks 0 3 0 exampleTracks, .photons 0 0 3 (examplePhotons 6)]

/-- The example configuration holding one pooled photon array, at the end of an
event that selected no photon and no track. -/
def emptyEventTask : Task :=
  { exampleTask with
    fCentBin := 1, fEMRPBin := 2,
    fCaloPhotonsPHOS := some [], fTracksTPC := some [],
    fCaloPhotonsPHOSLists :=
      some ((List.replicate 36 none).set 11 (some [examplePhotons 1])) }

/-- A binning with a repeated edge, as `SetCentralityBinning` installs it from
the edges `[0, 10, 10, 20]` and the limits `[4, 4, 4]`. -/
def duplicateEdgeTask : Task := { fCentEdges := [0, 10, 10, 20], fCentNMixed := [4, 4, 4] }

/-- The default task (nine reaction-plane bins) with the angle 1. -/
def rpExampleTask : Task := { fRP := 1 }

/-- The associated-momentum thresholds set by the named constructor. -/
def assocExampleTask : Task := { fAssocBins := [0, 1 / 2, 1, 3 / 2, 2, 3, 5, 7, 10, 16] }

/-- A task reading reconstructed (ESD) events whose track cuts accept every
track. -/
def esdExampleTask : Task :=
  { fEventESD := true, fESDtrackCuts := some (fun _ => true) }

/-- A hybrid track inside the kinematic window. -/
def hybridExampleTrack : AliVTrack :=
  { Pt := 2, Eta := 1 / 2, Px := 2, E := 3, IsHybridGlobalConstrainedGlobal := true }

/-- Library functions for the examples, exact on the vectors met there: the mass
of a sum with `E² - p² = 0.135²` and of a light-like vector, the transverse
momentum of a vector along an axis and of the example pair sum; angles are
stand-in values, `%3.1f` prints the tenths of a bin threshold, the standard
track cuts accept every track, and the selection steps are numbered 1 to 6. -/
def exampleExternals : Externals :=
  { M := fun v =>
      if v.e ^ 2 - v.px ^ 2 - v.py ^ 2 - v.pz ^ 2 = (27 / 200) ^ 2 then 27 / 200 else 0,
    Pt := fun v =>
      if v.py = 0 then |v.px| else if v.px = 0 then |v.py|
      else if v.px ^ 2 + v.py ^ 2 = (9 / 50) ^ 2 then 9 / 50 else 0,
    Phi := fun v => if v.py = 0 then 0 else 1,
    Eta := fun v => if v.pz = 0 then 0 else 1,
    GetMomentum := fun clu _ => { px := clu.E, py := 0, pz := 0, e := clu.E },
    Form31f := fun q => toString ⌊q⌋ ++ "." ++ toString (⌊q * 10⌋ % 10),
    GetStandardTPCOnlyTrackCuts := fun _ => true,
    kInternalTriggerMaskSelection := 1,
    kHasVertex := 2,
    kHasAbsVertex := 3,
    kHasPHOSClusters := 4,
    kHasTPCTracks := 5,
    kTotalSelected := 6 }

/-- An output container with the pair histograms booked (all still empty). -/
def exampleHistograms : List Histogram :=
  [{ name := "clu_phieta", dim := 2 }, { name := "clusingle_phieta", dim := 2 },
   { name := "all_mpt", dim := 2 }, { name := "cpv_mpt", dim := 2 },
   { name := "disp_mpt", dim := 2 }, { name := "both_mpt", dim := 2 },
   { name := "mix_all_mpt", dim := 2 }, { name := "mix_cpv_mpt", dim := 2 },
   { name := "mix_disp_mpt", dim := 2 }, { name := "mix_both_mpt", dim := 2 },
   { name := "all_ptphieta_ptAssoc_1.0", dim := 3 },
   { name := "mix_all_ptphieta_ptAssoc_1.0", dim := 3 }]

/-- A photon of 0.1125 GeV along the x axis. -/
def pairExamplePhoton1 : AliCaloPhoton :=
  { px := 9 / 80, py := 0, pz := 0, e := 9 / 80, fModule := 1, fDisp := true, fCPV := true }

/-- A photon of 0.1125 GeV in the transverse plane. -/
def pairExamplePhoton2 : AliCaloPhoton :=
  { px := 63 / 2000, py := 27 / 250, pz := 0, e := 9 / 80, fModule := 1, fDisp := true,
    fCPV := true }

/-- Two photons whose sum `(0.144, 0.108, 0, 0.225)` has the mass 0.135 and the
transverse momentum 0.18. -/
def pairExamplePhotons : List AliCaloPhoton := [pairExamplePhoton1, pairExamplePhoton2]

/-- A track array with one track of transverse momentum 0.75. -/
def pairExampleTracks : List TLorentzVector := [{ px := 3 / 4, py := 0, pz := 0, e := 3 / 4 }]

/-- An event of the example configuration in the class `(0, 1, 2)` with the two
photons of `pairExamplePhotons` and one track; one photon array and one track
array are pooled at its class. -/
def pairExampleTask : Task :=
  { exampleTask with
    fCentBin := 1, fEMRPBin := 2,
    fAssocBins := [0, 1 / 2, 1, 3 / 2, 2, 3, 5, 7, 10, 16],
    fCaloPhotonsPHOS := some pairExamplePhotons,
    fTracksTPC := some pairExampleTracks,
    fCaloPhotonsPHOSLists :=
      some ((List.replicate 36 none).set 11 (some [examplePhotons 1])),
    fTracksTPCLists :=
      some ((List.replicate 36 none).set 11 (some [pairExampleTracks])),
    fOutputContainer := some exampleHistograms }

/-- A candidate that passes the shape flag and the veto flag. -/
def flagExamplePhoton1 : AliCaloPhoton :=
  { px := 1, py := 0, pz := 0, e := 1, fModule := 1, fDisp := true, fCPV := true }

/-- A candidate that passes the shape flag and fails the veto flag. -/
def flagExamplePhoton2 : AliCaloPhoton :=
  { px := 0, py := 1, pz := 0, e := 1, fModule := 1, fDisp := true, fCPV := false }

/-- A candidate that fails the shape flag and passes the veto flag. -/
def flagExamplePhoton3 : AliCaloPhoton :=
  { px := 0, py := 0, pz := 1, e := 1, fModule := 1, fDisp := false, fCPV := true }

/-- Three candidates with the shape flags pass, pass, fail and the veto flags
pass, fail, pass. -/
def flagExamplePhotons : List AliCaloPhoton :=
  [flagExamplePhoton1, flagExamplePhoton2, flagExamplePhoton3]

/-- An event with the three candidates of `flagExamplePhotons` and no track. -/
def flagExampleTask : Task :=
  { fCaloPhotonsPHOS := some flagExamplePhotons, fTracksTPC := some [],
    fOutputContainer := some exampleHistograms }

/-- Four raw clusters: the first and the last pass every cut, the second is not
a PHOS cluster, the third is below the energy threshold. -/
def exampleClusters : List AliVCluster :=
  [{ IsPHOS := true, E := 1, GetNCells := 4, GetM02 := 1, GetCellAbsId0 := 10 },
   { IsPHOS := false, E := 2, GetNCells := 4, GetM02 := 1 },
   { IsPHOS := true, E := 1 / 10, GetNCells := 4, GetM02 := 1 },
   { IsPHOS := true, E := 3, GetNCells := 5, GetM02 := 1, GetCellAbsId0 := 4000 }]

/-- An event with the clusters of `exampleClusters` and three tracks, read in the
derived (AOD) format with the geometry and the output container present. -/
def selectionExampleTask : Task :=
  { fEvent :=
      some { clusters := exampleClusters,
             tracks := [hybridExampleTrack, { Pt := 11 }, { hybridExampleTrack with Pt := 3 }] },
    fPHOSGeo := some { GlobalPos2RelId := fun _ => (1, 0, 2, 3) },
    fOutputContainer := some exampleHistograms }

/-- An event with centrality 45 and a primary vertex, on a task that carries the
binning of the specification's scenario. -/
def classifyExampleTask : Task :=
  { fCentEdges := [0, 10, 30, 50, 100], fCentNMixed := [4, 4, 6, 10],
    fEvent := some { primaryVertex := some (0, 0, 1), centrality := some 45 } }

/-- An event with centrality 50 on a task that carries the binning with the single
edge 0 and no depth limit, as `SetCentralityBinning` installs it. -/
def oneEdgeTask : Task :=
  { fCentEdges := [0], fCentNMixed := [], fEvent := some { centrality := some 50 } }

/-- An event whose event-plane object reports the angle 1. -/
def planeExampleEvent : AliVEvent := { eventplane := some 1 }

/-- An event without an event-plane object (`GetEventplane()` returns null). -/
def noPlaneEvent : AliVEvent := {}

/-- An event whose event-plane object reports the undefined value 999. -/
def undefinedPlaneEvent : AliVEvent := { eventplane := some 999 }

/-- A task with booked histograms that is looking at `planeExampleEvent`. -/
def planeExampleTask : Task :=
  { fOutputContainer := some exampleHistograms, fEvent := some planeExampleEvent }

end AliPHOSCorrelations

/-! # AliJetAODReader: the correction switches

`printf` output is not modelled. -/

namespace AliJetAODReader

/-- The three correction members of the reader, with the values the constructor
gives them. -/
structure Reader where
  fApplyMIPCorrection : Bool := true
  fApplyFractionHadronicCorrection : Bool := false
  fFractionHadronicCorrection : ℚ := 3 / 10

mutual

/-- `SetApplyMIPCorrection(val)`: stores the flag and, when it is true, switches the
fraction-hadronic correction off through its setter. -/
def SetApplyMIPCorrection (r : Reader) (val : Bool) : Reader :=
  if val = true then
    SetApplyFractionHadronicCorrection { r with fApplyMIPCorrection := val } false
  else { r with fApplyMIPCorrection := val }
termination_by (if val = true then 1 else 0 : Nat)
decreasing_by simp_all

/-- `SetApplyFractionHadronicCorrection(val)`: stores the flag and, when it is true,
switches the MIP correction off through its setter. -/
def SetApplyFractionHadronicCorrection (r : Reader) (val : Bool) : Reader :=
  if val = true then
    SetApplyMIPCorrection { r with fApplyFractionHadronicCorrection := val } false
  else { r with fApplyFractionHadronicCorrection := val }
termination_by (if val = true then 1 else 0 : Nat)
decreasing_by simp_all

end

/-- `SetFractionHadronicCorrection(val)`: stores the value and switches the
fraction-hadronic correction on when the value lies in `(0, 1]`, off otherwise. -/
def SetFractionHadronicCorrection (r : Reader) (val : ℚ) : Reader :=
  let r1 : Reader := { r with fFractionHadronicCorrection := val }
  if r1.fFractionHadronicCorrection > 0 ∧ r1.fFractionHadronicCorrection ≤ 1 then
    SetApplyFractionHadronicCorrection r1 true
  else SetApplyFractionHadronicCorrection r1 false

/-- One call of a correction setter. -/
inductive SetterCall where
  | applyMIP (val : Bool)
  | applyFractionHadronic (val : Bool)
  | fractionHadronic (val : ℚ)

/-- Executes one setter call. -/
def SetterCall.run (r : Reader) : SetterCall → Reader
  | .applyMIP val => SetApplyMIPCorrection r val
  | .applyFractionHadronic val => SetApplyFractionHadronicCorrection r val
  | .fractionHadronic val => SetFractionHadronicCorrection r val

/-- Executes a sequence of setter calls, first call first. -/
def runSetters (r : Reader) (calls : List SetterCall) : Reader :=
  calls.foldl SetterCall.run r

end AliJetAODReader

/-! # AliEmcalIsolatedPhotonsTask: the histogram filling

A `TH1F` is the sequence of values it received; a histogram pointer is an `Option`.
The per-centrality members `TH1F *fHist...[4]` are lists of four pointers, and a
read outside the array makes the function return `none`, like the dereference of a
null pointer. `Float_t` values are exact rationals. -/

namespace AliEmcalIsolatedPhotonsTask

/-- What the task reads from an `AliVTrack`. -/
structure AliVTrack where
  Pt : ℚ := 0

/-- What the task reads from an `AliVCluster`. -/
structure AliVCluster where
  E : ℚ := 0
  IsEMCAL : Bool := true

/-- What the task reads from an `AliEmcalJet`; the class is declared outside the
sources, and `TrackAt`, `ClusterAt` are the values its accessors return. -/
structure AliEmcalJet where
  E : ℚ := 0
  NEF : ℚ := 0
  GetNumberOfTracks : Int := 0
  TrackAt : Int → Int := fun _ => 0
  GetNumberOfClusters : Int := 0
  ClusterAt : Int → Int := fun _ => 0

/-- The array of four histogram pointers of one per-centrality member. -/
abbrev HistArray := List (Option (List ℚ))

/-- The members of the task that `FillHistograms` uses, with the values the
constructors give them. `fCent` is the centrality object, represented by the
percentile it returns for `"V0M"`. -/
structure Task where
  fTracks : Option (List (Option AliVTrack)) := none
  fCaloClusters : Option (List (Option AliVCluster)) := none
  fJets : Option (List (Option AliEmcalJet)) := none
  fCent : Option ℚ := none
  fHistCentrality : Option (List ℚ) := none
  fHistJetsE : HistArray := List.replicate 4 none
  fHistJetsNE : HistArray := List.replicate 4 none
  fHistJetsNEF : HistArray := List.replicate 4 none
  fHistJetsZ : HistArray := List.replicate 4 none
  fHistLeadingJetE : HistArray := List.replicate 4 none
  fHistTracksPtLJ : HistArray := List.replicate 4 none
  fHistClusELJ : HistArray := List.replicate 4 none
  fHistTracksPtBkg : HistArray := List.replicate 4 none
  fHistClusEBkg : HistArray := List.replicate 4 none

/-- `UserCreateOutputObjects()`: creates the centrality histogram and the four
histograms of every per-centrality member, all empty. -/
def UserCreateOutputObjects (s : Task) : Task :=
  { s with
    fHistCentrality := some [],
    fHistJetsE := List.replicate 4 (some []),
    fHistJetsNE := List.replicate 4 (some []),
    fHistJetsNEF := List.replicate 4 (some []),
    fHistJetsZ := List.replicate 4 (some []),
    fHistLeadingJetE := List.replicate 4 (some []),
    fHistTracksPtLJ := List.replicate 4 (some []),
    fHistClusELJ := List.replicate 4 (some []),
    fHistTracksPtBkg := List.replicate 4 (some []),
    fHistClusEBkg := List.replicate 4 (some []) }

/-- `TClonesArray::At(i)` followed by the `dynamic_cast`: null outside the array. -/
def At {α : Type} (a : List (Option α)) (i : Int) : Option α :=
  if 0 ≤ i then a.getD i.toNat none else none

/-- `GetTrack(i)`. -/
def GetTrack (s : Task) (i : Int) : Option AliVTrack :=
  match s.fTracks with
  | some tracks => At tracks i
  | none => none

/-- `GetNumberOfTracks()`. -/
def GetNumberOfTracks (s : Task) : Int :=
  match s.fTracks with
  | some tracks => tracks.length
  | none => 0

/-- `GetCaloCluster(i)`. -/
def GetCaloCluster (s : Task) (i : Int) : Option AliVCluster :=
  match s.fCaloClusters with
  | some clusters => At clusters i
  | none => none

/-- `GetNumberOfCaloClusters()`. -/
def GetNumberOfCaloClusters (s : Task) : Int :=
  match s.fCaloClusters with
  | some clusters => clusters.length
  | none => 0

/-- `GetJet(i)`. -/
def GetJet (s : Task) (i : Int) : Option AliEmcalJet :=
  match s.fJets with
  | some jets => At jets i
  | none => none

/-- `GetNumberOfJets()`. -/
def GetNumberOfJets (s : Task) : Int :=
  match s.fJets with
  | some jets => jets.length
  | none => 0

/-- `AcceptTrack(track)`: accepts every track. -/
def AcceptTrack (_track : AliVTrack) : Bool := true

/-- The statement `a[centbin]->Fill(v)` on a per-centrality member: `none` when the
index is outside the array or the pointer there is null. -/
def fillAt (a : HistArray) (centbin : Int) (v : ℚ) : Option HistArray :=
  if 0 ≤ centbin ∧ centbin < a.length then
    match a.getD centbin.toNat none with
    | none => none
    | some h => some (a.set centbin.toNat (some (h ++ [v])))
  else none

/-- The value of the local `centbin` in `FillHistograms` for the percentile `cent`:
it starts as `-1` and the chain of tests assigns 0, 1, 2 or 3. -/
def centbin (cent : ℚ) : Int :=
  if cent ≥ 0 ∧ cent < 10 then 0
  else if cent ≥ 10 ∧ cent < 30 then 1
  else if cent ≥ 30 ∧ cent < 50 then 2
  else if cent ≥ 50 ∧ cent ≤ 100 then 3
  else -1

/-- One pass of the loop over the tracks of a jet. -/
def jetTrackBody (centbin : Int) (jet : AliEmcalJet) (s : Task) (it : Nat) : Option Task :=
  let trackid := jet.TrackAt it
  match GetTrack s trackid with
  | some track =>
    (fillAt s.fHistJetsZ centbin (track.Pt / jet.E)).map (fun a => { s with fHistJetsZ := a })
  | none => some s

/-- One pass of the loop over the clusters of a jet. -/
def jetClusterBody (centbin : Int) (jet : AliEmcalJet) (s : Task) (ic : Nat) : Option Task :=
  let clusterid := jet.ClusterAt ic
  match GetCaloCluster s clusterid with
  | some cluster =>
    (fillAt s.fHistJetsZ centbin (cluster.E / jet.E)).map (fun a => { s with fHistJetsZ := a })
  | none => some s

/-- One pass of the jet loop; the state carries the task, `maxJetEnergy` and
`maxJetIndex`. -/
def jetBody (centbin : Int) (st : Task × ℚ × Int) (ij : Nat) : Option (Task × ℚ × Int) :=
  match GetJet st.1 ij with
  | none => some st
  | some jet =>
    if jet.E ≤ 0 then some st
    else
      (fillAt st.1.fHistJetsE centbin jet.E).bind (fun a1 =>
      (fillAt st.1.fHistJetsNEF centbin jet.NEF).bind (fun a2 =>
      (fillAt st.1.fHistJetsNE centbin (jet.E * jet.NEF)).bind (fun a3 =>
      ((List.range jet.GetNumberOfTracks.toNat).foldlM (jetTrackBody centbin jet)
        { st.1 with fHistJetsE := a1, fHistJetsNEF := a2, fHistJetsNE := a3 }).bind (fun s4 =>
      ((List.range jet.GetNumberOfClusters.toNat).foldlM (jetClusterBody centbin jet)
        s4).bind (fun s5 =>
      if st.2.1 < jet.E then some (s5, jet.E, (ij : Int)) else some (s5, st.2.1, st.2.2))))))

/-- One pass of the cluster loop for the leading jet; the state carries the task
and `clusJetId`. -/
def clusterBody (centbin : Int) (jet : AliEmcalJet) (st : Task × Int) (iClusters : Nat) :
    Option (Task × Int) :=
  match GetCaloCluster st.1 iClusters with
  | none => some st
  | some cluster =>
    if cluster.IsEMCAL = false then some st
    else if jet.GetNumberOfClusters > 0 then
      let clusJetId :=
        if jet.ClusterAt st.2 < iClusters then
          (if st.2 < jet.GetNumberOfClusters - 1 then st.2 + 1 else st.2)
        else st.2
      if jet.ClusterAt clusJetId = iClusters then
        (fillAt st.1.fHistClusELJ centbin cluster.E).map
          (fun a => ({ st.1 with fHistClusELJ := a }, clusJetId))
      else
        (fillAt st.1.fHistClusEBkg centbin cluster.E).map
          (fun a => ({ st.1 with fHistClusEBkg := a }, clusJetId))
    else
      (fillAt st.1.fHistClusEBkg centbin cluster.E).map
        (fun a => ({ st.1 with fHistClusEBkg := a }, st.2))

/-- One pass of the track loop for the leading jet; the state carries the task and
`trackJetId`. -/
def trackBody (centbin : Int) (jet : AliEmcalJet) (st : Task × Int) (iTracks : Nat) :
    Option (Task × Int) :=
  match GetTrack st.1 iTracks with
  | none => some st
  | some track =>
    if AcceptTrack track = false then some st
    else if jet.GetNumberOfTracks > 0 then
      let trackJetId :=
        if jet.TrackAt st.2 < iTracks then
          (if st.2 < jet.GetNumberOfTracks - 1 then st.2 + 1 else st.2)
        else st.2
      if jet.TrackAt trackJetId = iTracks then
        (fillAt st.1.fHistTracksPtLJ centbin track.Pt).map
          (fun a => ({ st.1 with fHistTracksPtLJ := a }, trackJetId))
      else
        (fillAt st.1.fHistTracksPtBkg centbin track.Pt).map
          (fun a => ({ st.1 with fHistTracksPtBkg := a }, trackJetId))
    else
      (fillAt st.1.fHistTracksPtBkg centbin track.Pt).map
        (fun a => ({ st.1 with fHistTracksPtBkg := a }, st.2))

/-- The part of `FillHistograms()` after the jet loop, for the leading jet found
there. `SortConstituents` is the method of `AliEmcalJet`, declared outside the
sources; it replaces the jet in its array. -/
def leadingJetPart (SortConstituents : AliEmcalJet → AliEmcalJet) (centbin : Int)
    (st : Task × ℚ × Int) : Option Task :=
  if ¬ (st.2.1 > 0) ∨ st.2.2 < 0 then some st.1
  else
    (fillAt st.1.fHistLeadingJetE centbin st.2.1).bind (fun a =>
      let s1 : Task := { st.1 with fHistLeadingJetE := a }
      match GetJet s1 st.2.2 with
      | none => some s1
      | some jet0 =>
        let jet := SortConstituents jet0
        let s2 : Task :=
          { s1 with fJets := s1.fJets.map (fun jets => jets.set st.2.2.toNat (some jet)) }
        ((List.range (GetNumberOfCaloClusters s2).toNat).foldlM (clusterBody centbin jet)
          (s2, 0)).bind (fun st3 =>
        ((List.range (GetNumberOfTracks st3.1).toNat).foldlM (trackBody centbin jet)
          (st3.1, 0)).map (fun st4 => st4.1)))

/-- `FillHistograms()`: `none` when a null pointer is dereferenced or a histogram
array is read outside its four elements. -/
def FillHistograms (SortConstituents : AliEmcalJet → AliEmcalJet) (s : Task) : Option Task :=
  match s.fCent with
  | none => none
  | some cent =>
    match s.fHistCentrality with
    | none => none
    | some h =>
      let s0 : Task := { s with fHistCentrality := some (h ++ [cent]) }
      let njets := GetNumberOfJets s0
      ((List.range njets.toNat).foldlM (jetBody (centbin cent)) (s0, 0, -1)).bind
        (leadingJetPart SortConstituents (centbin cent))

/-- A jet of energy 5 without constituents. -/
def exampleJet : AliEmcalJet := { E := 5, NEF := 1 / 2 }

/-- The task after `UserCreateOutputObjects`, looking at an event with one jet whose
centrality object returns the percentile `cent`. -/
def jetExampleTask (cent : ℚ) : Task :=
  { UserCreateOutputObjects {} with fJets := some [some exampleJet], fCent := some cent }

end AliEmcalIsolatedPhotonsTask

namespace AliPHOSCorrelations

/-- An event of centrality 95 with a primary vertex, outside the default
centrality window `[0, 90]`. -/
def rejectedExampleEvent : AliVEvent :=
  { primaryVertex := some (0, 0, 1), centrality := some 95 }

/-- An event of centrality 20 in the derived (AOD) format, with a primary vertex,
the event-plane angle 1, the clusters of `exampleClusters` and no track. -/
def acceptedExampleEvent : AliVEvent :=
  { primaryVertex := some (0, 0, 1), centrality := some 20, eventplane := some 1,
    isAOD := true, clusters := exampleClusters }

/-- The example configuration between two events: the geometry and the output
container are present, and one photon array and one track array of an earlier
event are pooled at the class `(0, 1, 2)`. -/
def runExampleTask : Task :=
  { exampleTask with
    fPHOSGeo := some { GlobalPos2RelId := fun _ => (1, 0, 2, 3) },
    fCaloPhotonsPHOSLists :=
      some ((List.replicate 36 none).set 11 (some [examplePhotons 1])),
    fTracksTPCLists :=
      some ((List.replicate 36 none).set 11 (some [pairExampleTracks])),
    fOutputContainer := some exampleHistograms }

/-- The pairs of candidates that the loops of `ConsiderPi0s` visit, in loop order:
the candidates at the indices `i1 < i2` of the candidate array. -/
def candidatePairs (photons : List AliCaloPhoton) : List (AliCaloPhoton × AliCaloPhoton) :=
  (pairIndices photons.length).flatMap (fun p =>
    match photons[p.1]?, photons[p.2]? with
    | some ph1, some ph2 => [(ph1, ph2)]
    | _, _ => [])

/-- The `(m, pt)` of the sum of two candidates, the arguments of a mass/pt fill. -/
def massPtEntry (x : Externals) (ph1 ph2 : AliCaloPhoton) : List ℚ :=
  [x.M (TLorentzVector.add ph1.toLorentzVector ph2.toLorentzVector),
   x.Pt (TLorentzVector.add ph1.toLorentzVector ph2.toLorentzVector)]

/-! ## Container lemmas -/

theorem At_AddAt {α : Type} (a : TObjArray α) (l : List (List α)) (i j : Int) :
    TObjArray.At (TObjArray.AddAt a l i) j =
      if j = i ∧ 0 ≤ i ∧ i < a.length then some l else TObjArray.At a j := by
  unfold TObjArray.At TObjArray.AddAt
  by_cases hi : 0 ≤ i
  · by_cases hj : 0 ≤ j
    · simp only [hi, hj, if_true, true_and, List.getD_eq_getElem?_getD, List.getElem?_set]
      by_cases hij : j = i
      · subst hij
        by_cases hlt : j < a.length
        · have : j.toNat < a.length := by omega
          simp [hlt, this]
        · have : ¬ j.toNat < a.length := by omega
          simp only [hlt, this, and_false, if_false]
          rw [List.getElem?_eq_none (by omega)]
          rfl
      · have : i.toNat ≠ j.toNat := by omega
        simp [hij, this]
    · have : j ≠ i := by omega
      simp [hi, hj, this]
  · simp [hi]

theorem length_AddAt {α : Type} (a : TObjArray α) (l : List (List α)) (i : Int) :
    (TObjArray.AddAt a l i).length = a.length := by
  unfold TObjArray.AddAt
  split <;> simp

theorem slotList_AddAt {α : Type} (a : TObjArray α) (l : List (List α)) (i j : Int) :
    slotList (TObjArray.AddAt a l i) j =
      if j = i ∧ 0 ≤ i ∧ i < a.length then l else slotList a j := by
  unfold slotList
  rw [At_AddAt]
  split <;> rfl

/-! ## What one pool update does -/

theorem slotStep_nil {α : Type} (limit : Int) (old : List (List α)) :
    slotStep limit [] old = old := by
  simp [slotStep]

theorem UpdatePhotonLists_spec (s : Task) (lists : TObjArray AliCaloPhoton)
    (photons : List AliCaloPhoton) (hl : s.fCaloPhotonsPHOSLists = some lists)
    (hp : s.fCaloPhotonsPHOS = some photons) :
    ∃ t lists1, UpdatePhotonLists s = some t ∧ SameConfig s t ∧
      t.fTracksTPCLists = s.fTracksTPCLists ∧ t.fCaloPhotonsPHOSLists = some lists1 ∧
      lists1.length = lists.length ∧
      ∀ i : Int, slotList lists1 i =
        if i = slotOffset s (toUInt s.fVtxBin) (toUInt s.fCentBin) (toUInt s.fEMRPBin) ∧
            0 ≤ slotOffset s (toUInt s.fVtxBin) (toUInt s.fCentBin) (toUInt s.fEMRPBin) ∧
            slotOffset s (toUInt s.fVtxBin) (toUInt s.fCentBin) (toUInt s.fEMRPBin) < lists.length
        then slotStep (TArrayI.index s.fCentNMixed s.fCentBin) photons (slotList lists i)
        else slotList lists i := by
  cases s
  simp only at hl hp
  subst hl hp
  simp only [UpdatePhotonLists, GetCaloPhotonsPHOSList, slotOffset, GetNumberOfCentralityBins,
    SameConfig]
  generalize hoff : toInt _ = off
  cases hAt : TObjArray.At lists off with
  | some list =>
    have hAt1 : slotList lists off = list := by simp [slotList, hAt]
    by_cases hn : photons.length > 0
    · simp only [hn, if_true, hoff]
      refine ⟨_, _, rfl, ⟨rfl, rfl, rfl, rfl⟩, rfl, rfl, length_AddAt _ _ _, ?_⟩
      intro i
      rw [slotList_AddAt]
      by_cases hi : i = off ∧ 0 ≤ off ∧ off < lists.length
      · obtain ⟨rfl, _, _⟩ := id hi
        simp only [hi, and_self, if_true, slotStep, hn, hAt1]
      · simp only [hi, if_false]
    · have hnil : photons = [] := by
        cases photons with
        | nil => rfl
        | cons a l => simp at hn
      subst hnil
      simp only [hn, if_false, hoff]
      refine ⟨_, _, rfl, ⟨rfl, rfl, rfl, rfl⟩, rfl, rfl, rfl, ?_⟩
      intro i
      simp [slotStep_nil]
  | none =>
    have hAt1 : slotList lists off = [] := by simp [slotList, hAt]
    by_cases hn : photons.length > 0
    · simp only [hn, if_true, hoff]
      refine ⟨_, _, rfl, ⟨rfl, rfl, rfl, rfl⟩, rfl, rfl, ?_, ?_⟩
      · rw [length_AddAt, length_AddAt]
      · intro i
        rw [slotList_AddAt, slotList_AddAt, length_AddAt]
        by_cases hi : i = off ∧ 0 ≤ off ∧ off < lists.length
        · obtain ⟨rfl, _, _⟩ := id hi
          simp only [hi, and_self, if_true, slotStep, hn, hAt1]
        · simp only [hi, if_false]
    · have hnil : photons = [] := by
        cases photons with
        | nil => rfl
        | cons a l => simp at hn
      subst hnil
      simp only [hn, if_false, hoff]
      refine ⟨_, _, rfl, ⟨rfl, rfl, rfl, rfl⟩, rfl, rfl, length_AddAt _ _ _, ?_⟩
      intro i
      rw [slotList_AddAt]
      by_cases hi : i = off ∧ 0 ≤ off ∧ off < lists.length
      · obtain ⟨rfl, _, _⟩ := id hi
        simp only [hi, and_self, if_true, slotStep_nil, hAt1]
      · simp only [hi, if_false]

theorem UpdateTrackLists_spec (s : Task) (lists : TObjArray TLorentzVector)
    (tracks : List TLorentzVector) (hl : s.fTracksTPCLists = some lists)
    (hp : s.fTracksTPC = some tracks) :
    ∃ t lists1, UpdateTrackLists s = some t ∧ SameConfig s t ∧
      t.fCaloPhotonsPHOSLists = s.fCaloPhotonsPHOSLists ∧ t.fTracksTPCLists = some lists1 ∧
      lists1.length = lists.length ∧
      ∀ i : Int, slotList lists1 i =
        if i = slotOffset s (toUInt s.fVtxBin) (toUInt s.fCentBin) (toUInt s.fEMRPBin) ∧
            0 ≤ slotOffset s (toUInt s.fVtxBin) (toUInt s.fCentBin) (toUInt s.fEMRPBin) ∧
            slotOffset s (toUInt s.fVtxBin) (toUInt s.fCentBin) (toUInt s.fEMRPBin) < lists.length
        then slotStep (TArrayI.index s.fCentNMixed s.fCentBin) tracks (slotList lists i)
        else slotList lists i := by
  cases s
  simp only at hl hp
  subst hl hp
  simp only [UpdateTrackLists, GetTracksTPCList, slotOffset, GetNumberOfCentralityBins,
    SameConfig]
  generalize hoff : toInt _ = off
  cases hAt : TObjArray.At lists off with
  | some list =>
    have hAt1 : slotList lists off = list := by simp [slotList, hAt]
    by_cases hn : tracks.length > 0
    · simp only [hn, if_true, hoff]
      refine ⟨_, _, rfl, ⟨rfl, rfl, rfl, rfl⟩, rfl, rfl, length_AddAt _ _ _, ?_⟩
      intro i
      rw [slotList_AddAt]
      by_cases hi : i = off ∧ 0 ≤ off ∧ off < lists.length
      · obtain ⟨rfl, _, _⟩ := id hi
        simp only [hi, and_self, if_true, slotStep, hn, hAt1]
      · simp only [hi, if_false]
    · have hnil : tracks = [] := by
        cases tracks with
        | nil => rfl
        | cons a l => simp at hn
      subst hnil
      simp only [hn, if_false, hoff]
      refine ⟨_, _, rfl, ⟨rfl, rfl, rfl, rfl⟩, rfl, rfl, rfl, ?_⟩
      intro i
      simp [slotStep_nil]
  | none =>
    have hAt1 : slotList lists off = [] := by simp [slotList, hAt]
    by_cases hn : tracks.length > 0
    · simp only [hn, if_true, hoff]
      refine ⟨_, _, rfl, ⟨rfl, rfl, rfl, rfl⟩, rfl, rfl, ?_, ?_⟩
      · rw [length_AddAt, length_AddAt]
      · intro i
        rw [slotList_AddAt, slotList_AddAt, length_AddAt]
        by_cases hi : i = off ∧ 0 ≤ off ∧ off < lists.length
        · obtain ⟨rfl, _, _⟩ := id hi
          simp only [hi, and_self, if_true, slotStep, hn, hAt1]
        · simp only [hi, if_false]
    · have hnil : tracks = [] := by
        cases tracks with
        | nil => rfl
        | cons a l => simp at hn
      subst hnil
      simp only [hn, if_false, hoff]
      refine ⟨_, _, rfl, ⟨rfl, rfl, rfl, rfl⟩, rfl, rfl, length_AddAt _ _ _, ?_⟩
      intro i
      rw [slotList_AddAt]
      by_cases hi : i = off ∧ 0 ≤ off ∧ off < lists.length
      · obtain ⟨rfl, _, _⟩ := id hi
        simp only [hi, and_self, if_true, slotStep_nil, hAt1]
      · simp only [hi, if_false]

/-! ## Slot offsets of valid classes -/

theorem toUInt_of_range (i : Int) (h0 : 0 ≤ i) (h1 : i < 4294967296) :
    ((toUInt i : Nat) : Int) = i := by
  unfold toUInt
  rw [Int.emod_eq_of_lt h0 h1]
  exact Int.toNat_of_nonneg h0

theorem toInt_of_lt (n : Nat) (h : (n : Int) < 2147483648) : toInt n = n := by
  unfold toInt
  have h1 : n % 4294967296 = n := Nat.mod_eq_of_lt (by omega)
  rw [h1]
  have h2 : n < 2147483648 := by omega
  simp [h2]

theorem slotOffset_congr (s t : Task) (h : SameConfig s t) (v c r : Nat) :
    slotOffset t v c r = slotOffset s v c r := by
  obtain ⟨h1, h2, _, _⟩ := h
  simp only [slotOffset, GetNumberOfCentralityBins, h1, h2]

theorem slotOffset_valid (s : Task) (v c r : Int) (hv : ValidClass s v c r)
    (hcap : poolCapacity s < 2147483648) :
    slotOffset s (toUInt v) (toUInt c) (toUInt r) =
        v * GetNumberOfCentralityBins s * (s.fNEMRPBins : Int) + c * (s.fNEMRPBins : Int) + r ∧
      0 ≤ slotOffset s (toUInt v) (toUInt c) (toUInt r) ∧
      slotOffset s (toUInt v) (toUInt c) (toUInt r) < poolCapacity s := by
  obtain ⟨⟨hv0, hv1⟩, ⟨hc0, hc1⟩, ⟨hr0, hr1⟩⟩ := hv
  unfold poolCapacity at hcap ⊢
  generalize hnC : GetNumberOfCentralityBins s = nC at *
  generalize hnR : (s.fNEMRPBins : Int) = nR at *
  have hnC1 : 1 ≤ nC := by omega
  have hnR1 : 1 ≤ nR := by omega
  have hnV1 : 1 ≤ s.fNVtxZBins := by omega
  have hCR : 1 ≤ nC * nR := by nlinarith
  have hvCR : v ≤ v * nC * nR := by nlinarith
  have hcR : c ≤ c * nR := by nlinarith
  have hcR0 : 0 ≤ c * nR := by nlinarith
  have hvCR0 : 0 ≤ v * nC * nR := by nlinarith
  have hup : v * nC * nR + c * nR + r < s.fNVtxZBins * nC * nR := by
    have h1 : (v + 1) * (nC * nR) ≤ s.fNVtxZBins * (nC * nR) :=
      mul_le_mul_of_nonneg_right (by omega) (by omega)
    have h2 : (c + 1) * nR ≤ nC * nR := mul_le_mul_of_nonneg_right (by omega) (by omega)
    nlinarith
  have hnCcap : nC ≤ s.fNVtxZBins * nC * nR := by
    have h1 : 1 * nC ≤ s.fNVtxZBins * nC := mul_le_mul_of_nonneg_right hnV1 (by omega)
    have h2 : s.fNVtxZBins * nC * 1 ≤ s.fNVtxZBins * nC * nR :=
      mul_le_mul_of_nonneg_left hnR1 (by nlinarith)
    linarith
  have key : slotOffset s (toUInt v) (toUInt c) (toUInt r) = v * nC * nR + c * nR + r := by
    unfold slotOffset
    have hcast : ((toUInt v * toUInt (GetNumberOfCentralityBins s) * s.fNEMRPBins
        + toUInt c * s.fNEMRPBins + toUInt r : Nat) : Int) = v * nC * nR + c * nR + r := by
      push_cast
      rw [toUInt_of_range v hv0 (by omega), toUInt_of_range c hc0 (by omega),
        toUInt_of_range r hr0 (by omega), hnR, hnC, toUInt_of_range nC (by omega) (by omega)]
    rw [toInt_of_lt _ (by rw [hcast]; omega), hcast]
  rw [key]
  exact ⟨rfl, by omega, hup⟩

theorem divmod_unique (a b c d n : Int) (hb : 0 ≤ b) (hbn : b < n) (hd : 0 ≤ d) (hdn : d < n)
    (h : a * n + b = c * n + d) : a = c ∧ b = d := by
  have hac : a = c := by
    rcases lt_trichotomy a c with hlt | heq | hgt
    · have := mul_le_mul_of_nonneg_right (show a + 1 ≤ c by omega) (show 0 ≤ n by omega)
      nlinarith
    · exact heq
    · have := mul_le_mul_of_nonneg_right (show c + 1 ≤ a by omega) (show 0 ≤ n by omega)
      nlinarith
  subst hac
  exact ⟨rfl, by linarith⟩

theorem slotOffset_injective (s : Task) (v c r v1 c1 r1 : Int) (hv : ValidClass s v c r)
    (hv1 : ValidClass s v1 c1 r1) (hcap : poolCapacity s < 2147483648)
    (h : slotOffset s (toUInt v) (toUInt c) (toUInt r) =
      slotOffset s (toUInt v1) (toUInt c1) (toUInt r1)) :
    v = v1 ∧ c = c1 ∧ r = r1 := by
  rw [(slotOffset_valid s v c r hv hcap).1, (slotOffset_valid s v1 c1 r1 hv1 hcap).1] at h
  obtain ⟨_, ⟨hc0, hc1⟩, ⟨hr0, hr1⟩⟩ := hv
  obtain ⟨_, ⟨hc0a, hc1a⟩, ⟨hr0a, hr1a⟩⟩ := hv1
  have h1 := divmod_unique (v * GetNumberOfCentralityBins s + c) r
    (v1 * GetNumberOfCentralityBins s + c1) r1 (s.fNEMRPBins : Int) hr0 hr1 hr0a hr1a
    (by linarith)
  have h2 := divmod_unique v c v1 c1 (GetNumberOfCentralityBins s) hc0 hc1 hc0a hc1a h1.1
  exact ⟨h2.1, h2.2, h1.2⟩

/-! ## Invariants of the pools -/

theorem photonList_eq (s : Task) (pl : TObjArray AliCaloPhoton)
    (h : s.fCaloPhotonsPHOSLists = some pl) (v c r : Int) :
    photonList s v c r = slotList pl (slotOffset s (toUInt v) (toUInt c) (toUInt r)) := by
  simp [photonList, storedList, h, slotList]

theorem trackList_eq (s : Task) (tl : TObjArray TLorentzVector)
    (h : s.fTracksTPCLists = some tl) (v c r : Int) :
    trackList s v c r = slotList tl (slotOffset s (toUInt v) (toUInt c) (toUInt r)) := by
  simp [trackList, storedList, h, slotList]

theorem TArrayI_index_nonneg (a : List Int) (h : ∀ n ∈ a, 0 ≤ n) (i : Int) :
    0 ≤ TArrayI.index a i := by
  have key : ∀ k : Nat, 0 ≤ a.getD k 0 := by
    intro k
    rw [List.getD_eq_getElem?_getD]
    cases hk : a[k]? with
    | none => simp
    | some x => exact h x (List.getElem?_mem hk)
  unfold TArrayI.index
  split
  · exact key _
  · exact key _

theorem slotStep_length_le {α : Type} (limit : Int) (array : List α) (old : List (List α))
    (h : (old.length : Int) ≤ limit) :
    ((slotStep limit array old).length : Int) ≤ limit := by
  unfold slotStep
  split
  · split
    · simpa using h
    · omega
  · exact h

theorem run_photons_spec (s : Task) (v c r : Int) (array : List AliCaloPhoton)
    (pl : TObjArray AliCaloPhoton) (hpl : s.fCaloPhotonsPHOSLists = some pl) :
    ∃ t pl1, (PoolCall.photons v c r array).run s = some t ∧ SameConfig s t ∧
      t.fTracksTPCLists = s.fTracksTPCLists ∧ t.fCaloPhotonsPHOSLists = some pl1 ∧
      pl1.length = pl.length ∧
      ∀ i : Int, slotList pl1 i =
        if i = slotOffset s (toUInt v) (toUInt c) (toUInt r) ∧
            0 ≤ slotOffset s (toUInt v) (toUInt c) (toUInt r) ∧
            slotOffset s (toUInt v) (toUInt c) (toUInt r) < pl.length
        then slotStep (TArrayI.index s.fCentNMixed c) array (slotList pl i)
        else slotList pl i :=
  UpdatePhotonLists_spec
    { s with fVtxBin := v, fCentBin := c, fEMRPBin := r, fCaloPhotonsPHOS := some array }
    pl array hpl rfl

theorem run_tracks_spec (s : Task) (v c r : Int) (array : List TLorentzVector)
    (tl : TObjArray TLorentzVector) (htl : s.fTracksTPCLists = some tl) :
    ∃ t tl1, (PoolCall.tracks v c r array).run s = some t ∧ SameConfig s t ∧
      t.fCaloPhotonsPHOSLists = s.fCaloPhotonsPHOSLists ∧ t.fTracksTPCLists = some tl1 ∧
      tl1.length = tl.length ∧
      ∀ i : Int, slotList tl1 i =
        if i = slotOffset s (toUInt v) (toUInt c) (toUInt r) ∧
            0 ≤ slotOffset s (toUInt v) (toUInt c) (toUInt r) ∧
            slotOffset s (toUInt v) (toUInt c) (toUInt r) < tl.length
        then slotStep (TArrayI.index s.fCentNMixed c) array (slotList tl i)
        else slotList tl i :=
  UpdateTrackLists_spec
    { s with fVtxBin := v, fCentBin := c, fEMRPBin := r, fTracksTPC := some array }
    tl array htl rfl

theorem SameConfig.trans {s t u : Task} (h1 : SameConfig s t) (h2 : SameConfig t u) :
    SameConfig s u :=
  ⟨h2.1.trans h1.1, h2.2.1.trans h1.2.1, h2.2.2.1.trans h1.2.2.1, h2.2.2.2.trans h1.2.2.2⟩

theorem ValidClass_congr {s t : Task} (h : SameConfig s t) (v c r : Int) :
    ValidClass t v c r ↔ ValidClass s v c r := by
  obtain ⟨h1, h2, _, h4⟩ := h
  simp only [ValidClass, GetNumberOfCentralityBins, h1, h2, h4]

theorem poolCapacity_congr {s t : Task} (h : SameConfig s t) :
    poolCapacity t = poolCapacity s := by
  obtain ⟨h1, h2, _, h4⟩ := h
  simp only [poolCapacity, GetNumberOfCentralityBins, h1, h2, h4]

/-- The pools are allocated (neither pool pointer is null). -/
theorem PoolsEmpty.allocated {s : Task} (h : PoolsEmpty s) :
    (∃ pl, s.fCaloPhotonsPHOSLists = some pl) ∧ (∃ tl, s.fTracksTPCLists = some tl) :=
  ⟨⟨h.1.choose, h.1.choose_spec.1⟩, ⟨h.2.choose, h.2.choose_spec.1⟩⟩

theorem slotList_of_empty {α : Type} (lists : TObjArray α)
    (h : ∀ slot ∈ lists, slot.getD [] = []) (i : Int) : slotList lists i = [] := by
  unfold slotList TObjArray.At
  split
  · rw [List.getD_eq_getElem?_getD]
    cases hk : lists[i.toNat]? with
    | none => rfl
    | some slot => exact h slot (List.getElem?_mem hk)
  · rfl

/-- One valid update keeps every valid class within its depth limit. -/
theorem depth_step (s : Task) (call : PoolCall)
    (halloc : (∃ pl, s.fCaloPhotonsPHOSLists = some pl) ∧ (∃ tl, s.fTracksTPCLists = some tl))
    (hcap : poolCapacity s < 2147483648) (hcall : call.Valid s)
    (hinv : ∀ v c r, ValidClass s v c r →
      ((photonList s v c r).length : Int) ≤ TArrayI.index s.fCentNMixed c ∧
      ((trackList s v c r).length : Int) ≤ TArrayI.index s.fCentNMixed c) :
    ∃ t, call.run s = some t ∧ SameConfig s t ∧
      ((∃ pl, t.fCaloPhotonsPHOSLists = some pl) ∧ (∃ tl, t.fTracksTPCLists = some tl)) ∧
      ∀ v c r, ValidClass t v c r →
        ((photonList t v c r).length : Int) ≤ TArrayI.index t.fCentNMixed c ∧
        ((trackList t v c r).length : Int) ≤ TArrayI.index t.fCentNMixed c := by
  obtain ⟨⟨pl, hpl⟩, ⟨tl, htl⟩⟩ := halloc
  cases call with
  | photons v0 c0 r0 array =>
    obtain ⟨t, pl1, hrun, hcfg, htr, hpl1, _, hslots⟩ := run_photons_spec s v0 c0 r0 array pl hpl
    refine ⟨t, hrun, hcfg, ⟨⟨pl1, hpl1⟩, ⟨tl, htr.trans htl⟩⟩, ?_⟩
    intro v c r hval
    have hval1 : ValidClass s v c r := (ValidClass_congr hcfg v c r).1 hval
    have hold := hinv v c r hval1
    rw [photonList_eq s pl hpl] at hold
    have htrack : trackList t v c r = trackList s v c r := by
      rw [trackList_eq t tl (htr.trans htl), trackList_eq s tl htl, slotOffset_congr s t hcfg]
    rw [htrack, hcfg.2.2.1, photonList_eq t pl1 hpl1, slotOffset_congr s t hcfg, hslots]
    refine ⟨?_, hold.2⟩
    split
    · next hi =>
      have hc : c = c0 := (slotOffset_injective s v c r v0 c0 r0 hval1 hcall hcap hi.1).2.1
      subst hc
      exact slotStep_length_le _ _ _ hold.1
    · exact hold.1
  | tracks v0 c0 r0 array =>
    obtain ⟨t, tl1, hrun, hcfg, hph, htl1, _, hslots⟩ := run_tracks_spec s v0 c0 r0 array tl htl
    refine ⟨t, hrun, hcfg, ⟨⟨pl, hph.trans hpl⟩, ⟨tl1, htl1⟩⟩, ?_⟩
    intro v c r hval
    have hval1 : ValidClass s v c r := (ValidClass_congr hcfg v c r).1 hval
    have hold := hinv v c r hval1
    rw [trackList_eq s tl htl] at hold
    have hphot : photonList t v c r = photonList s v c r := by
      rw [photonList_eq t pl (hph.trans hpl), photonList_eq s pl hpl, slotOffset_congr s t hcfg]
    rw [hphot, hcfg.2.2.1, trackList_eq t tl1 htl1, slotOffset_congr s t hcfg, hslots]
    refine ⟨hold.1, ?_⟩
    split
    · next hi =>
      have hc : c = c0 := (slotOffset_injective s v c r v0 c0 r0 hval1 hcall hcap hi.1).2.1
      subst hc
      exact slotStep_length_le _ _ _ hold.2
    · exact hold.2

theorem depth_run (calls : List PoolCall) : ∀ (s : Task),
    ((∃ pl, s.fCaloPhotonsPHOSLists = some pl) ∧ (∃ tl, s.fTracksTPCLists = some tl)) →
    poolCapacity s < 2147483648 → (∀ call ∈ calls, call.Valid s) →
    (∀ v c r, ValidClass s v c r →
      ((photonList s v c r).length : Int) ≤ TArrayI.index s.fCentNMixed c ∧
      ((trackList s v c r).length : Int) ≤ TArrayI.index s.fCentNMixed c) →
    ∃ t, runCalls s calls = some t ∧ SameConfig s t ∧
      ∀ v c r, ValidClass t v c r →
        ((photonList t v c r).length : Int) ≤ TArrayI.index t.fCentNMixed c ∧
        ((trackList t v c r).length : Int) ≤ TArrayI.index t.fCentNMixed c := by
  induction calls with
  | nil =>
    intro s _ _ _ hinv
    exact ⟨s, rfl, ⟨rfl, rfl, rfl, rfl⟩, hinv⟩
  | cons call rest ih =>
    intro s halloc hcap hcalls hinv
    obtain ⟨t, hrun, hcfg, halloc1, hinv1⟩ :=
      depth_step s call halloc hcap (hcalls call (List.mem_cons_self _ _)) hinv
    have hvalid : ∀ c ∈ rest, PoolCall.Valid t c := by
      intro c hc
      have := hcalls c (List.mem_cons_of_mem _ hc)
      cases c with
      | photons v c r a => exact (ValidClass_congr hcfg v c r).2 this
      | tracks v c r a => exact (ValidClass_congr hcfg v c r).2 this
    obtain ⟨u, hrun2, hcfg2, hinv2⟩ := ih t halloc1
      (by rw [poolCapacity_congr hcfg]; exact hcap) hvalid hinv1
    exact ⟨u, by simp [runCalls, hrun, hrun2], hcfg.trans hcfg2, hinv2⟩

theorem PoolsEmpty_exampleTask : PoolsEmpty exampleTask := by
  refine ⟨⟨List.replicate 36 none, rfl, ?_⟩, ⟨List.replicate 36 none, rfl, ?_⟩⟩
  · intro slot h
    rw [List.eq_of_mem_replicate h]
    rfl
  · intro slot h
    rw [List.eq_of_mem_replicate h]
    rfl

/-! ## Depth of the pools -/

/-- C1. Mixing-pool depth invariant: from empty pools and non-negative depth
limits, after any sequence of `UpdatePhotonLists` / `UpdateTrackLists` calls made
for valid event classes, both runs to completion and the list stored for every
valid event class `(vtxBin, centBin, rpBin)`, in either pool, holds at most
`fCentNMixed[centBin]` arrays: the bound depends on the centrality bin alone. -/
theorem mixing_pool_depth_invariant (s0 : Task) (calls : List PoolCall)
    (hempty : PoolsEmpty s0)
    (hlimits : ∀ n ∈ s0.fCentNMixed, 0 ≤ n)
    (hcap : poolCapacity s0 < 2147483648)
    (hcalls : ∀ call ∈ calls, call.Valid s0) :
    ∃ s, runCalls s0 calls = some s ∧
      ∀ vtxBin centBin rpBin : Int, ValidClass s0 vtxBin centBin rpBin →
        ((photonList s vtxBin centBin rpBin).length : Int) ≤ TArrayI.index s0.fCentNMixed centBin ∧
        ((trackList s vtxBin centBin rpBin).length : Int) ≤ TArrayI.index s0.fCentNMixed centBin := by
  have hinv0 : ∀ v c r, ValidClass s0 v c r →
      ((photonList s0 v c r).length : Int) ≤ TArrayI.index s0.fCentNMixed c ∧
      ((trackList s0 v c r).length : Int) ≤ TArrayI.index s0.fCentNMixed c := by
    intro v c r _
    obtain ⟨⟨pl, hpl, hpe⟩, ⟨tl, htl, hte⟩⟩ := hempty
    rw [photonList_eq s0 pl hpl, trackList_eq s0 tl htl, slotList_of_empty pl hpe,
      slotList_of_empty tl hte]
    exact ⟨TArrayI_index_nonneg _ hlimits _, TArrayI_index_nonneg _ hlimits _⟩
  obtain ⟨s, hrun, hcfg, hinv⟩ := depth_run calls s0 hempty.allocated hcap hcalls hinv0
  refine ⟨s, hrun, ?_⟩
  intro v c r hval
  have := hinv v c r ((ValidClass_congr hcfg v c r).2 hval)
  rwa [hcfg.2.2.1] at this

/-- C1, an instance: eight updates on the example configuration. -/
theorem mixing_pool_depth_invariant_witness :
    (PoolsEmpty exampleTask ∧ (∀ n ∈ exampleTask.fCentNMixed, 0 ≤ n) ∧
      poolCapacity exampleTask < 2147483648 ∧
      ∀ call ∈ exampleCalls, call.Valid exampleTask) ∧
    ∃ s, runCalls exampleTask exampleCalls = some s ∧
      ∀ vtxBin centBin rpBin : Int, ValidClass exampleTask vtxBin centBin rpBin →
        ((photonList s vtxBin centBin rpBin).length : Int) ≤
          TArrayI.index exampleTask.fCentNMixed centBin ∧
        ((trackList s vtxBin centBin rpBin).length : Int) ≤
          TArrayI.index exampleTask.fCentNMixed centBin :=
  ⟨⟨PoolsEmpty_exampleTask, by decide, by decide, by decide⟩,
    mixing_pool_depth_invariant exampleTask exampleCalls PoolsEmpty_exampleTask (by decide)
      (by decide) (by decide)⟩

/-! ## Content of one pool slot -/

theorem slotStep_eq_take {α : Type} (limit : Int) (array : List α) (old : List (List α))
    (hne : array ≠ []) (h0 : 0 ≤ limit) (h : (old.length : Int) ≤ limit) :
    slotStep limit array old = (array :: old).take limit.toNat := by
  have hpos : array.length > 0 := List.length_pos.2 hne
  unfold slotStep
  rw [if_pos hpos]
  split
  · next hgt =>
    have hl : limit.toNat = (array :: old).length - 1 := by
      simp only [List.length_cons] at hgt ⊢
      omega
    rw [hl, List.dropLast_eq_take]
  · next hle =>
    rw [List.take_of_length_le]
    simp only [List.length_cons] at hle ⊢
    omega

theorem take_append_take {α : Type} (n : Nat) (xs ys : List α) :
    (xs ++ ys.take n).take n = (xs ++ ys).take n := by
  rw [List.take_append_eq_append_take, List.take_append_eq_append_take, List.take_take]
  congr 2
  omega

theorem foldl_slotStep {α : Type} (limit : Int) (h0 : 0 ≤ limit) (arrays : List (List α)) :
    ∀ old : List (List α), (∀ a ∈ arrays, a ≠ []) → (old.length : Int) ≤ limit →
      arrays.foldl (fun l a => slotStep limit a l) old =
        (arrays.reverse ++ old).take limit.toNat := by
  induction arrays with
  | nil =>
    intro old _ h
    simp only [List.foldl_nil, List.reverse_nil, List.nil_append]
    rw [List.take_of_length_le]
    omega
  | cons a rest ih =>
    intro old hne h
    have ha : a ≠ [] := hne a (List.mem_cons_self _ _)
    rw [List.foldl_cons, slotStep_eq_take limit a old ha h0 h,
      ih _ (fun b hb => hne b (List.mem_cons_of_mem _ hb)) (by
        rw [List.length_take]
        omega),
      take_append_take, List.reverse_cons, List.append_assoc, List.singleton_append]

theorem fifo_run (v c r : Int) (arrays : List (List AliCaloPhoton)) :
    ∀ (s : Task) (pl : TObjArray AliCaloPhoton), s.fCaloPhotonsPHOSLists = some pl →
      ValidClass s v c r → poolCapacity s < 2147483648 → poolCapacity s ≤ pl.length →
      ∃ t, runCalls s (arrays.map (PoolCall.photons v c r)) = some t ∧ SameConfig s t ∧
        photonList t v c r =
          arrays.foldl (fun l a => slotStep (TArrayI.index s.fCentNMixed c) a l)
            (photonList s v c r) := by
  induction arrays with
  | nil =>
    intro s pl _ _ _ _
    exact ⟨s, rfl, ⟨rfl, rfl, rfl, rfl⟩, rfl⟩
  | cons a rest ih =>
    intro s pl hpl hval hcap hlen
    obtain ⟨t, pl1, hrun, hcfg, _, hpl1, hlen1, hslots⟩ := run_photons_spec s v c r a pl hpl
    obtain ⟨_, hoff0, hoff1⟩ := slotOffset_valid s v c r hval hcap
    have hstep : photonList t v c r =
        slotStep (TArrayI.index s.fCentNMixed c) a (photonList s v c r) := by
      rw [photonList_eq t pl1 hpl1, photonList_eq s pl hpl, slotOffset_congr s t hcfg, hslots,
        if_pos ⟨rfl, hoff0, by omega⟩]
    obtain ⟨u, hrun2, hcfg2, hu⟩ := ih t pl1 hpl1 ((ValidClass_congr hcfg v c r).2 hval)
      (by rw [poolCapacity_congr hcfg]; exact hcap)
      (by rw [poolCapacity_congr hcfg, hlen1]; exact hlen)
    refine ⟨u, by simp [runCalls, hrun, hrun2], hcfg.trans hcfg2, ?_⟩
    rw [hu, hstep, hcfg.2.2.1, List.foldl_cons]

/-- C2. FIFO content of a pool slot: for a depth limit `L ≥ 0` and non-empty
candidate arrays `a1 .. ak` handed in that order to `UpdatePhotonLists` for one
valid event class whose list starts empty, the run completes and the class's
list is exactly the `min k L` most recently added arrays, most recent first
(`ak` at the front). -/
theorem pool_slot_fifo (s0 : Task) (vtxBin centBin rpBin : Int) (L : Int)
    (arrays : List (List AliCaloPhoton))
    (hvalid : ValidClass s0 vtxBin centBin rpBin)
    (hcap : poolCapacity s0 < 2147483648)
    (hpool : ∃ pl, s0.fCaloPhotonsPHOSLists = some pl ∧ poolCapacity s0 ≤ pl.length)
    (hstart : photonList s0 vtxBin centBin rpBin = [])
    (hL : TArrayI.index s0.fCentNMixed centBin = L) (h0 : 0 ≤ L)
    (hne : ∀ a ∈ arrays, a ≠ []) :
    ∃ s, runCalls s0 (arrays.map (PoolCall.photons vtxBin centBin rpBin)) = some s ∧
      photonList s vtxBin centBin rpBin = arrays.reverse.take L.toNat ∧
      (photonList s vtxBin centBin rpBin).length = min arrays.length L.toNat := by
  obtain ⟨pl, hpl, hlen⟩ := hpool
  obtain ⟨s, hrun, _, hs⟩ := fifo_run vtxBin centBin rpBin arrays s0 pl hpl hvalid hcap hlen
  have hlist : photonList s vtxBin centBin rpBin = arrays.reverse.take L.toNat := by
    rw [hs, hstart, hL, foldl_slotStep L h0 arrays [] hne (by simpa using h0),
      List.append_nil]
  refine ⟨s, hrun, hlist, ?_⟩
  rw [hlist, List.length_take, List.length_reverse, Nat.min_comm]

/-- C2, the scenario of the specification: seven non-empty arrays with limit 4
leave exactly the last four, most recent first. -/
theorem pool_slot_fifo_witness :
    (ValidClass exampleTask 0 0 3 ∧ poolCapacity exampleTask < 2147483648 ∧
      (∃ pl, exampleTask.fCaloPhotonsPHOSLists = some pl ∧
        poolCapacity exampleTask ≤ pl.length) ∧
      photonList exampleTask 0 0 3 = [] ∧ TArrayI.index exampleTask.fCentNMixed 0 = 4 ∧
      (0 : Int) ≤ 4 ∧
      ∀ a ∈ [examplePhotons 1, examplePhotons 2, examplePhotons 3, examplePhotons 4,
        examplePhotons 5, examplePhotons 6, examplePhotons 7], a ≠ []) ∧
    ∃ s, runCalls exampleTask
        ([examplePhotons 1, examplePhotons 2, examplePhotons 3, examplePhotons 4,
          examplePhotons 5, examplePhotons 6, examplePhotons 7].map
          (PoolCall.photons 0 0 3)) = some s ∧
      photonList s 0 0 3 =
        [examplePhotons 7, examplePhotons 6, examplePhotons 5, examplePhotons 4] ∧
      (photonList s 0 0 3).length = 4 :=
  ⟨⟨by decide, by decide, ⟨List.replicate 36 none, rfl, by decide⟩, by decide, by decide,
      by decide, by decide⟩,
    pool_slot_fifo exampleTask 0 0 3 4 _ (by decide) (by decide)
      ⟨List.replicate 36 none, rfl, by decide⟩ (by decide) (by decide) (by decide)
      (by decide)⟩

/-! ## Empty arrays -/

theorem slotStep_mem {α : Type} (limit : Int) (array : List α) (old : List (List α))
    (x : List α) (hx : x ∈ slotStep limit array old) : (x = array ∧ array ≠ []) ∨ x ∈ old := by
  unfold slotStep at hx
  split at hx
  · next hpos =>
    have hne : array ≠ [] := List.length_pos.1 hpos
    have hmem : x ∈ array :: old := by
      split at hx
      · exact List.mem_of_mem_dropLast hx
      · exact hx
    rcases List.mem_cons.1 hmem with h | h
    · exact Or.inl ⟨h, hne⟩
    · exact Or.inr h
  · exact Or.inr hx

/-- One update keeps every stored array non-empty. -/
theorem nonempty_step (s : Task) (call : PoolCall) (pl : TObjArray AliCaloPhoton)
    (tl : TObjArray TLorentzVector) (hpl : s.fCaloPhotonsPHOSLists = some pl)
    (htl : s.fTracksTPCLists = some tl)
    (hp : ∀ i, ∀ a ∈ slotList pl i, a ≠ []) (ht : ∀ i, ∀ a ∈ slotList tl i, a ≠ []) :
    ∃ t pl1 tl1, call.run s = some t ∧ t.fCaloPhotonsPHOSLists = some pl1 ∧
      t.fTracksTPCLists = some tl1 ∧ (∀ i, ∀ a ∈ slotList pl1 i, a ≠ []) ∧
      (∀ i, ∀ a ∈ slotList tl1 i, a ≠ []) := by
  cases call with
  | photons v c r array =>
    obtain ⟨t, pl1, hrun, _, htr, hpl1, _, hslots⟩ := run_photons_spec s v c r array pl hpl
    refine ⟨t, pl1, tl, hrun, hpl1, htr.trans htl, ?_, ht⟩
    intro i a ha
    rw [hslots] at ha
    split at ha
    · rcases slotStep_mem _ _ _ _ ha with h | h
      · rw [h.1]
        exact h.2
      · exact hp i a h
    · exact hp i a ha
  | tracks v c r array =>
    obtain ⟨t, tl1, hrun, _, hph, htl1, _, hslots⟩ := run_tracks_spec s v c r array tl htl
    refine ⟨t, pl, tl1, hrun, hph.trans hpl, htl1, hp, ?_⟩
    intro i a ha
    rw [hslots] at ha
    split at ha
    · rcases slotStep_mem _ _ _ _ ha with h | h
      · rw [h.1]
        exact h.2
      · exact ht i a h
    · exact ht i a ha

theorem nonempty_run (calls : List PoolCall) :
    ∀ (s : Task) (pl : TObjArray AliCaloPhoton) (tl : TObjArray TLorentzVector),
      s.fCaloPhotonsPHOSLists = some pl → s.fTracksTPCLists = some tl →
      (∀ i, ∀ a ∈ slotList pl i, a ≠ []) → (∀ i, ∀ a ∈ slotList tl i, a ≠ []) →
      ∃ t pl1 tl1, runCalls s calls = some t ∧ t.fCaloPhotonsPHOSLists = some pl1 ∧
        t.fTracksTPCLists = some tl1 ∧ (∀ i, ∀ a ∈ slotList pl1 i, a ≠ []) ∧
        (∀ i, ∀ a ∈ slotList tl1 i, a ≠ []) := by
  induction calls with
  | nil =>
    intro s pl tl hpl htl hp ht
    exact ⟨s, pl, tl, rfl, hpl, htl, hp, ht⟩
  | cons call rest ih =>
    intro s pl tl hpl htl hp ht
    obtain ⟨t, pl1, tl1, hrun, hpl1, htl1, hp1, ht1⟩ := nonempty_step s call pl tl hpl htl hp ht
    obtain ⟨u, pl2, tl2, hrun2, hpl2, htl2, hp2, ht2⟩ := ih t pl1 tl1 hpl1 htl1 hp1 ht1
    exact ⟨u, pl2, tl2, by simp [runCalls, hrun, hrun2], hpl2, htl2, hp2, ht2⟩

/-- C3. Empty arrays are never pooled: with the pools allocated, when the current
photon array (respectively track array) has zero entries `UpdatePhotonLists`
(respectively `UpdateTrackLists`) completes and leaves the stored list of every
event class, in both pools, as it was; and after any sequence of updates from
empty pools every array stored in either pool is non-empty. -/
theorem empty_arrays_never_pooled (s s0 : Task) (calls : List PoolCall)
    (hpl : s.fCaloPhotonsPHOSLists ≠ none) (htl : s.fTracksTPCLists ≠ none)
    (hempty : PoolsEmpty s0) :
    (s.fCaloPhotonsPHOS = some [] →
      ∃ t, UpdatePhotonLists s = some t ∧
        ∀ vtxBin centBin rpBin : Int,
          photonList t vtxBin centBin rpBin = photonList s vtxBin centBin rpBin ∧
          trackList t vtxBin centBin rpBin = trackList s vtxBin centBin rpBin) ∧
    (s.fTracksTPC = some [] →
      ∃ t, UpdateTrackLists s = some t ∧
        ∀ vtxBin centBin rpBin : Int,
          photonList t vtxBin centBin rpBin = photonList s vtxBin centBin rpBin ∧
          trackList t vtxBin centBin rpBin = trackList s vtxBin centBin rpBin) ∧
    ∃ u, runCalls s0 calls = some u ∧
      ∀ vtxBin centBin rpBin : Int,
        (∀ a ∈ photonList u vtxBin centBin rpBin, a ≠ []) ∧
        (∀ a ∈ trackList u vtxBin centBin rpBin, a ≠ []) := by
  obtain ⟨pl, hpl⟩ := Option.ne_none_iff_exists'.1 hpl
  obtain ⟨tl, htl⟩ := Option.ne_none_iff_exists'.1 htl
  refine ⟨?_, ?_, ?_⟩
  · intro hp
    obtain ⟨t, pl1, hrun, hcfg, htr, hpl1, _, hslots⟩ := UpdatePhotonLists_spec s pl [] hpl hp
    refine ⟨t, hrun, fun v c r => ⟨?_, ?_⟩⟩
    · rw [photonList_eq t pl1 hpl1, photonList_eq s pl hpl, slotOffset_congr s t hcfg, hslots,
        slotStep_nil, ite_self]
    · rw [trackList_eq t tl (htr.trans htl), trackList_eq s tl htl, slotOffset_congr s t hcfg]
  · intro hp
    obtain ⟨t, tl1, hrun, hcfg, hph, htl1, _, hslots⟩ := UpdateTrackLists_spec s tl [] htl hp
    refine ⟨t, hrun, fun v c r => ⟨?_, ?_⟩⟩
    · rw [photonList_eq t pl (hph.trans hpl), photonList_eq s pl hpl, slotOffset_congr s t hcfg]
    · rw [trackList_eq t tl1 htl1, trackList_eq s tl htl, slotOffset_congr s t hcfg, hslots,
        slotStep_nil, ite_self]
  · obtain ⟨⟨pl0, hpl0, hpe⟩, ⟨tl0, htl0, hte⟩⟩ := hempty
    obtain ⟨u, pl1, tl1, hrun, hpl1, htl1, hp1, ht1⟩ := nonempty_run calls s0 pl0 tl0 hpl0 htl0
      (fun i a ha => by rw [slotList_of_empty pl0 hpe] at ha; cases ha)
      (fun i a ha => by rw [slotList_of_empty tl0 hte] at ha; cases ha)
    refine ⟨u, hrun, fun v c r => ⟨?_, ?_⟩⟩
    · rw [photonList_eq u pl1 hpl1]
      exact hp1 _
    · rw [trackList_eq u tl1 htl1]
      exact ht1 _

/-- C3, an instance: an event without candidates on the example configuration,
and the example updates from empty pools. -/
theorem empty_arrays_never_pooled_witness :
    (emptyEventTask.fCaloPhotonsPHOSLists ≠ none ∧ emptyEventTask.fTracksTPCLists ≠ none ∧
      PoolsEmpty exampleTask ∧ emptyEventTask.fCaloPhotonsPHOS = some [] ∧
      emptyEventTask.fTracksTPC = some []) ∧
    (∃ t, UpdatePhotonLists emptyEventTask = some t ∧
        ∀ vtxBin centBin rpBin : Int,
          photonList t vtxBin centBin rpBin = photonList emptyEventTask vtxBin centBin rpBin ∧
          trackList t vtxBin centBin rpBin = trackList emptyEventTask vtxBin centBin rpBin) ∧
    (∃ t, UpdateTrackLists emptyEventTask = some t ∧
        ∀ vtxBin centBin rpBin : Int,
          photonList t vtxBin centBin rpBin = photonList emptyEventTask vtxBin centBin rpBin ∧
          trackList t vtxBin centBin rpBin = trackList emptyEventTask vtxBin centBin rpBin) ∧
    ∃ u, runCalls exampleTask exampleCalls = some u ∧
      ∀ vtxBin centBin rpBin : Int,
        (∀ a ∈ photonList u vtxBin centBin rpBin, a ≠ []) ∧
        (∀ a ∈ trackList u vtxBin centBin rpBin, a ≠ []) :=
  have h := empty_arrays_never_pooled emptyEventTask exampleTask exampleCalls (by decide)
    (by decide) PoolsEmpty_exampleTask
  ⟨⟨by decide, by decide, PoolsEmpty_exampleTask, rfl, rfl⟩, h.1 rfl, h.2.1 rfl, h.2.2⟩

/-! ## Binary search and the centrality bin -/

theorem getD_eq_getElem_of_lt (a : List ℚ) (i : Nat) (h : i < a.length) :
    a.getD i 0 = a[i] := by
  rw [List.getD_eq_getElem?_getD, List.getElem?_eq_getElem h, Option.getD_some]

theorem getD_lt_of_sorted (a : List ℚ) (h : a.Sorted (· < ·)) (i j : Nat) (hij : i < j)
    (hj : j < a.length) : a.getD i 0 < a.getD j 0 := by
  rw [getD_eq_getElem_of_lt a i (by omega), getD_eq_getElem_of_lt a j hj]
  exact List.pairwise_iff_getElem.1 h i j (by omega) hj hij

theorem getD_le_of_sorted (a : List ℚ) (h : a.Sorted (· < ·)) (i j : Nat) (hij : i ≤ j)
    (hj : j < a.length) : a.getD i 0 ≤ a.getD j 0 := by
  rcases Nat.lt_or_eq_of_le hij with hlt | heq
  · exact le_of_lt (getD_lt_of_sorted a h i j hlt hj)
  · rw [heq]

theorem TArrayD_index_nat (a : List ℚ) (i : Nat) (h : i < a.length) :
    TArrayD.index a (i : Int) = a.getD i 0 := by
  unfold TArrayD.index
  rw [if_pos ⟨by omega, by omega⟩, Int.toNat_ofNat]

theorem TArrayD_At_nat (a : List ℚ) (i : Nat) (h : i < a.length) :
    TArrayD.At a (i : Int) = a.getD i 0 := by
  unfold TArrayD.At
  rw [if_pos ⟨by omega, by omega⟩, Int.toNat_ofNat]

/-- On an array that is non-decreasing on `[first, first+len)`, `lowerBound`
returns the first position of that range whose entry is not below `value`. -/
theorem lowerBound_spec (array : List ℚ) (value : ℚ)
    (hmono : ∀ i j : Nat, i ≤ j → j < array.length → array.getD i 0 ≤ array.getD j 0) :
    ∀ (fuel first len : Nat), len ≤ fuel → first + len ≤ array.length →
      first ≤ lowerBound array value fuel first len ∧
      lowerBound array value fuel first len ≤ first + len ∧
      (∀ i, first ≤ i → i < lowerBound array value fuel first len → array.getD i 0 < value) ∧
      (∀ i, lowerBound array value fuel first len ≤ i → i < first + len →
        value ≤ array.getD i 0) := by
  intro fuel
  induction fuel with
  | zero =>
    intro first len hlen _
    have : len = 0 := by omega
    subst this
    simp only [lowerBound]
    exact ⟨le_refl _, by omega, fun i h1 h2 => by omega, fun i h1 h2 => by omega⟩
  | succ fuel ih =>
    intro first len hlen hbound
    simp only [lowerBound]
    by_cases h0 : len = 0
    · simp only [h0, if_true]
      exact ⟨le_refl _, by omega, fun i h1 h2 => by omega, fun i h1 h2 => by omega⟩
    · simp only [h0, if_false]
      have hhalf : len / 2 < len := Nat.div_lt_self (by omega) (by omega)
      by_cases hmid : array.getD (first + len / 2) 0 < value
      · simp only [hmid, if_true]
        obtain ⟨h1, h2, h3, h4⟩ := ih (first + len / 2 + 1) (len - len / 2 - 1) (by omega)
          (by omega)
        refine ⟨by omega, by omega, ?_, ?_⟩
        · intro i hi1 hi2
          by_cases hi : i ≤ first + len / 2
          · exact lt_of_le_of_lt (hmono i _ hi (by omega)) hmid
          · exact h3 i (by omega) hi2
        · intro i hi1 hi2
          exact h4 i hi1 (by omega)
      · simp only [hmid, if_false]
        obtain ⟨h1, h2, h3, h4⟩ := ih first (len / 2) (by omega) (by omega)
        refine ⟨h1, by omega, h3, ?_⟩
        intro i hi1 hi2
        by_cases hi : i < first + len / 2
        · exact h4 i hi1 hi
        · exact le_trans (not_lt.1 hmid) (hmono _ i (by omega) (by omega))

/-- C4 (amended). For strictly increasing edges `E` (at least two) and every value
`v` with `E[0] ≤ v ≤ E[last]`, `GetCentralityBin(v)` returns an index `i` with
`E[i] ≤ v < E[i+1]`, or `i = last-1` when `v = E[last]`. -/
theorem centrality_bin_of_strict_edges (s : Task) (v : ℚ)
    (hlen : 2 ≤ s.fCentEdges.length)
    (hsorted : s.fCentEdges.Sorted (· < ·))
    (hlo : s.fCentEdges.getD 0 0 ≤ v)
    (hhi : v ≤ s.fCentEdges.getD (s.fCentEdges.length - 1) 0) :
    ∃ i : Nat, (GetCentralityBin s v).1 = (i : Int) ∧ i + 1 < s.fCentEdges.length ∧
      ((s.fCentEdges.getD i 0 ≤ v ∧ v < s.fCentEdges.getD (i + 1) 0) ∨
        (v = s.fCentEdges.getD (s.fCentEdges.length - 1) 0 ∧ i = s.fCentEdges.length - 2)) := by
  generalize hE : s.fCentEdges = E at *
  have hcast : ((E.length : Int) - 1) = ((E.length - 1 : Nat) : Int) := by omega
  have hlast : TArrayD.index E ((E.length - 1 : Nat) : Int) = E.getD (E.length - 1) 0 :=
    TArrayD_index_nat E _ (by omega)
  have hfirst : TArrayD.index E 0 = E.getD 0 0 := TArrayD_index_nat E 0 (by omega)
  have hmono := getD_le_of_sorted E hsorted
  obtain ⟨_, h2, h3, h4⟩ := lowerBound_spec E v hmono (E.length - 1) 0 (E.length - 1)
    (le_refl _) (by omega)
  simp only [GetCentralityBin, hE, GetNumberOfCentralityBins, TMath.BinarySearch, hcast,
    hlast, hfirst, gt_iff_lt, not_lt.2 hhi, not_lt.2 hlo, if_false, Int.toNat_ofNat]
  generalize lowerBound E v (E.length - 1) 0 (E.length - 1) = p at *
  by_cases hfound : p ≠ E.length - 1 ∧ E.getD p 0 = v
  · rw [if_pos hfound]
    refine ⟨p, rfl, by omega, Or.inl ⟨le_of_eq hfound.2, ?_⟩⟩
    rw [← hfound.2]
    exact getD_lt_of_sorted E hsorted p (p + 1) (by omega) (by omega)
  · rw [if_neg hfound]
    have hp0 : p ≠ 0 := by
      intro hp
      subst hp
      have h5 := h4 0 (le_refl _) (by omega)
      exact hfound ⟨by omega, le_antisymm hlo h5⟩
    refine ⟨p - 1, by omega, by omega, ?_⟩
    have hbelow : E.getD (p - 1) 0 < v := h3 (p - 1) (by omega) (by omega)
    by_cases hpn : p = E.length - 1
    · rcases lt_or_eq_of_le hhi with hlt | heq
      · left
        refine ⟨le_of_lt hbelow, ?_⟩
        rw [show p - 1 + 1 = E.length - 1 by omega]
        exact hlt
      · right
        exact ⟨heq, by omega⟩
    · left
      refine ⟨le_of_lt hbelow, ?_⟩
      rw [show p - 1 + 1 = p by omega]
      have h5 := h4 p (le_refl _) (by omega)
      exact lt_of_le_of_ne h5 (fun h => hfound ⟨hpn, h.symm⟩)

/-- C4, an instance of the amended statement: the edges of the specification's
scenario and the value 45, which lies in bin 2 = [30, 50). -/
theorem centrality_bin_of_strict_edges_witness :
    (2 ≤ exampleTask.fCentEdges.length ∧ exampleTask.fCentEdges.Sorted (· < ·) ∧
      exampleTask.fCentEdges.getD 0 0 ≤ 45 ∧
      (45 : ℚ) ≤ exampleTask.fCentEdges.getD (exampleTask.fCentEdges.length - 1) 0) ∧
    ∃ i : Nat, (GetCentralityBin exampleTask 45).1 = (i : Int) ∧
      i + 1 < exampleTask.fCentEdges.length ∧
      ((exampleTask.fCentEdges.getD i 0 ≤ 45 ∧ (45 : ℚ) < exampleTask.fCentEdges.getD (i + 1) 0) ∨
        ((45 : ℚ) = exampleTask.fCentEdges.getD (exampleTask.fCentEdges.length - 1) 0 ∧
          i = exampleTask.fCentEdges.length - 2)) :=
  ⟨⟨by decide, by decide, by decide, by decide⟩,
    centrality_bin_of_strict_edges exampleTask 45 (by decide) (by decide) (by decide)
      (by decide)⟩

/-- C4 as stated fails for edges that are sorted but not strictly increasing:
`SetCentralityBinning` installs the edges `[0, 10, 10, 20]`, the value 10 lies
within them, and `GetCentralityBin(10)` returns 1 although bin 1 = [10, 10) is
empty and 10 is not the last edge; no index meets the stated condition. -/
theorem centrality_bin_of_sorted_edges_counterexample :
    (∃ t, SetCentralityBinning {} [0, 10, 10, 20] [4, 4, 4] = .ok t ∧
      t.fCentEdges = duplicateEdgeTask.fCentEdges) ∧
    duplicateEdgeTask.fCentEdges.Sorted (· ≤ ·) ∧ 2 ≤ duplicateEdgeTask.fCentEdges.length ∧
    duplicateEdgeTask.fCentEdges.getD 0 0 ≤ 10 ∧
    (10 : ℚ) ≤ duplicateEdgeTask.fCentEdges.getD (duplicateEdgeTask.fCentEdges.length - 1) 0 ∧
    (GetCentralityBin duplicateEdgeTask 10).1 = 1 ∧
    ¬ ∃ i : Nat, (GetCentralityBin duplicateEdgeTask 10).1 = (i : Int) ∧
      ((duplicateEdgeTask.fCentEdges.getD i 0 ≤ 10 ∧
          (10 : ℚ) < duplicateEdgeTask.fCentEdges.getD (i + 1) 0) ∨
        ((10 : ℚ) = duplicateEdgeTask.fCentEdges.getD
            (duplicateEdgeTask.fCentEdges.length - 1) 0 ∧
          i = duplicateEdgeTask.fCentEdges.length - 2)) := by
  refine ⟨⟨_, rfl, rfl⟩, by decide, by decide, by decide, by decide, by decide, ?_⟩
  rintro ⟨i, hi, h⟩
  have h1 : (GetCentralityBin duplicateEdgeTask 10).1 = 1 := by decide
  have hi1 : i = 1 := by
    rw [h1] at hi
    exact_mod_cast hi.symm
  subst hi1
  revert h
  decide

/-- The two clamping branches of `GetCentralityBin`: the test against the last edge
comes first, the test against the first edge second. -/
theorem GetCentralityBin_clamped (s : Task) (v w : ℚ)
    (hlen : 2 ≤ s.fCentEdges.length)
    (hv : v > s.fCentEdges.getD (s.fCentEdges.length - 1) 0)
    (hw : w < s.fCentEdges.getD 0 0)
    (hw1 : w ≤ s.fCentEdges.getD (s.fCentEdges.length - 1) 0) :
    (GetCentralityBin s v).1 = (s.fCentEdges.length : Int) - 2 ∧
    (GetCentralityBin s w).1 = 0 := by
  have hcast : ((s.fCentEdges.length : Int) - 1) = ((s.fCentEdges.length - 1 : Nat) : Int) := by
    omega
  have hlast : TArrayD.index s.fCentEdges ((s.fCentEdges.length - 1 : Nat) : Int) =
      s.fCentEdges.getD (s.fCentEdges.length - 1) 0 := TArrayD_index_nat _ _ (by omega)
  have hfirst : TArrayD.index s.fCentEdges 0 = s.fCentEdges.getD 0 0 :=
    TArrayD_index_nat _ 0 (by omega)
  constructor
  · simp only [GetCentralityBin, hcast, hlast, hv, if_true]
    omega
  · simp only [GetCentralityBin, hcast, hlast, hfirst, gt_iff_lt, not_lt.2 hw1, hw, if_false,
      if_true]

/-! ## Configuration of the centrality binning -/

/-- The loop of `SetCentralityBinning` finds no descending neighbours exactly
when the edges are sorted in non-decreasing order. -/
theorem sortedCheck_iff (edges : List ℚ) :
    (List.range (edges.length - 1)).any
        (fun i : Nat => decide (TArrayD.At edges i > TArrayD.At edges ((i : Int) + 1))) = false ↔
      edges.Sorted (· ≤ ·) := by
  unfold List.Sorted
  rw [← List.chain'_iff_pairwise, List.chain'_iff_get, List.any_eq_false]
  have hat : ∀ i : Nat, i < edges.length - 1 →
      TArrayD.At edges i = edges[i]! ∧ TArrayD.At edges ((i : Int) + 1) = edges[i + 1]! := by
    intro i hi
    have h1 := TArrayD_At_nat edges i (by omega)
    have h2 := TArrayD_At_nat edges (i + 1) (by omega)
    rw [getD_eq_getElem_of_lt edges i (by omega)] at h1
    rw [getD_eq_getElem_of_lt edges (i + 1) (by omega)] at h2
    rw [getElem!_pos edges i (by omega), getElem!_pos edges (i + 1) (by omega)]
    exact ⟨h1, by exact_mod_cast h2⟩
  constructor
  · intro h i hi
    have := h i (List.mem_range.2 hi)
    rw [decide_eq_true_eq, (hat i hi).1, (hat i hi).2, getElem!_pos edges i (by omega),
      getElem!_pos edges (i + 1) (by omega)] at this
    simpa using this
  · intro h i hi
    have hi1 := List.mem_range.1 hi
    have := h i hi1
    rw [decide_eq_true_eq, (hat i hi1).1, (hat i hi1).2, getElem!_pos edges i (by omega),
      getElem!_pos edges (i + 1) (by omega)]
    simpa using this

/-- C6 (amended). `SetCentralityBinning(edges, nMixed)` fails fatally if and only
if the edges are not sorted in non-decreasing order (some edge is greater than its
successor) or the number of edges differs from the number of depth limits plus
one; otherwise it installs exactly the given edges and limits and changes nothing
else. -/
theorem set_centrality_binning_fatal_iff (s : Task) (edges : List ℚ) (nMixed : List Int) :
    ((∃ msg, SetCentralityBinning s edges nMixed = .error msg) ↔
      (¬ edges.Sorted (· ≤ ·) ∨ edges.length ≠ nMixed.length + 1)) ∧
    (¬ (¬ edges.Sorted (· ≤ ·) ∨ edges.length ≠ nMixed.length + 1) →
      SetCentralityBinning s edges nMixed =
        .ok { s with fCentEdges := edges, fCentNMixed := nMixed }) := by
  by_cases hs : edges.Sorted (· ≤ ·)
  · have hcheck := (sortedCheck_iff edges).2 hs
    by_cases hl : edges.length = nMixed.length + 1
    · have hres : SetCentralityBinning s edges nMixed =
          .ok { s with fCentEdges := edges, fCentNMixed := nMixed } := by
        unfold SetCentralityBinning
        rw [hcheck, if_neg (by simp), if_neg (not_not.2 hl)]
      refine ⟨⟨?_, ?_⟩, fun _ => hres⟩
      · rintro ⟨msg, hmsg⟩
        rw [hres] at hmsg
        cases hmsg
      · rintro (h | h)
        · exact absurd hs h
        · exact absurd hl h
    · have hres : SetCentralityBinning s edges nMixed =
          .error "edges and nMixed don't have appropriate relative sizes" := by
        unfold SetCentralityBinning
        rw [hcheck, if_neg (by simp), if_pos hl]
      exact ⟨⟨fun _ => Or.inr hl, fun _ => ⟨_, hres⟩⟩, fun h => absurd (Or.inr hl) h⟩
  · have hcheck : (List.range (edges.length - 1)).any
        (fun i : Nat => decide (TArrayD.At edges i > TArrayD.At edges ((i : Int) + 1))) =
          true := by
      cases h : (List.range (edges.length - 1)).any
        (fun i : Nat => decide (TArrayD.At edges i > TArrayD.At edges ((i : Int) + 1))) with
      | true => rfl
      | false => exact absurd ((sortedCheck_iff edges).1 h) hs
    have hres : SetCentralityBinning s edges nMixed = .error "edges are not sorted" := by
      unfold SetCentralityBinning
      rw [hcheck, if_pos rfl]
    exact ⟨⟨fun _ => Or.inl hs, fun _ => ⟨_, hres⟩⟩, fun h => absurd (Or.inl hs) h⟩

/-- C6, an instance: the binning of the named constructor is accepted and
installed. -/
theorem set_centrality_binning_fatal_iff_witness :
    ¬ (¬ ([0, 5, 10, 20, 30, 40, 50, 60, 70, 80] : List ℚ).Sorted (· ≤ ·) ∨
      ([0, 5, 10, 20, 30, 40, 50, 60, 70, 80] : List ℚ).length ≠
        ([4, 4, 6, 10, 20, 30, 50, 100, 100] : List Int).length + 1) ∧
    SetCentralityBinning {} [0, 5, 10, 20, 30, 40, 50, 60, 70, 80]
        [4, 4, 6, 10, 20, 30, 50, 100, 100] =
      .ok { fCentEdges := [0, 5, 10, 20, 30, 40, 50, 60, 70, 80],
            fCentNMixed := [4, 4, 6, 10, 20, 30, 50, 100, 100] } :=
  ⟨by decide,
    (set_centrality_binning_fatal_iff {} [0, 5, 10, 20, 30, 40, 50, 60, 70, 80]
      [4, 4, 6, 10, 20, 30, 50, 100, 100]).2 (by decide)⟩

/-- C6 as stated fails: the edges `[0, 10, 10]` are not strictly increasing, the
counts match, and `SetCentralityBinning` does not fail but installs them. -/
theorem set_centrality_binning_counterexample :
    ¬ ([0, 10, 10] : List ℚ).Sorted (· < ·) ∧
    ([0, 10, 10] : List ℚ).length = ([4, 4] : List Int).length + 1 ∧
    SetCentralityBinning {} [0, 10, 10] [4, 4] =
      .ok { fCentEdges := [0, 10, 10], fCentNMixed := [4, 4] } ∧
    ¬ ∃ msg, SetCentralityBinning {} [0, 10, 10] [4, 4] = .error msg := by
  refine ⟨by decide, by decide, rfl, ?_⟩
  rintro ⟨msg, hmsg⟩
  have h : SetCentralityBinning {} [0, 10, 10] [4, 4] =
      .ok { fCentEdges := [0, 10, 10], fCentNMixed := [4, 4] } := rfl
  rw [h] at hmsg
  cases hmsg

/-! ## Reaction-plane bin -/

theorem TMath.Pi_pos : 0 < TMath.Pi := by
  unfold TMath.Pi
  norm_num

/-- For an angle in `[0, π)` and at least one bin, no clamping happens:
`GetRPBin` is the floor of `fNEMRPBins * fRP / π`, which lies in `[0, n-1]`. -/
theorem GetRPBin_eq_floor (s : Task) (hn : 1 ≤ s.fNEMRPBins) (h0 : 0 ≤ s.fRP)
    (h1 : s.fRP < TMath.Pi) :
    (GetRPBin s).1 = ⌊(s.fNEMRPBins : ℚ) * s.fRP / TMath.Pi⌋ ∧
      0 ≤ ⌊(s.fNEMRPBins : ℚ) * s.fRP / TMath.Pi⌋ ∧
      ⌊(s.fNEMRPBins : ℚ) * s.fRP / TMath.Pi⌋ ≤ (s.fNEMRPBins : Int) - 1 := by
  have hpi := TMath.Pi_pos
  have hn0 : (0 : ℚ) < (s.fNEMRPBins : ℚ) := by exact_mod_cast hn
  have hx0 : 0 ≤ (s.fNEMRPBins : ℚ) * s.fRP / TMath.Pi :=
    div_nonneg (mul_nonneg (le_of_lt hn0) h0) (le_of_lt hpi)
  have hx1 : (s.fNEMRPBins : ℚ) * s.fRP / TMath.Pi < ((s.fNEMRPBins : Int) : ℚ) := by
    rw [div_lt_iff₀ hpi]
    push_cast
    exact mul_lt_mul_of_pos_left h1 hn0
  have hf0 : 0 ≤ ⌊(s.fNEMRPBins : ℚ) * s.fRP / TMath.Pi⌋ := Int.floor_nonneg.2 hx0
  have hf1 : ⌊(s.fNEMRPBins : ℚ) * s.fRP / TMath.Pi⌋ < (s.fNEMRPBins : Int) :=
    Int.floor_lt.2 hx1
  refine ⟨?_, hf0, by omega⟩
  simp only [GetRPBin, truncToInt, hx0, if_true]
  rw [if_neg (by omega), if_neg (by omega)]

/-- C7. For every bin count `n ≥ 1` and every angle `a` in `[0, π)`, `GetRPBin`
returns `floor(n * a / π)` clamped to `[0, n-1]` (the clamp being idle), stores it
in `fEMRPBin`, and the result lies in `[0, n-1]`. -/
theorem rp_bin_floor_clamped (s : Task) (hn : 1 ≤ s.fNEMRPBins) (h0 : 0 ≤ s.fRP)
    (h1 : s.fRP < TMath.Pi) :
    (GetRPBin s).1 =
        max 0 (min ((s.fNEMRPBins : Int) - 1) ⌊(s.fNEMRPBins : ℚ) * s.fRP / TMath.Pi⌋) ∧
      (GetRPBin s).1 = ⌊(s.fNEMRPBins : ℚ) * s.fRP / TMath.Pi⌋ ∧
      (GetRPBin s).2.fEMRPBin = (GetRPBin s).1 ∧
      0 ≤ (GetRPBin s).1 ∧ (GetRPBin s).1 ≤ (s.fNEMRPBins : Int) - 1 := by
  obtain ⟨h, hf0, hf1⟩ := GetRPBin_eq_floor s hn h0 h1
  refine ⟨?_, h, rfl, by omega, by omega⟩
  rw [h, min_eq_right hf1, max_eq_right hf0]

/-- C7, an instance: nine bins and the angle 1 give bin 2. -/
theorem rp_bin_floor_clamped_witness :
    (1 ≤ rpExampleTask.fNEMRPBins ∧ 0 ≤ rpExampleTask.fRP ∧ rpExampleTask.fRP < TMath.Pi) ∧
    ((GetRPBin rpExampleTask).1 =
        max 0 (min ((rpExampleTask.fNEMRPBins : Int) - 1)
          ⌊(rpExampleTask.fNEMRPBins : ℚ) * rpExampleTask.fRP / TMath.Pi⌋) ∧
      (GetRPBin rpExampleTask).1 =
        ⌊(rpExampleTask.fNEMRPBins : ℚ) * rpExampleTask.fRP / TMath.Pi⌋ ∧
      (GetRPBin rpExampleTask).2.fEMRPBin = (GetRPBin rpExampleTask).1 ∧
      0 ≤ (GetRPBin rpExampleTask).1 ∧
      (GetRPBin rpExampleTask).1 ≤ (rpExampleTask.fNEMRPBins : Int) - 1) :=
  ⟨⟨by decide, by decide, by norm_num [rpExampleTask, TMath.Pi]⟩,
    rp_bin_floor_clamped rpExampleTask (by decide) (by decide)
      (by norm_num [rpExampleTask, TMath.Pi])⟩

/-- C8. `GetRPBin` is monotonically non-decreasing in the angle: for every bin
count `n ≥ 1` and all angles `a ≤ b` in `[0, π)`, the bin of `a` is at most the
bin of `b`. -/
theorem rp_bin_monotone (s : Task) (a b : ℚ) (hn : 1 ≤ s.fNEMRPBins) (ha : 0 ≤ a)
    (hab : a ≤ b) (hb : b < TMath.Pi) :
    (GetRPBin { s with fRP := a }).1 ≤ (GetRPBin { s with fRP := b }).1 := by
  have hn0 : (0 : ℚ) ≤ (s.fNEMRPBins : ℚ) := Nat.cast_nonneg _
  rw [(GetRPBin_eq_floor { s with fRP := a } hn ha (lt_of_le_of_lt hab hb)).1,
    (GetRPBin_eq_floor { s with fRP := b } hn (le_trans ha hab) hb).1]
  exact Int.floor_mono (div_le_div_of_nonneg_right (mul_le_mul_of_nonneg_left hab hn0)
    (le_of_lt TMath.Pi_pos))

/-- C8, an instance: nine bins, the angles 1 and 2. -/
theorem rp_bin_monotone_witness :
    (1 ≤ rpExampleTask.fNEMRPBins ∧ (0 : ℚ) ≤ 1 ∧ (1 : ℚ) ≤ 2 ∧ (2 : ℚ) < TMath.Pi) ∧
    (GetRPBin { rpExampleTask with fRP := 1 }).1 ≤
      (GetRPBin { rpExampleTask with fRP := 2 }).1 :=
  ⟨⟨by decide, by decide, by decide, by norm_num [TMath.Pi]⟩,
    rp_bin_monotone rpExampleTask 1 2 (by decide) (by decide) (by decide)
      (by norm_num [TMath.Pi])⟩

/-! ## Azimuthal difference -/

theorem wrapAbove_spec (d : ℚ) :
    wrapAbove d ≤ 3 / 2 * TMath.Pi ∧ (wrapAbove d = d ∨ -(1 / 2) * TMath.Pi < wrapAbove d) := by
  have hpi := TMath.Pi_pos
  induction d using wrapAbove.induct with
  | case1 d h ih =>
    rw [wrapAbove, if_pos h]
    refine ⟨ih.1, ?_⟩
    rcases ih.2 with h1 | h1
    · right
      rw [h1]
      linarith
    · exact Or.inr h1
  | case2 d h =>
    rw [wrapAbove, if_neg h]
    exact ⟨not_lt.1 h, Or.inl rfl⟩

theorem wrapBelow_spec (d : ℚ) :
    -(1 / 2) * TMath.Pi ≤ wrapBelow d ∧ (wrapBelow d = d ∨ wrapBelow d < 3 / 2 * TMath.Pi) := by
  have hpi := TMath.Pi_pos
  induction d using wrapBelow.induct with
  | case1 d h ih =>
    rw [wrapBelow, if_pos h]
    refine ⟨ih.1, ?_⟩
    rcases ih.2 with h1 | h1
    · right
      rw [h1]
      linarith
    · exact Or.inr h1
  | case2 d h =>
    rw [wrapBelow, if_neg h]
    exact ⟨not_lt.1 h, Or.inl rfl⟩

/-- C9 (amended). For any two angles `phiAssoc` and `phiTrigger`, the value `dPhi`
produced by the two wrapping loops lies in the closed interval
`[-π/2, 3π/2]`. -/
theorem dphi_wrapped_into_closed_interval (phiAssoc phiTrigger : ℚ) :
    -(1 / 2) * TMath.Pi ≤ wrapDPhi phiAssoc phiTrigger ∧
      wrapDPhi phiAssoc phiTrigger ≤ 3 / 2 * TMath.Pi := by
  unfold wrapDPhi
  obtain ⟨h1, _⟩ := wrapAbove_spec (phiAssoc - phiTrigger)
  obtain ⟨h3, h4⟩ := wrapBelow_spec (wrapAbove (phiAssoc - phiTrigger))
  refine ⟨h3, ?_⟩
  rcases h4 with h | h
  · rw [h]
    exact h1
  · exact le_of_lt h

/-- C9 as stated fails at the lower end: for a track at `phiAssoc = 0` and a
trigger at `phiTrigger = π/2` neither loop runs, `dPhi` stays `-π/2`, and that
value is not inside the half-open interval `(-π/2, 3π/2]`. -/
theorem dphi_wrapped_counterexample :
    wrapDPhi 0 (TMath.Pi / 2) = -(1 / 2) * TMath.Pi ∧
    ¬ (-(1 / 2) * TMath.Pi < wrapDPhi 0 (TMath.Pi / 2) ∧
      wrapDPhi 0 (TMath.Pi / 2) ≤ 3 / 2 * TMath.Pi) := by
  have h : wrapDPhi 0 (TMath.Pi / 2) = -(1 / 2) * TMath.Pi := by
    unfold wrapDPhi
    have hpi := TMath.Pi_pos
    rw [wrapAbove, if_neg (by linarith), wrapBelow, if_neg (by linarith)]
    ring
  rw [h]
  exact ⟨rfl, fun hh => lt_irrefl _ hh.1⟩

/-! ## Associated-particle momentum bin -/

theorem TArrayD_At_pred (a : List ℚ) (i : Nat) (h1 : 1 ≤ i) (h : i < a.length) :
    TArrayD.At a ((i : Int) - 1) = a.getD (i - 1) 0 := by
  rw [show ((i : Int) - 1) = ((i - 1 : Nat) : Int) by omega, TArrayD_At_nat a _ (by omega)]

/-- C10. `GetAssocBin` characterised: for a strictly ascending threshold list
`a[0..k]` with `k ≥ 1` and every `pt`, the result is `a[i]` whenever
`a[i-1] < pt < a[i]` for some `i` in `1..k`, and the last edge `a[k]` in every
other case, in particular when `pt` exceeds all thresholds and when `pt` equals
any threshold. -/
theorem assoc_bin_characterisation (s : Task) (pt : ℚ)
    (hk : 2 ≤ s.fAssocBins.length) (hsorted : s.fAssocBins.Sorted (· < ·)) :
    (∀ i : Nat, 1 ≤ i → i < s.fAssocBins.length →
      s.fAssocBins.getD (i - 1) 0 < pt → pt < s.fAssocBins.getD i 0 →
      GetAssocBin s pt = s.fAssocBins.getD i 0) ∧
    ((¬ ∃ i : Nat, 1 ≤ i ∧ i < s.fAssocBins.length ∧
        s.fAssocBins.getD (i - 1) 0 < pt ∧ pt < s.fAssocBins.getD i 0) →
      GetAssocBin s pt = s.fAssocBins.getD (s.fAssocBins.length - 1) 0) ∧
    (s.fAssocBins.getD (s.fAssocBins.length - 1) 0 < pt →
      GetAssocBin s pt = s.fAssocBins.getD (s.fAssocBins.length - 1) 0) ∧
    (∀ j : Nat, j < s.fAssocBins.length → pt = s.fAssocBins.getD j 0 →
      GetAssocBin s pt = s.fAssocBins.getD (s.fAssocBins.length - 1) 0) := by
  generalize hA : s.fAssocBins = A at *
  have hlastAt : TArrayD.At A ((A.length : Int) - 1) = A.getD (A.length - 1) 0 := by
    rw [show ((A.length : Int) - 1) = ((A.length - 1 : Nat) : Int) by omega,
      TArrayD_At_nat A _ (by omega)]
  have hnone : (¬ ∃ i : Nat, 1 ≤ i ∧ i < A.length ∧ A.getD (i - 1) 0 < pt ∧ pt < A.getD i 0) →
      GetAssocBin s pt = A.getD (A.length - 1) 0 := by
    intro hno
    have hfind : (List.range' 1 (A.length - 1)).find?
        (fun i : Nat => decide (pt > TArrayD.At A ((i : Int) - 1) ∧ pt < TArrayD.At A i)) = none := by
      rw [List.find?_eq_none]
      intro i hi hp
      rw [List.mem_range'_1] at hi
      rw [decide_eq_true_eq, TArrayD_At_pred A i hi.1 (by omega),
        TArrayD_At_nat A i (by omega)] at hp
      exact hno ⟨i, hi.1, by omega, hp.1, hp.2⟩
    simp only [GetAssocBin, hA, hfind, hlastAt]
  refine ⟨?_, hnone, ?_, ?_⟩
  · intro i hi1 hi2 hlo hhi
    cases hfind : (List.range' 1 (A.length - 1)).find?
        (fun i : Nat => decide (pt > TArrayD.At A ((i : Int) - 1) ∧ pt < TArrayD.At A i)) with
    | none =>
      rw [List.find?_eq_none] at hfind
      have := hfind i (List.mem_range'_1.2 ⟨hi1, by omega⟩)
      rw [decide_eq_true_eq, TArrayD_At_pred A i hi1 hi2, TArrayD_At_nat A i hi2] at this
      exact absurd ⟨hlo, hhi⟩ this
    | some j =>
      have hj := List.mem_range'_1.1 (List.mem_of_find?_eq_some hfind)
      have hpj := List.find?_some hfind
      rw [decide_eq_true_eq, TArrayD_At_pred A j hj.1 (by omega),
        TArrayD_At_nat A j (by omega)] at hpj
      have hij : j = i := by
        rcases lt_trichotomy j i with h | h | h
        · have := getD_le_of_sorted A hsorted j (i - 1) (by omega) (by omega)
          linarith [hpj.2]
        · exact h
        · have := getD_le_of_sorted A hsorted i (j - 1) (by omega) (by omega)
          linarith [hpj.1]
      subst hij
      simp only [GetAssocBin, hA, hfind, TArrayD_At_nat A j hi2]
  · intro hgt
    apply hnone
    rintro ⟨i, _, hi2, _, hhi⟩
    have := getD_le_of_sorted A hsorted i (A.length - 1) (by omega) (by omega)
    linarith
  · intro j hj hpt
    apply hnone
    rintro ⟨i, hi1, hi2, hlo, hhi⟩
    rw [hpt] at hlo hhi
    rcases Nat.lt_or_ge j i with h | h
    · have := getD_le_of_sorted A hsorted j (i - 1) (by omega) (by omega)
      linarith
    · have := getD_le_of_sorted A hsorted i j h hj
      linarith

/-- C10, an instance: the thresholds of the named constructor; 5/4 lies strictly
inside (1, 3/2) and is filed under 3/2, while the interior threshold 1 and the
value 20 beyond all thresholds are filed under the last edge 16. -/
theorem assoc_bin_characterisation_witness :
    (2 ≤ assocExampleTask.fAssocBins.length ∧ assocExampleTask.fAssocBins.Sorted (· < ·)) ∧
    GetAssocBin assocExampleTask (5 / 4) = 3 / 2 ∧
    GetAssocBin assocExampleTask 20 = 16 ∧
    GetAssocBin assocExampleTask 1 = 16 :=
  ⟨⟨by decide, by norm_num [assocExampleTask]⟩,
    (assoc_bin_characterisation assocExampleTask (5 / 4) (by decide)
      (by norm_num [assocExampleTask])).1 3
      (by decide) (by decide) (by norm_num [assocExampleTask])
      (by norm_num [assocExampleTask]),
    (assoc_bin_characterisation assocExampleTask 20 (by decide)
      (by norm_num [assocExampleTask])).2.2.1 (by norm_num [assocExampleTask]),
    (assoc_bin_characterisation assocExampleTask 1 (by decide)
      (by norm_num [assocExampleTask])).2.2.2 2 (by decide) (by norm_num [assocExampleTask])⟩

/-! ## Histogram filling -/

theorem find_fillFirst (key : String) (args : List ℚ) (name : String) :
    ∀ hists : List Histogram,
      (fillFirst key args hists).find? (fun h => decide (h.name = name)) =
        (hists.find? (fun h => decide (h.name = name))).map
          (fun h => if key = name ∧ h.dim = args.length then
            { h with entries := h.entries ++ [args] } else h) := by
  have hp : ∀ g : Histogram, g.name = name → ∀ l : List Histogram,
      List.find? (fun h => decide (h.name = name)) (g :: l) = some g :=
    fun g hg l => List.find?_cons_of_pos l (by simpa using hg)
  have hq : ∀ g : Histogram, ¬ g.name = name → ∀ l : List Histogram,
      List.find? (fun h => decide (h.name = name)) (g :: l) =
        List.find? (fun h => decide (h.name = name)) l :=
    fun g hg l => List.find?_cons_of_neg l (by simpa using hg)
  intro hists
  induction hists with
  | nil => rfl
  | cons h rest ih =>
    by_cases hk : h.name = key
    · by_cases hn : h.name = name
      · have hkn : key = name := hk.symm.trans hn
        rw [hp h hn rest]
        by_cases hd : h.dim = args.length
        · rw [show fillFirst key args (h :: rest) =
              { h with entries := h.entries ++ [args] } :: rest by simp [fillFirst, hk, hd]]
          rw [hp { h with entries := h.entries ++ [args] } hn rest]
          simp [hkn, hd]
        · rw [show fillFirst key args (h :: rest) = h :: rest by simp [fillFirst, hk, hd]]
          rw [hp h hn rest]
          simp [hd]
      · have hkn : ¬ key = name := fun h1 => hn (hk.trans h1)
        rw [hq h hn rest]
        have hopt : ∀ o : Option Histogram, o.map (fun h : Histogram =>
            if key = name ∧ h.dim = args.length then
              { h with entries := h.entries ++ [args] } else h) = o := by
          intro o
          cases o <;> simp [hkn]
        rw [hopt]
        by_cases hd : h.dim = args.length
        · rw [show fillFirst key args (h :: rest) =
              { h with entries := h.entries ++ [args] } :: rest by simp [fillFirst, hk, hd]]
          rw [hq { h with entries := h.entries ++ [args] } hn rest]
        · rw [show fillFirst key args (h :: rest) = h :: rest by simp [fillFirst, hk, hd]]
          rw [hq h hn rest]
    · rw [show fillFirst key args (h :: rest) = h :: fillFirst key args rest by
        simp [fillFirst, hk]]
      by_cases hn : h.name = name
      · have hkn : ¬ key = name := fun h1 => hk (hn.trans h1.symm)
        rw [hp h hn, hp h hn]
        simp [hkn]
      · rw [hq h hn, hq h hn]
        exact ih

theorem fillFirst_spec (key : String) (args : List ℚ) (name : String)
    (hists : List Histogram) :
    dimOf (fillFirst key args hists) name = dimOf hists name ∧
      entriesOf (fillFirst key args hists) name =
        if key = name ∧ dimOf hists name = some args.length then entriesOf hists name ++ [args]
        else entriesOf hists name := by
  unfold dimOf entriesOf
  rw [find_fillFirst]
  cases hists.find? (fun h => decide (h.name = name)) with
  | none => simp
  | some h =>
    by_cases hc : key = name ∧ h.dim = args.length
    · simp [hc]
    · simp [hc]

/-- Executing calls on an allocated container: every histogram keeps its booking
and receives, in order, the arguments of the calls made under its name with the
number of arguments of its class; nothing but the container changes. -/
theorem FillAll_spec (calls : List FillCall) :
    ∀ (s : Task) (hists : List Histogram), s.fOutputContainer = some hists →
      ∃ hists1, FillAll s calls = some { s with fOutputContainer := some hists1 } ∧
        ∀ name, dimOf hists1 name = dimOf hists name ∧
          entriesOf hists1 name = entriesOf hists name ++
            (calls.filter (fun c => decide (c.key = name ∧
              dimOf hists name = some c.args.length))).map (fun c => c.args) := by
  induction calls with
  | nil =>
    intro s hists h
    refine ⟨hists, ?_, fun name => ⟨rfl, by simp⟩⟩
    cases s
    simp only at h
    subst h
    rfl
  | cons call rest ih =>
    intro s hists h
    obtain ⟨hists1, hrun, hspec⟩ :=
      ih { s with fOutputContainer := some (fillFirst call.key call.args hists) } _ rfl
    refine ⟨hists1, ?_, ?_⟩
    · simp only [FillAll, FillHistogram, h]
      exact hrun
    · intro name
      obtain ⟨hd, he⟩ := hspec name
      obtain ⟨hd0, he0⟩ := fillFirst_spec call.key call.args name hists
      refine ⟨hd.trans hd0, ?_⟩
      rw [he, he0, hd0]
      by_cases hc : call.key = name ∧ dimOf hists name = some call.args.length
      · simp [hc, List.filter_cons]
      · simp [hc, List.filter_cons]

/-! ## Loops that collect calls -/

theorem collectCalls_cons {α : Type} (f : α → Option (List FillCall)) (a : α) (l : List α) :
    collectCalls f (a :: l) =
      (f a).bind (fun c => (collectCalls f l).map (fun more => c ++ more)) := by
  simp only [collectCalls]
  cases f a with
  | none => rfl
  | some c =>
    cases collectCalls f l with
    | none => rfl
    | some more => rfl

theorem collectCalls_congr {α : Type} (f g : α → Option (List FillCall)) (l : List α)
    (h : ∀ a ∈ l, f a = g a) : collectCalls f l = collectCalls g l := by
  induction l with
  | nil => rfl
  | cons a rest ih =>
    rw [collectCalls_cons, collectCalls_cons, h a (List.mem_cons_self _ _),
      ih (fun b hb => h b (List.mem_cons_of_mem _ hb))]

theorem collectCalls_total {α : Type} (f : α → Option (List FillCall))
    (g : α → List FillCall) (l : List α) (h : ∀ a ∈ l, f a = some (g a)) :
    collectCalls f l = some (l.flatMap g) := by
  induction l with
  | nil => rfl
  | cons a rest ih =>
    rw [collectCalls_cons, h a (List.mem_cons_self _ _),
      ih (fun b hb => h b (List.mem_cons_of_mem _ hb))]
    simp

/-- A loop over the indices of an array that reads the entry at each index is
the loop over the entries. -/
theorem collectCalls_range' {α : Type} (F : Nat → Option (List FillCall))
    (f : α → Option (List FillCall)) (a : List α)
    (h : ∀ i (hi : i < a.length), F i = f a[i]) :
    ∀ (n k : Nat), k + n = a.length →
      collectCalls F (List.range' k n) = collectCalls f (a.drop k) := by
  intro n
  induction n with
  | zero =>
    intro k hk
    rw [List.drop_of_length_le (by omega)]
    rfl
  | succ n ih =>
    intro k hk
    have hlt : k < a.length := by omega
    rw [List.range'_succ, List.drop_eq_getElem_cons hlt, collectCalls_cons, collectCalls_cons,
      h k hlt, ih (k + 1) (by omega)]

theorem collectCalls_range {α : Type} (F : Nat → Option (List FillCall))
    (f : α → Option (List FillCall)) (a : List α)
    (h : ∀ i (hi : i < a.length), F i = f a[i]) :
    collectCalls F (List.range a.length) = collectCalls f a := by
  rw [List.range_eq_range', collectCalls_range' F f a h a.length 0 (by omega), List.drop_zero]


theorem collectCalls_append {α : Type} (f : α → Option (List FillCall)) (l1 l2 : List α) :
    collectCalls f (l1 ++ l2) =
      (collectCalls f l1).bind (fun c1 => (collectCalls f l2).map (fun c2 => c1 ++ c2)) := by
  induction l1 with
  | nil =>
    cases h : collectCalls f l2 <;> simp [collectCalls, h]
  | cons a rest ih =>
    rw [List.cons_append, collectCalls_cons, collectCalls_cons, ih]
    cases f a with
    | none => rfl
    | some c =>
      cases collectCalls f rest with
      | none => rfl
      | some c1 =>
        cases collectCalls f l2 with
        | none => rfl
        | some c2 => simp

theorem collectCalls_map {α β : Type} (f : β → Option (List FillCall)) (g : α → β)
    (l : List α) : collectCalls f (l.map g) = collectCalls (fun a => f (g a)) l := by
  induction l with
  | nil => rfl
  | cons a rest ih => rw [List.map_cons, collectCalls_cons, collectCalls_cons, ih]

/-- Two nested loops are one loop over the pairs of their indices, in the order
in which the inner body is reached. -/
theorem collectCalls_nested {α β : Type} (body : α → β → Option (List FillCall))
    (inner : α → List β) (l : List α) :
    collectCalls (fun a => collectCalls (body a) (inner a)) l =
      collectCalls (fun p : α × β => body p.1 p.2)
        (l.flatMap (fun a => (inner a).map (fun b => (a, b)))) := by
  induction l with
  | nil => rfl
  | cons a rest ih =>
    rw [List.flatMap_cons, collectCalls_append, collectCalls_cons, ih, collectCalls_map]

/-- The calls of a loop are the calls of its passes, one after the other. -/
theorem collectCalls_passes {α : Type} (f : α → Option (List FillCall)) (l : List α) :
    ∀ calls, collectCalls f l = some calls →
      ∃ passes : List (List FillCall),
        List.Forall₂ (fun a c => f a = some c) l passes ∧ calls = passes.flatten := by
  induction l with
  | nil =>
    intro calls h
    simp only [collectCalls, Option.some.injEq] at h
    exact ⟨[], List.Forall₂.nil, by simp [← h]⟩
  | cons a rest ih =>
    intro calls h
    rw [collectCalls_cons] at h
    cases hfa : f a with
    | none => simp [hfa] at h
    | some c =>
      cases hrest : collectCalls f rest with
      | none => simp [hfa, hrest] at h
      | some more =>
        simp only [hfa, hrest, Option.some_bind, Option.map_some', Option.some.injEq] at h
        obtain ⟨passes, hp, hmore⟩ := ih more hrest
        exact ⟨c :: passes, List.Forall₂.cons hfa hp, by simp [← h, hmore]⟩

theorem collectCalls_isSome {α : Type} (f : α → Option (List FillCall)) (l : List α)
    (h : ∀ a ∈ l, ∃ c, f a = some c) : ∃ calls, collectCalls f l = some calls := by
  induction l with
  | nil => exact ⟨[], rfl⟩
  | cons a rest ih =>
    obtain ⟨c, hc⟩ := h a (List.mem_cons_self _ _)
    obtain ⟨more, hmore⟩ := ih (fun b hb => h b (List.mem_cons_of_mem _ hb))
    exact ⟨c ++ more, by rw [collectCalls_cons, hc, hmore]; rfl⟩

theorem forall2_of_mem_right {α β : Type} (R : α → β → Prop) (l : List α) (m : List β)
    (h : List.Forall₂ R l m) : ∀ b ∈ m, ∃ a, a ∈ l ∧ R a b := by
  induction h with
  | nil =>
    intro b hb
    cases hb
  | cons hab _ ih =>
    intro b hb
    rcases List.mem_cons.1 hb with rfl | hb1
    · exact ⟨_, List.mem_cons_self _ _, hab⟩
    · obtain ⟨a, ha, hr⟩ := ih b hb1
      exact ⟨a, List.mem_cons_of_mem _ ha, hr⟩

/-- A property of every call of every pass holds for every call of the loop. -/
theorem collectCalls_forall {α : Type} (f : α → Option (List FillCall)) (P : FillCall → Prop)
    (l : List α) (h : ∀ a ∈ l, ∀ c, f a = some c → ∀ k ∈ c, P k) :
    ∀ calls, collectCalls f l = some calls → ∀ k ∈ calls, P k := by
  intro calls hcalls
  obtain ⟨passes, hp, rfl⟩ := collectCalls_passes f l calls hcalls
  intro k hk
  rw [List.mem_flatten] at hk
  obtain ⟨c, hc, hkc⟩ := hk
  obtain ⟨a, ha, hfa⟩ := forall2_of_mem_right _ l passes hp c hc
  exact h a ha c hfa k hkc

/-! ## Structure of the pair loops -/

theorem pi0PairCalls_eq (x : Externals) (s : Task) (ph1 ph2 : AliCaloPhoton)
    (tracks : List TLorentzVector) (ht : s.fTracksTPC = some tracks) :
    pi0PairCalls x s ph1 ph2 =
      some (pi0AngleCalls x ph1 ph2 ++ pi0MassPtCalls x ph1 ph2 ++
        (if promoted x s ph1 ph2 = true then tracks.flatMap (pi0TrackCalls x s ph1 ph2)
         else [])) := by
  have hloop : collectCalls
      (fun i3 : Nat =>
        match tracks[i3]? with
        | none => none
        | some track => some (pi0TrackCalls x s ph1 ph2 track))
      (List.range tracks.length) = some (tracks.flatMap (pi0TrackCalls x s ph1 ph2)) := by
    rw [collectCalls_range _ (fun track => some (pi0TrackCalls x s ph1 ph2 track)) tracks
      (fun i hi => by simp [List.getElem?_eq_getElem hi])]
    exact collectCalls_total _ _ _ (fun _ _ => rfl)
  by_cases hp : promoted x s ph1 ph2 = true
  · have hp1 : TestMass s (x.M (TLorentzVector.add ph1.toLorentzVector ph2.toLorentzVector))
        (x.Pt (TLorentzVector.add ph1.toLorentzVector ph2.toLorentzVector)) = true := hp
    simp only [pi0PairCalls, hp1, ht, hloop, hp, if_true, Bool.not_true, Bool.false_eq_true,
      if_false]
  · have hp1 : TestMass s (x.M (TLorentzVector.add ph1.toLorentzVector ph2.toLorentzVector))
        (x.Pt (TLorentzVector.add ph1.toLorentzVector ph2.toLorentzVector)) = false := by
      simpa [promoted] using hp
    rw [if_neg hp]
    simp [pi0PairCalls, hp1]

theorem pi0AngleCalls_keys (x : Externals) (ph1 ph2 : AliCaloPhoton) :
    (pi0AngleCalls x ph1 ph2).map (fun c => c.key) =
      ["clu_phieta", "clusingle_phieta", "clusingle_phieta"] := rfl

theorem pi0MassPtCalls_not_mix (x : Externals) (ph1 ph2 : AliCaloPhoton) :
    ∀ c ∈ pi0MassPtCalls x ph1 ph2, isMixKey c.key = false := by
  unfold pi0MassPtCalls
  cases ph1.fCPV <;> cases ph2.fCPV <;> cases ph1.fDisp <;> cases ph2.fDisp <;>
    simp [isMixKey, String.data_append]

theorem pi0TrackCalls_not_mix (x : Externals) (s : Task) (ph1 ph2 : AliCaloPhoton)
    (track : TLorentzVector) : ∀ c ∈ pi0TrackCalls x s ph1 ph2 track, isMixKey c.key = false := by
  unfold pi0TrackCalls
  cases ph1.fCPV <;> cases ph2.fCPV <;> cases ph1.fDisp <;> cases ph2.fDisp <;>
    simp [isMixKey, String.data_append]

theorem mixMassPtCalls_mix (x : Externals) (ph1 ph2 : AliCaloPhoton) :
    ∀ c ∈ mixMassPtCalls x ph1 ph2, isMixKey c.key = true := by
  unfold mixMassPtCalls
  cases ph1.fCPV <;> cases ph2.fCPV <;> cases ph1.fDisp <;> cases ph2.fDisp <;>
    simp [isMixKey, String.data_append]

theorem mixTrackCalls_mix (x : Externals) (s : Task) (ph1 ph2 : AliCaloPhoton)
    (track : TLorentzVector) : ∀ c ∈ mixTrackCalls x s ph1 ph2 track, isMixKey c.key = true := by
  unfold mixTrackCalls
  cases ph1.fCPV <;> cases ph2.fCPV <;> cases ph1.fDisp <;> cases ph2.fDisp <;>
    simp [isMixKey, String.data_append]

theorem collectCalls_index {α : Type} (F : Nat → Option (List FillCall))
    (g : α → List FillCall) (a : List α)
    (h : ∀ i (hi : i < a.length), F i = some (g a[i])) :
    collectCalls F (List.range a.length) = some (a.flatMap g) := by
  rw [collectCalls_range F (fun e => some (g e)) a h]
  exact collectCalls_total _ _ _ (fun _ _ => rfl)

theorem GetCaloPhotonsPHOSList_cases (s : Task) (lists : TObjArray AliCaloPhoton)
    (h : s.fCaloPhotonsPHOSLists = some lists) (v c r : Nat) :
    ∃ pool, GetCaloPhotonsPHOSList s v c r =
      some (storedList s.fCaloPhotonsPHOSLists (slotOffset s v c r),
        { s with fCaloPhotonsPHOSLists := pool }) := by
  cases hat : TObjArray.At lists (slotOffset s v c r) with
  | none =>
    exact ⟨some (TObjArray.AddAt lists [] (slotOffset s v c r)), by
      simp [GetCaloPhotonsPHOSList, storedList, h, hat]⟩
  | some list =>
    refine ⟨some lists, ?_⟩
    cases s
    simp only at h
    subst h
    simp [GetCaloPhotonsPHOSList, storedList, hat]

theorem GetTracksTPCList_cases (s : Task) (lists : TObjArray TLorentzVector)
    (h : s.fTracksTPCLists = some lists) (v c r : Nat) :
    ∃ pool, GetTracksTPCList s v c r =
      some (storedList s.fTracksTPCLists (slotOffset s v c r),
        { s with fTracksTPCLists := pool }) := by
  cases hat : TObjArray.At lists (slotOffset s v c r) with
  | none =>
    exact ⟨some (TObjArray.AddAt lists [] (slotOffset s v c r)), by
      simp [GetTracksTPCList, storedList, h, hat]⟩
  | some list =>
    refine ⟨some lists, ?_⟩
    cases s
    simp only at h
    subst h
    simp [GetTracksTPCList, storedList, hat]

theorem ConsiderPi0sCalls_eq (x : Externals) (s : Task) (photons : List AliCaloPhoton)
    (hp : s.fCaloPhotonsPHOS = some photons) :
    ConsiderPi0sCalls x s = collectCalls (pairBody x s photons) (pairIndices photons.length) := by
  have hnest := collectCalls_nested (fun i1 i2 : Nat => pairBody x s photons (i1, i2))
    (fun i1 => List.range' (i1 + 1) (photons.length - (i1 + 1)))
    (List.range (photons.length - 1))
  simp only [ConsiderPi0sCalls, hp, pairIndices]
  refine Eq.trans (collectCalls_congr _ _ _ ?_) hnest
  intro i1 hi1
  have hlt : i1 < photons.length := by
    have := List.mem_range.1 hi1
    omega
  simp only [List.getElem?_eq_getElem hlt, pairBody]

theorem pi0MixLoopCalls_eq (x : Externals) (s : Task) (photons : List AliCaloPhoton)
    (hp : s.fCaloPhotonsPHOS = some photons) (arrayList : List (List AliCaloPhoton)) :
    pi0MixLoopCalls x s arrayList =
      some (arrayList.flatMap (fun mixPHOS =>
        photons.flatMap (fun ph1 => mixPHOS.flatMap (fun ph2 => mixMassPtCalls x ph1 ph2)))) := by
  unfold pi0MixLoopCalls
  refine collectCalls_index _ _ arrayList ?_
  intro evi hevi
  simp only [List.getElem?_eq_getElem hevi, hp]
  refine collectCalls_index _ _ photons ?_
  intro i1 hi1
  simp only [List.getElem?_eq_getElem hi1]
  refine collectCalls_index _ _ arrayList[evi] ?_
  intro i2 hi2
  simp only [List.getElem?_eq_getElem hi2]

theorem trackMixLoopCalls_eq (x : Externals) (s : Task) (photons : List AliCaloPhoton)
    (hp : s.fCaloPhotonsPHOS = some photons) (arrayList : List (List TLorentzVector)) :
    trackMixLoopCalls x s arrayList =
      some (photons.flatMap (fun ph1 => photons.flatMap (fun ph2 =>
        if promoted x s ph1 ph2 = true then
          arrayList.flatMap (fun mixTracks => mixTracks.flatMap (mixTrackCalls x s ph1 ph2))
        else []))) := by
  simp only [trackMixLoopCalls, hp]
  refine collectCalls_index _ _ photons ?_
  intro i1 hi1
  simp only [List.getElem?_eq_getElem hi1]
  refine collectCalls_index _ _ photons ?_
  intro i2 hi2
  simp only [List.getElem?_eq_getElem hi2]
  by_cases hpr : promoted x s photons[i1] photons[i2] = true
  · have hp1 : TestMass s
        (x.M (TLorentzVector.add photons[i1].toLorentzVector photons[i2].toLorentzVector))
        (x.Pt (TLorentzVector.add photons[i1].toLorentzVector photons[i2].toLorentzVector))
        = true := hpr
    rw [if_pos hpr]
    simp only [hp1, Bool.not_true, Bool.false_eq_true, if_false]
    refine collectCalls_index _ _ arrayList ?_
    intro evi hevi
    simp only [List.getElem?_eq_getElem hevi]
    refine collectCalls_index _ _ arrayList[evi] ?_
    intro i3 hi3
    simp only [List.getElem?_eq_getElem hi3]
  · have hp1 : TestMass s
        (x.M (TLorentzVector.add photons[i1].toLorentzVector photons[i2].toLorentzVector))
        (x.Pt (TLorentzVector.add photons[i1].toLorentzVector photons[i2].toLorentzVector))
        = false := by
      simpa [promoted] using hpr
    rw [if_neg hpr]
    simp only [hp1, Bool.not_false, if_true]

/-- Calls whose keys all differ from a name leave the histogram of that name as
it was. -/
theorem FillAll_frame (calls : List FillCall) (s : Task) (hists : List Histogram)
    (h : s.fOutputContainer = some hists) :
    ∃ t, FillAll s calls = some t ∧
      (∀ name, histEntries t name = histEntries s name ++
        (calls.filter (fun c => decide (c.key = name ∧
          dimOf hists name = some c.args.length))).map (fun c => c.args)) ∧
      ∀ name, (∀ c ∈ calls, c.key ≠ name) → histEntries t name = histEntries s name := by
  obtain ⟨hists1, hrun, hspec⟩ := FillAll_spec calls s hists h
  have hall : ∀ name, histEntries { s with fOutputContainer := some hists1 } name =
      histEntries s name ++ (calls.filter (fun c => decide (c.key = name ∧
        dimOf hists name = some c.args.length))).map (fun c => c.args) := by
    intro name
    simp only [histEntries, h]
    exact (hspec name).2
  refine ⟨_, hrun, hall, ?_⟩
  intro name hne
  rw [hall name]
  have : calls.filter (fun c => decide (c.key = name ∧
      dimOf hists name = some c.args.length)) = [] := by
    rw [List.filter_eq_nil_iff]
    intro c hc
    simp [hne c hc]
  rw [this]
  simp

theorem mem_pairIndices (n i1 i2 : Nat) :
    (i1, i2) ∈ pairIndices n ↔ i1 < i2 ∧ i2 < n := by
  simp only [pairIndices, List.mem_flatMap, List.mem_range, List.mem_map, List.mem_range'_1,
    Prod.mk.injEq]
  constructor
  · rintro ⟨a, ha, b, hb, rfl, rfl⟩
    omega
  · intro h
    exact ⟨i1, by omega, i2, by omega, rfl, rfl⟩

theorem pi0PairCalls_not_mix (x : Externals) (s : Task) (ph1 ph2 : AliCaloPhoton) :
    ∀ calls, pi0PairCalls x s ph1 ph2 = some calls → ∀ c ∈ calls, isMixKey c.key = false := by
  intro calls h c hc
  have hfirst : ∀ c ∈ pi0AngleCalls x ph1 ph2 ++ pi0MassPtCalls x ph1 ph2,
      isMixKey c.key = false := by
    intro c hc
    rcases List.mem_append.1 hc with h1 | h1
    · have hk := pi0AngleCalls_keys x ph1 ph2
      have : c.key ∈ (pi0AngleCalls x ph1 ph2).map (fun c => c.key) :=
        List.mem_map_of_mem _ h1
      rw [hk] at this
      simp only [List.mem_cons, List.mem_singleton, List.not_mem_nil, or_false] at this
      rcases this with h2 | h2 | h2 <;> rw [h2] <;> decide
    · exact pi0MassPtCalls_not_mix x ph1 ph2 c h1
  cases ht : s.fTracksTPC with
  | none =>
    simp only [pi0PairCalls, ht] at h
    split at h
    · simp only [Option.some.injEq] at h
      subst h
      exact hfirst c hc
    · cases h
  | some tracks =>
    rw [pi0PairCalls_eq x s ph1 ph2 tracks ht, Option.some.injEq] at h
    subst h
    rcases List.mem_append.1 hc with h1 | h1
    · exact hfirst c h1
    · split at h1
      · obtain ⟨track, _, h2⟩ := List.mem_flatMap.1 h1
        exact pi0TrackCalls_not_mix x s ph1 ph2 track c h2
      · cases h1

theorem ConsiderPi0sCalls_not_mix (x : Externals) (s : Task) :
    ∀ calls, ConsiderPi0sCalls x s = some calls → ∀ c ∈ calls, isMixKey c.key = false := by
  intro calls h
  cases hp : s.fCaloPhotonsPHOS with
  | none => simp [ConsiderPi0sCalls, hp] at h
  | some photons =>
    rw [ConsiderPi0sCalls_eq x s photons hp] at h
    refine collectCalls_forall _ _ _ ?_ calls h
    intro p _ c hc
    simp only [pairBody] at hc
    split at hc
    · cases hc
    · split at hc
      · cases hc
      · exact pi0PairCalls_not_mix x s _ _ c hc

theorem pi0MixLoopCalls_mix (x : Externals) (s : Task) (arrayList : List (List AliCaloPhoton)) :
    ∀ calls, pi0MixLoopCalls x s arrayList = some calls →
      ∀ c ∈ calls, isMixKey c.key = true := by
  unfold pi0MixLoopCalls
  refine collectCalls_forall _ _ _ ?_
  intro evi _ c hc
  split at hc
  · cases hc
  · split at hc
    · cases hc
    · refine collectCalls_forall _ _ _ ?_ c hc
      intro i1 _ c1 hc1
      split at hc1
      · cases hc1
      · refine collectCalls_forall _ _ _ ?_ c1 hc1
        intro i2 _ c2 hc2
        split at hc2
        · cases hc2
        · simp only [Option.some.injEq] at hc2
          subst hc2
          exact mixMassPtCalls_mix x _ _

theorem trackMixLoopCalls_mix (x : Externals) (s : Task)
    (arrayList : List (List TLorentzVector)) :
    ∀ calls, trackMixLoopCalls x s arrayList = some calls →
      ∀ c ∈ calls, isMixKey c.key = true := by
  unfold trackMixLoopCalls
  intro calls h
  split at h
  · cases h
  · refine collectCalls_forall _ _ _ ?_ calls h
    intro i1 _ c1 hc1
    split at hc1
    · cases hc1
    · refine collectCalls_forall _ _ _ ?_ c1 hc1
      intro i2 _ c2 hc2
      split at hc2
      · cases hc2
      · simp only at hc2
        split at hc2
        · simp only [Option.some.injEq] at hc2
          subst hc2
          intro k hk
          cases hk
        · refine collectCalls_forall _ _ _ ?_ c2 hc2
          intro evi _ c3 hc3
          split at hc3
          · cases hc3
          · refine collectCalls_forall _ _ _ ?_ c3 hc3
            intro i3 _ c4 hc4
            split at hc4
            · cases hc4
            · simp only [Option.some.injEq] at hc4
              subst hc4
              exact mixTrackCalls_mix x s _ _ _

theorem pairBody_eq (x : Externals) (s : Task) (photons : List AliCaloPhoton)
    (tracks : List TLorentzVector) (ht : s.fTracksTPC = some tracks) (p : Nat × Nat)
    (hp : p ∈ pairIndices photons.length) :
    ∃ ph1 ph2, photons[p.1]? = some ph1 ∧ photons[p.2]? = some ph2 ∧
      pairBody x s photons p =
        some (pi0AngleCalls x ph1 ph2 ++ pi0MassPtCalls x ph1 ph2 ++
          (if promoted x s ph1 ph2 = true then tracks.flatMap (pi0TrackCalls x s ph1 ph2)
           else [])) := by
  obtain ⟨i1, i2⟩ := p
  have hb := (mem_pairIndices photons.length i1 i2).1 hp
  have h1 : i1 < photons.length := by omega
  refine ⟨photons[i1], photons[i2], List.getElem?_eq_getElem h1,
    List.getElem?_eq_getElem hb.2, ?_⟩
  simp only [pairBody, List.getElem?_eq_getElem h1, List.getElem?_eq_getElem hb.2]
  exact pi0PairCalls_eq x s _ _ tracks ht

theorem ConsiderPi0sCalls_isSome (x : Externals) (s : Task) (photons : List AliCaloPhoton)
    (tracks : List TLorentzVector) (hp : s.fCaloPhotonsPHOS = some photons)
    (ht : s.fTracksTPC = some tracks) : ∃ calls, ConsiderPi0sCalls x s = some calls := by
  rw [ConsiderPi0sCalls_eq x s photons hp]
  refine collectCalls_isSome _ _ ?_
  intro p hmem
  obtain ⟨ph1, ph2, _, _, h⟩ := pairBody_eq x s photons tracks ht p hmem
  exact ⟨_, h⟩

theorem ConsiderPi0sMixCalls_eq (x : Externals) (s : Task) (photons : List AliCaloPhoton)
    (lists : TObjArray AliCaloPhoton) (hp : s.fCaloPhotonsPHOS = some photons)
    (hl : s.fCaloPhotonsPHOSLists = some lists) :
    ∃ pool, ConsiderPi0sMixCalls x s =
      some ((photonList s s.fVtxBin s.fCentBin s.fEMRPBin).flatMap (fun mixPHOS =>
          photons.flatMap (fun ph1 => mixPHOS.flatMap (fun ph2 => mixMassPtCalls x ph1 ph2))),
        { s with fCaloPhotonsPHOSLists := pool }) := by
  obtain ⟨pool, hget⟩ := GetCaloPhotonsPHOSList_cases s lists hl
    (toUInt s.fVtxBin) (toUInt s.fCentBin) (toUInt s.fEMRPBin)
  refine ⟨pool, ?_⟩
  have hloop := pi0MixLoopCalls_eq x { s with fCaloPhotonsPHOSLists := pool } photons hp
    (storedList s.fCaloPhotonsPHOSLists
      (slotOffset s (toUInt s.fVtxBin) (toUInt s.fCentBin) (toUInt s.fEMRPBin)))
  simp only [ConsiderPi0sMixCalls, hget, hloop, photonList]

theorem ConsiderTracksMixCalls_eq (x : Externals) (s : Task) (photons : List AliCaloPhoton)
    (lists : TObjArray TLorentzVector) (hp : s.fCaloPhotonsPHOS = some photons)
    (hl : s.fTracksTPCLists = some lists) :
    ∃ pool, ConsiderTracksMixCalls x s =
      some (photons.flatMap (fun ph1 => photons.flatMap (fun ph2 =>
          if promoted x s ph1 ph2 = true then
            (trackList s s.fVtxBin s.fCentBin s.fEMRPBin).flatMap (fun mixTracks =>
              mixTracks.flatMap (mixTrackCalls x s ph1 ph2))
          else [])),
        { s with fTracksTPCLists := pool }) := by
  obtain ⟨pool, hget⟩ := GetTracksTPCList_cases s lists hl
    (toUInt s.fVtxBin) (toUInt s.fCentBin) (toUInt s.fEMRPBin)
  refine ⟨pool, ?_⟩
  have hloop := trackMixLoopCalls_eq x { s with fTracksTPCLists := pool } photons hp
    (storedList s.fTracksTPCLists
      (slotOffset s (toUInt s.fVtxBin) (toUInt s.fCentBin) (toUInt s.fEMRPBin)))
  simp only [ConsiderTracksMixCalls, hget, hloop, trackList]
  rfl

/-! ## Real and mixed histograms -/

/-- C15: `ConsiderPi0s` makes only calls whose key does not start with `mix_`, and
`ConsiderPi0sMix` and `ConsiderTracksMix` make only calls whose key starts with
`mix_`. On an event whose arrays, pools and output container exist all three
functions return, `ConsiderPi0s` leaves every histogram with a `mix_` name as it
was, and the two mixing functions leave every histogram without one as it was. -/
theorem real_mixed_separation (x : Externals) (s : Task) (photons : List AliCaloPhoton)
    (tracks : List TLorentzVector) (hists : List Histogram)
    (plists : TObjArray AliCaloPhoton) (tlists : TObjArray TLorentzVector)
    (hp : s.fCaloPhotonsPHOS = some photons) (ht : s.fTracksTPC = some tracks)
    (hh : s.fOutputContainer = some hists) (hpl : s.fCaloPhotonsPHOSLists = some plists)
    (htl : s.fTracksTPCLists = some tlists) :
    (∃ calls t, ConsiderPi0sCalls x s = some calls ∧
      (∀ c ∈ calls, isMixKey c.key = false) ∧ ConsiderPi0s x s = some t ∧
      ∀ name, isMixKey name = true → histEntries t name = histEntries s name) ∧
    (∃ calls s1 t, ConsiderPi0sMixCalls x s = some (calls, s1) ∧
      (∀ c ∈ calls, isMixKey c.key = true) ∧ ConsiderPi0sMix x s = some t ∧
      ∀ name, isMixKey name = false → histEntries t name = histEntries s name) ∧
    (∃ calls s1 t, ConsiderTracksMixCalls x s = some (calls, s1) ∧
      (∀ c ∈ calls, isMixKey c.key = true) ∧ ConsiderTracksMix x s = some t ∧
      ∀ name, isMixKey name = false → histEntries t name = histEntries s name) := by
  refine ⟨?_, ?_, ?_⟩
  · obtain ⟨calls, hcalls⟩ := ConsiderPi0sCalls_isSome x s photons tracks hp ht
    have hkeys := ConsiderPi0sCalls_not_mix x s calls hcalls
    obtain ⟨t, hrun, _, hframe⟩ := FillAll_frame calls s hists hh
    refine ⟨calls, t, hcalls, hkeys, by simp only [ConsiderPi0s, hcalls, hrun], ?_⟩
    intro name hname
    refine hframe name (fun c hc heq => ?_)
    have := hkeys c hc
    rw [heq, hname] at this
    cases this
  · obtain ⟨pool, hcalls⟩ := ConsiderPi0sMixCalls_eq x s photons plists hp hpl
    have hkeys : ∀ c ∈ (photonList s s.fVtxBin s.fCentBin s.fEMRPBin).flatMap (fun mixPHOS =>
        photons.flatMap (fun ph1 => mixPHOS.flatMap (fun ph2 => mixMassPtCalls x ph1 ph2))),
        isMixKey c.key = true := by
      intro c hc
      obtain ⟨_, _, h1⟩ := List.mem_flatMap.1 hc
      obtain ⟨ph1, _, h2⟩ := List.mem_flatMap.1 h1
      obtain ⟨ph2, _, h3⟩ := List.mem_flatMap.1 h2
      exact mixMassPtCalls_mix x ph1 ph2 c h3
    generalize (photonList s s.fVtxBin s.fCentBin s.fEMRPBin).flatMap (fun mixPHOS =>
        photons.flatMap (fun ph1 => mixPHOS.flatMap (fun ph2 => mixMassPtCalls x ph1 ph2)))
      = calls at hcalls hkeys
    obtain ⟨t, hrun, _, hframe⟩ :=
      FillAll_frame calls { s with fCaloPhotonsPHOSLists := pool } hists hh
    refine ⟨_, _, t, hcalls, hkeys, by simp only [ConsiderPi0sMix, hcalls, hrun], ?_⟩
    intro name hname
    refine (hframe name (fun c hc heq => ?_)).trans rfl
    have := hkeys c hc
    rw [heq, hname] at this
    cases this
  · obtain ⟨pool, hcalls⟩ := ConsiderTracksMixCalls_eq x s photons tlists hp htl
    have hkeys : ∀ c ∈ photons.flatMap (fun ph1 => photons.flatMap (fun ph2 =>
        if promoted x s ph1 ph2 = true then
          (trackList s s.fVtxBin s.fCentBin s.fEMRPBin).flatMap (fun mixTracks =>
            mixTracks.flatMap (mixTrackCalls x s ph1 ph2))
        else [])), isMixKey c.key = true := by
      intro c hc
      obtain ⟨ph1, _, h1⟩ := List.mem_flatMap.1 hc
      obtain ⟨ph2, _, h2⟩ := List.mem_flatMap.1 h1
      split at h2
      · obtain ⟨_, _, h3⟩ := List.mem_flatMap.1 h2
        obtain ⟨track, _, h4⟩ := List.mem_flatMap.1 h3
        exact mixTrackCalls_mix x s ph1 ph2 track c h4
      · cases h2
    generalize photons.flatMap (fun ph1 => photons.flatMap (fun ph2 =>
        if promoted x s ph1 ph2 = true then
          (trackList s s.fVtxBin s.fCentBin s.fEMRPBin).flatMap (fun mixTracks =>
            mixTracks.flatMap (mixTrackCalls x s ph1 ph2))
        else [])) = calls at hcalls hkeys
    obtain ⟨t, hrun, _, hframe⟩ :=
      FillAll_frame calls { s with fTracksTPCLists := pool } hists hh
    refine ⟨_, _, t, hcalls, hkeys, by simp only [ConsiderTracksMix, hcalls, hrun], ?_⟩
    intro name hname
    refine (hframe name (fun c hc heq => ?_)).trans rfl
    have := hkeys c hc
    rw [heq, hname] at this
    cases this

/-- C15 on the example event: two photons, one track, pooled arrays at its class
and the booked container. -/
theorem real_mixed_separation_witness :
    (pairExampleTask.fCaloPhotonsPHOS = some pairExamplePhotons ∧
      pairExampleTask.fTracksTPC = some pairExampleTracks ∧
      pairExampleTask.fOutputContainer = some exampleHistograms ∧
      pairExampleTask.fCaloPhotonsPHOSLists =
        some ((List.replicate 36 none).set 11 (some [examplePhotons 1])) ∧
      pairExampleTask.fTracksTPCLists =
        some ((List.replicate 36 none).set 11 (some [pairExampleTracks]))) ∧
    ((∃ calls t, ConsiderPi0sCalls exampleExternals pairExampleTask = some calls ∧
      (∀ c ∈ calls, isMixKey c.key = false) ∧
      ConsiderPi0s exampleExternals pairExampleTask = some t ∧
      ∀ name, isMixKey name = true → histEntries t name = histEntries pairExampleTask name) ∧
    (∃ calls s1 t, ConsiderPi0sMixCalls exampleExternals pairExampleTask = some (calls, s1) ∧
      (∀ c ∈ calls, isMixKey c.key = true) ∧
      ConsiderPi0sMix exampleExternals pairExampleTask = some t ∧
      ∀ name, isMixKey name = false → histEntries t name = histEntries pairExampleTask name) ∧
    (∃ calls s1 t, ConsiderTracksMixCalls exampleExternals pairExampleTask = some (calls, s1) ∧
      (∀ c ∈ calls, isMixKey c.key = true) ∧
      ConsiderTracksMix exampleExternals pairExampleTask = some t ∧
      ∀ name, isMixKey name = false →
        histEntries t name = histEntries pairExampleTask name)) :=
  ⟨⟨rfl, rfl, rfl, rfl, rfl⟩,
    real_mixed_separation exampleExternals pairExampleTask _ _ _ _ _ rfl rfl rfl rfl rfl⟩

theorem ne_of_take (a b : String) (k : Nat) (h : a.data.take k ≠ b.data.take k) : a ≠ b :=
  fun e => h (by rw [e])

theorem pi0TrackCalls_take (x : Externals) (s : Task) (ph1 ph2 : AliCaloPhoton)
    (track : TLorentzVector) : ∀ c ∈ pi0TrackCalls x s ph1 ph2 track,
      c.key.data.take 6 = ['a', 'l', 'l', '_', 'p', 't'] ∨
      c.key.data.take 6 = ['c', 'p', 'v', '_', 'p', 't'] ∨
      c.key.data.take 6 = ['d', 'i', 's', 'p', '_', 'p'] ∨
      c.key.data.take 6 = ['b', 'o', 't', 'h', '_', 'p'] := by
  unfold pi0TrackCalls
  cases ph1.fCPV <;> cases ph2.fCPV <;> cases ph1.fDisp <;> cases ph2.fDisp <;>
    simp [String.data_append]

theorem pi0TrackCalls_key_ne (x : Externals) (s : Task) (ph1 ph2 : AliCaloPhoton)
    (track : TLorentzVector) (name : String)
    (hn : name = "all_mpt" ∨ name = "cpv_mpt" ∨ name = "disp_mpt" ∨ name = "both_mpt") :
    ∀ c ∈ pi0TrackCalls x s ph1 ph2 track, c.key ≠ name := by
  intro c hc
  refine ne_of_take _ _ 6 ?_
  rcases pi0TrackCalls_take x s ph1 ph2 track c hc with h | h | h | h <;> rw [h] <;>
    rcases hn with rfl | rfl | rfl | rfl <;> decide

theorem pi0AngleCalls_key_ne (x : Externals) (ph1 ph2 : AliCaloPhoton) (name : String)
    (hn : name = "all_mpt" ∨ name = "cpv_mpt" ∨ name = "disp_mpt" ∨ name = "both_mpt") :
    ∀ c ∈ pi0AngleCalls x ph1 ph2, c.key ≠ name := by
  intro c hc hk
  have hkeys := pi0AngleCalls_keys x ph1 ph2
  have : c.key ∈ (pi0AngleCalls x ph1 ph2).map (fun c => c.key) := List.mem_map_of_mem _ hc
  rw [hkeys, hk] at this
  rcases hn with rfl | rfl | rfl | rfl <;> revert this <;> decide

/-- Among the calls of one pair, the calls to one of the four mass/pt histograms
of the cut categories are those of `pi0MassPtCalls`. -/
theorem massPt_filter (x : Externals) (s : Task) (ph1 ph2 : AliCaloPhoton)
    (tracks : List TLorentzVector) (name : String)
    (hn : name = "all_mpt" ∨ name = "cpv_mpt" ∨ name = "disp_mpt" ∨ name = "both_mpt") :
    (pi0AngleCalls x ph1 ph2 ++ pi0MassPtCalls x ph1 ph2 ++
        (if promoted x s ph1 ph2 = true then tracks.flatMap (pi0TrackCalls x s ph1 ph2)
         else [])).filter (fun c => decide (c.key = name)) =
      (pi0MassPtCalls x ph1 ph2).filter (fun c => decide (c.key = name)) := by
  have h1 : (pi0AngleCalls x ph1 ph2).filter (fun c => decide (c.key = name)) = [] := by
    rw [List.filter_eq_nil_iff]
    intro c hc
    simpa using pi0AngleCalls_key_ne x ph1 ph2 name hn c hc
  have h2 : (if promoted x s ph1 ph2 = true then tracks.flatMap (pi0TrackCalls x s ph1 ph2)
      else []).filter (fun c => decide (c.key = name)) = [] := by
    rw [List.filter_eq_nil_iff]
    intro c hc
    split at hc
    · obtain ⟨track, _, h⟩ := List.mem_flatMap.1 hc
      simpa using pi0TrackCalls_key_ne x s ph1 ph2 track name hn c h
    · cases hc
  rw [List.filter_append, List.filter_append, h1, h2, List.nil_append, List.append_nil]

theorem bothN_key_ne (m : Int) (name : String) (hn : name.data.take 1 ≠ ['b']) :
    "both" ++ toString m ++ "_mpt" ≠ name := by
  refine ne_of_take _ _ 1 ?_
  simpa [String.data_append] using Ne.symm hn

theorem pi0MassPtCalls_all (x : Externals) (ph1 ph2 : AliCaloPhoton) :
    (pi0MassPtCalls x ph1 ph2).filter (fun c => decide (c.key = "all_mpt")) =
      [{ key := "all_mpt",
         args := [x.M (TLorentzVector.add ph1.toLorentzVector ph2.toLorentzVector),
           x.Pt (TLorentzVector.add ph1.toLorentzVector ph2.toLorentzVector)] }] := by
  have hb : ∀ m : Int, ("both" ++ toString m ++ "_mpt" = "all_mpt") = False := fun m =>
    eq_false (bothN_key_ne m _ (by decide))
  unfold pi0MassPtCalls
  cases ph1.fCPV <;> cases ph2.fCPV <;> cases ph1.fDisp <;> cases ph2.fDisp <;>
    simp [List.filter_cons, hb]

theorem pi0MassPtCalls_cpv (x : Externals) (ph1 ph2 : AliCaloPhoton) :
    (pi0MassPtCalls x ph1 ph2).filter (fun c => decide (c.key = "cpv_mpt")) =
      if ph1.fCPV = true ∧ ph2.fCPV = true then
        [{ key := "cpv_mpt",
           args := [x.M (TLorentzVector.add ph1.toLorentzVector ph2.toLorentzVector),
             x.Pt (TLorentzVector.add ph1.toLorentzVector ph2.toLorentzVector)] }]
      else [] := by
  have hb : ∀ m : Int, ("both" ++ toString m ++ "_mpt" = "cpv_mpt") = False := fun m =>
    eq_false (bothN_key_ne m _ (by decide))
  unfold pi0MassPtCalls
  cases ph1.fCPV <;> cases ph2.fCPV <;> cases ph1.fDisp <;> cases ph2.fDisp <;>
    simp [List.filter_cons, hb]

theorem pi0MassPtCalls_disp (x : Externals) (ph1 ph2 : AliCaloPhoton) :
    (pi0MassPtCalls x ph1 ph2).filter (fun c => decide (c.key = "disp_mpt")) =
      if ph1.fDisp = true ∧ ph2.fDisp = true then
        [{ key := "disp_mpt",
           args := [x.M (TLorentzVector.add ph1.toLorentzVector ph2.toLorentzVector),
             x.Pt (TLorentzVector.add ph1.toLorentzVector ph2.toLorentzVector)] }]
      else [] := by
  have hb : ∀ m : Int, ("both" ++ toString m ++ "_mpt" = "disp_mpt") = False := fun m =>
    eq_false (bothN_key_ne m _ (by decide))
  unfold pi0MassPtCalls
  cases ph1.fCPV <;> cases ph2.fCPV <;> cases ph1.fDisp <;> cases ph2.fDisp <;>
    simp [List.filter_cons, hb]

theorem pi0MassPtCalls_both (x : Externals) (ph1 ph2 : AliCaloPhoton) :
    (∃ c ∈ pi0MassPtCalls x ph1 ph2, c.key = "both_mpt") ↔
      (ph1.fCPV = true ∧ ph2.fCPV = true) ∧ (ph1.fDisp = true ∧ ph2.fDisp = true) := by
  unfold pi0MassPtCalls
  cases ph1.fCPV <;> cases ph2.fCPV <;> cases ph1.fDisp <;> cases ph2.fDisp <;> simp

theorem exists_key_iff (l : List FillCall) (name : String) :
    (∃ c ∈ l, c.key = name) ↔ l.filter (fun c => decide (c.key = name)) ≠ [] := by
  rw [Ne, List.filter_eq_nil_iff]
  simp

/-- For every pair `(ph1, ph2)` (with the track array present) the pair body of
`ConsiderPi0s` returns, and among its calls `all_mpt` is filled
once with `(m, pt)`; `cpv_mpt` is filled (once, with `(m, pt)`) exactly when both
candidates pass the charged-veto flag; `disp_mpt` exactly when both pass the shape
flag; `both_mpt` is filled exactly when both candidates pass both flags. -/
theorem pi0PairCalls_categories (x : Externals) (s : Task) (ph1 ph2 : AliCaloPhoton)
    (tracks : List TLorentzVector) (ht : s.fTracksTPC = some tracks) :
    ∃ calls, pi0PairCalls x s ph1 ph2 = some calls ∧
      calls.filter (fun c => decide (c.key = "all_mpt")) =
        [{ key := "all_mpt",
           args := [x.M (TLorentzVector.add ph1.toLorentzVector ph2.toLorentzVector),
             x.Pt (TLorentzVector.add ph1.toLorentzVector ph2.toLorentzVector)] }] ∧
      calls.filter (fun c => decide (c.key = "cpv_mpt")) =
        (if ph1.fCPV = true ∧ ph2.fCPV = true then
          [{ key := "cpv_mpt",
             args := [x.M (TLorentzVector.add ph1.toLorentzVector ph2.toLorentzVector),
               x.Pt (TLorentzVector.add ph1.toLorentzVector ph2.toLorentzVector)] }]
        else []) ∧
      calls.filter (fun c => decide (c.key = "disp_mpt")) =
        (if ph1.fDisp = true ∧ ph2.fDisp = true then
          [{ key := "disp_mpt",
             args := [x.M (TLorentzVector.add ph1.toLorentzVector ph2.toLorentzVector),
               x.Pt (TLorentzVector.add ph1.toLorentzVector ph2.toLorentzVector)] }]
        else []) ∧
      ((∃ c ∈ calls, c.key = "both_mpt") ↔
        (ph1.fCPV = true ∧ ph2.fCPV = true) ∧ (ph1.fDisp = true ∧ ph2.fDisp = true)) := by
  refine ⟨_, pi0PairCalls_eq x s ph1 ph2 tracks ht, ?_, ?_, ?_, ?_⟩
  · rw [massPt_filter x s ph1 ph2 tracks _ (Or.inl rfl)]
    exact pi0MassPtCalls_all x ph1 ph2
  · rw [massPt_filter x s ph1 ph2 tracks _ (Or.inr (Or.inl rfl))]
    exact pi0MassPtCalls_cpv x ph1 ph2
  · rw [massPt_filter x s ph1 ph2 tracks _ (Or.inr (Or.inr (Or.inl rfl)))]
    exact pi0MassPtCalls_disp x ph1 ph2
  · rw [exists_key_iff, massPt_filter x s ph1 ph2 tracks _ (Or.inr (Or.inr (Or.inr rfl))),
      ← exists_key_iff]
    exact pi0MassPtCalls_both x ph1 ph2

theorem toDigitsCore_ne_nil (b fuel : Nat) : ∀ (n : Nat) (ds : List Char),
    (0 < fuel ∨ ds ≠ []) → Nat.toDigitsCore b fuel n ds ≠ [] := by
  induction fuel with
  | zero =>
    intro n ds h
    rcases h with h | h
    · omega
    · simpa [Nat.toDigitsCore] using h
  | succ f ih =>
    intro n ds _
    rw [Nat.toDigitsCore]
    split_ifs
    · exact List.cons_ne_nil _ _
    · exact ih _ _ (Or.inr (List.cons_ne_nil _ _))

theorem toString_int_ne_empty (m : Int) : (toString m).data ≠ [] := by
  cases m with
  | ofNat n =>
    show (Nat.repr n).data ≠ []
    simp only [Nat.repr, List.asString]
    exact toDigitsCore_ne_nil 10 (n + 1) n [] (Or.inl (Nat.succ_pos _))
  | negSucc n =>
    show ("-" ++ Nat.repr (n + 1)).data ≠ []
    simp [String.data_append]

theorem bothN_ne_both (m : Int) : "both" ++ toString m ++ "_mpt" ≠ "both_mpt" := by
  intro h
  have hd := congrArg String.data h
  simp only [String.data_append] at hd
  have h1 : (toString m).data ++ "_mpt".data = [] ++ "_mpt".data := by
    have : "both".data ++ ((toString m).data ++ "_mpt".data) = "both".data ++ "_mpt".data := by
      rw [← List.append_assoc]
      exact hd
    exact List.append_cancel_left this
  exact toString_int_ne_empty m (List.append_cancel_right h1)

theorem pi0MassPtCalls_both_filter (x : Externals) (ph1 ph2 : AliCaloPhoton) :
    (pi0MassPtCalls x ph1 ph2).filter (fun c => decide (c.key = "both_mpt")) =
      if (ph1.fCPV = true ∧ ph2.fCPV = true) ∧ (ph1.fDisp = true ∧ ph2.fDisp = true) then
        [{ key := "both_mpt",
           args := [x.M (TLorentzVector.add ph1.toLorentzVector ph2.toLorentzVector),
             x.Pt (TLorentzVector.add ph1.toLorentzVector ph2.toLorentzVector)] }]
      else [] := by
  have hb : ∀ m : Int, ("both" ++ toString m ++ "_mpt" = "both_mpt") = False := fun m =>
    eq_false (bothN_ne_both m)
  unfold pi0MassPtCalls
  cases ph1.fCPV <;> cases ph2.fCPV <;> cases ph1.fDisp <;> cases ph2.fDisp <;>
    simp [List.filter_cons, hb]

theorem pi0MassPtCalls_args (x : Externals) (ph1 ph2 : AliCaloPhoton) :
    ∀ c ∈ pi0MassPtCalls x ph1 ph2, c.args = massPtEntry x ph1 ph2 := by
  unfold pi0MassPtCalls massPtEntry
  cases ph1.fCPV <;> cases ph2.fCPV <;> cases ph1.fDisp <;> cases ph2.fDisp <;>
    simp

theorem filter_map_flatMap {α β γ : Type} (l : List α) (g : α → List β) (P : β → Bool)
    (f : β → γ) :
    ((l.flatMap g).filter P).map f = l.flatMap (fun a => ((g a).filter P).map f) := by
  induction l with
  | nil => rfl
  | cons a rest ih => simp [List.flatMap_cons, List.filter_append, List.map_append, ih]

theorem flatMap_congr_mem {α β : Type} (l : List α) (f g : α → List β)
    (h : ∀ a ∈ l, f a = g a) : l.flatMap f = l.flatMap g := by
  induction l with
  | nil => rfl
  | cons a rest ih =>
    rw [List.flatMap_cons, List.flatMap_cons, h a (List.mem_cons_self _ _),
      ih (fun b hb => h b (List.mem_cons_of_mem _ hb))]

/-- The entries one pair body files in the histogram `name`, when no angle or
track histogram has that name: those of its mass/pt calls with the key `name`. -/
theorem pairCalls_entries (x : Externals) (s : Task) (ph1 ph2 : AliCaloPhoton)
    (tracks : List TLorentzVector) (hists : List Histogram) (name : String)
    (hdim : dimOf hists name = some 2)
    (hname : ∀ ph1 ph2 c, (c ∈ pi0AngleCalls x ph1 ph2 ∨
      ∃ track, c ∈ pi0TrackCalls x s ph1 ph2 track) → c.key ≠ name) :
    ((pi0AngleCalls x ph1 ph2 ++ pi0MassPtCalls x ph1 ph2 ++
        (if promoted x s ph1 ph2 = true then tracks.flatMap (pi0TrackCalls x s ph1 ph2)
         else [])).filter (fun c => decide (c.key = name ∧
          dimOf hists name = some c.args.length))).map (fun c => c.args) =
      ((pi0MassPtCalls x ph1 ph2).filter (fun c => decide (c.key = name))).map
        (fun c => c.args) := by
  have h1 : (pi0AngleCalls x ph1 ph2).filter (fun c => decide (c.key = name ∧
      dimOf hists name = some c.args.length)) = [] := by
    rw [List.filter_eq_nil_iff]
    intro c hc
    simp [hname ph1 ph2 c (Or.inl hc)]
  have h2 : (if promoted x s ph1 ph2 = true then tracks.flatMap (pi0TrackCalls x s ph1 ph2)
      else []).filter (fun c => decide (c.key = name ∧
        dimOf hists name = some c.args.length)) = [] := by
    rw [List.filter_eq_nil_iff]
    intro c hc
    split at hc
    · obtain ⟨track, _, h⟩ := List.mem_flatMap.1 hc
      simp [hname ph1 ph2 c (Or.inr ⟨track, h⟩)]
    · cases hc
  have h3 : (pi0MassPtCalls x ph1 ph2).filter (fun c => decide (c.key = name ∧
      dimOf hists name = some c.args.length)) =
      (pi0MassPtCalls x ph1 ph2).filter (fun c => decide (c.key = name)) := by
    apply List.filter_congr
    intro c hc
    have := pi0MassPtCalls_args x ph1 ph2 c hc
    simp [this, massPtEntry, hdim]
  rw [List.filter_append, List.filter_append, h1, h2, List.nil_append, List.append_nil, h3]

/-- What `ConsiderPi0s` files in the histogram `name`, booked as a `TH2`, when no
angle or track histogram has that name: for every pair of candidates at indices
`i1 < i2`, in loop order, the entries of the pair's mass/pt calls with that key. -/
theorem ConsiderPi0s_entries (x : Externals) (s t : Task) (photons : List AliCaloPhoton)
    (tracks : List TLorentzVector) (hists : List Histogram)
    (hp : s.fCaloPhotonsPHOS = some photons) (ht : s.fTracksTPC = some tracks)
    (hh : s.fOutputContainer = some hists) (hrun : ConsiderPi0s x s = some t)
    (name : String) (hdim : dimOf hists name = some 2)
    (hname : ∀ ph1 ph2 c, (c ∈ pi0AngleCalls x ph1 ph2 ∨
      ∃ track, c ∈ pi0TrackCalls x s ph1 ph2 track) → c.key ≠ name) :
    histEntries t name = histEntries s name ++
      (candidatePairs photons).flatMap (fun p =>
        ((pi0MassPtCalls x p.1 p.2).filter (fun c => decide (c.key = name))).map
          (fun c => c.args)) := by
  have hcalls : ConsiderPi0sCalls x s = some ((pairIndices photons.length).flatMap (fun p =>
      (match photons[p.1]?, photons[p.2]? with
        | some ph1, some ph2 => [(ph1, ph2)]
        | _, _ => []).flatMap (fun q =>
          pi0AngleCalls x q.1 q.2 ++ pi0MassPtCalls x q.1 q.2 ++
            (if promoted x s q.1 q.2 = true then tracks.flatMap (pi0TrackCalls x s q.1 q.2)
             else [])))) := by
    rw [ConsiderPi0sCalls_eq x s photons hp]
    refine collectCalls_total _ _ _ ?_
    intro p hmem
    obtain ⟨ph1, ph2, e1, e2, hbody⟩ := pairBody_eq x s photons tracks ht p hmem
    rw [hbody, e1, e2]
    simp
  obtain ⟨t1, hrun1, hall, _⟩ := FillAll_frame _ s hists hh
  have ht1 : t1 = t := by
    simp only [ConsiderPi0s, hcalls] at hrun
    rw [hrun1] at hrun
    exact Option.some.inj hrun
  subst ht1
  rw [hall name, filter_map_flatMap, candidatePairs, List.flatMap_assoc]
  congr 1
  apply flatMap_congr_mem
  intro p _
  rw [filter_map_flatMap]
  apply flatMap_congr_mem
  intro q _
  exact pairCalls_entries x s q.1 q.2 tracks hists name hdim hname

theorem flatMap_ite_singleton {α β : Type} (l : List α) (P : α → Prop) [DecidablePred P]
    (f : α → β) :
    l.flatMap (fun a => if P a then [f a] else []) = (l.filter (fun a => decide (P a))).map f := by
  induction l with
  | nil => rfl
  | cons a rest ih =>
    rw [List.flatMap_cons, ih, List.filter_cons]
    by_cases h : P a <;> simp [h]

theorem flatMap_singleton_map {α β : Type} (l : List α) (f : α → β) :
    l.flatMap (fun a => [f a]) = l.map f := by
  induction l with
  | nil => rfl
  | cons a rest ih => rw [List.flatMap_cons, ih]; rfl

theorem sum_range_sub (m : Nat) :
    ((List.range m).map (fun i => m - i)).sum * 2 = m * (m + 1) := by
  induction m with
  | zero => rfl
  | succ m ih =>
    rw [List.range_succ_eq_map, List.map_cons, List.sum_cons, List.map_map]
    have : ((fun i => m + 1 - i) ∘ Nat.succ) = fun i => m - i := by
      funext i
      simp
    rw [this, Nat.sub_zero, Nat.add_mul, ih]
    ring

theorem pairIndices_length (n : Nat) : (pairIndices n).length = n * (n - 1) / 2 := by
  have h : (pairIndices n).length = ((List.range (n - 1)).map (fun i => (n - 1) - i)).sum := by
    simp only [pairIndices, List.length_flatMap, List.length_map, List.length_range']
    congr 1
    refine List.map_congr_left ?_
    intro i _
    simp only [Function.comp, List.length_map, List.length_range']
    omega
  rw [h]
  have := sum_range_sub (n - 1)
  cases n with
  | zero => rfl
  | succ k =>
    simp only [Nat.add_sub_cancel] at this ⊢
    rw [Nat.mul_comm (k + 1) k, ← this, Nat.mul_div_cancel _ (by norm_num)]

theorem length_flatMap_one {α β : Type} (l : List α) (f : α → List β)
    (h : ∀ a ∈ l, (f a).length = 1) : (l.flatMap f).length = l.length := by
  induction l with
  | nil => rfl
  | cons a rest ih =>
    rw [List.flatMap_cons, List.length_append, h a (List.mem_cons_self _ _),
      ih (fun b hb => h b (List.mem_cons_of_mem _ hb)), List.length_cons]
    omega

theorem mem_candidatePairs (photons : List AliCaloPhoton) (i1 i2 : Nat)
    (ph1 ph2 : AliCaloPhoton) (hi : i1 < i2) (h1 : photons[i1]? = some ph1)
    (h2 : photons[i2]? = some ph2) : (ph1, ph2) ∈ candidatePairs photons := by
  have hlt : i2 < photons.length := by
    by_contra hcon
    rw [List.getElem?_eq_none (by omega)] at h2
    cases h2
  refine List.mem_flatMap.2 ⟨(i1, i2), (mem_pairIndices photons.length i1 i2).2 ⟨hi, hlt⟩, ?_⟩
  simp [h1, h2]

theorem candidatePairs_length (photons : List AliCaloPhoton) :
    (candidatePairs photons).length = photons.length * (photons.length - 1) / 2 := by
  rw [candidatePairs, length_flatMap_one, pairIndices_length]
  intro p hp
  obtain ⟨i1, i2⟩ := p
  have hb := (mem_pairIndices photons.length i1 i2).1 hp
  have h1 : i1 < photons.length := by omega
  simp [List.getElem?_eq_getElem h1, List.getElem?_eq_getElem hb.2]

theorem massPt_name_ne (x : Externals) (s : Task) (name : String)
    (hn : name = "all_mpt" ∨ name = "cpv_mpt" ∨ name = "disp_mpt" ∨ name = "both_mpt") :
    ∀ ph1 ph2 c, (c ∈ pi0AngleCalls x ph1 ph2 ∨
      ∃ track, c ∈ pi0TrackCalls x s ph1 ph2 track) → c.key ≠ name := by
  intro ph1 ph2 c hc
  rcases hc with hc | ⟨track, hc⟩
  · exact pi0AngleCalls_key_ne x ph1 ph2 name hn c hc
  · exact pi0TrackCalls_key_ne x s ph1 ph2 track name hn c hc

/-! ## Cut categories -/

/-- C12: on an event whose candidate array, track array and output container exist,
with the four histograms booked as `TH2`, `ConsiderPi0s` returns, and for the pairs
it processes (the candidates at the indices `i1 < i2`, each pair once, in loop
order) it files the pair's `(m, pt)` in `all_mpt` for every pair, in `cpv_mpt`
exactly for the pairs whose two candidates pass the charged-veto flag, in
`disp_mpt` exactly for the pairs whose two candidates pass the shape flag, and in
`both_mpt` exactly for the pairs whose two candidates pass both flags; these
histograms receive nothing else. -/
theorem cut_categories_same_event (x : Externals) (s : Task) (photons : List AliCaloPhoton)
    (tracks : List TLorentzVector) (hists : List Histogram)
    (hp : s.fCaloPhotonsPHOS = some photons) (ht : s.fTracksTPC = some tracks)
    (hh : s.fOutputContainer = some hists)
    (hall : dimOf hists "all_mpt" = some 2) (hcpv : dimOf hists "cpv_mpt" = some 2)
    (hdisp : dimOf hists "disp_mpt" = some 2) (hboth : dimOf hists "both_mpt" = some 2) :
    ∃ t, ConsiderPi0s x s = some t ∧
      histEntries t "all_mpt" = histEntries s "all_mpt" ++
        (candidatePairs photons).map (fun p => massPtEntry x p.1 p.2) ∧
      histEntries t "cpv_mpt" = histEntries s "cpv_mpt" ++
        ((candidatePairs photons).filter
          (fun p => decide (p.1.fCPV = true ∧ p.2.fCPV = true))).map
            (fun p => massPtEntry x p.1 p.2) ∧
      histEntries t "disp_mpt" = histEntries s "disp_mpt" ++
        ((candidatePairs photons).filter
          (fun p => decide (p.1.fDisp = true ∧ p.2.fDisp = true))).map
            (fun p => massPtEntry x p.1 p.2) ∧
      histEntries t "both_mpt" = histEntries s "both_mpt" ++
        ((candidatePairs photons).filter
          (fun p => decide ((p.1.fCPV = true ∧ p.2.fCPV = true) ∧
            (p.1.fDisp = true ∧ p.2.fDisp = true)))).map
            (fun p => massPtEntry x p.1 p.2) ∧
      (∀ (i1 i2 : Nat) (ph1 ph2 : AliCaloPhoton), i1 < i2 → photons[i1]? = some ph1 → photons[i2]? = some ph2 →
        (ph1, ph2) ∈ candidatePairs photons) ∧
      (candidatePairs photons).length = photons.length * (photons.length - 1) / 2 := by
  obtain ⟨calls, hcalls⟩ := ConsiderPi0sCalls_isSome x s photons tracks hp ht
  obtain ⟨t, hfill, _, _⟩ := FillAll_frame calls s hists hh
  have hrun : ConsiderPi0s x s = some t := by simp only [ConsiderPi0s, hcalls, hfill]
  refine ⟨t, hrun, ?_, ?_, ?_, ?_, mem_candidatePairs photons, candidatePairs_length photons⟩
  · rw [ConsiderPi0s_entries x s t photons tracks hists hp ht hh hrun "all_mpt" hall
      (massPt_name_ne x s _ (Or.inl rfl))]
    congr 1
    rw [← flatMap_singleton_map]
    apply flatMap_congr_mem
    intro p _
    rw [pi0MassPtCalls_all]
    rfl
  · rw [ConsiderPi0s_entries x s t photons tracks hists hp ht hh hrun "cpv_mpt" hcpv
      (massPt_name_ne x s _ (Or.inr (Or.inl rfl)))]
    congr 1
    rw [← flatMap_ite_singleton]
    apply flatMap_congr_mem
    intro p _
    rw [pi0MassPtCalls_cpv]
    split_ifs <;> rfl
  · rw [ConsiderPi0s_entries x s t photons tracks hists hp ht hh hrun "disp_mpt" hdisp
      (massPt_name_ne x s _ (Or.inr (Or.inr (Or.inl rfl))))]
    congr 1
    rw [← flatMap_ite_singleton]
    apply flatMap_congr_mem
    intro p _
    rw [pi0MassPtCalls_disp]
    split_ifs <;> rfl
  · rw [ConsiderPi0s_entries x s t photons tracks hists hp ht hh hrun "both_mpt" hboth
      (massPt_name_ne x s _ (Or.inr (Or.inr (Or.inr rfl))))]
    congr 1
    rw [← flatMap_ite_singleton]
    apply flatMap_congr_mem
    intro p _
    rw [pi0MassPtCalls_both_filter]
    split_ifs <;> rfl

/-- C12, the scenario of the specification: three candidates with the shape flags
pass, pass, fail and the veto flags pass, fail, pass. `ConsiderPi0s` processes the
pairs (1,2), (1,3), (2,3); `all_mpt` receives the three pairs, `disp_mpt` the pair
(1,2) only, `cpv_mpt` the pair (1,3) only, `both_mpt` nothing. -/
theorem cut_categories_same_event_witness :
    (flagExampleTask.fCaloPhotonsPHOS = some flagExamplePhotons ∧
      flagExampleTask.fTracksTPC = some [] ∧
      flagExampleTask.fOutputContainer = some exampleHistograms ∧
      dimOf exampleHistograms "all_mpt" = some 2 ∧ dimOf exampleHistograms "cpv_mpt" = some 2 ∧
      dimOf exampleHistograms "disp_mpt" = some 2 ∧
      dimOf exampleHistograms "both_mpt" = some 2) ∧
    (∃ t, ConsiderPi0s exampleExternals flagExampleTask = some t ∧
      histEntries t "all_mpt" =
        [massPtEntry exampleExternals flagExamplePhoton1 flagExamplePhoton2,
         massPtEntry exampleExternals flagExamplePhoton1 flagExamplePhoton3,
         massPtEntry exampleExternals flagExamplePhoton2 flagExamplePhoton3] ∧
      histEntries t "cpv_mpt" =
        [massPtEntry exampleExternals flagExamplePhoton1 flagExamplePhoton3] ∧
      histEntries t "disp_mpt" =
        [massPtEntry exampleExternals flagExamplePhoton1 flagExamplePhoton2] ∧
      histEntries t "both_mpt" = []) := by
  have hpairs : candidatePairs flagExamplePhotons =
      [(flagExamplePhoton1, flagExamplePhoton2), (flagExamplePhoton1, flagExamplePhoton3),
       (flagExamplePhoton2, flagExamplePhoton3)] := by decide
  have hold : histEntries flagExampleTask "all_mpt" = [] ∧
      histEntries flagExampleTask "cpv_mpt" = [] ∧ histEntries flagExampleTask "disp_mpt" = [] ∧
      histEntries flagExampleTask "both_mpt" = [] := by decide
  obtain ⟨t, hrun, h1, h2, h3, h4, _⟩ := cut_categories_same_event exampleExternals
    flagExampleTask flagExamplePhotons [] exampleHistograms rfl rfl rfl (by decide) (by decide)
    (by decide) (by decide)
  refine ⟨⟨rfl, rfl, rfl, by decide, by decide, by decide, by decide⟩, t, hrun, ?_, ?_, ?_, ?_⟩
  · rw [h1, hpairs, hold.1]
    rfl
  · rw [h2, hpairs, hold.2.1]
    rfl
  · rw [h3, hpairs, hold.2.2.1]
    rfl
  · rw [h4, hpairs, hold.2.2.2]
    rfl

theorem mix_bothN_key (m : Int) :
    "mix_" ++ ("both" ++ toString m ++ "_mpt") = "mix_both" ++ toString m ++ "_mpt" := by
  rw [← String.append_assoc, ← String.append_assoc]
  rfl

theorem mixMassPtCalls_eq_map (x : Externals) (ph1 ph2 : AliCaloPhoton) :
    mixMassPtCalls x ph1 ph2 =
      (pi0MassPtCalls x ph1 ph2).map (fun c => { c with key := "mix_" ++ c.key }) := by
  have h1 : "mix_" ++ "all_mpt" = "mix_all_mpt" := by decide
  have h2 : "mix_" ++ "cpv_mpt" = "mix_cpv_mpt" := by decide
  have h3 : "mix_" ++ "disp_mpt" = "mix_disp_mpt" := by decide
  have h4 : "mix_" ++ "both_mpt" = "mix_both_mpt" := by decide
  unfold mixMassPtCalls pi0MassPtCalls
  cases ph1.fCPV <;> cases ph2.fCPV <;> cases ph1.fDisp <;> cases ph2.fDisp <;>
    simp [h1, h2, h3, h4]
  split_ifs <;> simp [mix_bothN_key]

theorem digitChar_ne_underscore (k : Nat) : Nat.digitChar k ≠ '_' := by
  by_cases h : k < 16
  · interval_cases k <;> decide
  · have hstar : Nat.digitChar k = '*' := by
      unfold Nat.digitChar
      repeat rw [if_neg (by omega)]
    rw [hstar]
    decide

theorem toDigitsCore_chars (b fuel : Nat) : ∀ (n : Nat) (ds : List Char),
    (∀ c ∈ ds, c ≠ '_') → ∀ c ∈ Nat.toDigitsCore b fuel n ds, c ≠ '_' := by
  induction fuel with
  | zero =>
    intro n ds h c hc
    rw [Nat.toDigitsCore] at hc
    exact h c hc
  | succ f ih =>
    intro n ds h c hc
    have hcons : ∀ c ∈ Nat.digitChar (n % b) :: ds, c ≠ '_' := by
      intro c hc
      rcases List.mem_cons.1 hc with rfl | hc
      · exact digitChar_ne_underscore _
      · exact h c hc
    rw [Nat.toDigitsCore] at hc
    split_ifs at hc
    · exact hcons c hc
    · exact ih _ _ hcons c hc

theorem toString_int_chars (m : Int) : ∀ c ∈ (toString m).data, c ≠ '_' := by
  cases m with
  | ofNat n =>
    show ∀ c ∈ (Nat.repr n).data, c ≠ '_'
    simp only [Nat.repr, List.asString]
    exact toDigitsCore_chars 10 (n + 1) n [] (by simp)
  | negSucc n =>
    show ∀ c ∈ ("-" ++ Nat.repr (n + 1)).data, c ≠ '_'
    intro c hc
    rw [String.data_append, List.mem_append] at hc
    rcases hc with hc | hc
    · have : c = '-' := by simpa using hc
      rw [this]
      decide
    · simp only [Nat.repr, List.asString] at hc
      exact toDigitsCore_chars 10 (n + 1 + 1) (n + 1) [] (by simp) c hc

theorem bothN_take (m : Int) :
    ("both" ++ toString m ++ "_mpt").data.take 1 = ['b'] ∧
    ∃ d, d ≠ '_' ∧ ("both" ++ toString m ++ "_mpt").data.take 5 = ['b', 'o', 't', 'h', d] := by
  have hne := toString_int_ne_empty m
  have hch := toString_int_chars m
  refine ⟨by simp [String.data_append], ?_⟩
  rcases hd : (toString m).data with _ | ⟨d, rest⟩
  · exact absurd hd hne
  · refine ⟨d, hch d (by rw [hd]; exact List.mem_cons_self _ _), ?_⟩
    simp [String.data_append, hd]

/-- The names of the mass/pt histograms of the pair body of `ConsiderPi0s` are no
key of its angle fills or of its track fills. -/
theorem massPt_family_ne (x : Externals) (s : Task) (name : String)
    (hn : (name = "all_mpt" ∨ name = "cpv_mpt" ∨ name = "disp_mpt" ∨ name = "both_mpt") ∨
      ∃ m : Int, name = "both" ++ toString m ++ "_mpt") :
    ∀ ph1 ph2 c, (c ∈ pi0AngleCalls x ph1 ph2 ∨
      ∃ track, c ∈ pi0TrackCalls x s ph1 ph2 track) → c.key ≠ name := by
  rcases hn with hn | ⟨m, rfl⟩
  · exact massPt_name_ne x s name hn
  · intro ph1 ph2 c hc
    obtain ⟨hone, d, hd, htake⟩ := bothN_take m
    rcases hc with hc | ⟨track, hc⟩
    · have hkeys := pi0AngleCalls_keys x ph1 ph2
      have : c.key ∈ (pi0AngleCalls x ph1 ph2).map (fun c => c.key) := List.mem_map_of_mem _ hc
      rw [hkeys] at this
      simp only [List.mem_cons, List.mem_singleton, List.not_mem_nil, or_false] at this
      refine ne_of_take _ _ 1 ?_
      rw [hone]
      rcases this with h | h | h <;> rw [h] <;> decide
    · have h6 := pi0TrackCalls_take x s ph1 ph2 track c hc
      have h1 : c.key.data.take 1 = (c.key.data.take 6).take 1 := by
        rw [List.take_take]
        rfl
      have h5 : c.key.data.take 5 = (c.key.data.take 6).take 5 := by
        rw [List.take_take]
        rfl
      rcases h6 with h | h | h | h
      · refine ne_of_take _ _ 1 ?_
        rw [hone, h1, h]
        decide
      · refine ne_of_take _ _ 1 ?_
        rw [hone, h1, h]
        decide
      · refine ne_of_take _ _ 1 ?_
        rw [hone, h1, h]
        decide
      · refine ne_of_take _ _ 5 ?_
        rw [htake, h5, h]
        intro e
        have : '_' = d := by simpa using e
        exact hd this.symm

theorem mix_key_inj (a b : String) : "mix_" ++ a = "mix_" ++ b ↔ a = b := by
  constructor
  · intro h
    have hd := congrArg String.data h
    simp only [String.data_append] at hd
    exact String.ext (List.append_cancel_left hd)
  · intro h
    rw [h]

theorem mixMassPt_entries (x : Externals) (ph1 ph2 : AliCaloPhoton) (hists : List Histogram)
    (name : String) (hdim : dimOf hists ("mix_" ++ name) = some 2) :
    ((mixMassPtCalls x ph1 ph2).filter (fun c => decide (c.key = "mix_" ++ name ∧
        dimOf hists ("mix_" ++ name) = some c.args.length))).map (fun c => c.args) =
      ((pi0MassPtCalls x ph1 ph2).filter (fun c => decide (c.key = name))).map
        (fun c => c.args) := by
  rw [mixMassPtCalls_eq_map, List.filter_map, List.map_map]
  have hf : (pi0MassPtCalls x ph1 ph2).filter
      ((fun c : FillCall => decide (c.key = "mix_" ++ name ∧
        dimOf hists ("mix_" ++ name) = some c.args.length)) ∘
        (fun c : FillCall => { c with key := "mix_" ++ c.key })) =
      (pi0MassPtCalls x ph1 ph2).filter (fun c => decide (c.key = name)) := by
    apply List.filter_congr
    intro c hc
    have hargs := pi0MassPtCalls_args x ph1 ph2 c hc
    simp only [Function.comp, mix_key_inj, hargs, massPtEntry, hdim, List.length_cons,
      List.length_nil, and_true]
  rw [hf]
  rfl

theorem mixMassPtCalls_key (x : Externals) (ph1 ph2 : AliCaloPhoton) :
    ∀ c ∈ mixMassPtCalls x ph1 ph2, ∃ name, c.key = "mix_" ++ name := by
  intro c hc
  rw [mixMassPtCalls_eq_map] at hc
  obtain ⟨c0, _, rfl⟩ := List.mem_map.1 hc
  exact ⟨c0.key, rfl⟩

/-! ## Cross-event pairs -/

/-- C14: on an event whose candidate array, photon pool and output container
exist, `ConsiderPi0sMix` returns. For every name whose `mix_` histogram is booked
as `TH2`, that histogram receives, for every array stored at the current event
class (most recent first), for every current candidate `ph1` and every pooled
candidate `ph2` of that array, once, the `(m, pt)` of the pair exactly when the
mass/pt part of the pair body of `ConsiderPi0s` fills the histogram of that name
for `(ph1, ph2)`; no histogram whose name does not start with `mix_` is touched.
`ConsiderPi0s` files the same per-pair entries under the plain names (`all_mpt`,
`cpv_mpt`, `disp_mpt`, `both_mpt`, `both<module>_mpt`) for the pairs of the same
event. The calls of a cross-event pair are those of the mass/pt part of the pair
body of `ConsiderPi0s`, in the same order and with the same values, each key with
`mix_` put in front. -/
theorem mixed_pairs_same_categories (x : Externals) (s : Task)
    (photons : List AliCaloPhoton) (lists : TObjArray AliCaloPhoton) (hists : List Histogram)
    (hp : s.fCaloPhotonsPHOS = some photons) (hl : s.fCaloPhotonsPHOSLists = some lists)
    (hh : s.fOutputContainer = some hists) :
    (∃ t, ConsiderPi0sMix x s = some t ∧
      (∀ name, dimOf hists ("mix_" ++ name) = some 2 →
        histEntries t ("mix_" ++ name) = histEntries s ("mix_" ++ name) ++
          (photonList s s.fVtxBin s.fCentBin s.fEMRPBin).flatMap (fun mixPHOS =>
            photons.flatMap (fun ph1 => mixPHOS.flatMap (fun ph2 =>
              ((pi0MassPtCalls x ph1 ph2).filter (fun c => decide (c.key = name))).map
                (fun c => c.args))))) ∧
      (∀ key, (∀ name, key ≠ "mix_" ++ name) → histEntries t key = histEntries s key)) ∧
    (∀ (tracks : List TLorentzVector) (t0 : Task) (name : String),
      s.fTracksTPC = some tracks → ConsiderPi0s x s = some t0 →
      ((name = "all_mpt" ∨ name = "cpv_mpt" ∨ name = "disp_mpt" ∨ name = "both_mpt") ∨
        ∃ m : Int, name = "both" ++ toString m ++ "_mpt") →
      dimOf hists name = some 2 →
      histEntries t0 name = histEntries s name ++
        (candidatePairs photons).flatMap (fun p =>
          ((pi0MassPtCalls x p.1 p.2).filter (fun c => decide (c.key = name))).map
            (fun c => c.args))) ∧
    (∃ s1, ConsiderPi0sMixCalls x s =
      some ((photonList s s.fVtxBin s.fCentBin s.fEMRPBin).flatMap (fun mixPHOS =>
          photons.flatMap (fun ph1 => mixPHOS.flatMap (fun ph2 => mixMassPtCalls x ph1 ph2))),
        s1)) ∧
    ∀ ph1 ph2, mixMassPtCalls x ph1 ph2 =
      (pi0MassPtCalls x ph1 ph2).map (fun c => { c with key := "mix_" ++ c.key }) := by
  obtain ⟨pool, hcalls⟩ := ConsiderPi0sMixCalls_eq x s photons lists hp hl
  obtain ⟨t, hfill, hall, hframe⟩ := FillAll_frame
    ((photonList s s.fVtxBin s.fCentBin s.fEMRPBin).flatMap (fun mixPHOS =>
      photons.flatMap (fun ph1 => mixPHOS.flatMap (fun ph2 => mixMassPtCalls x ph1 ph2))))
    { s with fCaloPhotonsPHOSLists := pool } hists hh
  have hrun : ConsiderPi0sMix x s = some t := by simp only [ConsiderPi0sMix, hcalls, hfill]
  refine ⟨⟨t, hrun, ?_, ?_⟩, ?_, ⟨_, hcalls⟩, mixMassPtCalls_eq_map x⟩
  · intro name hdim
    rw [hall ("mix_" ++ name), filter_map_flatMap]
    show histEntries s ("mix_" ++ name) ++ _ = _
    congr 1
    apply flatMap_congr_mem
    intro mixPHOS _
    rw [filter_map_flatMap]
    apply flatMap_congr_mem
    intro ph1 _
    rw [filter_map_flatMap]
    apply flatMap_congr_mem
    intro ph2 _
    exact mixMassPt_entries x ph1 ph2 hists name hdim
  · intro key hkey
    rw [hframe key]
    · rfl
    · intro c hc
      obtain ⟨mixPHOS, _, hc⟩ := List.mem_flatMap.1 hc
      obtain ⟨ph1, _, hc⟩ := List.mem_flatMap.1 hc
      obtain ⟨ph2, _, hc⟩ := List.mem_flatMap.1 hc
      obtain ⟨name, hname⟩ := mixMassPtCalls_key x ph1 ph2 c hc
      rw [hname]
      exact fun e => hkey name e.symm
  · intro tracks t0 name ht hrun0 hn hdim
    exact ConsiderPi0s_entries x s t0 photons tracks hists hp ht hh hrun0 name hdim
      (massPt_family_ne x s name hn)

/-- C14 on the example event: two current candidates and one pooled array with
one candidate give two cross-event pairs; both pass both flags, so `mix_all_mpt`
and `mix_both_mpt` receive the two pairs, and `all_mpt` stays as it was. -/
theorem mixed_pairs_same_categories_witness :
    (pairExampleTask.fCaloPhotonsPHOS = some pairExamplePhotons ∧
      pairExampleTask.fCaloPhotonsPHOSLists =
        some ((List.replicate 36 none).set 11 (some [examplePhotons 1])) ∧
      pairExampleTask.fOutputContainer = some exampleHistograms) ∧
    photonList pairExampleTask pairExampleTask.fVtxBin pairExampleTask.fCentBin
      pairExampleTask.fEMRPBin = [examplePhotons 1] ∧
    (∃ t, ConsiderPi0sMix exampleExternals pairExampleTask = some t ∧
      histEntries t "mix_all_mpt" =
        [massPtEntry exampleExternals pairExamplePhoton1
            { px := 1, py := 0, pz := 0, e := 1, fModule := 1, fDisp := true, fCPV := true },
         massPtEntry exampleExternals pairExamplePhoton2
            { px := 1, py := 0, pz := 0, e := 1, fModule := 1, fDisp := true, fCPV := true }] ∧
      histEntries t "mix_both_mpt" =
        [massPtEntry exampleExternals pairExamplePhoton1
            { px := 1, py := 0, pz := 0, e := 1, fModule := 1, fDisp := true, fCPV := true },
         massPtEntry exampleExternals pairExamplePhoton2
            { px := 1, py := 0, pz := 0, e := 1, fModule := 1, fDisp := true, fCPV := true }] ∧
      histEntries t "all_mpt" = histEntries pairExampleTask "all_mpt") := by
  have hlist : photonList pairExampleTask pairExampleTask.fVtxBin pairExampleTask.fCentBin
      pairExampleTask.fEMRPBin = [examplePhotons 1] := by decide
  obtain ⟨⟨t, hrun, hmix, hother⟩, _⟩ := mixed_pairs_same_categories exampleExternals
    pairExampleTask pairExamplePhotons _ exampleHistograms rfl rfl rfl
  have hall := hmix "all_mpt" (by decide)
  have hboth := hmix "both_mpt" (by decide)
  have e1 : "mix_" ++ "all_mpt" = "mix_all_mpt" := by decide
  have e2 : "mix_" ++ "both_mpt" = "mix_both_mpt" := by decide
  rw [e1, hlist] at hall
  rw [e2, hlist] at hboth
  refine ⟨⟨rfl, rfl, rfl⟩, hlist, t, hrun, ?_, ?_, ?_⟩
  · rw [hall]
    simp only [List.flatMap_cons, List.flatMap_nil, List.append_nil, examplePhotons,
      pairExamplePhotons, pi0MassPtCalls_all]
    rfl
  · rw [hboth]
    simp only [List.flatMap_cons, List.flatMap_nil, List.append_nil, examplePhotons,
      pairExamplePhotons, pi0MassPtCalls_both_filter]
    rfl
  · apply hother
    intro name e
    have := congrArg (fun k : String => k.data.take 1) e
    simp [String.data_append] at this

theorem pairIndices_nodup (n : Nat) : (pairIndices n).Nodup := by
  unfold pairIndices
  rw [List.nodup_flatMap]
  refine ⟨?_, ?_⟩
  · intro i1 _
    refine List.Nodup.map ?_ (List.nodup_range' _ _)
    intro a b h
    simpa using h
  · refine List.Pairwise.imp ?_ (List.nodup_range (n - 1))
    intro a b hab
    simp only [Function.onFun]
    intro l h1 h2
    simp only [List.mem_map] at h1 h2
    obtain ⟨_, _, rfl⟩ := h1
    obtain ⟨_, _, h⟩ := h2
    simp only [Prod.mk.injEq] at h
    exact hab h.1.symm
theorem sum_map_eq_length {α : Type} (l : List α) (f : α → Nat) (h : ∀ a ∈ l, f a = 1) :
    (l.map f).sum = l.length := by
  induction l with
  | nil => rfl
  | cons a rest ih =>
    rw [List.map_cons, List.sum_cons, h a (List.mem_cons_self _ _),
      ih (fun b hb => h b (List.mem_cons_of_mem _ hb)), List.length_cons]
    omega

theorem length_filter_flatten {α : Type} (p : α → Bool) (passes : List (List α))
    (h : ∀ c ∈ passes, (c.filter p).length = 1) :
    (passes.flatten.filter p).length = passes.length := by
  rw [← List.countP_eq_length_filter, List.countP_flatten]
  exact sum_map_eq_length passes _ (fun c hc => by
    rw [List.countP_eq_length_filter]
    exact h c hc)

theorem pairBody_some (x : Externals) (s : Task) (photons : List AliCaloPhoton)
    (p : Nat × Nat) (c : List FillCall) (h : pairBody x s photons p = some c) :
    ∃ ph1 ph2, photons[p.1]? = some ph1 ∧ photons[p.2]? = some ph2 ∧
      pi0PairCalls x s ph1 ph2 = some c := by
  simp only [pairBody] at h
  split at h
  · cases h
  · split at h
    · cases h
    · exact ⟨_, _, by assumption, by assumption, h⟩

theorem allMpt_pass_count (x : Externals) (s : Task) (ph1 ph2 : AliCaloPhoton)
    (tracks : List TLorentzVector) (ht : s.fTracksTPC = some tracks) (hists : List Histogram)
    (hb : dimOf hists "all_mpt" = some 2) (c : List FillCall)
    (hc : pi0PairCalls x s ph1 ph2 = some c) :
    (c.filter (fun k => decide (k.key = "all_mpt" ∧
      dimOf hists "all_mpt" = some k.args.length))).length = 1 := by
  rw [pi0PairCalls_eq x s ph1 ph2 tracks ht, Option.some.injEq] at hc
  subst hc
  have hsplit : ∀ l : List FillCall,
      l.filter (fun k => decide (k.key = "all_mpt" ∧
        dimOf hists "all_mpt" = some k.args.length)) =
      (l.filter (fun k => decide (k.key = "all_mpt"))).filter
        (fun k => decide (dimOf hists "all_mpt" = some k.args.length)) := by
    intro l
    rw [List.filter_filter]
    congr 1
    funext k
    simp [Bool.and_comm]
  rw [hsplit, massPt_filter x s ph1 ph2 tracks _ (Or.inl rfl), pi0MassPtCalls_all]
  simp [hb]

/-! ## Same-event pairs -/

/-- C11: on an event with `n` calorimeter candidates (the track array present,
`all_mpt` booked as a two-dimensional histogram) `ConsiderPi0s` returns; its passes
are those of the index pairs `(i1, i2)` with `0 ≤ i1 < i2 < n`, each pair once, in
loop order, every pass running the pair body on the candidates at the two indices;
and `all_mpt` receives exactly `n * (n - 1) / 2` entries (none for `n` 0 or 1). -/
theorem same_event_pairs_once (x : Externals) (s : Task) (photons : List AliCaloPhoton)
    (tracks : List TLorentzVector) (hp : s.fCaloPhotonsPHOS = some photons)
    (ht : s.fTracksTPC = some tracks) (hb : Booked s "all_mpt" 2) :
    (∀ i1 i2, (i1, i2) ∈ pairIndices photons.length ↔ i1 < i2 ∧ i2 < photons.length) ∧
    (pairIndices photons.length).Nodup ∧
    ∃ passes t,
      List.Forall₂
        (fun p c => ∃ ph1 ph2, photons[p.1]? = some ph1 ∧ photons[p.2]? = some ph2 ∧
          pi0PairCalls x s ph1 ph2 = some c)
        (pairIndices photons.length) passes ∧
      ConsiderPi0sCalls x s = some passes.flatten ∧
      ConsiderPi0s x s = some t ∧
      (histEntries t "all_mpt").length =
        (histEntries s "all_mpt").length + photons.length * (photons.length - 1) / 2 := by
  refine ⟨mem_pairIndices photons.length, pairIndices_nodup photons.length, ?_⟩
  obtain ⟨hists, hh, hdim⟩ := hb
  obtain ⟨calls, hcalls⟩ := ConsiderPi0sCalls_isSome x s photons tracks hp ht
  have hcalls1 := hcalls
  rw [ConsiderPi0sCalls_eq x s photons hp] at hcalls1
  obtain ⟨passes, hF, rfl⟩ := collectCalls_passes _ _ calls hcalls1
  have hF1 := List.Forall₂.imp (pairBody_some x s photons) hF
  obtain ⟨t, hrun, hall, _⟩ := FillAll_frame passes.flatten s hists hh
  refine ⟨passes, t, hF1, hcalls, by simp only [ConsiderPi0s, hcalls, hrun], ?_⟩
  rw [hall "all_mpt", List.length_append, List.length_map, length_filter_flatten,
    ← List.Forall₂.length_eq hF, pairIndices_length]
  intro c hc
  obtain ⟨p, _, ph1, ph2, _, _, hpair⟩ := forall2_of_mem_right _ _ _ hF1 c hc
  exact allMpt_pass_count x s ph1 ph2 tracks ht hists hdim c hpair

/-- C11 on the example event with three candidates: the three pairs (0,1), (0,2),
(1,2) are visited and `all_mpt` receives three entries. -/
theorem same_event_pairs_once_witness :
    (flagExampleTask.fCaloPhotonsPHOS = some flagExamplePhotons ∧
      flagExampleTask.fTracksTPC = some [] ∧ Booked flagExampleTask "all_mpt" 2) ∧
    ((∀ i1 i2, (i1, i2) ∈ pairIndices flagExamplePhotons.length ↔
        i1 < i2 ∧ i2 < flagExamplePhotons.length) ∧
    (pairIndices flagExamplePhotons.length).Nodup ∧
    ∃ passes t,
      List.Forall₂
        (fun p c => ∃ ph1 ph2, flagExamplePhotons[p.1]? = some ph1 ∧
          flagExamplePhotons[p.2]? = some ph2 ∧
          pi0PairCalls exampleExternals flagExampleTask ph1 ph2 = some c)
        (pairIndices flagExamplePhotons.length) passes ∧
      ConsiderPi0sCalls exampleExternals flagExampleTask = some passes.flatten ∧
      ConsiderPi0s exampleExternals flagExampleTask = some t ∧
      (histEntries t "all_mpt").length =
        (histEntries flagExampleTask "all_mpt").length +
          flagExamplePhotons.length * (flagExamplePhotons.length - 1) / 2) ∧
    pairIndices flagExamplePhotons.length = [(0, 1), (0, 2), (1, 2)] ∧
    flagExamplePhotons.length * (flagExamplePhotons.length - 1) / 2 = 3 :=
  ⟨⟨rfl, rfl, ⟨exampleHistograms, rfl, by decide⟩⟩,
    same_event_pairs_once exampleExternals flagExampleTask flagExamplePhotons [] rfl rfl
      ⟨exampleHistograms, rfl, by decide⟩,
    by decide, by decide⟩

theorem mixTrackCalls_all_count (x : Externals) (s : Task) (ph1 ph2 : AliCaloPhoton)
    (track : TLorentzVector) :
    (mixTrackCalls x s ph1 ph2 track).countP (fun c => isMixAllPtPhiEta c.key) = 1 := by
  unfold mixTrackCalls
  cases ph1.fCPV <;> cases ph2.fCPV <;> cases ph1.fDisp <;> cases ph2.fDisp <;>
    simp [isMixAllPtPhiEta, String.data_append, List.countP_cons]

theorem countP_flatMap_const {α β : Type} (p : β → Bool) (f : α → List β) (l : List α)
    (h : ∀ a ∈ l, (f a).countP p = 1) : (l.flatMap f).countP p = l.length := by
  induction l with
  | nil => rfl
  | cons a rest ih =>
    rw [List.flatMap_cons, List.countP_append, h a (List.mem_cons_self _ _),
      ih (fun b hb => h b (List.mem_cons_of_mem _ hb)), List.length_cons]
    omega

theorem countP_flatMap_sum {α β : Type} (p : β → Bool) (f : α → List β) (l : List α) :
    (l.flatMap f).countP p = (l.map (fun a => (f a).countP p)).sum := by
  induction l with
  | nil => rfl
  | cons a rest ih =>
    rw [List.flatMap_cons, List.countP_append, ih, List.map_cons, List.sum_cons]

/-- What `ConsiderTracksMix` fills: the number of its calls to a
`mix_all_ptphieta` histogram is the number of ordered index pairs `(i1, i2)`,
`i1 = i2` included, whose candidates pass `TestMass`, times the number of tracks
pooled at the event class. -/
theorem ConsiderTracksMixCalls_all_count (x : Externals) (s : Task)
    (photons : List AliCaloPhoton) (lists : TObjArray TLorentzVector)
    (hp : s.fCaloPhotonsPHOS = some photons) (hl : s.fTracksTPCLists = some lists) :
    ∃ calls s1, ConsiderTracksMixCalls x s = some (calls, s1) ∧
      calls.countP (fun c => isMixAllPtPhiEta c.key) =
        (photons.map (fun ph1 => photons.countP (fun ph2 => promoted x s ph1 ph2))).sum *
          ((trackList s s.fVtxBin s.fCentBin s.fEMRPBin).map List.length).sum := by
  obtain ⟨pool, h⟩ := ConsiderTracksMixCalls_eq x s photons lists hp hl
  refine ⟨_, _, h, ?_⟩
  generalize trackList s s.fVtxBin s.fCentBin s.fEMRPBin = tl
  have htracks : ∀ ph1 ph2, (tl.flatMap (fun mixTracks =>
      mixTracks.flatMap (mixTrackCalls x s ph1 ph2))).countP
        (fun c => isMixAllPtPhiEta c.key) = (tl.map List.length).sum := by
    intro ph1 ph2
    rw [countP_flatMap_sum]
    congr 1
    refine List.map_congr_left ?_
    intro mt _
    exact countP_flatMap_const _ _ mt (fun tr _ => mixTrackCalls_all_count x s ph1 ph2 tr)
  have hinner : ∀ (ph1 : AliCaloPhoton) (l : List AliCaloPhoton),
      (l.flatMap (fun ph2 =>
        if promoted x s ph1 ph2 = true then
          tl.flatMap (fun mixTracks => mixTracks.flatMap (mixTrackCalls x s ph1 ph2))
        else [])).countP (fun c => isMixAllPtPhiEta c.key) =
      l.countP (fun ph2 => promoted x s ph1 ph2) * (tl.map List.length).sum := by
    intro ph1 l
    induction l with
    | nil => simp
    | cons a rest ih =>
      rw [List.flatMap_cons, List.countP_append, ih, List.countP_cons]
      by_cases hpr : promoted x s ph1 a = true
      · rw [if_pos hpr, htracks, if_pos hpr]
        ring
      · rw [if_neg hpr, if_neg hpr]
        simp
  rw [countP_flatMap_sum]
  generalize (tl.map List.length).sum = total at hinner ⊢
  have : ∀ l : List AliCaloPhoton,
      (l.map (fun ph1 => (photons.flatMap (fun ph2 =>
        if promoted x s ph1 ph2 = true then
          tl.flatMap (fun mixTracks => mixTracks.flatMap (mixTrackCalls x s ph1 ph2))
        else [])).countP (fun c => isMixAllPtPhiEta c.key))).sum =
      (l.map (fun ph1 => photons.countP (fun ph2 => promoted x s ph1 ph2))).sum * total := by
    intro l
    induction l with
    | nil => simp
    | cons a rest ih =>
      rw [List.map_cons, List.sum_cons, ih, hinner, List.map_cons, List.sum_cons]
      ring
  exact this photons

theorem pairExample_promoted :
    promoted exampleExternals pairExampleTask pairExamplePhoton1 pairExamplePhoton2 = true ∧
    promoted exampleExternals pairExampleTask pairExamplePhoton2 pairExamplePhoton1 = true ∧
    promoted exampleExternals pairExampleTask pairExamplePhoton1 pairExamplePhoton1 = false ∧
    promoted exampleExternals pairExampleTask pairExamplePhoton2 pairExamplePhoton2 = false := by
  refine ⟨?_, ?_, ?_, ?_⟩ <;>
    norm_num [promoted, TestMass, exampleExternals, pairExampleTask, exampleTask,
      UserCreateOutputObjects, AliCaloPhoton.toLorentzVector, TLorentzVector.add,
      pairExamplePhoton1, pairExamplePhoton2]

theorem pairExample_assocKey :
    exampleExternals.Form31f (GetAssocBin pairExampleTask
      (exampleExternals.Pt { px := 3 / 4, py := 0, pz := 0, e := 3 / 4 })) = "1.0" := by
  have h1 : exampleExternals.Pt { px := 3 / 4, py := 0, pz := 0, e := 3 / 4 } = 3 / 4 := by
    norm_num [exampleExternals, abs_of_nonneg]
  have h2 : GetAssocBin pairExampleTask (3 / 4) = 1 := by
    simp only [GetAssocBin, pairExampleTask, exampleTask, UserCreateOutputObjects]
    simp [List.range', List.find?, TArrayD.At]
    norm_num
  rw [h1, h2]
  simp only [exampleExternals]
  norm_num
  decide

theorem pairExample_mixTrackKeys (ph1 ph2 : AliCaloPhoton) (h1 : ph1.fCPV = true)
    (h2 : ph2.fCPV = true) (h3 : ph1.fDisp = true) (h4 : ph2.fDisp = true) :
    (mixTrackCalls exampleExternals pairExampleTask ph1 ph2
        { px := 3 / 4, py := 0, pz := 0, e := 3 / 4 }).map (fun c => (c.key, c.args.length)) =
      [("mix_all_ptphieta_ptAssoc_1.0", 3), ("mix_cpv_ptphieta_ptAssoc_1.0", 3),
       ("mix_disp_ptphieta_ptAssoc_1.0", 3), ("mix_both_ptphieta_ptAssoc_1.0", 3)] := by
  simp only [mixTrackCalls, h1, h2, h3, h4, pairExample_assocKey]
  rfl

theorem pairExample_pi0TrackKeys (ph1 ph2 : AliCaloPhoton) (h1 : ph1.fCPV = true)
    (h2 : ph2.fCPV = true) (h3 : ph1.fDisp = true) (h4 : ph2.fDisp = true) :
    (pi0TrackCalls exampleExternals pairExampleTask ph1 ph2
        { px := 3 / 4, py := 0, pz := 0, e := 3 / 4 }).map (fun c => (c.key, c.args.length)) =
      [("all_ptphieta_ptAssoc_1.0", 3), ("cpv_ptphieta_ptAssoc_1.0", 3),
       ("disp_ptphieta_ptAssoc_1.0", 3), ("both_ptphieta_ptAssoc_1.0", 3)] := by
  simp only [pi0TrackCalls, h1, h2, h3, h4, pairExample_assocKey]
  rfl

theorem length_filter_key (calls : List FillCall) (hists : List Histogram) (name : String) :
    (calls.filter (fun c => decide (c.key = name ∧
      dimOf hists name = some c.args.length))).length =
    (calls.map (fun c => (c.key, c.args.length))).countP
      (fun p => decide (p.1 = name ∧ dimOf hists name = some p.2)) := by
  rw [List.countP_map, List.countP_eq_length_filter]
  rfl

theorem pairExample_trackMix_calls :
    ∃ pool calls, ConsiderTracksMixCalls exampleExternals pairExampleTask =
        some (calls, { pairExampleTask with fTracksTPCLists := pool }) ∧
      calls.map (fun c => (c.key, c.args.length)) =
        [("mix_all_ptphieta_ptAssoc_1.0", 3), ("mix_cpv_ptphieta_ptAssoc_1.0", 3),
         ("mix_disp_ptphieta_ptAssoc_1.0", 3), ("mix_both_ptphieta_ptAssoc_1.0", 3),
         ("mix_all_ptphieta_ptAssoc_1.0", 3), ("mix_cpv_ptphieta_ptAssoc_1.0", 3),
         ("mix_disp_ptphieta_ptAssoc_1.0", 3), ("mix_both_ptphieta_ptAssoc_1.0", 3)] := by
  obtain ⟨pool, h⟩ := ConsiderTracksMixCalls_eq exampleExternals pairExampleTask
    pairExamplePhotons _ rfl rfl
  refine ⟨pool, _, h, ?_⟩
  have htl : trackList pairExampleTask pairExampleTask.fVtxBin pairExampleTask.fCentBin
      pairExampleTask.fEMRPBin = [[{ px := 3 / 4, py := 0, pz := 0, e := 3 / 4 }]] := rfl
  obtain ⟨p12, p21, p11, p22⟩ := pairExample_promoted
  rw [htl]
  simp only [pairExamplePhotons, List.flatMap_cons, List.flatMap_nil, List.append_nil, p12, p21,
    p11, p22, if_true, Bool.false_eq_true, if_false, List.nil_append, List.map_append]
  rw [pairExample_mixTrackKeys _ _ rfl rfl rfl rfl, pairExample_mixTrackKeys _ _ rfl rfl rfl rfl]
  rfl

theorem pairExample_pi0_calls :
    ∃ calls, ConsiderPi0sCalls exampleExternals pairExampleTask = some calls ∧
      calls.map (fun c => (c.key, c.args.length)) =
        [("clu_phieta", 2), ("clusingle_phieta", 2), ("clusingle_phieta", 2),
         ("all_mpt", 2), ("cpv_mpt", 2), ("disp_mpt", 2), ("both_mpt", 2), ("both1_mpt", 2),
         ("all_ptphieta_ptAssoc_1.0", 3), ("cpv_ptphieta_ptAssoc_1.0", 3),
         ("disp_ptphieta_ptAssoc_1.0", 3), ("both_ptphieta_ptAssoc_1.0", 3)] := by
  have hidx : pairIndices pairExamplePhotons.length = [(0, 1)] := by decide
  have hbody : pairBody exampleExternals pairExampleTask pairExamplePhotons (0, 1) =
      pi0PairCalls exampleExternals pairExampleTask pairExamplePhoton1 pairExamplePhoton2 := rfl
  have hpair := pi0PairCalls_eq exampleExternals pairExampleTask pairExamplePhoton1
    pairExamplePhoton2 [{ px := 3 / 4, py := 0, pz := 0, e := 3 / 4 }] rfl
  rw [if_pos pairExample_promoted.1] at hpair
  refine ⟨pi0AngleCalls exampleExternals pairExamplePhoton1 pairExamplePhoton2 ++
      pi0MassPtCalls exampleExternals pairExamplePhoton1 pairExamplePhoton2 ++
      pi0TrackCalls exampleExternals pairExampleTask pairExamplePhoton1 pairExamplePhoton2
        { px := 3 / 4, py := 0, pz := 0, e := 3 / 4 }, ?_, ?_⟩
  · rw [ConsiderPi0sCalls_eq exampleExternals pairExampleTask pairExamplePhotons rfl, hidx,
      collectCalls_cons, hbody, hpair]
    simp [collectCalls]
  · rw [List.map_append, pairExample_pi0TrackKeys _ _ rfl rfl rfl rfl]
    rfl

/-! ## Track mixing -/

/-- C16, the code on an event with two candidates whose pair passes `TestMass`
(mass 0.135), one same-event track and one track pooled at the event class.
`ConsiderPi0s` promotes the one pair `(0, 1)` and fills `all_ptphieta` once;
`ConsiderTracksMix` takes the pair twice, as `(0, 1)` and as `(1, 0)`, and fills
`mix_all_ptphieta` twice, not once. -/
theorem track_mixing_visits_ordered_pairs :
    pairIndices pairExamplePhotons.length = [(0, 1)] ∧
    promoted exampleExternals pairExampleTask pairExamplePhoton1 pairExamplePhoton2 = true ∧
    (∃ t, ConsiderPi0s exampleExternals pairExampleTask = some t ∧
      (histEntries t "all_ptphieta_ptAssoc_1.0").length = 1) ∧
    (trackList pairExampleTask pairExampleTask.fVtxBin pairExampleTask.fCentBin
      pairExampleTask.fEMRPBin).map List.length = [1] ∧
    (∃ calls s1, ConsiderTracksMixCalls exampleExternals pairExampleTask = some (calls, s1) ∧
      calls.countP (fun c => isMixAllPtPhiEta c.key) = 2) ∧
    histEntries pairExampleTask "mix_all_ptphieta_ptAssoc_1.0" = [] ∧
    (∃ t, ConsiderTracksMix exampleExternals pairExampleTask = some t ∧
      (histEntries t "mix_all_ptphieta_ptAssoc_1.0").length = 2) := by
  obtain ⟨pool, calls, hcalls, hkeys⟩ := pairExample_trackMix_calls
  obtain ⟨calls0, hcalls0, hkeys0⟩ := pairExample_pi0_calls
  refine ⟨by decide, pairExample_promoted.1, ?_, rfl, ⟨calls, _, hcalls, ?_⟩, rfl, ?_⟩
  · obtain ⟨t, hrun, hall, _⟩ := FillAll_frame calls0 pairExampleTask exampleHistograms rfl
    refine ⟨t, by simp only [ConsiderPi0s, hcalls0, hrun], ?_⟩
    rw [hall, List.length_append, List.length_map, length_filter_key, hkeys0]
    decide
  · have : calls.countP (fun c => isMixAllPtPhiEta c.key) =
        (calls.map (fun c => (c.key, c.args.length))).countP
          (fun p => isMixAllPtPhiEta p.1) := by
      rw [List.countP_map]
      rfl
    rw [this, hkeys]
    decide
  · obtain ⟨t, hrun, hall, _⟩ :=
      FillAll_frame calls { pairExampleTask with fTracksTPCLists := pool } exampleHistograms rfl
    refine ⟨t, by simp only [ConsiderTracksMix, hcalls, hrun], ?_⟩
    have hold : histEntries { pairExampleTask with fTracksTPCLists := pool }
        "mix_all_ptphieta_ptAssoc_1.0" = [] := rfl
    rw [hall, List.length_append, List.length_map, length_filter_key, hkeys, hold]
    decide

/-! ## Narrowing to single precision -/

theorem roundHalfEven_le (y : ℚ) (m : Int) (h : y ≤ m) : roundHalfEven y ≤ m := by
  have hf : ⌊y⌋ ≤ m := Int.floor_le_floor h |>.trans (by simp)
  unfold roundHalfEven
  have hlt : ∀ _ : ¬ (y - ⌊y⌋ < 1 / 2), ⌊y⌋ + 1 ≤ m := by
    intro hr
    have h1 : (⌊y⌋ : ℚ) < y := by linarith
    have h2 : (⌊y⌋ : ℚ) < m := lt_of_lt_of_le h1 h
    have h3 : ⌊y⌋ < m := by exact_mod_cast h2
    omega
  split_ifs with h1
  · exact hf
  · exact hlt h1
  · exact hf
  · exact hlt h1

theorem le_roundHalfEven (y : ℚ) (m : Int) (h : (m : ℚ) ≤ y) : m ≤ roundHalfEven y := by
  have hf : m ≤ ⌊y⌋ := Int.le_floor.2 h
  unfold roundHalfEven
  split_ifs <;> omega

theorem roundHalfEven_le_even (y : ℚ) (m : Int) (hm : m % 2 = 0) :
    roundHalfEven y ≤ m ↔ y ≤ m + 1 / 2 := by
  have hfl := Int.floor_le y
  have hlt := Int.lt_floor_add_one y
  constructor
  · intro h
    by_contra hy
    rw [not_le] at hy
    have hfm : m ≤ ⌊y⌋ := Int.le_floor.2 (by linarith)
    unfold roundHalfEven at h
    split_ifs at h with h1 h2 h3
    · have : ⌊y⌋ = m := le_antisymm h hfm
      rw [this] at h1
      linarith
    · omega
    · have : ⌊y⌋ = m := le_antisymm h hfm
      rw [this] at h1 h2
      linarith
    · omega
  · intro h
    by_cases hc : y ≤ m
    · exact roundHalfEven_le y m hc
    · rw [not_le] at hc
      have hfm : ⌊y⌋ = m := by
        rw [Int.floor_eq_iff]
        exact ⟨hc.le, by linarith⟩
      unfold roundHalfEven
      rw [hfm]
      split_ifs with h1 h2
      · exact le_rfl
      · linarith
      · exact le_rfl

theorem le_roundHalfEven_even (y : ℚ) (m : Int) (hm : m % 2 = 0) :
    m ≤ roundHalfEven y ↔ (m : ℚ) - 1 / 2 ≤ y := by
  have hfl := Int.floor_le y
  have hlt := Int.lt_floor_add_one y
  constructor
  · intro h
    by_contra hy
    rw [not_le] at hy
    have hfm : ⌊y⌋ < m := Int.floor_lt.2 (by linarith)
    unfold roundHalfEven at h
    split_ifs at h with h1 h2 h3
    · omega
    · have : ⌊y⌋ = m - 1 := by omega
      rw [this] at h1
      push_cast at h1
      linarith
    · omega
    · have : ⌊y⌋ = m - 1 := by omega
      rw [this] at h1
      push_cast at h1
      linarith
  · intro h
    by_cases hc : (m : ℚ) ≤ y
    · exact le_roundHalfEven y m hc
    · rw [not_le] at hc
      have hfm : ⌊y⌋ = m - 1 := by
        rw [Int.floor_eq_iff]
        push_cast
        exact ⟨by linarith, by linarith⟩
      unfold roundHalfEven
      rw [hfm]
      push_cast
      split_ifs with h1 h2 h3
      · linarith
      · omega
      · omega
      · omega

theorem two_zpow_split (e : Int) (n : ℕ) : (2 : ℚ) ^ e = 2 ^ n * 2 ^ (e - n) := by
  rw [← zpow_natCast, ← zpow_add₀ (by norm_num : (2 : ℚ) ≠ 0)]
  congr 1
  omega

theorem toFloat_nonpos (x : ℚ) (h : x ≤ 0) : toFloat x ≤ 0 := by
  unfold toFloat
  split_ifs with h0
  · exact le_rfl
  · have hq : (0 : ℚ) < 2 ^ (max (Int.log 2 |x|) (-126) - 23) := zpow_pos (by norm_num) _
    have hy : x / 2 ^ (max (Int.log 2 |x|) (-126) - 23) ≤ ((0 : Int) : ℚ) := by
      rw [Int.cast_zero]
      exact div_nonpos_of_nonpos_of_nonneg h hq.le
    have hr := roundHalfEven_le _ 0 hy
    have hr1 : (roundHalfEven (x / 2 ^ (max (Int.log 2 |x|) (-126) - 23)) : ℚ) ≤ 0 := by
      exact_mod_cast hr
    exact mul_nonpos_of_nonpos_of_nonneg hr1 hq.le

theorem toFloat_binade (x : ℚ) (k : Int) (hk : -126 ≤ k) (h1 : (2 : ℚ) ^ k ≤ x)
    (h2 : x < 2 ^ (k + 1)) :
    toFloat x = (roundHalfEven (x / 2 ^ (k - 23)) : ℚ) * 2 ^ (k - 23) := by
  have hpos : 0 < x := lt_of_lt_of_le (zpow_pos (by norm_num) _) h1
  have habs : |x| = x := abs_of_pos hpos
  have hlog : Int.log 2 x = k := by
    apply le_antisymm
    · have := (Int.lt_zpow_iff_log_lt (by norm_num : 1 < 2) hpos).1 (by exact_mod_cast h2)
      omega
    · exact (Int.zpow_le_iff_le_log (by norm_num : 1 < 2) hpos).1 (by exact_mod_cast h1)
  unfold toFloat
  rw [if_neg hpos.ne', habs, hlog, max_eq_left hk]

theorem toFloat_ge_zpow (x : ℚ) (k : Int) (hk : -126 ≤ k) (h1 : (2 : ℚ) ^ k ≤ x) :
    (2 : ℚ) ^ k ≤ toFloat x := by
  have hpos : 0 < x := lt_of_lt_of_le (zpow_pos (by norm_num) _) h1
  have hke : k ≤ Int.log 2 x :=
    (Int.zpow_le_iff_le_log (by norm_num : 1 < 2) hpos).1 (by exact_mod_cast h1)
  have hlo : (2 : ℚ) ^ (Int.log 2 x) ≤ x := by
    exact_mod_cast Int.zpow_log_le_self (by norm_num : 1 < 2) hpos
  have hhi : x < (2 : ℚ) ^ (Int.log 2 x + 1) := by
    exact_mod_cast Int.lt_zpow_succ_log_self (by norm_num : 1 < 2) x
  rw [toFloat_binade x (Int.log 2 x) (by omega) hlo hhi]
  have hq : (0 : ℚ) < 2 ^ (Int.log 2 x - 23) := zpow_pos (by norm_num) _
  have hsplit : (2 : ℚ) ^ (Int.log 2 x) = 8388608 * 2 ^ (Int.log 2 x - 23) := by
    have h := two_zpow_split (Int.log 2 x) 23
    norm_num at h
    exact h
  have hy : ((8388608 : Int) : ℚ) ≤ x / 2 ^ (Int.log 2 x - 23) := by
    rw [le_div_iff₀ hq]
    push_cast
    linarith
  have hr := le_roundHalfEven _ _ hy
  have hr1 : (8388608 : ℚ) ≤ (roundHalfEven (x / 2 ^ (Int.log 2 x - 23)) : ℚ) := by
    exact_mod_cast hr
  calc (2 : ℚ) ^ k ≤ 2 ^ (Int.log 2 x) := zpow_le_zpow_right₀ (by norm_num) hke
    _ = 8388608 * 2 ^ (Int.log 2 x - 23) := hsplit
    _ ≤ _ := mul_le_mul_of_nonneg_right hr1 hq.le

theorem toFloat_le_zpow (x : ℚ) (k : Int) (hk : -125 ≤ k) (h1 : x < (2 : ℚ) ^ k) :
    toFloat x ≤ (2 : ℚ) ^ k := by
  rcases le_or_lt x 0 with hx | hpos
  · exact (toFloat_nonpos x hx).trans (zpow_pos (by norm_num) _).le
  · have habs : |x| = x := abs_of_pos hpos
    have hlog : Int.log 2 x < k :=
      (Int.lt_zpow_iff_log_lt (by norm_num : 1 < 2) hpos).1 (by exact_mod_cast h1)
    unfold toFloat
    rw [if_neg hpos.ne', habs]
    generalize he : max (Int.log 2 x) (-126) = e
    have hek : e ≤ k - 1 := by
      rw [← he]
      exact max_le (by omega) (by omega)
    have hq : (0 : ℚ) < 2 ^ (e - 23) := zpow_pos (by norm_num) _
    have hy : x / 2 ^ (e - 23) ≤ (((2 : Int) ^ (k - e + 23).toNat : Int) : ℚ) := by
      rw [div_le_iff₀ hq]
      push_cast
      rw [← zpow_natCast, ← zpow_add₀ (by norm_num : (2 : ℚ) ≠ 0)]
      have : ((k - e + 23).toNat : Int) + (e - 23) = k := by omega
      rw [this]
      exact h1.le
    have hr := roundHalfEven_le _ _ hy
    have hr1 : (roundHalfEven (x / 2 ^ (e - 23)) : ℚ) ≤ (2 : ℚ) ^ (k - e + 23).toNat := by
      exact_mod_cast hr
    calc (roundHalfEven (x / 2 ^ (e - 23)) : ℚ) * 2 ^ (e - 23)
        ≤ (2 : ℚ) ^ (k - e + 23).toNat * 2 ^ (e - 23) := mul_le_mul_of_nonneg_right hr1 hq.le
      _ = 2 ^ k := by
        rw [← zpow_natCast, ← zpow_add₀ (by norm_num : (2 : ℚ) ≠ 0)]
        congr 1
        omega

theorem toFloat_le_ten_iff (x : ℚ) : toFloat x ≤ 10 ↔ x ≤ 10 + 1 / 2097152 := by
  rcases lt_or_le x 8 with h8 | h8
  · have h := toFloat_le_zpow x 3 (by norm_num) (by norm_num; exact h8)
    norm_num at h
    exact ⟨fun _ => by linarith, fun _ => by linarith⟩
  · rcases lt_or_le x 16 with h16 | h16
    · have hb := toFloat_binade x 3 (by norm_num) (by norm_num; exact h8)
        (by norm_num; exact h16)
      have hq : (2 : ℚ) ^ ((3 : Int) - 23) = 1 / 1048576 := by norm_num
      rw [hb, hq]
      have hev := roundHalfEven_le_even (x / (1 / 1048576)) 10485760 (by norm_num)
      constructor
      · intro h
        have h1 : (roundHalfEven (x / (1 / 1048576)) : ℚ) ≤ 10485760 := by linarith
        have h2 : roundHalfEven (x / (1 / 1048576)) ≤ 10485760 := by exact_mod_cast h1
        have h3 := hev.1 h2
        rw [div_le_iff₀ (by norm_num)] at h3
        push_cast at h3
        linarith
      · intro h
        have h3 : x / (1 / 1048576) ≤ ((10485760 : Int) : ℚ) + 1 / 2 := by
          rw [div_le_iff₀ (by norm_num)]
          push_cast
          linarith
        have h2 := hev.2 h3
        have h1 : (roundHalfEven (x / (1 / 1048576)) : ℚ) ≤ 10485760 := by exact_mod_cast h2
        linarith
    · have h := toFloat_ge_zpow x 4 (by norm_num) (by norm_num; exact h16)
      norm_num at h
      exact ⟨fun h1 => by linarith, fun h1 => by linarith⟩

theorem half_le_toFloat_iff (x : ℚ) : 1 / 2 ≤ toFloat x ↔ 1 / 2 - 1 / 67108864 ≤ x := by
  rcases lt_or_le x (1 / 4) with h4 | h4
  · have h := toFloat_le_zpow x (-2) (by norm_num) (by norm_num; linarith)
    norm_num at h
    exact ⟨fun h1 => by linarith, fun h1 => by linarith⟩
  · rcases lt_or_le x (1 / 2) with h2 | h2
    · have hb := toFloat_binade x (-2) (by norm_num) (by norm_num; linarith)
        (by norm_num; linarith)
      have hq : (2 : ℚ) ^ ((-2 : Int) - 23) = 1 / 33554432 := by norm_num
      rw [hb, hq]
      have hev := le_roundHalfEven_even (x / (1 / 33554432)) 16777216 (by norm_num)
      constructor
      · intro h
        have h1 : (16777216 : ℚ) ≤ (roundHalfEven (x / (1 / 33554432)) : ℚ) := by linarith
        have h3 := hev.1 (by exact_mod_cast h1)
        rw [le_div_iff₀ (by norm_num)] at h3
        push_cast at h3
        linarith
      · intro h
        have h3 : ((16777216 : Int) : ℚ) - 1 / 2 ≤ x / (1 / 33554432) := by
          rw [le_div_iff₀ (by norm_num)]
          push_cast
          linarith
        have h5 := hev.2 h3
        have h1 : (16777216 : ℚ) ≤ (roundHalfEven (x / (1 / 33554432)) : ℚ) := by
          exact_mod_cast h5
        linarith
    · have h := toFloat_ge_zpow x (-1) (by norm_num) (by norm_num; linarith)
      norm_num at h
      exact ⟨fun _ => by linarith, fun _ => by linarith⟩

/-- The momentum cut of the track selection in terms of the double `Pt()`: the
narrowed value is below 0.5 or above 10 exactly when the double is below
`0.5 - 2^-26` or above `10 + 2^-21`. -/
theorem ptCut_iff (p : ℚ) :
    (toFloat p < 1 / 2 ∨ toFloat p > 10) ↔ (p < 1 / 2 - 1 / 67108864 ∨ p > 10 + 1 / 2097152) := by
  rw [gt_iff_lt, gt_iff_lt, ← not_le, ← not_le, ← not_le, ← not_le, half_le_toFloat_iff,
    toFloat_le_ten_iff]

theorem etaCut_gt : (4 : ℚ) / 5 < etaCut := by
  norm_num [etaCut]

theorem selectClustersLoop_spec (x : Externals) (s : Task) (geo : AliPHOSGeometry)
    (hgeo : s.fPHOSGeo = some geo) (clusters : List AliVCluster) :
    ∀ array, ∃ calls, selectClustersLoop x s clusters array =
      some (array ++ (clusters.filter (fun clu => decide (specClusterSelected s clu))).map
        (makePhoton x s), calls) := by
  induction clusters with
  | nil =>
    intro array
    exact ⟨[], by simp [selectClustersLoop]⟩
  | cons clu rest ih =>
    intro array
    rw [selectClustersLoop]
    split_ifs with h1 h2 h3 h4 h5 h6
    · have hsel : ¬ specClusterSelected s clu := by
        intro h
        simp [h.1] at h1
      simpa [List.filter_cons, hsel] using ih array
    · have hsel : ¬ specClusterSelected s clu := fun h => absurd h.2.1 (not_le.2 h2)
      simpa [List.filter_cons, hsel] using ih array
    · have hsel : ¬ specClusterSelected s clu := fun h => absurd h.2.2.1 (not_le.2 h3)
      simpa [List.filter_cons, hsel] using ih array
    · have hsel : ¬ specClusterSelected s clu := fun h => absurd h.2.2.2.1 (not_le.2 h4)
      simpa [List.filter_cons, hsel] using ih array
    · have hsel : ¬ specClusterSelected s clu := fun h => absurd h.2.2.2.2.1 (not_le.2 h5)
      simpa [List.filter_cons, hsel] using ih array
    · have hsel : ¬ specClusterSelected s clu := by
        intro h
        simp only [Bool.and_eq_true, decide_eq_true_eq] at h6
        exact absurd (h.2.2.2.2.2 h6.1) (not_le.2 h6.2)
      simpa [List.filter_cons, hsel] using ih array
    · have hsel : specClusterSelected s clu := by
        refine ⟨by simpa using h1, not_lt.1 h2, not_lt.1 h3, not_lt.1 h4, not_lt.1 h5, ?_⟩
        intro he
        simp only [Bool.and_eq_true, decide_eq_true_eq, not_and, not_lt] at h6
        exact h6 he
      obtain ⟨calls, hcalls⟩ := ih (array ++ [makePhoton x s clu])
      simp only [hgeo, hcalls, List.filter_cons, hsel, decide_True, if_true, List.map_cons]
      exact ⟨_, congrArg some (Prod.ext (by simp) rfl)⟩

theorem SelectESDTrack_isSome (s : Task) (cuts : AliVTrack → Bool)
    (h : s.fESDtrackCuts = some cuts) (t : AliVTrack) : ∃ b, SelectESDTrack s t = some b := by
  simp only [SelectESDTrack, h]
  split_ifs <;> exact ⟨_, rfl⟩

theorem selectTracksLoop_spec (s : Task)
    (hcuts : s.fEventESD = true → ∃ cuts, s.fESDtrackCuts = some cuts)
    (tracks : List AliVTrack) :
    ∀ array, selectTracksLoop s tracks array =
      some (array ++ (tracks.filter (trackAccepted s)).map
        (fun track => { px := track.Px, py := track.Py, pz := track.Pz, e := track.E })) := by
  induction tracks with
  | nil =>
    intro array
    simp [selectTracksLoop]
  | cons track rest ih =>
    intro array
    rw [selectTracksLoop]
    cases hesd : s.fEventESD with
    | false =>
      cases hacc : SelectAODTrack s track with
      | false => simp [trackAccepted, hesd, hacc, List.filter_cons, ih]
      | true => simp [trackAccepted, hesd, hacc, List.filter_cons, ih]
    | true =>
      obtain ⟨cuts, hc⟩ := hcuts hesd
      obtain ⟨b, hb⟩ := SelectESDTrack_isSome s cuts hc track
      cases b with
      | false => simp [trackAccepted, hesd, hb, List.filter_cons, ih]
      | true => simp [trackAccepted, hesd, hb, List.filter_cons, ih]

/-! ## Candidate selection is an order-preserving filter -/

/-- C19: with the event, the geometry and the output container present,
`SelectPhotonClusters` returns, and the candidate array it leaves holds one
candidate for each raw cluster that is a PHOS cluster with energy, distance to bad
channel, cell count and M02 not below their thresholds and (when the
time-of-flight cut is enabled) `|tof| ≤ fTOFCut`, in input order and once each
(the links `fCluster` of the array are the filtered cluster sequence).
`SelectAccosiatedTracks` likewise returns (for reconstructed events the track
cuts must exist) and leaves the accepted tracks of the event in input order. -/
theorem selection_is_order_preserving_filter (x : Externals) (s : Task) (event : AliVEvent)
    (geo : AliPHOSGeometry) (hists : List Histogram) (hev : s.fEvent = some event)
    (hgeo : s.fPHOSGeo = some geo) (hh : s.fOutputContainer = some hists)
    (hcuts : s.fEventESD = true → ∃ cuts, s.fESDtrackCuts = some cuts) :
    (∃ t, SelectPhotonClusters x s = some t ∧
      t.fCaloPhotonsPHOS =
        some ((event.clusters.filter (fun clu => decide (specClusterSelected s clu))).map
          (makePhoton x s)) ∧
      ((event.clusters.filter (fun clu => decide (specClusterSelected s clu))).map
          (makePhoton x s)).map (fun ph => ph.fCluster) =
        (event.clusters.filter (fun clu => decide (specClusterSelected s clu))).map some) ∧
    (∃ t, SelectAccosiatedTracks s = some t ∧
      t.fTracksTPC =
        some ((event.tracks.filter (trackAccepted s)).map
          (fun track => { px := track.Px, py := track.Py, pz := track.Pz, e := track.E }))) := by
  have hlinks : ((event.clusters.filter (fun clu => decide (specClusterSelected s clu))).map
      (makePhoton x s)).map (fun ph => ph.fCluster) =
      (event.clusters.filter (fun clu => decide (specClusterSelected s clu))).map some := by
    rw [List.map_map]
    rfl
  refine ⟨?_, ?_⟩
  · have key : ∃ t, SelectPhotonClusters x s = some t ∧ t.fCaloPhotonsPHOS =
        some ((event.clusters.filter (fun clu => decide (specClusterSelected s clu))).map
          (makePhoton x s)) := by
      obtain ⟨calls, hloop⟩ := selectClustersLoop_spec x s geo hgeo event.clusters []
      rw [List.nil_append] at hloop
      generalize (event.clusters.filter (fun clu => decide (specClusterSelected s clu))).map
        (makePhoton x s) = array at hloop ⊢
      obtain ⟨hists1, hrun, _⟩ := FillAll_spec calls { s with fCaloPhotonsPHOS := some array }
        hists hh
      have hsel : SelectPhotonClusters x s =
          FillAll { s with fCaloPhotonsPHOS := some array } calls := by
        simp only [SelectPhotonClusters, hev, hloop]
      exact ⟨_, hsel.trans hrun, rfl⟩
    obtain ⟨t, h1, h2⟩ := key
    exact ⟨t, h1, h2, hlinks⟩
  · have hloop := selectTracksLoop_spec s hcuts event.tracks []
    rw [List.nil_append] at hloop
    exact ⟨{ s with fTracksTPC := some ((event.tracks.filter (trackAccepted s)).map
        (fun track => { px := track.Px, py := track.Py, pz := track.Pz, e := track.E })) },
      by simp only [SelectAccosiatedTracks, hev, hloop], rfl⟩
/-- C19 on the example event: of four raw clusters the first and the last pass
the cuts and are kept in that order; of three tracks the first and the last are
accepted and kept in that order. -/
theorem selection_is_order_preserving_filter_witness :
    (selectionExampleTask.fEvent =
        some { clusters := exampleClusters,
               tracks := [hybridExampleTrack, { Pt := 11 },
                 { hybridExampleTrack with Pt := 3 }] } ∧
      selectionExampleTask.fPHOSGeo = some { GlobalPos2RelId := fun _ => (1, 0, 2, 3) } ∧
      selectionExampleTask.fOutputContainer = some exampleHistograms ∧
      (selectionExampleTask.fEventESD = true →
        ∃ cuts, selectionExampleTask.fESDtrackCuts = some cuts)) ∧
    ((∃ t, SelectPhotonClusters exampleExternals selectionExampleTask = some t ∧
      t.fCaloPhotonsPHOS =
        some ((exampleClusters.filter
            (fun clu => decide (specClusterSelected selectionExampleTask clu))).map
          (makePhoton exampleExternals selectionExampleTask)) ∧
      ((exampleClusters.filter
            (fun clu => decide (specClusterSelected selectionExampleTask clu))).map
          (makePhoton exampleExternals selectionExampleTask)).map (fun ph => ph.fCluster) =
        (exampleClusters.filter
          (fun clu => decide (specClusterSelected selectionExampleTask clu))).map some) ∧
    (∃ t, SelectAccosiatedTracks selectionExampleTask = some t ∧
      t.fTracksTPC =
        some (([hybridExampleTrack, { Pt := 11 }, { hybridExampleTrack with Pt := 3 }].filter
            (trackAccepted selectionExampleTask)).map
          (fun track => { px := track.Px, py := track.Py, pz := track.Pz, e := track.E })))) ∧
    exampleClusters.filter (fun clu => decide (specClusterSelected selectionExampleTask clu)) =
      [{ IsPHOS := true, E := 1, GetNCells := 4, GetM02 := 1, GetCellAbsId0 := 10 },
       { IsPHOS := true, E := 3, GetNCells := 5, GetM02 := 1, GetCellAbsId0 := 4000 }] ∧
    [hybridExampleTrack, { Pt := 11 }, { hybridExampleTrack with Pt := 3 }].filter
        (trackAccepted selectionExampleTask) =
      [hybridExampleTrack, { hybridExampleTrack with Pt := 3 }] :=
  ⟨⟨rfl, rfl, rfl, fun h => absurd h (by decide)⟩,
    selection_is_order_preserving_filter exampleExternals selectionExampleTask _ _ _ rfl rfl rfl
      (fun h => absurd h (by decide)),
    by
      simp only [exampleClusters, List.filter_cons, specClusterSelected, selectionExampleTask]
      norm_num,
    by
      simp only [List.filter_cons, trackAccepted, selectionExampleTask, SelectAODTrack,
        hybridExampleTrack, ptCut_iff, etaCut]
      norm_num [abs_le]
      rw [if_neg (by decide), if_neg (by decide)]⟩

theorem getD_le_of_sorted_le (a : List ℚ) (h : a.Sorted (· ≤ ·)) (i j : Nat) (hij : i ≤ j)
    (hj : j < a.length) : a.getD i 0 ≤ a.getD j 0 := by
  rw [getD_eq_getElem_of_lt a i (by omega), getD_eq_getElem_of_lt a j hj]
  rcases Nat.eq_or_lt_of_le hij with rfl | hlt
  · exact le_refl _
  · exact (List.pairwise_iff_getElem.1 h) i j (by omega) hj hlt

/-- With at least two sorted edges the centrality bin is a valid bin index, and
the configuration is left as it was. -/
theorem GetCentralityBin_range (s : Task) (v : ℚ) (hlen : 2 ≤ s.fCentEdges.length)
    (hsorted : s.fCentEdges.Sorted (· ≤ ·)) :
    (0 ≤ (GetCentralityBin s v).1 ∧
      (GetCentralityBin s v).1 < (s.fCentEdges.length : Int) - 1) ∧
    SameConfig s (GetCentralityBin s v).2 ∧
    (GetCentralityBin s v).2.fVtxBin = s.fVtxBin := by
  have hcast : ((s.fCentEdges.length : Int) - 1) = ((s.fCentEdges.length - 1 : Nat) : Int) := by
    omega
  have hfirst : TArrayD.index s.fCentEdges 0 = s.fCentEdges.getD 0 0 :=
    TArrayD_index_nat _ 0 (by omega)
  unfold GetCentralityBin
  simp only
  split_ifs with h1 h2
  · exact ⟨⟨by omega, by omega⟩, ⟨rfl, rfl, rfl, rfl⟩, rfl⟩
  · exact ⟨⟨le_refl _, by omega⟩, ⟨rfl, rfl, rfl, rfl⟩, rfl⟩
  · refine ⟨?_, ⟨rfl, rfl, rfl, rfl⟩, rfl⟩
    rw [hfirst] at h2
    have hn : (GetNumberOfCentralityBins s).toNat = s.fCentEdges.length - 1 := by
      unfold GetNumberOfCentralityBins
      omega
    obtain ⟨_, hle, _, hge⟩ := lowerBound_spec s.fCentEdges v
      (getD_le_of_sorted_le s.fCentEdges hsorted) (s.fCentEdges.length - 1) 0
      (s.fCentEdges.length - 1) (le_refl _) (by omega)
    simp only [TMath.BinarySearch, hn]
    generalize lowerBound s.fCentEdges v (s.fCentEdges.length - 1) 0
      (s.fCentEdges.length - 1) = pind at hle hge ⊢
    split_ifs with h3
    · have := h3.1
      omega
    · have hpos : pind ≠ 0 := by
        intro h0
        subst h0
        apply h3
        exact ⟨by omega, le_antisymm (not_lt.1 h2) (hge 0 (le_refl _) (by omega))⟩
      omega

theorem SetCentralityBinning_ok (s0 s1 : Task) (edges : List ℚ) (nMixed : List Int)
    (h : SetCentralityBinning s0 edges nMixed = .ok s1) :
    edges.Sorted (· ≤ ·) ∧ edges.length = nMixed.length + 1 ∧
    s1 = { s0 with fCentEdges := edges, fCentNMixed := nMixed } := by
  unfold SetCentralityBinning at h
  split_ifs at h with h1 h2
  refine ⟨(sortedCheck_iff edges).1 (by simpa using h1), not_not.1 h2, ?_⟩
  injection h with h
  exact h.symm

theorem GetRPBin_range (s : Task) (hn : 1 ≤ s.fNEMRPBins) :
    0 ≤ (GetRPBin s).1 ∧ (GetRPBin s).1 < (s.fNEMRPBins : Int) := by
  unfold GetRPBin
  simp only
  split_ifs with h1 h2
  · omega
  · omega
  · omega

/-! ## Clamping of the centrality bin -/

/-- C5. Out-of-range centrality is clamped: on a task whose edge array has at least
two edges and is sorted, `GetCentralityBin` returns the last valid bin index (edge
count - 2) for a value above the last edge and 0 for a value below the first edge.
Every edge array the task can hold is sorted: the constructors leave ten zeros, and
`SetCentralityBinning`, the only function that assigns the array, installs sorted
edges only. -/
theorem centrality_bin_clamped (s : Task) (v w : ℚ)
    (hlen : 2 ≤ s.fCentEdges.length) (hsorted : s.fCentEdges.Sorted (· ≤ ·))
    (hv : v > s.fCentEdges.getD (s.fCentEdges.length - 1) 0)
    (hw : w < s.fCentEdges.getD 0 0) :
    ((GetCentralityBin s v).1 = (s.fCentEdges.length : Int) - 2 ∧
      (GetCentralityBin s w).1 = 0) ∧
    ({} : Task).fCentEdges.Sorted (· ≤ ·) ∧
    ∀ (s0 s1 : Task) (edges : List ℚ) (nMixed : List Int),
      SetCentralityBinning s0 edges nMixed = .ok s1 → s1.fCentEdges.Sorted (· ≤ ·) := by
  have hle := getD_le_of_sorted_le s.fCentEdges hsorted 0 (s.fCentEdges.length - 1)
    (Nat.zero_le _) (by omega)
  refine ⟨GetCentralityBin_clamped s v w hlen hv hw (by linarith), ?_, ?_⟩
  · show (List.replicate 10 (0 : ℚ)).Sorted (· ≤ ·)
    simp [List.Sorted, List.pairwise_replicate]
  · intro s0 s1 edges nMixed h
    obtain ⟨hs, _, rfl⟩ := SetCentralityBinning_ok s0 s1 edges nMixed h
    exact hs

/-- C5, the scenario of the specification: with the sorted edges
`[0, 10, 30, 50, 100]` the value 150 is clamped to bin 3, a value below 0 to bin 0,
and 45 maps to bin 2. -/
theorem centrality_bin_clamped_witness :
    (2 ≤ exampleTask.fCentEdges.length ∧ exampleTask.fCentEdges.Sorted (· ≤ ·) ∧
      (150 : ℚ) > exampleTask.fCentEdges.getD (exampleTask.fCentEdges.length - 1) 0 ∧
      (-5 : ℚ) < exampleTask.fCentEdges.getD 0 0) ∧
    ((GetCentralityBin exampleTask 150).1 = (exampleTask.fCentEdges.length : Int) - 2 ∧
      (GetCentralityBin exampleTask (-5)).1 = 0) ∧
    (GetCentralityBin exampleTask 150).1 = 3 ∧ (GetCentralityBin exampleTask 45).1 = 2 :=
  ⟨⟨by decide, by decide, by decide, by decide⟩,
    (centrality_bin_clamped exampleTask 150 (-5) (by decide) (by decide) (by decide)
      (by decide)).1,
    by decide, by decide⟩

/-! ## Range of the event class -/

/-- C20 (amended). EventClass range invariant: for every binning with at least one
bin (two or more edges) accepted by `SetCentralityBinning`, on a task that carries
this binning and bin counts `fNVtxZBins ≥ 1`, `fNEMRPBins ≥ 1` (the constructors set
1 and 9), every event that is classified (`SetVertex`, `SetCentrality`, then
`GetRPBin` for whatever angle `fRP` holds) gets a triple with `vtxBin` in
`[0, fNVtxZBins)`, `centBin` in `[0, number of centrality bins)` and `rpBin` in
`[0, fNEMRPBins)`; in particular `centBin` is an in-range index of `fCentNMixed`. -/
theorem event_class_in_range (s0 s1 s : Task) (edges : List ℚ) (nMixed : List Int)
    (event : AliVEvent) (rp : ℚ)
    (hacc : SetCentralityBinning s0 edges nMixed = .ok s1) (hbins : 2 ≤ edges.length)
    (hcfg : SameConfig s1 s) (hv : 1 ≤ s.fNVtxZBins) (hr : 1 ≤ s.fNEMRPBins)
    (hev : s.fEvent = some event) :
    ∃ s2 s3, SetVertex s = some s2 ∧ SetCentrality s2 = some s3 ∧
      ValidClass s3 s3.fVtxBin s3.fCentBin (GetRPBin { s3 with fRP := rp }).1 ∧
      (0 ≤ s3.fCentBin ∧ s3.fCentBin < (s3.fCentNMixed.length : Int)) ∧
      (GetRPBin { s3 with fRP := rp }).2.fVtxBin = s3.fVtxBin ∧
      (GetRPBin { s3 with fRP := rp }).2.fCentBin = s3.fCentBin ∧
      (GetRPBin { s3 with fRP := rp }).2.fEMRPBin = (GetRPBin { s3 with fRP := rp }).1 ∧
      SameConfig s (GetRPBin { s3 with fRP := rp }).2 := by
  obtain ⟨hsorted, hlen, hs1⟩ := SetCentralityBinning_ok s0 s1 edges nMixed hacc
  obtain ⟨hc1, hc2, hc3, hc4⟩ := hcfg
  have he : s.fCentEdges = edges := by rw [hc1, hs1]
  have hm : s.fCentNMixed = nMixed := by rw [hc3, hs1]
  have hs2 : ∃ s2, SetVertex s = some s2 ∧ SameConfig s s2 ∧ s2.fVtxBin = 0 ∧
      s2.fEvent = some event := by
    simp only [SetVertex, hev]
    cases event.primaryVertex <;> exact ⟨_, rfl, ⟨rfl, rfl, rfl, rfl⟩, rfl, rfl⟩
  obtain ⟨s2, h2, ⟨hd1, hd2, hd3, hd4⟩, hvtx2, hev2⟩ := hs2
  have hs3 : ∃ c, SetCentrality s2 =
      some { (GetCentralityBin { s2 with fCentrality := c } c).2 with
        fCentBin := (GetCentralityBin { s2 with fCentrality := c } c).1 } := by
    simp only [SetCentrality, hev2]
    cases event.centrality <;> exact ⟨_, rfl⟩
  obtain ⟨c, h3⟩ := hs3
  have he2 : s2.fCentEdges = edges := by rw [hd1, he]
  obtain ⟨⟨hb0, hb1⟩, ⟨hf1, hf2, hf3, hf4⟩, hfv⟩ :=
    GetCentralityBin_range { s2 with fCentrality := c } c
      (by rw [show ({ s2 with fCentrality := c } : Task).fCentEdges = edges from he2]
          exact hbins)
      (by rw [show ({ s2 with fCentrality := c } : Task).fCentEdges = edges from he2]
          exact hsorted)
  generalize GetCentralityBin { s2 with fCentrality := c } c = result
    at h3 hb0 hb1 hf1 hf2 hf3 hf4 hfv
  simp only at hf1 hf2 hf3 hf4 hfv
  have hrp := GetRPBin_range { { result.2 with fCentBin := result.1 } with fRP := rp }
    (by show 1 ≤ result.2.fNEMRPBins
        rw [hf2, hd2]
        exact hr)
  refine ⟨s2, _, h2, h3, ⟨⟨?_, ?_⟩, ⟨hb0, ?_⟩, ⟨hrp.1, hrp.2⟩⟩, ⟨hb0, ?_⟩, rfl, rfl, rfl,
    ⟨?_, ?_, ?_, ?_⟩⟩
  · show 0 ≤ result.2.fVtxBin
    rw [hfv, hvtx2]
  · show result.2.fVtxBin < result.2.fNVtxZBins
    rw [hfv, hvtx2, hf4, hd4]
    omega
  · show result.1 < GetNumberOfCentralityBins { result.2 with fCentBin := result.1 }
    unfold GetNumberOfCentralityBins
    show result.1 < (result.2.fCentEdges.length : Int) - 1
    rw [hf1]
    exact hb1
  · show result.1 < (result.2.fCentNMixed.length : Int)
    rw [hf3, hd3, hm]
    have : (s2.fCentEdges.length : Int) = nMixed.length + 1 := by
      rw [he2, hlen]
      push_cast
      rfl
    have hb1' : result.1 < (s2.fCentEdges.length : Int) - 1 := hb1
    omega
  · show result.2.fCentEdges = s.fCentEdges
    rw [hf1]
    exact hd1
  · show result.2.fNEMRPBins = s.fNEMRPBins
    rw [hf2]
    exact hd2
  · show result.2.fCentNMixed = s.fCentNMixed
    rw [hf3]
    exact hd3
  · show result.2.fNVtxZBins = s.fNVtxZBins
    rw [hf4]
    exact hd4

/-- C20 on the scenario binning `[0, 10, 30, 50, 100]`: an event with centrality
45, a primary vertex and the angle 1 gets a class within the ranges. -/
theorem event_class_in_range_witness :
    (SetCentralityBinning {} [0, 10, 30, 50, 100] [4, 4, 6, 10] =
        .ok { fCentEdges := [0, 10, 30, 50, 100], fCentNMixed := [4, 4, 6, 10] } ∧
      2 ≤ [(0 : ℚ), 10, 30, 50, 100].length ∧
      SameConfig { fCentEdges := [0, 10, 30, 50, 100], fCentNMixed := [4, 4, 6, 10] }
        classifyExampleTask ∧
      1 ≤ classifyExampleTask.fNVtxZBins ∧ 1 ≤ classifyExampleTask.fNEMRPBins ∧
      classifyExampleTask.fEvent =
        some { primaryVertex := some (0, 0, 1), centrality := some 45 }) ∧
    (∃ s2 s3, SetVertex classifyExampleTask = some s2 ∧ SetCentrality s2 = some s3 ∧
      ValidClass s3 s3.fVtxBin s3.fCentBin (GetRPBin { s3 with fRP := 1 }).1 ∧
      (0 ≤ s3.fCentBin ∧ s3.fCentBin < (s3.fCentNMixed.length : Int)) ∧
      (GetRPBin { s3 with fRP := 1 }).2.fVtxBin = s3.fVtxBin ∧
      (GetRPBin { s3 with fRP := 1 }).2.fCentBin = s3.fCentBin ∧
      (GetRPBin { s3 with fRP := 1 }).2.fEMRPBin = (GetRPBin { s3 with fRP := 1 }).1 ∧
      SameConfig classifyExampleTask (GetRPBin { s3 with fRP := 1 }).2) :=
  ⟨⟨by norm_num [SetCentralityBinning, TArrayD.At, List.range, List.range.loop],
      by decide, ⟨rfl, rfl, rfl, rfl⟩, by decide, by decide, rfl⟩,
    event_class_in_range {} { fCentEdges := [0, 10, 30, 50, 100], fCentNMixed := [4, 4, 6, 10] }
      classifyExampleTask [0, 10, 30, 50, 100] [4, 4, 6, 10] _ 1
      (by norm_num [SetCentralityBinning, TArrayD.At, List.range, List.range.loop])
      (by decide) ⟨rfl, rfl, rfl, rfl⟩ (by decide) (by decide) rfl⟩

/-- C20 as stated fails for a binning without a bin: the single edge `[0]` with no
depth limit is accepted by `SetCentralityBinning`, and an event with centrality 50
is then classified with the centrality bin -1, which is outside `[0, 0)` and is
no index of `fCentNMixed`. -/
theorem event_class_in_range_counterexample :
    SetCentralityBinning {} [0] [] = .ok { fCentEdges := [0], fCentNMixed := [] } ∧
    SameConfig { fCentEdges := [0], fCentNMixed := [] } oneEdgeTask ∧
    ∃ s2 s3, SetVertex oneEdgeTask = some s2 ∧ SetCentrality s2 = some s3 ∧
      s3.fCentBin = -1 ∧ GetNumberOfCentralityBins s3 = 0 ∧
      ¬ ValidClass s3 s3.fVtxBin s3.fCentBin (GetRPBin s3).1 ∧
      ¬ (0 ≤ s3.fCentBin ∧ s3.fCentBin < (s3.fCentNMixed.length : Int)) := by
  refine ⟨by simp [SetCentralityBinning], ⟨rfl, rfl, rfl, rfl⟩, _, _, rfl, rfl, by decide,
    by decide, ?_, ?_⟩
  · intro hv
    exact absurd hv.2.1.1 (by decide)
  · intro hv
    exact absurd hv.1 (by decide)

/-! ## Mass window -/

/-- C13. Mass window: `TestMass(m, pt)` is true exactly when `m` lies strictly
inside the window symmetric about `fMassInvMean` whose half-width is
`fMassInvSigma` when `fSigmaWidth` is 0 and `fMassInvSigma * fSigmaWidth`
otherwise; the result does not depend on `pt`, and
`TestMass(mean + d) = TestMass(mean - d)` for every `d`. -/
theorem test_mass_window (s : Task) (m pt pt1 d : ℚ) :
    (TestMass s m pt = true ↔
      s.fMassInvMean -
          (if s.fSigmaWidth = 0 then s.fMassInvSigma else s.fMassInvSigma * s.fSigmaWidth) < m ∧
        m < s.fMassInvMean +
          (if s.fSigmaWidth = 0 then s.fMassInvSigma else s.fMassInvSigma * s.fSigmaWidth)) ∧
    (TestMass s m pt = true ↔
      |m - s.fMassInvMean| <
        (if s.fSigmaWidth = 0 then s.fMassInvSigma else s.fMassInvSigma * s.fSigmaWidth)) ∧
    TestMass s m pt = TestMass s m pt1 ∧
    TestMass s (s.fMassInvMean + d) pt = TestMass s (s.fMassInvMean - d) pt := by
  have key : ∀ m1 pt0 : ℚ, TestMass s m1 pt0 = true ↔
      s.fMassInvMean -
          (if s.fSigmaWidth = 0 then s.fMassInvSigma else s.fMassInvSigma * s.fSigmaWidth) < m1 ∧
        m1 < s.fMassInvMean +
          (if s.fSigmaWidth = 0 then s.fMassInvSigma else s.fMassInvSigma * s.fSigmaWidth) := by
    intro m1 pt0
    unfold TestMass
    by_cases hw : s.fSigmaWidth = 0
    · simp only [hw, if_true, decide_eq_true_eq]
    · simp only [hw, if_false, decide_eq_true_eq]
  refine ⟨key m pt, ?_, ?_, ?_⟩
  · rw [key, abs_lt]
    constructor
    · rintro ⟨h1, h2⟩
      exact ⟨by linarith, by linarith⟩
    · rintro ⟨h1, h2⟩
      exact ⟨by linarith, by linarith⟩
  · rfl
  · rw [Bool.eq_iff_iff, key, key]
    constructor
    · rintro ⟨h1, h2⟩
      exact ⟨by linarith, by linarith⟩
    · rintro ⟨h1, h2⟩
      exact ⟨by linarith, by linarith⟩

/-! ## Track selection -/

/-- C17 (amended). Track kinematic window: `SelectESDTrack` and `SelectAODTrack`
accept a track only if its transverse momentum, narrowed to single precision as
both functions do (`Float_t pt = t->Pt()`), lies in the closed window `[0.5, 10.0]`
and its absolute pseudorapidity does not exceed the double literal `0.8`; every
track whose narrowed pt lies outside `[0.5, 10.0]` is rejected by both. In terms
of the double `Pt()` the window is `[0.5 - 2^-26, 10 + 2^-21]`. -/
theorem track_kinematic_window (s : Task) (t u : AliVTrack)
    (haccept : SelectESDTrack s t = some true ∨ SelectAODTrack s t = true)
    (houtside : toFloat u.Pt < 1 / 2 ∨ 10 < toFloat u.Pt) :
    (1 / 2 ≤ toFloat t.Pt ∧ toFloat t.Pt ≤ 10 ∧ |t.Eta| ≤ etaCut) ∧
    (1 / 2 - 1 / 67108864 ≤ t.Pt ∧ t.Pt ≤ 10 + 1 / 2097152) ∧
    SelectESDTrack s u = some false ∧ SelectAODTrack s u = false ∧
    (u.Pt < 1 / 2 - 1 / 67108864 ∨ 10 + 1 / 2097152 < u.Pt) ∧
    ∀ p : ℚ, (toFloat p < 1 / 2 ∨ 10 < toFloat p) ↔
      (p < 1 / 2 - 1 / 67108864 ∨ 10 + 1 / 2097152 < p) := by
  have hwin : 1 / 2 ≤ toFloat t.Pt ∧ toFloat t.Pt ≤ 10 ∧ |t.Eta| ≤ etaCut := by
    by_cases hpt : toFloat t.Pt < 1 / 2 ∨ toFloat t.Pt > 10
    · rcases haccept with h | h
      · simp only [SelectESDTrack] at h
        rw [if_pos hpt] at h
        cases h
      · simp only [SelectAODTrack] at h
        rw [if_pos hpt] at h
        cases h
    · by_cases heta : |t.Eta| > etaCut
      · rcases haccept with h | h
        · simp only [SelectESDTrack] at h
          rw [if_neg hpt, if_pos heta] at h
          cases h
        · simp only [SelectAODTrack] at h
          rw [if_neg hpt, if_pos heta] at h
          cases h
      · rw [not_or, not_lt, not_lt] at hpt
        exact ⟨hpt.1, hpt.2, not_lt.1 heta⟩
  have h : toFloat u.Pt < 1 / 2 ∨ toFloat u.Pt > 10 := houtside
  refine ⟨hwin, ⟨(half_le_toFloat_iff t.Pt).1 hwin.1, (toFloat_le_ten_iff t.Pt).1 hwin.2.1⟩,
    ?_, ?_, (ptCut_iff u.Pt).1 h, ptCut_iff⟩
  · simp only [SelectESDTrack, h, if_true]
  · simp only [SelectAODTrack, h, if_true]

/-- C17, an instance: a track at pt = 10 is accepted, a track at pt = 11 is
rejected. -/
theorem track_kinematic_window_witness :
    ((SelectESDTrack esdExampleTask { Pt := 10 } = some true ∨
        SelectAODTrack esdExampleTask { Pt := 10 } = true) ∧
      (toFloat ({ Pt := 11 } : AliVTrack).Pt < 1 / 2 ∨
        10 < toFloat ({ Pt := 11 } : AliVTrack).Pt)) ∧
    ((1 / 2 ≤ toFloat ({ Pt := 10 } : AliVTrack).Pt ∧
        toFloat ({ Pt := 10 } : AliVTrack).Pt ≤ 10 ∧
        |({ Pt := 10 } : AliVTrack).Eta| ≤ etaCut) ∧
      SelectESDTrack esdExampleTask { Pt := 11 } = some false ∧
      SelectAODTrack esdExampleTask { Pt := 11 } = false) :=
  ⟨⟨Or.inl (by norm_num [SelectESDTrack, esdExampleTask, ptCut_iff, etaCut]),
      (ptCut_iff 11).2 (Or.inr (by norm_num))⟩,
    (track_kinematic_window esdExampleTask { Pt := 10 } { Pt := 11 }
      (Or.inl (by norm_num [SelectESDTrack, esdExampleTask, ptCut_iff, etaCut]))
      ((ptCut_iff 11).2 (Or.inr (by norm_num)))).1,
    (track_kinematic_window esdExampleTask { Pt := 10 } { Pt := 11 }
      (Or.inl (by norm_num [SelectESDTrack, esdExampleTask, ptCut_iff, etaCut]))
      ((ptCut_iff 11).2 (Or.inr (by norm_num)))).2.2.1,
    (track_kinematic_window esdExampleTask { Pt := 10 } { Pt := 11 }
      (Or.inl (by norm_num [SelectESDTrack, esdExampleTask, ptCut_iff, etaCut]))
      ((ptCut_iff 11).2 (Or.inr (by norm_num)))).2.2.2.1⟩

/-- C17 as stated fails in three ways. A track with pt = 10.0 and pseudorapidity 0
lies outside `[0.5, 10.0)`, yet `SelectESDTrack` (with track cuts that accept it)
and `SelectAODTrack` (hybrid tracks not required) both accept it. The doubles
`10 + 2^-22` and `0.5 - 2^-27` lie outside `[0.5, 10.0]`, yet they are narrowed to
`10.0f` and `0.5f` and the track is accepted. The pseudorapidity equal to the
double literal `0.8` exceeds 4/5, yet the track is accepted. -/
theorem track_kinematic_window_counterexample :
    (¬ (({ Pt := 10 } : AliVTrack).Pt < 10) ∧
      SelectESDTrack esdExampleTask { Pt := 10 } = some true ∧
      SelectAODTrack { fCheckHibridGlobal := .kAllTracks } { Pt := 10 } = true) ∧
    ((10 : ℚ) < 10 + 1 / 4194304 ∧
      SelectAODTrack { fCheckHibridGlobal := .kAllTracks } { Pt := 10 + 1 / 4194304 } = true) ∧
    ((1 : ℚ) / 2 - 1 / 134217728 < 1 / 2 ∧
      SelectAODTrack { fCheckHibridGlobal := .kAllTracks }
        { Pt := 1 / 2 - 1 / 134217728 } = true) ∧
    ((4 : ℚ) / 5 < etaCut ∧
      SelectAODTrack { fCheckHibridGlobal := .kAllTracks } { Pt := 1, Eta := etaCut } = true) := by
  refine ⟨⟨by norm_num, by norm_num [SelectESDTrack, esdExampleTask, ptCut_iff, etaCut], ?_⟩,
    ⟨by norm_num, ?_⟩, ⟨by norm_num, ?_⟩, ⟨etaCut_gt, ?_⟩⟩
  · norm_num [SelectAODTrack, ptCut_iff, etaCut]
    decide
  · norm_num [SelectAODTrack, ptCut_iff, etaCut]
    decide
  · norm_num [SelectAODTrack, ptCut_iff, etaCut]
    decide
  · norm_num [SelectAODTrack, ptCut_iff, etaCut, abs_le]
    decide

theorem wrapAbove_mod (d : ℚ) : ∃ k : ℤ, wrapAbove d = d + (k : ℚ) * (2 * TMath.Pi) := by
  induction d using wrapAbove.induct with
  | case1 d h ih =>
    obtain ⟨k, hk⟩ := ih
    refine ⟨k - 1, ?_⟩
    rw [wrapAbove, if_pos h, hk]
    push_cast
    ring
  | case2 d h =>
    exact ⟨0, by rw [wrapAbove, if_neg h]; simp⟩

theorem wrapBelow_mod (d : ℚ) : ∃ k : ℤ, wrapBelow d = d + (k : ℚ) * (2 * TMath.Pi) := by
  induction d using wrapBelow.induct with
  | case1 d h ih =>
    obtain ⟨k, hk⟩ := ih
    refine ⟨k + 1, ?_⟩
    rw [wrapBelow, if_pos h, hk]
    push_cast
    ring
  | case2 d h =>
    exact ⟨0, by rw [wrapBelow, if_neg h]; simp⟩

theorem wrap_of_inside (d : ℚ) (h1 : -(1 / 2) * TMath.Pi ≤ d) (h2 : d ≤ 3 / 2 * TMath.Pi) :
    wrapBelow (wrapAbove d) = d := by
  rw [wrapAbove, if_neg (not_lt.2 h2), wrapBelow, if_neg (not_lt.2 h1)]

/-! ## The wrapping loops keep the angle -/

/-- C30: the two wrapping loops are total functions (each pass lowers the number
of periods by which `dPhi` lies outside, so the loops terminate for every input);
the wrapped `dPhi` differs from `phiAssoc - phiTrigger` by an integer multiple of
`2 π`; a difference already inside `[-π/2, 3π/2]` is returned unchanged; and
wrapping a wrapped value again changes nothing. -/
theorem dphi_wrap_keeps_angle (phiAssoc phiTrigger : ℚ) :
    (∃ k : ℤ, wrapDPhi phiAssoc phiTrigger =
      phiAssoc - phiTrigger + (k : ℚ) * (2 * TMath.Pi)) ∧
    (-(1 / 2) * TMath.Pi ≤ phiAssoc - phiTrigger ∧ phiAssoc - phiTrigger ≤ 3 / 2 * TMath.Pi →
      wrapDPhi phiAssoc phiTrigger = phiAssoc - phiTrigger) ∧
    wrapDPhi (wrapDPhi phiAssoc phiTrigger) 0 = wrapDPhi phiAssoc phiTrigger := by
  refine ⟨?_, fun h => wrap_of_inside _ h.1 h.2, ?_⟩
  · obtain ⟨k1, h1⟩ := wrapAbove_mod (phiAssoc - phiTrigger)
    obtain ⟨k2, h2⟩ := wrapBelow_mod (wrapAbove (phiAssoc - phiTrigger))
    refine ⟨k1 + k2, ?_⟩
    unfold wrapDPhi
    rw [h2, h1]
    push_cast
    ring
  · have hin : -(1 / 2) * TMath.Pi ≤ wrapDPhi phiAssoc phiTrigger ∧
        wrapDPhi phiAssoc phiTrigger ≤ 3 / 2 * TMath.Pi := by
      unfold wrapDPhi
      obtain ⟨h1, _⟩ := wrapAbove_spec (phiAssoc - phiTrigger)
      obtain ⟨h3, h4⟩ := wrapBelow_spec (wrapAbove (phiAssoc - phiTrigger))
      refine ⟨h3, ?_⟩
      rcases h4 with h | h
      · rw [h]
        exact h1
      · exact le_of_lt h
    have := wrap_of_inside (wrapDPhi phiAssoc phiTrigger - 0) (by simpa using hin.1)
      (by simpa using hin.2)
    simpa [wrapDPhi] using this

/-- C30 on two instances: the difference `7 - 0` is wrapped once downwards, by one
period; the difference `1 - 0` lies inside the interval and is returned as it is. -/
theorem dphi_wrap_keeps_angle_witness :
    (-(1 / 2) * TMath.Pi ≤ (1 : ℚ) - 0 ∧ (1 : ℚ) - 0 ≤ 3 / 2 * TMath.Pi) ∧
    wrapDPhi 1 0 = 1 - 0 ∧
    wrapDPhi 7 0 = 7 - 0 + ((-1 : ℤ) : ℚ) * (2 * TMath.Pi) := by
  have hin : -(1 / 2) * TMath.Pi ≤ (1 : ℚ) - 0 ∧ (1 : ℚ) - 0 ≤ 3 / 2 * TMath.Pi := by
    unfold TMath.Pi
    norm_num
  refine ⟨hin, (dphi_wrap_keeps_angle 1 0).2.1 hin, ?_⟩
  unfold wrapDPhi
  rw [wrapAbove, if_pos (by unfold TMath.Pi; norm_num), wrapAbove,
    if_neg (by unfold TMath.Pi; norm_num), wrapBelow, if_neg (by unfold TMath.Pi; norm_num)]
  push_cast
  ring

theorem poolCapacity_pos_parts (s : Task) (hv : 0 ≤ s.fNVtxZBins) (hpos : 0 < poolCapacity s) :
    1 ≤ s.fNVtxZBins ∧ 1 ≤ GetNumberOfCentralityBins s ∧ 1 ≤ (s.fNEMRPBins : Int) := by
  unfold poolCapacity at hpos
  generalize GetNumberOfCentralityBins s = nC at *
  generalize hnR : (s.fNEMRPBins : Int) = nR at *
  have hR0 : 0 ≤ nR := by rw [← hnR]; exact Int.natCast_nonneg _
  have hVC : 0 < s.fNVtxZBins * nC := by
    by_contra hcon
    have : s.fNVtxZBins * nC * nR ≤ 0 := mul_nonpos_of_nonpos_of_nonneg (not_lt.1 hcon) hR0
    omega
  have hR1 : 1 ≤ nR := by
    by_contra hcon
    have : nR = 0 := by omega
    rw [this, mul_zero] at hpos
    omega
  have hV1 : 1 ≤ s.fNVtxZBins := by
    by_contra hcon
    have : s.fNVtxZBins = 0 := by omega
    rw [this, zero_mul] at hVC
    omega
  have hC1 : 1 ≤ nC := by
    by_contra hcon
    have : s.fNVtxZBins * nC ≤ 0 := mul_nonpos_of_nonneg_of_nonpos hv (by omega)
    omega
  exact ⟨hV1, hC1, hR1⟩

/-- The pools that `UserCreateOutputObjects` allocates have one slot per event
class. -/
theorem UserCreateOutputObjects_size (s : Task) (hv : 0 ≤ s.fNVtxZBins)
    (hpos : 0 < poolCapacity s) (hcap : poolCapacity s < 2147483648) :
    (UserCreateOutputObjects s).fCaloPhotonsPHOSLists =
      some (List.replicate (poolCapacity s).toNat none) ∧
    (UserCreateOutputObjects s).fTracksTPCLists =
      some (List.replicate (poolCapacity s).toNat none) := by
  obtain ⟨hV1, hC1, hR1⟩ := poolCapacity_pos_parts s hv hpos
  have hkap : toInt (toUInt (s.fNVtxZBins * GetNumberOfCentralityBins s) * s.fNEMRPBins) =
      poolCapacity s := by
    unfold poolCapacity at hcap hpos ⊢
    generalize GetNumberOfCentralityBins s = nC at *
    have hVC0 : 0 ≤ s.fNVtxZBins * nC := by nlinarith
    have hVCle : s.fNVtxZBins * nC ≤ s.fNVtxZBins * nC * (s.fNEMRPBins : Int) := by nlinarith
    have hcast : ((toUInt (s.fNVtxZBins * nC) * s.fNEMRPBins : Nat) : Int) =
        s.fNVtxZBins * nC * (s.fNEMRPBins : Int) := by
      push_cast
      rw [toUInt_of_range _ hVC0 (by omega)]
    rw [toInt_of_lt _ (by rw [hcast]; exact hcap), hcast]
  unfold UserCreateOutputObjects
  simp only [hkap, if_neg (not_le.2 hpos), and_self]

theorem slotOffset_surjective (s : Task) (hv : 0 ≤ s.fNVtxZBins)
    (hcap : poolCapacity s < 2147483648) (i : Int) (h0 : 0 ≤ i) (h1 : i < poolCapacity s) :
    ∃ v c r, ValidClass s v c r ∧ slotOffset s (toUInt v) (toUInt c) (toUInt r) = i := by
  obtain ⟨hV1, hC1, hR1⟩ := poolCapacity_pos_parts s hv (by omega)
  have hvalid : ValidClass s (i / (s.fNEMRPBins : Int) / GetNumberOfCentralityBins s)
      (i / (s.fNEMRPBins : Int) % GetNumberOfCentralityBins s) (i % (s.fNEMRPBins : Int)) := by
    unfold poolCapacity at h1
    unfold ValidClass
    generalize GetNumberOfCentralityBins s = nC at *
    generalize (s.fNEMRPBins : Int) = nR at *
    have hq0 : 0 ≤ i / nR := Int.ediv_nonneg h0 (by omega)
    refine ⟨⟨Int.ediv_nonneg hq0 (by omega), ?_⟩,
      ⟨Int.emod_nonneg _ (by omega), Int.emod_lt_of_pos _ (by omega)⟩,
      ⟨Int.emod_nonneg _ (by omega), Int.emod_lt_of_pos _ (by omega)⟩⟩
    rw [Int.ediv_lt_iff_lt_mul (by omega), Int.ediv_lt_iff_lt_mul (by omega)]
    exact h1
  refine ⟨_, _, _, hvalid, ?_⟩
  rw [(slotOffset_valid s _ _ _ hvalid hcap).1]
  generalize GetNumberOfCentralityBins s = nC at *
  generalize (s.fNEMRPBins : Int) = nR at *
  have e1 := Int.ediv_add_emod i nR
  have e2 := Int.ediv_add_emod (i / nR) nC
  calc i / nR / nC * nC * nR + i / nR % nC * nR + i % nR
      = nR * (nC * (i / nR / nC) + i / nR % nC) + i % nR := by ring
    _ = i := by rw [e2, e1]

/-! ## One pool slot per event class -/

/-- C21: on a task whose number of event classes `fNVtxZBins * nCent * fNEMRPBins`
fits an `int`, the flattened offset used by `GetCaloPhotonsPHOSList` and
`GetTracksTPCList` is a bijection between the valid classes and the slot indices
`[0, fNVtxZBins * nCent * fNEMRPBins)`: every valid class addresses a slot inside
the capacity, which is a slot of both pools that `UserCreateOutputObjects`
allocates; two different valid classes never address the same slot; and every
slot index below the capacity is addressed by a valid class. -/
theorem slot_offset_bijection (s : Task) (hv : 0 ≤ s.fNVtxZBins)
    (hcap : poolCapacity s < 2147483648) :
    (∀ v c r, ValidClass s v c r →
      slotOffset s (toUInt v) (toUInt c) (toUInt r) =
        v * GetNumberOfCentralityBins s * (s.fNEMRPBins : Int) + c * (s.fNEMRPBins : Int) + r ∧
      0 ≤ slotOffset s (toUInt v) (toUInt c) (toUInt r) ∧
      slotOffset s (toUInt v) (toUInt c) (toUInt r) < poolCapacity s ∧
      (UserCreateOutputObjects s).fCaloPhotonsPHOSLists =
        some (List.replicate (poolCapacity s).toNat none) ∧
      (UserCreateOutputObjects s).fTracksTPCLists =
        some (List.replicate (poolCapacity s).toNat none)) ∧
    (∀ v c r v1 c1 r1, ValidClass s v c r → ValidClass s v1 c1 r1 →
      slotOffset s (toUInt v) (toUInt c) (toUInt r) =
        slotOffset s (toUInt v1) (toUInt c1) (toUInt r1) →
      v = v1 ∧ c = c1 ∧ r = r1) ∧
    (∀ i, 0 ≤ i → i < poolCapacity s →
      ∃ v c r, ValidClass s v c r ∧ slotOffset s (toUInt v) (toUInt c) (toUInt r) = i) := by
  refine ⟨?_, ?_, slotOffset_surjective s hv hcap⟩
  · intro v c r hvalid
    obtain ⟨h1, h2, h3⟩ := slotOffset_valid s v c r hvalid hcap
    obtain ⟨h4, h5⟩ := UserCreateOutputObjects_size s hv (by omega) hcap
    exact ⟨h1, h2, h3, h4, h5⟩
  · intro v c r v1 c1 r1 hv0 hv1 h
    exact slotOffset_injective s v c r v1 c1 r1 hv0 hv1 hcap h

/-- C21 on the example configuration (1 vertex bin, 4 centrality bins, 9
reaction-plane bins): the class (0, 2, 8) addresses slot 26 of the 36 slots. -/
theorem slot_offset_bijection_witness :
    (0 ≤ exampleTask.fNVtxZBins ∧ poolCapacity exampleTask < 2147483648) ∧
    poolCapacity exampleTask = 36 ∧
    ValidClass exampleTask 0 2 8 ∧
    slotOffset exampleTask (toUInt 0) (toUInt 2) (toUInt 8) = 26 ∧
    (∃ v c r, ValidClass exampleTask v c r ∧
      slotOffset exampleTask (toUInt v) (toUInt c) (toUInt r) = 35) :=
  ⟨⟨by decide, by decide⟩, by decide, by decide, by decide,
    (slot_offset_bijection exampleTask (by decide) (by decide)).2.2 35 (by decide) (by decide)⟩

/-! ## Centrality cut-offs -/

/-- C23 (amended). Malformed centrality bounds are reported and ignored:
`SetCentralityBorders(down, up)` with `down < 0`, `up > 100` or `up <= down`
returns normally and leaves the task, both cut-offs included, as it was; with
well-formed bounds it returns normally and installs them. -/
theorem centrality_borders_never_abort (s : Task) (down up : ℚ) :
    (down < 0 ∨ up > 100 ∨ up ≤ down → SetCentralityBorders s down up = .ok s) ∧
    (¬ (down < 0 ∨ up > 100 ∨ up ≤ down) →
      SetCentralityBorders s down up =
        .ok { s with fCentCutoffDown := down, fCentCutoffUp := up }) ∧
    ∃ t, SetCentralityBorders s down up = .ok t := by
  unfold SetCentralityBorders
  by_cases h : down < 0 ∨ up > 100 ∨ up ≤ down
  · rw [if_pos h]
    exact ⟨fun _ => rfl, fun h1 => absurd h h1, _, rfl⟩
  · rw [if_neg h]
    exact ⟨fun h1 => absurd h1 h, fun _ => rfl, _, rfl⟩

/-- C23 on the constructor state: the bounds `(-1, 50)` are ignored (the cut-offs
stay 0 and 90), the bounds `(10, 50)` are installed. -/
theorem centrality_borders_never_abort_witness :
    ((-1 : ℚ) < 0 ∨ (50 : ℚ) > 100 ∨ (50 : ℚ) ≤ -1) ∧
    SetCentralityBorders {} (-1) 50 = .ok {} ∧
    ¬ ((10 : ℚ) < 0 ∨ (50 : ℚ) > 100 ∨ (50 : ℚ) ≤ 10) ∧
    SetCentralityBorders {} 10 50 =
      .ok { ({} : Task) with fCentCutoffDown := 10, fCentCutoffUp := 50 } :=
  ⟨by norm_num, (centrality_borders_never_abort {} (-1) 50).1 (by norm_num), by norm_num,
    (centrality_borders_never_abort {} 10 50).2.1 (by norm_num)⟩

/-- C23 as stated fails: with the malformed bounds `(-1, 50)`, `(0, 101)` and
`(50, 50)` the function does not abort; it returns the task unchanged. -/
theorem centrality_borders_counterexample :
    SetCentralityBorders {} (-1) 50 = .ok {} ∧ SetCentralityBorders {} 0 101 = .ok {} ∧
    SetCentralityBorders {} 50 50 = .ok {} ∧
    ¬ ∃ msg, SetCentralityBorders {} (-1) 50 = .error msg := by
  have h1 : SetCentralityBorders {} (-1) 50 = .ok {} := by
    unfold SetCentralityBorders
    rw [if_pos (by norm_num)]
  have h2 : SetCentralityBorders {} 0 101 = .ok {} := by
    unfold SetCentralityBorders
    rw [if_pos (by norm_num)]
  have h3 : SetCentralityBorders {} 50 50 = .ok {} := by
    unfold SetCentralityBorders
    rw [if_pos (by norm_num)]
  refine ⟨h1, h2, h3, ?_⟩
  rintro ⟨msg, h⟩
  rw [h1] at h
  cases h

theorem SetCentralityBorders_down (s t : Task) (down up : ℚ)
    (h : SetCentralityBorders s down up = .ok t) (h0 : 0 ≤ s.fCentCutoffDown) :
    0 ≤ t.fCentCutoffDown := by
  unfold SetCentralityBorders at h
  split_ifs at h with hbad
  · injection h with h
    rw [← h]
    exact h0
  · injection h with h
    rw [← h]
    rw [not_or] at hbad
    exact not_lt.1 hbad.1

theorem applyBorders_down (calls : List (ℚ × ℚ)) :
    ∀ s : Task, 0 ≤ s.fCentCutoffDown →
      ∃ t, applyBorders s calls = .ok t ∧ 0 ≤ t.fCentCutoffDown := by
  induction calls with
  | nil =>
    intro s h0
    exact ⟨s, rfl, h0⟩
  | cons call rest ih =>
    intro s h0
    obtain ⟨down, up⟩ := call
    obtain ⟨s1, hs1⟩ : ∃ t, SetCentralityBorders s down up = .ok t := by
      unfold SetCentralityBorders
      split_ifs <;> exact ⟨_, rfl⟩
    obtain ⟨t, ht, ht0⟩ := ih s1 (SetCentralityBorders_down s s1 down up hs1 h0)
    exact ⟨t, by simp only [applyBorders, hs1, ht], ht0⟩

theorem GetCentralityBin_snd (s : Task) (v : ℚ) :
    { (GetCentralityBin s v).2 with fCentBin := (GetCentralityBin s v).1 } =
      { s with fCentBin := (GetCentralityBin s v).1 } := by
  unfold GetCentralityBin
  simp only
  split_ifs <;> rfl

/-- What `SetCentrality` changes: the centrality (-1 without a centrality object)
and its bin. -/
theorem SetCentrality_eq (s : Task) (event : AliVEvent) (hev : s.fEvent = some event) :
    SetCentrality s =
      some { s with
        fCentrality := event.centrality.getD (-1),
        fCentBin := (GetCentralityBin { s with fCentrality := event.centrality.getD (-1) }
          (event.centrality.getD (-1))).1 } := by
  simp only [SetCentrality, hev]
  cases event.centrality with
  | none => exact congrArg some (GetCentralityBin_snd _ _)
  | some c => exact congrArg some (GetCentralityBin_snd _ _)

/-- C24: every sequence of `SetCentralityBorders` calls on the constructor state
returns, and with the cut-offs it leaves, an event without a centrality object
(`SetCentrality` stores -1) is rejected by `RejectEventCentrality`. -/
theorem missing_centrality_rejects (calls : List (ℚ × ℚ)) :
    ∃ s, applyBorders {} calls = .ok s ∧
      ∀ (t : Task) (event : AliVEvent), t.fCentCutoffDown = s.fCentCutoffDown →
        t.fCentCutoffUp = s.fCentCutoffUp → t.fEvent = some event →
        event.centrality = none →
        ∃ t1, SetCentrality t = some t1 ∧ t1.fCentrality = -1 ∧
          RejectEventCentrality t1 = true := by
  obtain ⟨s, hs, h0⟩ := applyBorders_down calls {} (by decide)
  refine ⟨s, hs, ?_⟩
  intro t event hd _ hev hnone
  refine ⟨_, SetCentrality_eq t event hev, ?_, ?_⟩
  · rw [hnone]
    rfl
  · unfold RejectEventCentrality
    rw [if_pos]
    show event.centrality.getD (-1) < t.fCentCutoffDown
    rw [hnone, hd]
    show (-1 : ℚ) < s.fCentCutoffDown
    linarith

/-- C24 on two calls, the second malformed: the cut-offs become 10 and 50, and an
event without a centrality object is rejected. -/
theorem missing_centrality_rejects_witness :
    ∃ s, applyBorders {} [(10, 50), (-5, 20)] = .ok s ∧
      s.fCentCutoffDown = 10 ∧ s.fCentCutoffUp = 50 ∧
      ∃ t1, SetCentrality { s with fEvent := some {} } = some t1 ∧ t1.fCentrality = -1 ∧
        RejectEventCentrality t1 = true := by
  obtain ⟨s, hs, hall⟩ := missing_centrality_rejects [(10, 50), (-5, 20)]
  have hval : applyBorders {} [(10, 50), (-5, 20)] =
      .ok { ({} : Task) with fCentCutoffDown := 10, fCentCutoffUp := 50 } := by
    simp only [applyBorders, SetCentralityBorders]
    norm_num
  rw [hval] at hs
  injection hs with hs
  subst hs
  exact ⟨_, hval, rfl, rfl, hall _ {} rfl rfl rfl rfl⟩

theorem EvalReactionPlane_undefined (s : Task) (event : AliVEvent) (q : ℚ)
    (hists : List Histogram) (hh : s.fOutputContainer = some hists)
    (hev : s.fEvent = some event) (hq : event.eventplane = some q) (hu : q ≥ 999 ∨ q < 0) :
    ∃ t, EvalReactionPlane s = some t ∧ t.fRP = 0 ∧ t.fHaveTPCRP = false := by
  simp only [EvalReactionPlane, hev, hq, if_pos hu, FillHistogram, hh]
  exact ⟨_, rfl, rfl, rfl⟩

theorem EvalReactionPlane_defined (s : Task) (event : AliVEvent) (q : ℚ)
    (hists : List Histogram) (hh : s.fOutputContainer = some hists)
    (hev : s.fEvent = some event) (hq : event.eventplane = some q)
    (hd : ¬ (q ≥ 999 ∨ q < 0)) :
    ∃ t, EvalReactionPlane s = some t ∧ t.fRP = q ∧ t.fHaveTPCRP = true ∧
      ∃ h, t.fOutputContainer = some h := by
  simp only [EvalReactionPlane, hev, hq, if_neg hd, FillHistogram, hh]
  exact ⟨_, rfl, rfl, rfl, _, rfl⟩

theorem EvalReactionPlane_unavailable (s : Task) (event : AliVEvent)
    (hev : s.fEvent = some event) (hq : event.eventplane = none) :
    EvalReactionPlane s = some s := by
  simp only [EvalReactionPlane, hev, hq]

/-- C22 (evidence). Reaction plane of an event without an event-plane object:
`EvalReactionPlane` on the event with angle 1 stores `fRP = 1` and
`fHaveTPCRP = true`; on the following event, which has no event-plane object, it
returns the task unchanged, so `fRP` is still 1 and `fHaveTPCRP` still true, where
an event whose angle is the undefined value 999 gets `fRP = 0` and
`fHaveTPCRP = false`. -/
theorem reaction_plane_unavailable_keeps_previous :
    ∃ t1, EvalReactionPlane planeExampleTask = some t1 ∧ t1.fRP = 1 ∧ t1.fHaveTPCRP = true ∧
      EvalReactionPlane { t1 with fEvent := some noPlaneEvent } =
        some { t1 with fEvent := some noPlaneEvent } ∧
      ({ t1 with fEvent := some noPlaneEvent } : Task).fRP = 1 ∧
      ({ t1 with fEvent := some noPlaneEvent } : Task).fHaveTPCRP = true ∧
      ∃ t3, EvalReactionPlane { t1 with fEvent := some undefinedPlaneEvent } = some t3 ∧
        t3.fRP = 0 ∧ t3.fHaveTPCRP = false := by
  obtain ⟨t1, h1, hrp, hhave, h, hh⟩ := EvalReactionPlane_defined planeExampleTask
    planeExampleEvent 1 exampleHistograms rfl rfl rfl (by norm_num)
  exact ⟨t1, h1, hrp, hhave, EvalReactionPlane_unavailable _ noPlaneEvent rfl rfl, hrp, hhave,
    EvalReactionPlane_undefined _ undefinedPlaneEvent 999 h hh rfl rfl (Or.inl le_rfl)⟩

/-! ## What the event selection leaves alone -/

theorem SamePools_trans {s t u : Task} (h1 : SamePools s t) (h2 : SamePools t u) :
    SamePools s u :=
  ⟨h2.1.trans h1.1, h2.2.trans h1.2⟩

theorem FillHistogram_shape (s t : Task) (key : String) (args : List ℚ)
    (h : FillHistogram s key args = some t) :
    ∃ hists, t = { s with fOutputContainer := some hists } := by
  unfold FillHistogram at h
  cases hc : s.fOutputContainer with
  | none =>
    rw [hc] at h
    cases h
  | some hists =>
    rw [hc] at h
    exact ⟨_, (Option.some.inj h).symm⟩

theorem shape_trans {s t u : Task} {c d : Option (List Histogram)}
    (h1 : t = { s with fOutputContainer := c }) (h2 : u = { t with fOutputContainer := d }) :
    u = { s with fOutputContainer := d } := by
  subst h1
  exact h2

theorem shape_pools {s t : Task} {c : Option (List Histogram)}
    (h : t = { s with fOutputContainer := c }) : SamePools s t ∧ SameConfig s t := by
  subst h
  exact ⟨⟨rfl, rfl⟩, ⟨rfl, rfl, rfl, rfl⟩⟩

theorem LogProgress_shape (s t : Task) (step : Int) (h : LogProgress s step = some t) :
    ∃ hists, t = { s with fOutputContainer := some hists } :=
  FillHistogram_shape s t _ _ h

theorem LogSelection_shape (s t : Task) (step run : Int) (h : LogSelection s step run = some t) :
    ∃ hists, t = { s with fOutputContainer := some hists } :=
  FillHistogram_shape s t _ _ h

theorem ite_fill_shape (s0 s t : Task) (c : Option (List Histogram)) (b : Bool) (key : String)
    (args : List ℚ) (hs : s = { s0 with fOutputContainer := c })
    (h : (if b = true then FillHistogram s key args else some s) = some t) :
    ∃ d, t = { s0 with fOutputContainer := d } := by
  cases b with
  | false =>
    simp only [Bool.false_eq_true, if_false, Option.some.injEq] at h
    exact ⟨c, h ▸ hs⟩
  | true =>
    simp only [if_true] at h
    obtain ⟨d, hd⟩ := FillHistogram_shape s t _ _ h
    exact ⟨_, shape_trans hs hd⟩

theorem triggerFills_shape (s t : Task) (event : AliVEvent) (h : triggerFills s event = some t) :
    ∃ d, t = { s with fOutputContainer := d } := by
  simp only [triggerFills, Option.bind_eq_some] at h
  obtain ⟨s1, h1, s2, h2, s3, h3, h4⟩ := h
  obtain ⟨c1, e1⟩ := FillHistogram_shape s s1 _ _ h1
  obtain ⟨c2, e2⟩ := ite_fill_shape s s1 s2 _ _ _ _ e1 h2
  obtain ⟨c3, e3⟩ := ite_fill_shape s s2 s3 _ _ _ _ e2 h3
  exact ite_fill_shape s s3 t _ _ _ _ e3 h4

theorem triggerFills_pools (s t : Task) (event : AliVEvent)
    (h : triggerFills s event = some t) : SamePools s t ∧ SameConfig s t := by
  obtain ⟨d, e⟩ := triggerFills_shape s t event h
  exact shape_pools e

theorem firstEventFill_shape (s t : Task) (h : firstEventFill s = some t) :
    ∃ d, t = { s with fOutputContainer := d } := by
  unfold firstEventFill at h
  split_ifs at h
  · obtain ⟨c, e⟩ := FillHistogram_shape s t _ _ h
    exact ⟨_, e⟩
  · obtain ⟨c, e⟩ := FillHistogram_shape s t _ _ h
    exact ⟨_, e⟩
  · exact ⟨s.fOutputContainer, (Option.some.inj h).symm⟩

theorem runNumberStep_pools (x : Externals) (s : Task) (event : AliVEvent) :
    SamePools s (runNumberStep x s event) ∧ SameConfig s (runNumberStep x s event) := by
  unfold runNumberStep SetESDTrackCuts
  split_ifs <;> exact ⟨⟨rfl, rfl⟩, ⟨rfl, rfl, rfl, rfl⟩⟩

theorem pools_trans {s t u : Task} (h1 : SamePools s t ∧ SameConfig s t)
    (h2 : SamePools t u ∧ SameConfig t u) : SamePools s u ∧ SameConfig s u :=
  ⟨SamePools_trans h1.1 h2.1, h1.2.trans h2.2⟩

theorem pools_refl (s : Task) : SamePools s s ∧ SameConfig s s :=
  ⟨⟨rfl, rfl⟩, ⟨rfl, rfl, rfl, rfl⟩⟩

theorem RejectTriggerMaskSelection_pools (x : Externals) (s : Task) (r : Bool × Task)
    (h : RejectTriggerMaskSelection x s = some r) : SamePools s r.2 ∧ SameConfig s r.2 := by
  unfold RejectTriggerMaskSelection at h
  split_ifs at h with h1
  · cases h
    exact pools_refl s
  · cases hev : s.fEvent with
    | none =>
      rw [hev] at h
      cases h
    | some event =>
      rw [hev] at h
      have key : ∀ b : Bool,
          (if b = true then some (true, s)
            else (LogSelection s x.kInternalTriggerMaskSelection s.fInternalRunNumber).bind
              (fun s1 => some (false, s1))) = some r →
          SamePools s r.2 ∧ SameConfig s r.2 := by
        intro b hb
        cases b with
        | true =>
          simp only [if_true] at hb
          cases hb
          exact pools_refl s
        | false =>
          simp only [Bool.false_eq_true, if_false, Option.bind_eq_some] at hb
          obtain ⟨s1, hs1, hr⟩ := hb
          cases hr
          obtain ⟨c, e⟩ := LogSelection_shape s s1 _ _ hs1
          exact shape_pools e
      exact key _ h

theorem SetVertex_pools (s t : Task) (h : SetVertex s = some t) :
    SamePools s t ∧ SameConfig s t := by
  cases hev : s.fEvent with
  | none => simp [SetVertex, hev] at h
  | some event =>
    simp only [SetVertex, hev] at h
    cases hv : event.primaryVertex with
    | none =>
      simp only [hv] at h
      cases h
      exact ⟨⟨rfl, rfl⟩, ⟨rfl, rfl, rfl, rfl⟩⟩
    | some v =>
      simp only [hv] at h
      cases h
      exact ⟨⟨rfl, rfl⟩, ⟨rfl, rfl, rfl, rfl⟩⟩

theorem RejectEventVertex_pools (x : Externals) (s : Task) (r : Bool × Task)
    (h : RejectEventVertex x s = some r) : SamePools s r.2 ∧ SameConfig s r.2 := by
  cases hev : s.fEvent with
  | none => simp [RejectEventVertex, hev] at h
  | some event =>
    simp only [RejectEventVertex, hev] at h
    cases hv : event.primaryVertex with
    | none =>
      simp only [hv] at h
      cases h
      exact pools_refl s
    | some v =>
      simp only [hv, Option.bind_eq_some] at h
      obtain ⟨s1, hs1, h2⟩ := h
      obtain ⟨c, e⟩ := LogSelection_shape s s1 _ _ hs1
      split_ifs at h2
      · cases h2
        exact shape_pools e
      · simp only [Option.bind_eq_some] at h2
        obtain ⟨s2, hs2, hr⟩ := h2
        cases hr
        obtain ⟨c2, e2⟩ := LogSelection_shape s1 s2 _ _ hs2
        exact shape_pools (shape_trans e e2)

theorem SetCentrality_pools (s t : Task) (h : SetCentrality s = some t) :
    SamePools s t ∧ SameConfig s t := by
  cases hev : s.fEvent with
  | none =>
    simp only [SetCentrality, hev] at h
    cases h
  | some event =>
    rw [SetCentrality_eq s event hev] at h
    cases h
    exact ⟨⟨rfl, rfl⟩, ⟨rfl, rfl, rfl, rfl⟩⟩

theorem UserExecSelect_pools (x : Externals) (s : Task) (input : Option AliVEvent)
    (r : Bool × Task) (h : UserExecSelect x s input = some r) :
    SamePools s r.2 ∧ SameConfig s r.2 := by
  simp only [UserExecSelect, Option.bind_eq_some] at h
  obtain ⟨s0, h0, h⟩ := h
  obtain ⟨c0, e0⟩ := LogProgress_shape s s0 _ h0
  have k0 := shape_pools e0
  cases input with
  | none =>
    cases h
    exact pools_trans k0 ⟨⟨rfl, rfl⟩, ⟨rfl, rfl, rfl, rfl⟩⟩
  | some event =>
    simp only [Option.bind_eq_some] at h
    obtain ⟨s1, h1, s2, h2, s3, h3, r4, h4, h⟩ := h
    obtain ⟨c2, e2⟩ := firstEventFill_shape s1 s2 h2
    obtain ⟨c3, e3⟩ := LogProgress_shape _ s3 _ h3
    have kb := triggerFills_pools _ s1 event h1
    have ka : SamePools s0 s1 ∧ SameConfig s0 s1 := kb
    have k3 : SamePools s s3 ∧ SameConfig s s3 :=
      pools_trans k0 (pools_trans ka (pools_trans (shape_pools e2)
        (pools_trans (runNumberStep_pools x s2 event) (shape_pools e3))))
    have k4 := pools_trans k3 (RejectTriggerMaskSelection_pools x s3 r4 h4)
    split_ifs at h
    · cases h
      exact k4
    · simp only [Option.bind_eq_some] at h
      obtain ⟨s5, h5, s6, h6, r7, h7, h⟩ := h
      obtain ⟨c5, e5⟩ := LogProgress_shape _ s5 _ h5
      have k7 := pools_trans k4 (pools_trans (shape_pools e5)
        (pools_trans (SetVertex_pools s5 s6 h6) (RejectEventVertex_pools x s6 r7 h7)))
      split_ifs at h
      · cases h
        exact k7
      · simp only [Option.bind_eq_some] at h
        obtain ⟨s8, h8, s9, h9, h⟩ := h
        obtain ⟨c8, e8⟩ := LogProgress_shape _ s8 _ h8
        cases h
        exact pools_trans k7 (pools_trans (shape_pools e8) (SetCentrality_pools s8 s9 h9))
theorem FillAll_shape (calls : List FillCall) :
    ∀ s t : Task, FillAll s calls = some t → ∃ c, t = { s with fOutputContainer := c } := by
  induction calls with
  | nil =>
    intro s t h
    exact ⟨s.fOutputContainer, (Option.some.inj h).symm⟩
  | cons call rest ih =>
    intro s t h
    unfold FillAll at h
    cases h1 : FillHistogram s call.key call.args with
    | none =>
      rw [h1] at h
      cases h
    | some s1 =>
      rw [h1] at h
      obtain ⟨c1, e1⟩ := FillHistogram_shape s s1 _ _ h1
      obtain ⟨c, e⟩ := ih s1 t h
      exact ⟨c, shape_trans e1 e⟩

theorem EvalReactionPlane_pools (s t : Task) (h : EvalReactionPlane s = some t) :
    (SamePools s t ∧ SameConfig s t) ∧ t.fCaloPhotonsPHOS = s.fCaloPhotonsPHOS ∧
      t.fTracksTPC = s.fTracksTPC := by
  cases hev : s.fEvent with
  | none => simp [EvalReactionPlane, hev] at h
  | some event =>
    cases hq : event.eventplane with
    | none =>
      simp only [EvalReactionPlane, hev, hq] at h
      cases h
      exact ⟨pools_refl s, rfl, rfl⟩
    | some q =>
      simp only [EvalReactionPlane, hev, hq] at h
      obtain ⟨c, e⟩ := FillHistogram_shape _ t _ _ h
      rw [e]
      split_ifs <;> exact ⟨⟨⟨rfl, rfl⟩, ⟨rfl, rfl, rfl, rfl⟩⟩, rfl, rfl⟩

theorem GetRPBin_pools (s : Task) :
    SamePools s { (GetRPBin s).2 with fEMRPBin := (GetRPBin s).1 } ∧
      SameConfig s { (GetRPBin s).2 with fEMRPBin := (GetRPBin s).1 } :=
  ⟨⟨rfl, rfl⟩, ⟨rfl, rfl, rfl, rfl⟩⟩

theorem SelectPhotonClusters_shape (x : Externals) (s t : Task)
    (h : SelectPhotonClusters x s = some t) :
    ∃ array c, t = { s with fCaloPhotonsPHOS := some array, fOutputContainer := c } := by
  cases hev : s.fEvent with
  | none => simp [SelectPhotonClusters, hev] at h
  | some event =>
    simp only [SelectPhotonClusters, hev] at h
    cases hl : selectClustersLoop x s event.clusters [] with
    | none => simp [hl] at h
    | some r =>
      simp only [hl] at h
      obtain ⟨c, e⟩ := FillAll_shape _ _ t h
      exact ⟨r.1, c, e⟩

theorem SelectAccosiatedTracks_shape (s t : Task) (h : SelectAccosiatedTracks s = some t) :
    ∃ array, t = { s with fTracksTPC := some array } := by
  cases hev : s.fEvent with
  | none => simp [SelectAccosiatedTracks, hev] at h
  | some event =>
    simp only [SelectAccosiatedTracks, hev] at h
    cases hl : selectTracksLoop s event.tracks [] with
    | none => simp [hl] at h
    | some array =>
      simp only [hl] at h
      exact ⟨array, (Option.some.inj h).symm⟩

theorem UserExecCandidates_spec (x : Externals) (s t : Task)
    (h : UserExecCandidates x s = some t) :
    (SamePools s t ∧ SameConfig s t) ∧ (∃ photons, t.fCaloPhotonsPHOS = some photons) ∧
      (∃ tracks, t.fTracksTPC = some tracks) ∧ (∃ hists, t.fOutputContainer = some hists) := by
  simp only [UserExecCandidates, Option.bind_eq_some] at h
  obtain ⟨s1, h1, s2, h2, s3, h3, s4, h4, s5, h5, s6, h6, s7, h7, s8, h8, s9, h9, s10, h10,
    h11⟩ := h
  obtain ⟨c1, e1⟩ := FillHistogram_shape s s1 _ _ h1
  obtain ⟨c2, e2⟩ := LogProgress_shape s1 s2 _ h2
  have k3 := EvalReactionPlane_pools s2 s3 h3
  obtain ⟨c4, e4⟩ := LogProgress_shape _ s4 _ h4
  obtain ⟨array5, c5, e5⟩ := SelectPhotonClusters_shape x s4 s5 h5
  subst e5
  have e6 : ∃ c6, s6 = { s4 with fCaloPhotonsPHOS := some array5, fOutputContainer := c6 } := by
    simp only at h6
    split_ifs at h6
    · obtain ⟨c, e⟩ := LogSelection_shape _ s6 _ _ h6
      exact ⟨_, e⟩
    · exact ⟨c5, (Option.some.inj h6).symm⟩
  obtain ⟨c6, e6⟩ := e6
  obtain ⟨c7, e7⟩ := LogProgress_shape s6 s7 _ h7
  obtain ⟨array8, e8⟩ := SelectAccosiatedTracks_shape s7 s8 h8
  subst e8
  have e9 : ∃ c9, s9 = { s7 with fTracksTPC := some array8, fOutputContainer := c9 } := by
    simp only at h9
    split_ifs at h9
    · obtain ⟨c, e⟩ := LogSelection_shape _ s9 _ _ h9
      exact ⟨_, e⟩
    · exact ⟨s7.fOutputContainer, (Option.some.inj h9).symm⟩
  obtain ⟨c9, e9⟩ := e9
  obtain ⟨c10, e10⟩ := LogSelection_shape s9 s10 _ _ h10
  obtain ⟨c11, e11⟩ := LogProgress_shape s10 t _ h11
  subst e1 e2
  subst e11 e10 e9 e7 e6 e4
  obtain ⟨⟨⟨p1, p2⟩, ⟨q1, q2, q3, q4⟩⟩, _, _⟩ := k3
  exact ⟨⟨⟨p1, p2⟩, ⟨q1, q2, q3, q4⟩⟩, ⟨_, rfl⟩, ⟨_, rfl⟩, ⟨_, rfl⟩⟩
/-! ## What the correlation steps read and leave -/

theorem photonList_congr {s t : Task} (h : SamePools s t ∧ SameConfig s t) (v c r : Int) :
    photonList t v c r = photonList s v c r := by
  unfold photonList
  rw [h.1.1, slotOffset_congr s t h.2]

theorem trackList_congr {s t : Task} (h : SamePools s t ∧ SameConfig s t) (v c r : Int) :
    trackList t v c r = trackList s v c r := by
  unfold trackList
  rw [h.1.2, slotOffset_congr s t h.2]

theorem SameStored_of_pools {s t : Task} (h : SamePools s t ∧ SameConfig s t) :
    SameStored s t :=
  fun v c r => ⟨photonList_congr h v c r, trackList_congr h v c r⟩

theorem SameStored_trans {s t u : Task} (h1 : SameStored s t) (h2 : SameStored t u) :
    SameStored s u :=
  fun v c r => ⟨((h2 v c r).1).trans (h1 v c r).1, ((h2 v c r).2).trans (h1 v c r).2⟩

theorem storedList_AddAt_nil {α : Type} (lists : TObjArray α) (off : Int)
    (hat : TObjArray.At lists off = none) (i : Int) :
    storedList (some (TObjArray.AddAt lists [] off)) i = storedList (some lists) i := by
  simp only [storedList]
  rw [At_AddAt]
  split_ifs with h
  · obtain ⟨rfl, _⟩ := h
    simp [hat]
  · rfl

theorem GetCaloPhotonsPHOSList_stored (s : Task) (lists : TObjArray AliCaloPhoton)
    (h : s.fCaloPhotonsPHOSLists = some lists) (v c r : Nat) :
    ∃ pool, GetCaloPhotonsPHOSList s v c r =
      some (storedList s.fCaloPhotonsPHOSLists (slotOffset s v c r),
        { s with fCaloPhotonsPHOSLists := some pool }) ∧
      ∀ i, storedList (some pool) i = storedList (some lists) i := by
  cases hat : TObjArray.At lists (slotOffset s v c r) with
  | none =>
    exact ⟨TObjArray.AddAt lists [] (slotOffset s v c r), by
      simp [GetCaloPhotonsPHOSList, storedList, h, hat], storedList_AddAt_nil lists _ hat⟩
  | some list =>
    refine ⟨lists, ?_, fun _ => rfl⟩
    cases s
    simp only at h
    subst h
    simp [GetCaloPhotonsPHOSList, storedList, hat]

theorem GetTracksTPCList_stored (s : Task) (lists : TObjArray TLorentzVector)
    (h : s.fTracksTPCLists = some lists) (v c r : Nat) :
    ∃ pool, GetTracksTPCList s v c r =
      some (storedList s.fTracksTPCLists (slotOffset s v c r),
        { s with fTracksTPCLists := some pool }) ∧
      ∀ i, storedList (some pool) i = storedList (some lists) i := by
  cases hat : TObjArray.At lists (slotOffset s v c r) with
  | none =>
    exact ⟨TObjArray.AddAt lists [] (slotOffset s v c r), by
      simp [GetTracksTPCList, storedList, h, hat], storedList_AddAt_nil lists _ hat⟩
  | some list =>
    refine ⟨lists, ?_, fun _ => rfl⟩
    cases s
    simp only at h
    subst h
    simp [GetTracksTPCList, storedList, hat]

theorem ConsiderPi0s_total (x : Externals) (s : Task) (photons : List AliCaloPhoton)
    (tracks : List TLorentzVector) (hists : List Histogram)
    (hp : s.fCaloPhotonsPHOS = some photons) (ht : s.fTracksTPC = some tracks)
    (hh : s.fOutputContainer = some hists) :
    ∃ hists1, ConsiderPi0s x s = some { s with fOutputContainer := some hists1 } := by
  obtain ⟨calls, hcalls⟩ := ConsiderPi0sCalls_isSome x s photons tracks hp ht
  obtain ⟨hists1, hrun, _⟩ := FillAll_spec calls s hists hh
  exact ⟨hists1, by simp only [ConsiderPi0s, hcalls, hrun]⟩

theorem ConsiderPi0sMix_total (x : Externals) (s : Task) (photons : List AliCaloPhoton)
    (lists : TObjArray AliCaloPhoton) (hists : List Histogram)
    (hp : s.fCaloPhotonsPHOS = some photons) (hl : s.fCaloPhotonsPHOSLists = some lists)
    (hh : s.fOutputContainer = some hists) :
    ∃ pool hists1,
      ConsiderPi0sMixCalls x s =
        some ((photonList s s.fVtxBin s.fCentBin s.fEMRPBin).flatMap (fun mixPHOS =>
            photons.flatMap (fun ph1 => mixPHOS.flatMap (fun ph2 => mixMassPtCalls x ph1 ph2))),
          { s with fCaloPhotonsPHOSLists := some pool }) ∧
      ConsiderPi0sMix x s =
        some { s with fCaloPhotonsPHOSLists := some pool, fOutputContainer := some hists1 } ∧
      ∀ i, storedList (some pool) i = storedList (some lists) i := by
  obtain ⟨pool, hget, hstored⟩ := GetCaloPhotonsPHOSList_stored s lists hl
    (toUInt s.fVtxBin) (toUInt s.fCentBin) (toUInt s.fEMRPBin)
  have hloop := pi0MixLoopCalls_eq x { s with fCaloPhotonsPHOSLists := some pool } photons hp
    (storedList s.fCaloPhotonsPHOSLists
      (slotOffset s (toUInt s.fVtxBin) (toUInt s.fCentBin) (toUInt s.fEMRPBin)))
  have hcalls : ConsiderPi0sMixCalls x s =
      some ((photonList s s.fVtxBin s.fCentBin s.fEMRPBin).flatMap (fun mixPHOS =>
          photons.flatMap (fun ph1 => mixPHOS.flatMap (fun ph2 => mixMassPtCalls x ph1 ph2))),
        { s with fCaloPhotonsPHOSLists := some pool }) := by
    simp only [ConsiderPi0sMixCalls, hget, hloop, photonList]
  obtain ⟨hists1, hrun, _⟩ := FillAll_spec
    ((photonList s s.fVtxBin s.fCentBin s.fEMRPBin).flatMap (fun mixPHOS =>
      photons.flatMap (fun ph1 => mixPHOS.flatMap (fun ph2 => mixMassPtCalls x ph1 ph2))))
    { s with fCaloPhotonsPHOSLists := some pool } hists hh
  exact ⟨pool, hists1, hcalls, by simp only [ConsiderPi0sMix, hcalls, hrun], hstored⟩

theorem ConsiderTracksMix_total (x : Externals) (s : Task) (photons : List AliCaloPhoton)
    (lists : TObjArray TLorentzVector) (hists : List Histogram)
    (hp : s.fCaloPhotonsPHOS = some photons) (hl : s.fTracksTPCLists = some lists)
    (hh : s.fOutputContainer = some hists) :
    ∃ pool hists1,
      ConsiderTracksMixCalls x s =
        some (photons.flatMap (fun ph1 => photons.flatMap (fun ph2 =>
            if promoted x s ph1 ph2 = true then
              (trackList s s.fVtxBin s.fCentBin s.fEMRPBin).flatMap (fun mixTracks =>
                mixTracks.flatMap (mixTrackCalls x s ph1 ph2))
            else [])),
          { s with fTracksTPCLists := some pool }) ∧
      ConsiderTracksMix x s =
        some { s with fTracksTPCLists := some pool, fOutputContainer := some hists1 } ∧
      ∀ i, storedList (some pool) i = storedList (some lists) i := by
  obtain ⟨pool, hget, hstored⟩ := GetTracksTPCList_stored s lists hl
    (toUInt s.fVtxBin) (toUInt s.fCentBin) (toUInt s.fEMRPBin)
  have hloop := trackMixLoopCalls_eq x { s with fTracksTPCLists := some pool } photons hp
    (storedList s.fTracksTPCLists
      (slotOffset s (toUInt s.fVtxBin) (toUInt s.fCentBin) (toUInt s.fEMRPBin)))
  have hcalls : ConsiderTracksMixCalls x s =
      some (photons.flatMap (fun ph1 => photons.flatMap (fun ph2 =>
          if promoted x s ph1 ph2 = true then
            (trackList s s.fVtxBin s.fCentBin s.fEMRPBin).flatMap (fun mixTracks =>
              mixTracks.flatMap (mixTrackCalls x s ph1 ph2))
          else [])),
        { s with fTracksTPCLists := some pool }) := by
    simp only [ConsiderTracksMixCalls, hget, hloop, trackList]
    rfl
  obtain ⟨hists1, hrun, _⟩ := FillAll_spec
    (photons.flatMap (fun ph1 => photons.flatMap (fun ph2 =>
      if promoted x s ph1 ph2 = true then
        (trackList s s.fVtxBin s.fCentBin s.fEMRPBin).flatMap (fun mixTracks =>
          mixTracks.flatMap (mixTrackCalls x s ph1 ph2))
      else [])))
    { s with fTracksTPCLists := some pool } hists hh
  exact ⟨pool, hists1, hcalls, by simp only [ConsiderTracksMix, hcalls, hrun], hstored⟩

theorem bind_collect_total {α : Type} (f : α → Option (List FillCall)) (l : List α)
    (k : List FillCall → Option Task) (h : ∀ a ∈ l, ∃ c, f a = some c) :
    ∃ calls, (collectCalls f l).bind k = k calls := by
  obtain ⟨calls, hcalls⟩ := collectCalls_isSome f l h
  exact ⟨calls, by rw [hcalls, Option.some_bind]⟩

theorem FillTrackEtaPhi_total (x : Externals) (s : Task) (tracks : List TLorentzVector)
    (hists : List Histogram) (ht : s.fTracksTPC = some tracks)
    (hh : s.fOutputContainer = some hists) :
    ∃ hists1, FillTrackEtaPhi x s = some { s with fOutputContainer := some hists1 } := by
  have hex : ∃ calls, FillTrackEtaPhi x s = FillAll s calls := by
    simp only [FillTrackEtaPhi, ht]
    refine bind_collect_total _ _ _ ?_
    intro i hi
    rw [List.mem_range] at hi
    simp [List.getElem?_eq_getElem hi]
  obtain ⟨calls, hfill⟩ := hex
  obtain ⟨hists1, hrun, _⟩ := FillAll_spec calls s hists hh
  exact ⟨hists1, hfill.trans hrun⟩

theorem LogProgress_total (s : Task) (hists : List Histogram) (step : Int)
    (hh : s.fOutputContainer = some hists) :
    ∃ hists1, LogProgress s step = some { s with fOutputContainer := some hists1 } := by
  simp only [LogProgress, FillHistogram, hh]
  exact ⟨_, rfl⟩

theorem UpdatePhotonLists_other (s t : Task) (h : UpdatePhotonLists s = some t) :
    t.fTracksTPC = s.fTracksTPC ∧ t.fOutputContainer = s.fOutputContainer := by
  cases hl : s.fCaloPhotonsPHOSLists with
  | none => simp [UpdatePhotonLists, GetCaloPhotonsPHOSList, hl] at h
  | some lists =>
    obtain ⟨pool, hget⟩ := GetCaloPhotonsPHOSList_cases s lists hl
      (toUInt s.fVtxBin) (toUInt s.fCentBin) (toUInt s.fEMRPBin)
    rw [UpdatePhotonLists, hget] at h
    simp only at h
    cases hp : s.fCaloPhotonsPHOS with
    | none => simp [hp] at h
    | some photons =>
      cases pool with
      | none => simp [hp] at h
      | some lists1 =>
        simp only [hp] at h
        split_ifs at h <;> cases h <;> exact ⟨rfl, rfl⟩

theorem UpdateTrackLists_other (s t : Task) (h : UpdateTrackLists s = some t) :
    t.fOutputContainer = s.fOutputContainer := by
  cases hl : s.fTracksTPCLists with
  | none => simp [UpdateTrackLists, GetTracksTPCList, hl] at h
  | some lists =>
    obtain ⟨pool, hget⟩ := GetTracksTPCList_cases s lists hl
      (toUInt s.fVtxBin) (toUInt s.fCentBin) (toUInt s.fEMRPBin)
    rw [UpdateTrackLists, hget] at h
    simp only at h
    cases hp : s.fTracksTPC with
    | none => simp [hp] at h
    | some tracks =>
      cases pool with
      | none => simp [hp] at h
      | some lists1 =>
        simp only [hp] at h
        split_ifs at h <;> cases h <;> rfl

theorem photonList_of_eq {s t : Task}
    (hp : t.fCaloPhotonsPHOSLists = s.fCaloPhotonsPHOSLists) (hc : SameConfig s t)
    (v c r : Int) : photonList t v c r = photonList s v c r := by
  unfold photonList
  rw [hp, slotOffset_congr s t hc]

theorem trackList_of_eq {s t : Task}
    (hp : t.fTracksTPCLists = s.fTracksTPCLists) (hc : SameConfig s t)
    (v c r : Int) : trackList t v c r = trackList s v c r := by
  unfold trackList
  rw [hp, slotOffset_congr s t hc]

theorem SameStored_refl (s : Task) : SameStored s s := fun _ _ _ => ⟨rfl, rfl⟩

theorem ConsiderPi0s_shape (x : Externals) (s t : Task) (h : ConsiderPi0s x s = some t) :
    ∃ c, t = { s with fOutputContainer := c } := by
  unfold ConsiderPi0s at h
  cases hc : ConsiderPi0sCalls x s with
  | none => simp [hc] at h
  | some calls =>
    simp only [hc] at h
    exact FillAll_shape calls s t h

theorem FillTrackEtaPhi_shape (x : Externals) (s t : Task) (h : FillTrackEtaPhi x s = some t) :
    ∃ c, t = { s with fOutputContainer := c } := by
  unfold FillTrackEtaPhi at h
  rcases Option.eq_none_or_eq_some s.fTracksTPC with ht | ⟨tracks, ht⟩
  · simp [ht] at h
  · simp only [ht, Option.bind_eq_some] at h
    obtain ⟨calls, _, hfill⟩ := h
    exact FillAll_shape calls s t hfill

theorem ConsiderPi0sMix_stored (x : Externals) (s t : Task)
    (h : ConsiderPi0sMix x s = some t) : SameStored s t ∧ SameConfig s t := by
  cases hl : s.fCaloPhotonsPHOSLists with
  | none => simp [ConsiderPi0sMix, ConsiderPi0sMixCalls, GetCaloPhotonsPHOSList, hl] at h
  | some lists =>
    obtain ⟨pool, hget, hst⟩ := GetCaloPhotonsPHOSList_stored s lists hl
      (toUInt s.fVtxBin) (toUInt s.fCentBin) (toUInt s.fEMRPBin)
    simp only [ConsiderPi0sMix, ConsiderPi0sMixCalls, hget] at h
    cases hloop : pi0MixLoopCalls x { s with fCaloPhotonsPHOSLists := some pool }
        (storedList s.fCaloPhotonsPHOSLists
          (slotOffset s (toUInt s.fVtxBin) (toUInt s.fCentBin) (toUInt s.fEMRPBin))) with
    | none => simp [hloop] at h
    | some calls =>
      simp only [hloop] at h
      obtain ⟨c, e⟩ := FillAll_shape calls _ t h
      subst e
      refine ⟨fun v c r => ⟨?_, rfl⟩, ⟨rfl, rfl, rfl, rfl⟩⟩
      simp only [photonList, hl]
      exact hst _

theorem ConsiderTracksMix_stored (x : Externals) (s t : Task)
    (h : ConsiderTracksMix x s = some t) : SameStored s t ∧ SameConfig s t := by
  cases hl : s.fTracksTPCLists with
  | none => simp [ConsiderTracksMix, ConsiderTracksMixCalls, GetTracksTPCList, hl] at h
  | some lists =>
    obtain ⟨pool, hget, hst⟩ := GetTracksTPCList_stored s lists hl
      (toUInt s.fVtxBin) (toUInt s.fCentBin) (toUInt s.fEMRPBin)
    simp only [ConsiderTracksMix, ConsiderTracksMixCalls, hget] at h
    cases hloop : trackMixLoopCalls x { s with fTracksTPCLists := some pool }
        (storedList s.fTracksTPCLists
          (slotOffset s (toUInt s.fVtxBin) (toUInt s.fCentBin) (toUInt s.fEMRPBin))) with
    | none => simp [hloop] at h
    | some calls =>
      simp only [hloop] at h
      obtain ⟨c, e⟩ := FillAll_shape calls _ t h
      subst e
      refine ⟨fun v c r => ⟨rfl, ?_⟩, ⟨rfl, rfl, rfl, rfl⟩⟩
      simp only [trackList, hl]
      exact hst _

theorem SameStored_config_trans {s t u : Task} (h1 : SameStored s t ∧ SameConfig s t)
    (h2 : SameStored t u ∧ SameConfig t u) : SameStored s u ∧ SameConfig s u :=
  ⟨SameStored_trans h1.1 h2.1, h1.2.trans h2.2⟩

theorem shape_stored {s t : Task} {c : Option (List Histogram)}
    (h : t = { s with fOutputContainer := c }) : SameStored s t ∧ SameConfig s t :=
  ⟨SameStored_of_pools (shape_pools h), (shape_pools h).2⟩

theorem UserExecCorrelate_stored (x : Externals) (s t : Task)
    (h : UserExecCorrelate x s = some t) : SameStored s t ∧ SameConfig s t := by
  simp only [UserExecCorrelate, Option.bind_eq_some] at h
  obtain ⟨s1, h1, s2, h2, s3, h3, s4, h4, s5, h5, h6⟩ := h
  obtain ⟨c1, e1⟩ := ConsiderPi0s_shape x s s1 h1
  obtain ⟨c4, e4⟩ := LogProgress_shape s3 s4 _ h4
  obtain ⟨c5, e5⟩ := FillTrackEtaPhi_shape x s4 s5 h5
  obtain ⟨c6, e6⟩ := LogProgress_shape s5 t _ h6
  exact SameStored_config_trans (shape_stored e1)
    (SameStored_config_trans (ConsiderPi0sMix_stored x s1 s2 h2)
      (SameStored_config_trans (ConsiderTracksMix_stored x s2 s3 h3)
        (SameStored_config_trans (shape_stored e4)
          (SameStored_config_trans (shape_stored e5) (shape_stored e6)))))

theorem example_select_rejected :
    ∃ t, UserExecSelect exampleExternals runExampleTask (some rejectedExampleEvent) =
      some (true, t) := by
  norm_num [UserExecSelect, LogProgress, FillHistogram, runExampleTask, exampleTask,
    UserCreateOutputObjects, triggerFills, firstEventFill, runNumberStep, SetESDTrackCuts,
    rejectedExampleEvent, RejectTriggerMaskSelection, SetVertex, RejectEventVertex,
    LogSelection, SetCentrality, RejectEventCentrality, GetCentralityBin,
    TArrayD.index, ConvertToInternalRunNumber]

/-! ## Rejected events and the pools -/

/-- C25. Early-rejected events do not touch the mixing history:
`RejectEventCentrality` rejects exactly when the centrality is below
`fCentCutoffDown` or above `fCentCutoffUp`; a run of `UserExec` that is rejected in
the selection steps (missing event, trigger mask, vertex or centrality) returns
with both pools as they were; and every run that returns either was rejected so,
or went through candidate selection and the correlation steps with the stored
arrays unchanged and only then through the update step. -/
theorem rejected_events_keep_pools (x : Externals) (s : Task) (input : Option AliVEvent) :
    (∀ t : Task, RejectEventCentrality t = true ↔
      (t.fCentrality < t.fCentCutoffDown ∨ t.fCentrality > t.fCentCutoffUp)) ∧
    (∀ t, UserExecSelect x s input = some (true, t) →
      UserExec x s input = some t ∧ SamePools s t) ∧
    (∀ t, UserExec x s input = some t →
      (UserExecSelect x s input = some (true, t) ∧ SamePools s t) ∨
      ∃ s3 s6 s10, UserExecSelect x s input = some (false, s3) ∧
        UserExecCandidates x s3 = some s6 ∧ UserExecCorrelate x s6 = some s10 ∧
        UserExecUpdate s10 = some t ∧ SamePools s s6 ∧ SameStored s s10) := by
  refine ⟨?_, ?_, ?_⟩
  · intro t
    unfold RejectEventCentrality
    split_ifs with h1 h2
    · exact ⟨fun _ => Or.inl h1, fun _ => rfl⟩
    · exact ⟨fun _ => Or.inr h2, fun _ => rfl⟩
    · exact ⟨fun h => absurd h (by decide), fun h => h.elim (fun a => absurd a h1)
        (fun a => absurd a h2)⟩
  · intro t ht
    exact ⟨by simp only [UserExec, ht, Option.some_bind, if_true],
      (UserExecSelect_pools x s input (true, t) ht).1⟩
  · intro t ht
    simp only [UserExec, Option.bind_eq_some] at ht
    obtain ⟨r, hr, ht⟩ := ht
    obtain ⟨b, s3⟩ := r
    have k3 := UserExecSelect_pools x s input (b, s3) hr
    cases b with
    | true =>
      simp only [if_true, Option.some.injEq] at ht
      subst ht
      exact Or.inl ⟨hr, k3.1⟩
    | false =>
      simp only [Bool.false_eq_true, if_false, Option.bind_eq_some] at ht
      obtain ⟨s6, h6, s10, h10, hupd⟩ := ht
      have k6 := pools_trans k3 (UserExecCandidates_spec x s3 s6 h6).1
      exact Or.inr ⟨s3, s6, s10, hr, h6, h10, hupd, k6.1,
        SameStored_trans (SameStored_of_pools k6) (UserExecCorrelate_stored x s6 s10 h10).1⟩

/-- C25 on an example: the event of centrality 95 is rejected by the selection
steps of `UserExec`, which returns with both pools of `runExampleTask` unchanged. -/
theorem rejected_events_keep_pools_witness :
    ∃ t, UserExecSelect exampleExternals runExampleTask (some rejectedExampleEvent) =
        some (true, t) ∧
      UserExec exampleExternals runExampleTask (some rejectedExampleEvent) = some t ∧
      SamePools runExampleTask t := by
  obtain ⟨t, ht⟩ := example_select_rejected
  exact ⟨t, ht, (rejected_events_keep_pools exampleExternals runExampleTask
    (some rejectedExampleEvent)).2.1 t ht⟩

theorem example_run_accepted :
    ∃ s3 s6, UserExecSelect exampleExternals runExampleTask (some acceptedExampleEvent) =
        some (false, s3) ∧
      UserExecCandidates exampleExternals s3 = some s6 := by
  norm_num [UserExecSelect, LogProgress, FillHistogram, runExampleTask, exampleTask,
    UserCreateOutputObjects, triggerFills, firstEventFill, runNumberStep, SetESDTrackCuts,
    acceptedExampleEvent, RejectTriggerMaskSelection, SetVertex, RejectEventVertex,
    LogSelection, SetCentrality, RejectEventCentrality, GetCentralityBin,
    TArrayD.index, ConvertToInternalRunNumber, UserExecCandidates, EvalReactionPlane,
    SelectPhotonClusters, selectClustersLoop, exampleClusters, FillAll, SelectAccosiatedTracks,
    selectTracksLoop, GetRPBin]
  simp [SelectAccosiatedTracks, selectTracksLoop, LogSelection, LogProgress, FillHistogram]

theorem UserExecUpdate_total (s : Task) (photons : List AliCaloPhoton)
    (tracks : List TLorentzVector) (pl : TObjArray AliCaloPhoton)
    (tl : TObjArray TLorentzVector) (hists : List Histogram)
    (hp : s.fCaloPhotonsPHOS = some photons) (ht : s.fTracksTPC = some tracks)
    (hpl : s.fCaloPhotonsPHOSLists = some pl) (htl : s.fTracksTPCLists = some tl)
    (hh : s.fOutputContainer = some hists) : ∃ t, UserExecUpdate s = some t := by
  obtain ⟨s1, _, h1, _, htl1, _⟩ := UpdatePhotonLists_spec s pl photons hpl hp
  obtain ⟨ht1, hh1⟩ := UpdatePhotonLists_other s s1 h1
  obtain ⟨s2, _, h2, _⟩ := UpdateTrackLists_spec s1 tl tracks (htl1.trans htl) (ht1.trans ht)
  have hh2 := UpdateTrackLists_other s1 s2 h2
  obtain ⟨hists1, h3⟩ := LogProgress_total s2 hists 10 (hh2.trans (hh1.trans hh))
  have hupd : UserExecUpdate s = LogProgress s2 10 := by
    simp only [UserExecUpdate, h1, Option.some_bind, h2]
  exact ⟨_, hupd.trans h3⟩

/-! ## The current event is not mixed with itself -/

/-- C29. The current event is never mixed with itself: in a run of `UserExec` that
passes the selection steps and the candidate selection, with both pools allocated,
`ConsiderPi0s`, `ConsiderPi0sMix` and `ConsiderTracksMix` return; the calls of
`ConsiderPi0sMix` pair the current photons with the photon arrays that the pool
stored for the event's class when `UserExec` started, and the calls of
`ConsiderTracksMix` pair them with the track arrays stored then; the stored arrays
are still those when the correlation steps end, and only then the update step runs
and `UserExec` returns. -/
theorem current_event_not_mixed_with_itself (x : Externals) (s s3 s6 : Task)
    (input : Option AliVEvent) (pl : TObjArray AliCaloPhoton) (tl : TObjArray TLorentzVector)
    (hpl : s.fCaloPhotonsPHOSLists = some pl) (htl : s.fTracksTPCLists = some tl)
    (hsel : UserExecSelect x s input = some (false, s3))
    (hcand : UserExecCandidates x s3 = some s6) :
    ∃ photons s7 s8 s9 s10 t,
      s6.fCaloPhotonsPHOS = some photons ∧
      ConsiderPi0s x s6 = some s7 ∧
      (∃ u, ConsiderPi0sMixCalls x s7 =
        some ((photonList s s6.fVtxBin s6.fCentBin s6.fEMRPBin).flatMap (fun mixPHOS =>
          photons.flatMap (fun ph1 => mixPHOS.flatMap (fun ph2 => mixMassPtCalls x ph1 ph2))),
          u)) ∧
      ConsiderPi0sMix x s7 = some s8 ∧
      (∃ u, ConsiderTracksMixCalls x s8 =
        some (photons.flatMap (fun ph1 => photons.flatMap (fun ph2 =>
          if promoted x s8 ph1 ph2 = true then
            (trackList s s6.fVtxBin s6.fCentBin s6.fEMRPBin).flatMap (fun mixTracks =>
              mixTracks.flatMap (mixTrackCalls x s8 ph1 ph2))
          else [])), u)) ∧
      ConsiderTracksMix x s8 = some s9 ∧
      UserExecCorrelate x s6 = some s10 ∧ SameStored s s10 ∧
      UserExecUpdate s10 = some t ∧ UserExec x s input = some t := by
  have k3 := UserExecSelect_pools x s input (false, s3) hsel
  obtain ⟨k36, ⟨photons, hph⟩, ⟨tracks, htr⟩, ⟨hists, hh⟩⟩ :=
    UserExecCandidates_spec x s3 s6 hcand
  have k6 := pools_trans k3 k36
  have hpl6 : s6.fCaloPhotonsPHOSLists = some pl := k6.1.1.trans hpl
  have htl6 : s6.fTracksTPCLists = some tl := k6.1.2.trans htl
  obtain ⟨h7, e7⟩ := ConsiderPi0s_total x s6 photons tracks hists hph htr hh
  obtain ⟨pool8, h8, c8, e8, st8⟩ := ConsiderPi0sMix_total x
    { s6 with fOutputContainer := some h7 } photons pl h7 hph hpl6 rfl
  obtain ⟨pool9, h9, c9, e9, st9⟩ := ConsiderTracksMix_total x
    { s6 with fCaloPhotonsPHOSLists := some pool8, fOutputContainer := some h8 }
    photons tl h8 hph htl6 rfl
  obtain ⟨h10, e10⟩ := LogProgress_total
    { s6 with fCaloPhotonsPHOSLists := some pool8, fTracksTPCLists := some pool9,
              fOutputContainer := some h9 } h9 8 rfl
  obtain ⟨h11, e11⟩ := FillTrackEtaPhi_total x
    { s6 with fCaloPhotonsPHOSLists := some pool8, fTracksTPCLists := some pool9,
              fOutputContainer := some h10 } tracks h10 htr rfl
  obtain ⟨h12, e12⟩ := LogProgress_total
    { s6 with fCaloPhotonsPHOSLists := some pool8, fTracksTPCLists := some pool9,
              fOutputContainer := some h11 } h11 9 rfl
  have hcorr : UserExecCorrelate x s6 =
      some { s6 with fCaloPhotonsPHOSLists := some pool8, fTracksTPCLists := some pool9,
                     fOutputContainer := some h12 } := by
    simp only [UserExecCorrelate, e7, Option.some_bind]
    rw [e8]
    simp only [Option.some_bind]
    rw [e9]
    simp only [Option.some_bind]
    rw [e10]
    simp only [Option.some_bind]
    rw [e11]
    simp only [Option.some_bind]
    exact e12
  obtain ⟨t, hupd⟩ := UserExecUpdate_total
    { s6 with fCaloPhotonsPHOSLists := some pool8, fTracksTPCLists := some pool9,
              fOutputContainer := some h12 } photons tracks pool8 pool9 h12 hph htr rfl rfl rfl
  have hstored := SameStored_trans (SameStored_of_pools k6)
    (UserExecCorrelate_stored x s6 _ hcorr).1
  have hlist8 : photonList { s6 with fOutputContainer := some h7 } s6.fVtxBin s6.fCentBin
      s6.fEMRPBin = photonList s s6.fVtxBin s6.fCentBin s6.fEMRPBin :=
    photonList_of_eq k6.1.1 k6.2 _ _ _
  have hlist9 : trackList
      { s6 with fCaloPhotonsPHOSLists := some pool8, fOutputContainer := some h8 }
      s6.fVtxBin s6.fCentBin s6.fEMRPBin =
        trackList s s6.fVtxBin s6.fCentBin s6.fEMRPBin :=
    trackList_of_eq k6.1.2 k6.2 _ _ _
  rw [hlist8] at c8
  rw [hlist9] at c9
  exact ⟨photons, _, _, _, _, t, hph, e7, ⟨_, c8⟩, e8, ⟨_, c9⟩, e9, hcorr, hstored, hupd, by
    simp only [UserExec, hsel, Option.some_bind, Bool.false_eq_true, if_false, hcand, hcorr,
      hupd]⟩

/-- C29 on an example: the accepted event of centrality 20 runs through `UserExec`
on `runExampleTask`, whose pools were filled by an earlier event; the stored arrays
at the end of the correlation steps are those of the start. -/
theorem current_event_not_mixed_with_itself_witness :
    runExampleTask.fCaloPhotonsPHOSLists =
      some ((List.replicate 36 none).set 11 (some [examplePhotons 1])) ∧
    runExampleTask.fTracksTPCLists =
      some ((List.replicate 36 none).set 11 (some [pairExampleTracks])) ∧
    photonList runExampleTask 0 1 2 = [examplePhotons 1] ∧
    ∃ s3 s6 s10 t,
      UserExecSelect exampleExternals runExampleTask (some acceptedExampleEvent) =
        some (false, s3) ∧
      UserExecCandidates exampleExternals s3 = some s6 ∧
      UserExecCorrelate exampleExternals s6 = some s10 ∧ SameStored runExampleTask s10 ∧
      UserExec exampleExternals runExampleTask (some acceptedExampleEvent) = some t := by
  obtain ⟨s3, s6, h3, h6⟩ := example_run_accepted
  obtain ⟨_, _, _, _, s10, t, _, _, _, _, _, _, hcorr, hstored, _, hrun⟩ :=
    current_event_not_mixed_with_itself exampleExternals runExampleTask s3 s6
      (some acceptedExampleEvent) _ _ rfl rfl h3 h6
  exact ⟨rfl, rfl, by decide, s3, s6, s10, t, h3, h6, hcorr, hstored, hrun⟩

end AliPHOSCorrelations

/-! # AliJetAODReader: theorems -/

namespace AliJetAODReader

theorem SetApplyMIPCorrection_false (r : Reader) :
    SetApplyMIPCorrection r false = { r with fApplyMIPCorrection := false } := by
  rw [SetApplyMIPCorrection]
  simp

theorem SetApplyFractionHadronicCorrection_false (r : Reader) :
    SetApplyFractionHadronicCorrection r false =
      { r with fApplyFractionHadronicCorrection := false } := by
  rw [SetApplyFractionHadronicCorrection]
  simp

theorem SetApplyMIPCorrection_true (r : Reader) :
    SetApplyMIPCorrection r true =
      { r with fApplyMIPCorrection := true, fApplyFractionHadronicCorrection := false } := by
  rw [SetApplyMIPCorrection]
  simp [SetApplyFractionHadronicCorrection_false]

theorem SetApplyFractionHadronicCorrection_true (r : Reader) :
    SetApplyFractionHadronicCorrection r true =
      { r with fApplyFractionHadronicCorrection := true, fApplyMIPCorrection := false } := by
  rw [SetApplyFractionHadronicCorrection]
  simp [SetApplyMIPCorrection_false]

theorem run_exclusive (r : Reader) (c : SetterCall) :
    ¬ ((SetterCall.run r c).fApplyMIPCorrection = true ∧
      (SetterCall.run r c).fApplyFractionHadronicCorrection = true) := by
  cases c with
  | applyMIP val =>
    cases val
    · simp only [SetterCall.run, SetApplyMIPCorrection_false]
      simp
    · simp only [SetterCall.run, SetApplyMIPCorrection_true]
      simp
  | applyFractionHadronic val =>
    cases val
    · simp only [SetterCall.run, SetApplyFractionHadronicCorrection_false]
      simp
    · simp only [SetterCall.run, SetApplyFractionHadronicCorrection_true]
      simp
  | fractionHadronic val =>
    simp only [SetterCall.run, SetFractionHadronicCorrection]
    split_ifs
    · simp only [SetApplyFractionHadronicCorrection_true]
      simp
    · simp only [SetApplyFractionHadronicCorrection_false]
      simp

theorem runSetters_snoc (r : Reader) (calls : List SetterCall) (c : SetterCall) :
    runSetters r (calls ++ [c]) = SetterCall.run (runSetters r calls) c := by
  simp [runSetters]

/-- C27. Mutual exclusion of the corrections: the setters are total functions whose
results are the ones listed (a `true` call switches the other flag off, a `false`
call changes its own flag only, and a fraction value switches the fraction-hadronic
correction on exactly when it lies in `(0, 1]`), and after any sequence of setter
calls on the constructor state `fApplyMIPCorrection` and
`fApplyFractionHadronicCorrection` are not both true. -/
theorem corrections_mutually_exclusive (calls : List SetterCall) :
    ¬ ((runSetters {} calls).fApplyMIPCorrection = true ∧
      (runSetters {} calls).fApplyFractionHadronicCorrection = true) ∧
    (∀ r : Reader,
      SetApplyMIPCorrection r true =
        { r with fApplyMIPCorrection := true, fApplyFractionHadronicCorrection := false } ∧
      SetApplyMIPCorrection r false = { r with fApplyMIPCorrection := false } ∧
      SetApplyFractionHadronicCorrection r true =
        { r with fApplyFractionHadronicCorrection := true, fApplyMIPCorrection := false } ∧
      SetApplyFractionHadronicCorrection r false =
        { r with fApplyFractionHadronicCorrection := false } ∧
      ∀ val : ℚ, SetFractionHadronicCorrection r val =
        if val > 0 ∧ val ≤ 1 then
          { fApplyMIPCorrection := false, fApplyFractionHadronicCorrection := true,
            fFractionHadronicCorrection := val }
        else
          { fApplyMIPCorrection := r.fApplyMIPCorrection,
            fApplyFractionHadronicCorrection := false, fFractionHadronicCorrection := val }) := by
  refine ⟨?_, fun r => ⟨SetApplyMIPCorrection_true r, SetApplyMIPCorrection_false r,
    SetApplyFractionHadronicCorrection_true r, SetApplyFractionHadronicCorrection_false r, ?_⟩⟩
  · rcases List.eq_nil_or_concat calls with rfl | ⟨rest, c, rfl⟩
    · simp [runSetters]
    · rw [List.concat_eq_append, runSetters_snoc]
      exact run_exclusive _ c
  · intro val
    simp only [SetFractionHadronicCorrection]
    split_ifs
    · rw [SetApplyFractionHadronicCorrection_true]
    · rw [SetApplyFractionHadronicCorrection_false]

end AliJetAODReader

/-! # AliEmcalIsolatedPhotonsTask: theorems -/

namespace AliEmcalIsolatedPhotonsTask

theorem centbin_range (cent : ℚ) (h0 : 0 ≤ cent) (h100 : cent ≤ 100) :
    0 ≤ centbin cent ∧ centbin cent ≤ 3 := by
  unfold centbin
  split_ifs with h1 h2 h3 h4
  · exact ⟨by decide, by decide⟩
  · exact ⟨by decide, by decide⟩
  · exact ⟨by decide, by decide⟩
  · exact ⟨by decide, by decide⟩
  · exfalso
    by_cases ha : cent < 10
    · exact h1 ⟨h0, ha⟩
    · by_cases hb : cent < 30
      · exact h2 ⟨not_lt.1 ha, hb⟩
      · by_cases hc : cent < 50
        · exact h3 ⟨not_lt.1 hb, hc⟩
        · exact h4 ⟨not_lt.1 hc, h100⟩

theorem centbin_outside (cent : ℚ) (h : cent < 0 ∨ 100 < cent) : centbin cent = -1 := by
  unfold centbin
  rw [if_neg, if_neg, if_neg, if_neg]
  all_goals
    rintro ⟨ha, hb⟩
    rcases h with h | h <;> linarith

theorem fillAt_outside (a : HistArray) (v : ℚ) : fillAt a (-1) v = none := by
  unfold fillAt
  rw [if_neg]
  rintro ⟨h, _⟩
  exact absurd h (by decide)

/-- C28 (evidence). Centrality percentile outside `[0, 100]`: `centbin` is `-1` for
every percentile below 0 or above 100, and it lies in `[0, 3]` for the percentiles
in `[0, 100]`; on the event with one jet of energy 5 and percentile `-1` the jet
loop reads `fHistJetsE[-1]` and `FillHistograms` does not return a state, where
with percentile 5 it returns one. -/
theorem centbin_outside_percentile_range :
    (∀ cent : ℚ, cent < 0 ∨ 100 < cent → centbin cent = -1) ∧
    (∀ cent : ℚ, 0 ≤ cent → cent ≤ 100 → 0 ≤ centbin cent ∧ centbin cent ≤ 3) ∧
    centbin (-1) = -1 ∧
    (∀ v, fillAt (jetExampleTask (-1)).fHistJetsE (centbin (-1)) v = none) ∧
    (∀ sort, FillHistograms sort (jetExampleTask (-1)) = none) ∧
    (∀ sort, ∃ t, FillHistograms sort (jetExampleTask 5) = some t ∧
      t.fHistJetsE = [some [5], some [], some [], some []]) := by
  have hm : centbin (-1) = -1 := centbin_outside _ (Or.inl (by norm_num))
  have h5 : centbin 5 = 0 := by
    unfold centbin
    rw [if_pos (by norm_num)]
  refine ⟨centbin_outside, centbin_range, hm, ?_, ?_, ?_⟩
  · intro v
    rw [hm]
    exact fillAt_outside _ v
  · intro sort
    simp [FillHistograms, jetExampleTask, UserCreateOutputObjects, hm, GetNumberOfJets,
      List.range_succ, jetBody, GetJet, At, exampleJet, fillAt_outside]
  · intro sort
    norm_num [FillHistograms, jetExampleTask, UserCreateOutputObjects, h5, GetNumberOfJets,
      List.range_succ, jetBody, GetJet, At, exampleJet, fillAt, leadingJetPart,
      GetNumberOfCaloClusters, GetNumberOfTracks]
    rfl

end AliEmcalIsolatedPhotonsTask
